import Mathlib

/-!
# Evolved Digit Detector: scoring environment and generational loop

A shallow embedding of `src/edd/tGame.cpp` (`tGame::tGame`, `tGame::placeDigit`,
`tGame::executeGame`) and of the evaluation loop, the tracked best, the selection step
and the fitness log of `main` in `src/edd/main.cpp`, followed by theorems about the
embedded code.

Conventions of the embedding
* `float` and `double` values are rationals (`ℚ`); `toFloat` and `toDouble` round a
  rational to the nearest value of the format (ties to even; the exponent range is not
  limited, no value of the program comes near its ends).  The fields `fitness` and
  `classificationFitness` of an agent are `double`s.  A definition whose name ends in
  `Float` carries the roundings of the source lines; the definition of the same name
  without that ending is the same lines in exact arithmetic, all roundings left out,
  and is what the statements about exact arithmetic are about.
* C arrays and `std::vector`s indexed by small integers are total functions; the
  allocated range is tracked by the loops that traverse them.
* Outcomes of `std::random_shuffle`, `std::sort` and of the `randDouble` stream are
  parameters of the embedded functions: the code fixes what is done with them, not
  which outcome the library produces.
* Agents are values: `ancestor` holds the parent as it was when `inherit` was called.
  Reference counts (`nrPointingAtMe`) and the deallocation of replaced agents are not
  part of the embedding, nor are the report string and the video output.
* A result of type `Option` is `none` where the C++ program does not deliver a result:
  a loop that does not end, or an access outside a vector.
* The constant `maxNodes` (declared outside `src/`) is a parameter; the register
  indices `maxNodes - k` are those of the program when `maxNodes ≥ 26`.
-/

namespace EDD

/-! ## Data model -/

/-- The agent record `tAgent` (declared outside `src/`), with the fields that
`tGame.cpp` and `main.cpp` read or write.  `brain` stands for the compiled controller
(gates and any hidden state) and `states` for the register array `states[maxNodes]`. -/
structure tAgent (β : Type) where
  genome : List Nat
  brain : β
  states : Nat → Nat
  fitness : ℚ
  classificationFitness : ℚ
  truePositives : Nat → Nat
  falsePositives : Nat → Nat
  trueNegatives : Nat → Nat
  falseNegatives : Nat → Nat
  truePositiveRate : Nat → Option ℚ
  trueNegativeRate : Nat → Option ℚ
  born : Nat
  ancestor : Option (tAgent β)

/-- Modelled from the spec: the controller capability (`tAgent::setupPhenotype`,
`tAgent::resetBrain`, `tAgent::updateStates`, defined outside `src/`).  The three
operations are arbitrary: `setupPhenotype` compiles the genome into the brain,
`resetBrain` and `updateStates` act on the brain and on the register array. -/
structure Controller (β : Type) where
  setupPhenotype : List Nat → β → β
  resetBrain : β → (Nat → Nat) → β × (Nat → Nat)
  updateStates : β → (Nat → Nat) → β × (Nat → Nat)

/-- The assignment `arr[i] += 1` on a counter array. -/
def incr (arr : Nat → Nat) (i : Nat) : Nat → Nat :=
  fun j => if j = i then arr j + 1 else arr j

/-! ## Values of the types `float` and `double` -/

/-- Rounding of a rational to the nearest integer, a tie going to the even neighbour. -/
def roundHalfEven (x : ℚ) : Int :=
  if x - (⌊x⌋ : ℚ) < 1 / 2 then ⌊x⌋
  else if 1 / 2 < x - (⌊x⌋ : ℚ) then ⌊x⌋ + 1
  else if ⌊x⌋ % 2 = 0 then ⌊x⌋ else ⌊x⌋ + 1

/-- The value nearest to `x` among the binary floating-point numbers with `p` significand
bits (round to nearest, ties to even): with `2^e ≤ |x| < 2^(e+1)`, the multiple of
`2^(e-p+1)` nearest to `x`.  The exponent range is not limited. -/
def roundToPrecision (p : Nat) (x : ℚ) : ℚ :=
  if x = 0 then 0
  else
    (roundHalfEven (x * (2 : ℚ) ^ ((p : Int) - 1 - Int.log 2 |x|)) : ℚ) /
      (2 : ℚ) ^ ((p : Int) - 1 - Int.log 2 |x|)

/-- The value that a `float` (24 significand bits) takes when `x` is stored in it. -/
def toFloat (x : ℚ) : ℚ := roundToPrecision 24 x

/-- The value that a `double` (53 significand bits) takes when `x` is computed in or
stored in it. -/
def toDouble (x : ℚ) : ℚ := roundToPrecision 53 x

/-! ## `tGame::tGame`: the sensor offset table (lines 51-84) -/

/-- The locals `offsetX`, `offsetY`, `offsetAmount` of the constructor. -/
structure OffsetState where
  offsetX : Int
  offsetY : Int
  offsetAmount : Int

/-- The body of the constructor loop for index `sensor`, before the table entry is
stored (lines 56-78). -/
def offsetStep (s : OffsetState) (sensor : Nat) : OffsetState :=
  let root := Nat.sqrt sensor
  if root % 2 = 1 ∧ root * root = sensor then
    { offsetAmount := s.offsetAmount + 1
      offsetX := -(s.offsetAmount + 1)
      offsetY := -(s.offsetAmount + 1) }
  else if s.offsetX ≠ s.offsetAmount ∧ s.offsetY = -s.offsetAmount then
    { s with offsetX := s.offsetX + 1 }
  else if s.offsetX = s.offsetAmount ∧ s.offsetY ≠ s.offsetAmount then
    { s with offsetY := s.offsetY + 1 }
  else if s.offsetX ≠ -s.offsetAmount ∧ s.offsetY = s.offsetAmount then
    { s with offsetX := s.offsetX - 1 }
  else if s.offsetX = -s.offsetAmount ∧ s.offsetY ≠ -s.offsetAmount then
    { s with offsetY := s.offsetY - 1 }
  else s

/-- The locals of the constructor after the iterations `0..sensor`. -/
def offsetStateAfter : Nat → OffsetState
  | 0 => offsetStep { offsetX := 0, offsetY := 0, offsetAmount := 0 } 0
  | n + 1 => offsetStep (offsetStateAfter n) (n + 1)

/-- The number of entries of the table: the loop bound `111 * 111`. -/
def sensorOffsetMapSize : Nat := 111 * 111

/-- The table `sensorOffsetMap`: the pair `(offsetX, offsetY)` stored at iteration
`sensor`; there is no entry from `111 * 111` on. -/
def sensorOffsetMap (sensor : Nat) : Option (Int × Int) :=
  if sensor < sensorOffsetMapSize then
    some ((offsetStateAfter sensor).offsetX, (offsetStateAfter sensor).offsetY)
  else none

/-! ## `tGame::placeDigit` (lines 416-822) -/

/-- The vector `digitGrid`: ten grids of `sizeX` columns of `sizeY` cells;
`cell digit x y` is `digitGrid[digit][x][y]`. -/
structure DigitGrid where
  sizeX : Nat
  sizeY : Nat
  cell : Nat → Int → Int → Int

/-- The grid after the `resize` calls of lines 99-109: every cell is 0. -/
def emptyGrid (gridSizeX gridSizeY : Nat) : DigitGrid :=
  { sizeX := gridSizeX, sizeY := gridSizeY, cell := fun _ _ _ => 0 }

/-- The assignment `digitGrid[digit][x][y] = v`. -/
def setCell (g : DigitGrid) (digit : Nat) (x y v : Int) : DigitGrid :=
  { g with cell := fun d i j => if d = digit ∧ i = x ∧ j = y then v else g.cell d i j }

/-- Lines 418-424: every allocated cell of grid `digit` is set to 0. -/
def clearGrid (g : DigitGrid) (digit : Nat) : DigitGrid :=
  { g with
    cell := fun d i j =>
      if d = digit ∧ 0 ≤ i ∧ i < g.sizeX ∧ 0 ≤ j ∧ j < g.sizeY then 0 else g.cell d i j }

/-- The `switch` of lines 426-821: for each digit the 25 assignments
`digitGrid[digit][digitCenterX + dx][digitCenterY + dy] = v`, as triples `(dx, dy, v)`
in source order; the `default` case writes nothing. -/
def glyphWrites : Nat → List (Int × Int × Int)
  | 0 =>
    [(-2, -2, 0), (-1, -2, 1), (0, -2, 1), (1, -2, 1), (2, -2, 0),
     (-2, -1, 0), (-1, -1, 1), (0, -1, 0), (1, -1, 1), (2, -1, 0),
     (-2, 0, 0), (-1, 0, 1), (0, 0, 0), (1, 0, 1), (2, 0, 0),
     (-2, 1, 0), (-1, 1, 1), (0, 1, 0), (1, 1, 1), (2, 1, 0),
     (-2, 2, 0), (-1, 2, 1), (0, 2, 1), (1, 2, 1), (2, 2, 0)]
  | 1 =>
    [(-2, -2, 0), (-1, -2, 0), (0, -2, 1), (1, -2, 0), (2, -2, 0),
     (-2, -1, 0), (-1, -1, 0), (0, -1, 1), (1, -1, 0), (2, -1, 0),
     (-2, 0, 0), (-1, 0, 0), (0, 0, 1), (1, 0, 0), (2, 0, 0),
     (-2, 1, 0), (-1, 1, 0), (0, 1, 1), (1, 1, 0), (2, 1, 0),
     (-2, 2, 0), (-1, 2, 0), (0, 2, 1), (1, 2, 0), (2, 2, 0)]
  | 2 =>
    [(-2, -2, 0), (-1, -2, 1), (0, -2, 1), (1, -2, 1), (2, -2, 0),
     (-2, -1, 0), (-1, -1, 1), (0, -1, 0), (1, -1, 0), (2, -1, 0),
     (-2, 0, 0), (-1, 0, 0), (0, 0, 1), (1, 0, 0), (2, 0, 0),
     (-2, 1, 0), (-1, 1, 0), (0, 1, 0), (1, 1, 1), (2, 1, 0),
     (-2, 2, 0), (-1, 2, 1), (0, 2, 1), (1, 2, 1), (2, 2, 0)]
  | 3 =>
    [(-2, -2, 0), (-1, -2, 1), (0, -2, 1), (1, -2, 1), (2, -2, 0),
     (-2, -1, 0), (-1, -1, 0), (0, -1, 0), (1, -1, 1), (2, -1, 0),
     (-2, 0, 0), (-1, 0, 0), (0, 0, 1), (1, 0, 1), (2, 0, 0),
     (-2, 1, 0), (-1, 1, 0), (0, 1, 0), (1, 1, 1), (2, 1, 0),
     (-2, 2, 0), (-1, 2, 1), (0, 2, 1), (1, 2, 1), (2, 2, 0)]
  | 4 =>
    [(-2, -2, 0), (-1, -2, 0), (0, -2, 0), (1, -2, 1), (2, -2, 0),
     (-2, -1, 0), (-1, -1, 0), (0, -1, 0), (1, -1, 1), (2, -1, 0),
     (-2, 0, 0), (-1, 0, 1), (0, 0, 1), (1, 0, 1), (2, 0, 0),
     (-2, 1, 0), (-1, 1, 1), (0, 1, 0), (1, 1, 1), (2, 1, 0),
     (-2, 2, 0), (-1, 2, 1), (0, 2, 0), (1, 2, 1), (2, 2, 0)]
  | 5 =>
    [(-2, -2, 0), (-1, -2, 1), (0, -2, 1), (1, -2, 1), (2, -2, 0),
     (-2, -1, 0), (-1, -1, 0), (0, -1, 0), (1, -1, 1), (2, -1, 0),
     (-2, 0, 0), (-1, 0, 1), (0, 0, 1), (1, 0, 1), (2, 0, 0),
     (-2, 1, 0), (-1, 1, 1), (0, 1, 0), (1, 1, 0), (2, 1, 0),
     (-2, 2, 0), (-1, 2, 1), (0, 2, 1), (1, 2, 1), (2, 2, 0)]
  | 6 =>
    [(-2, -2, 0), (-1, -2, 1), (0, -2, 1), (1, -2, 1), (2, -2, 0),
     (-2, -1, 0), (-1, -1, 1), (0, -1, 0), (1, -1, 1), (2, -1, 0),
     (-2, 0, 0), (-1, 0, 1), (0, 0, 1), (1, 0, 1), (2, 0, 0),
     (-2, 1, 0), (-1, 1, 1), (0, 1, 0), (1, 1, 0), (2, 1, 0),
     (-2, 2, 0), (-1, 2, 1), (0, 2, 0), (1, 2, 0), (2, 2, 0)]
  | 7 =>
    [(-2, -2, 0), (-1, -2, 0), (0, -2, 0), (1, -2, 1), (2, -2, 0),
     (-2, -1, 0), (-1, -1, 0), (0, -1, 0), (1, -1, 1), (2, -1, 0),
     (-2, 0, 0), (-1, 0, 0), (0, 0, 0), (1, 0, 1), (2, 0, 0),
     (-2, 1, 0), (-1, 1, 0), (0, 1, 0), (1, 1, 1), (2, 1, 0),
     (-2, 2, 0), (-1, 2, 1), (0, 2, 1), (1, 2, 1), (2, 2, 0)]
  | 8 =>
    [(-2, -2, 0), (-1, -2, 1), (0, -2, 1), (1, -2, 1), (2, -2, 0),
     (-2, -1, 0), (-1, -1, 1), (0, -1, 0), (1, -1, 1), (2, -1, 0),
     (-2, 0, 0), (-1, 0, 1), (0, 0, 1), (1, 0, 1), (2, 0, 0),
     (-2, 1, 0), (-1, 1, 1), (0, 1, 0), (1, 1, 1), (2, 1, 0),
     (-2, 2, 0), (-1, 2, 1), (0, 2, 1), (1, 2, 1), (2, 2, 0)]
  | 9 =>
    [(-2, -2, 0), (-1, -2, 0), (0, -2, 0), (1, -2, 1), (2, -2, 0),
     (-2, -1, 0), (-1, -1, 0), (0, -1, 0), (1, -1, 1), (2, -1, 0),
     (-2, 0, 0), (-1, 0, 1), (0, 0, 1), (1, 0, 1), (2, 0, 0),
     (-2, 1, 0), (-1, 1, 1), (0, 1, 0), (1, 1, 1), (2, 1, 0),
     (-2, 2, 0), (-1, 2, 1), (0, 2, 1), (1, 2, 1), (2, 2, 0)]
  | _ => []

/-- The function `tGame::placeDigit`: clear grid `digit`, then run the assignments of
the `switch`. -/
def placeDigit (digitGrid : DigitGrid) (digit : Nat) (digitCenterX digitCenterY : Int) :
    DigitGrid :=
  (glyphWrites digit).foldl
    (fun g w => setCell g digit (digitCenterX + w.1) (digitCenterY + w.2.1) w.2.2)
    (clearGrid digitGrid digit)

/-! ## `tGame::executeGame`: placement (lines 111-142) -/

/-- Conversion of a `double` to `int`: truncation toward zero. -/
def truncToInt (q : ℚ) : Int :=
  if 0 ≤ q then ⌊q⌋ else -⌊-q⌋

/-- The test of lines 129-130. -/
def validPlacement (gridSizeX gridSizeY : Nat) (cx cy : Int) : Bool :=
  decide (cx - 2 ≥ 0) && decide (cx + 2 < gridSizeX) &&
    decide (cy - 2 ≥ 0) && decide (cy + 2 < gridSizeY)

/-- The `while (!validPlacement)` loop of lines 124-134 run on the stream `draws` of
pairs of `randDouble` values: the first valid center and the rest of the stream, or
`none` when the stream ends before a valid center is drawn. -/
def searchPlacement (gridSizeX gridSizeY : Nat) :
    List (ℚ × ℚ) → Option ((Int × Int) × List (ℚ × ℚ))
  | [] => none
  | (rx, ry) :: rest =>
    let cx := truncToInt (rx * gridSizeX)
    let cy := truncToInt (ry * gridSizeY)
    if validPlacement gridSizeX gridSizeY cx cy then some ((cx, cy), rest)
    else searchPlacement gridSizeX gridSizeY rest

/-- Lines 118-136: the center chosen for one digit. -/
def digitCenter (gridSizeX gridSizeY : Nat) (randomPlacement : Bool)
    (draws : List (ℚ × ℚ)) : Option ((Int × Int) × List (ℚ × ℚ)) :=
  if randomPlacement then searchPlacement gridSizeX gridSizeY draws
  else some ((((gridSizeX / 2 : Nat) : Int), ((gridSizeY / 2 : Nat) : Int)), draws)

/-- The loop of lines 116-142 over the digits still to place. -/
def placeDigits (randomPlacement : Bool) :
    List Nat → DigitGrid → List (ℚ × ℚ) → Option DigitGrid
  | [], g, _ => some g
  | digit :: rest, g, draws =>
    match digitCenter g.sizeX g.sizeY randomPlacement draws with
    | none => none
    | some (c, draws1) => placeDigits randomPlacement rest (placeDigit g digit c.1 c.2) draws1

/-! ## `tGame::executeGame`: scoring of one trial (lines 319-378) -/

/-- Lines 320-325: `classifyDigit[i] = states[maxNodes - 7 - i] & 1`. -/
def classifyDigit (maxNodes : Nat) (states : Nat → Nat) (i : Nat) : Nat :=
  states (maxNodes - 7 - i) % 2

/-- Lines 327-331: `vetoBits[i] = states[maxNodes - 17 - i] & 1`. -/
def vetoBits (maxNodes : Nat) (states : Nat → Nat) (i : Nat) : Nat :=
  states (maxNodes - 17 - i) % 2

/-- Line 339: `guessedThisDigit = (classifyDigit[i] == 1 && vetoBits[i] == 0)`. -/
def guessedThisDigit (classify veto : Nat → Nat) (i : Nat) : Bool :=
  classify i == 1 && veto i == 0

/-- The variables updated by the loop of lines 337-372: the agent and the locals
`score` and `numDigitsGuessed`. -/
structure ScoreLoop (β : Type) where
  agent : tAgent β
  score : ℚ
  numDigitsGuessed : ℚ

/-- One iteration (index `i`) of the loop of lines 337-372 in the trial of `digit`. -/
def scoreDigit {β : Type} (digit : Nat) (classify veto : Nat → Nat)
    (s : ScoreLoop β) (i : Nat) : ScoreLoop β :=
  let guessed := guessedThisDigit classify veto i
  let n := if guessed then s.numDigitsGuessed + 1 else s.numDigitsGuessed
  if guessed ∧ i = digit then
    { agent := { s.agent with truePositives := incr s.agent.truePositives i }
      score := 1
      numDigitsGuessed := n }
  else if guessed ∧ i ≠ digit then
    { agent := { s.agent with falsePositives := incr s.agent.falsePositives i }
      score := s.score
      numDigitsGuessed := n }
  else if ¬ guessed ∧ i = digit then
    { agent := { s.agent with falseNegatives := incr s.agent.falseNegatives i }
      score := s.score
      numDigitsGuessed := n }
  else if ¬ guessed ∧ i ≠ digit then
    { agent := { s.agent with trueNegatives := incr s.agent.trueNegatives i }
      score := s.score
      numDigitsGuessed := n }
  else
    { agent := s.agent, score := s.score, numDigitsGuessed := n }

/-- Lines 333-372: `score = 0.0; numDigitsGuessed = 0.0;` then the loop over
`i = 0..9`. -/
def scoreLoop {β : Type} (digit : Nat) (classify veto : Nat → Nat)
    (agent : tAgent β) : ScoreLoop β :=
  (List.range 10).foldl (scoreDigit digit classify veto)
    { agent := agent, score := 0, numDigitsGuessed := 0 }

/-- Lines 333-377 in exact arithmetic: the scoring of one trial, given the 10 classify
and the 10 veto bits read from the register: the loop, then
`if (numDigitsGuessed > 0.0) classificationFitness += score / numDigitsGuessed`, the
quotient and the sum taken exactly (`scoreTrialFloat` has the roundings). -/
def scoreTrial {β : Type} (digit : Nat) (classify veto : Nat → Nat)
    (agent : tAgent β) : tAgent β :=
  let s := scoreLoop digit classify veto agent
  if s.numDigitsGuessed > 0 then
    { s.agent with
      classificationFitness := s.agent.classificationFitness + s.score / s.numDigitsGuessed }
  else s.agent

/-! ## `tGame::executeGame`: one simulation step (lines 213-312) -/

/-- The constant `totalStepsInSimulation`. -/
def totalStepsInSimulation : Nat := 20

/-- The camera variables `cameraX`, `cameraY`, `cameraSize`. -/
structure Camera where
  cameraX : Int
  cameraY : Int
  cameraSize : Nat

/-- Lines 178-180: the camera at the start of a trial. -/
def initialCamera (gridSizeX gridSizeY : Nat) : Camera :=
  { cameraX := ((gridSizeX / 2 : Nat) : Int)
    cameraY := ((gridSizeY / 2 : Nat) : Int)
    cameraSize := 3 }

/-- Lines 231-235: `states[sensor] = 0` for `sensor < min(gridSizeX, gridSizeY)^2`. -/
def clearSensors (gridSizeX gridSizeY : Nat) (states : Nat → Nat) : Nat → Nat :=
  fun n => if n < (min gridSizeX gridSizeY) ^ 2 then 0 else states n

/-- One iteration of the loop of lines 257-269. -/
def readSensor (g : DigitGrid) (digit : Nat) (cam : Camera) (states : Nat → Nat)
    (sensor : Nat) : Nat → Nat :=
  match sensorOffsetMap sensor with
  | none => states
  | some (dx, dy) =>
    let sensorX := cam.cameraX + dx
    let sensorY := cam.cameraY + dy
    if sensorX ≥ 0 ∧ sensorX < g.sizeX ∧ sensorY ≥ 0 ∧ sensorY < g.sizeY then
      if g.cell digit sensorX sensorY = 1 then
        fun n => if n = sensor then 1 else states n
      else states
    else states

/-- Lines 257-269: the loop over `sensor < cameraSize * cameraSize`. -/
def fillSensors (g : DigitGrid) (digit : Nat) (cam : Camera) (states : Nat → Nat) :
    Nat → Nat :=
  (List.range (cam.cameraSize * cam.cameraSize)).foldl (readSensor g digit cam) states

/-- Lines 286-311: the six motor bits are read and the camera is moved and zoomed. -/
def moveCamera (zoomingCamera : Bool) (gridSizeX maxNodes : Nat) (states : Nat → Nat)
    (cam : Camera) : Camera :=
  let moveUp := states (maxNodes - 1) % 2
  let moveDown := states (maxNodes - 2) % 2
  let moveLeft := states (maxNodes - 3) % 2
  let moveRight := states (maxNodes - 4) % 2
  let zoomIn := states (maxNodes - 5) % 2
  let zoomOut := states (maxNodes - 6) % 2
  let y1 := if zoomingCamera = true ∧ moveUp ≠ 0 then cam.cameraY + 1 else cam.cameraY
  let y2 := if zoomingCamera = true ∧ moveDown ≠ 0 then y1 - 1 else y1
  let x1 := if zoomingCamera = true ∧ moveRight ≠ 0 then cam.cameraX + 1 else cam.cameraX
  let x2 := if zoomingCamera = true ∧ moveLeft ≠ 0 then x1 - 1 else x1
  let s1 :=
    if zoomingCamera = true ∧ zoomIn ≠ 0 ∧ cam.cameraSize > 1 then cam.cameraSize - 2
    else cam.cameraSize
  let s2 :=
    if zoomingCamera = true ∧ zoomOut ≠ 0 ∧ s1 + 2 ≤ gridSizeX ∧ s1 + 2 ≤ 9 then s1 + 2
    else s1
  { cameraX := x2, cameraY := y2, cameraSize := s2 }

/-- The variables that change from step to step within a trial. -/
structure TrialState (β : Type) where
  brain : β
  states : Nat → Nat
  camera : Camera

/-- One iteration of the step loop (lines 213-312): clear and fill the sensors, run the
controller, move the camera. -/
def simulationStep {β : Type} (C : Controller β) (maxNodes : Nat) (g : DigitGrid)
    (digit : Nat) (zoomingCamera : Bool) (s : TrialState β) : TrialState β :=
  let sensed := fillSensors g digit s.camera (clearSensors g.sizeX g.sizeY s.states)
  let out := C.updateStates s.brain sensed
  { brain := out.1
    states := out.2
    camera := moveCamera zoomingCamera g.sizeX maxNodes out.2 s.camera }

/-- The variables at the end of the step loop of the trial of `digit`: `resetBrain`,
camera reset (lines 177-180), then `totalStepsInSimulation` steps. -/
def runSteps {β : Type} (C : Controller β) (maxNodes : Nat) (g : DigitGrid)
    (zoomingCamera : Bool) (agent : tAgent β) (digit : Nat) : TrialState β :=
  let r := C.resetBrain agent.brain agent.states
  (List.range totalStepsInSimulation).foldl
    (fun s _ => simulationStep C maxNodes g digit zoomingCamera s)
    { brain := r.1, states := r.2, camera := initialCamera g.sizeX g.sizeY }

/-- The body of the trial loop (lines 175-377) for `digit`: the steps, then the
scoring of the classify and veto bits left in the register, in exact arithmetic. -/
def runTrial {β : Type} (C : Controller β) (maxNodes : Nat) (g : DigitGrid)
    (zoomingCamera : Bool) (agent : tAgent β) (digit : Nat) : tAgent β :=
  let s := runSteps C maxNodes g zoomingCamera agent digit
  scoreTrial digit (classifyDigit maxNodes s.states) (vetoBits maxNodes s.states)
    { agent with brain := s.brain, states := s.states }

/-! ## `tGame::executeGame` (lines 90-413) -/

/-- Lines 144-159: `setupPhenotype`, both fitness fields and the four counter arrays
are reset. -/
def resetAgent {β : Type} (C : Controller β) (eddAgent : tAgent β) : tAgent β :=
  { eddAgent with
    brain := C.setupPhenotype eddAgent.genome eddAgent.brain
    classificationFitness := 0
    fitness := 0
    truePositives := fun i => if i < 10 then 0 else eddAgent.truePositives i
    falsePositives := fun i => if i < 10 then 0 else eddAgent.falsePositives i
    trueNegatives := fun i => if i < 10 then 0 else eddAgent.trueNegatives i
    falseNegatives := fun i => if i < 10 then 0 else eddAgent.falseNegatives i }

/-- A quotient of two counters as computed in lines 385 and 387; `none` stands for the
undefined result of a zero denominator. -/
def rate (num den : Nat) : Option ℚ :=
  if den = 0 then none else some ((num : ℚ) / (den : ℚ))

/-- Lines 382-401 in exact arithmetic: the rates, then `fitness` and
`classificationFitness` are divided by 10 and a fitness `<= 0` is replaced by `0.000001`
(`finishGameFloat` has the roundings). -/
def finishGame {β : Type} (a : tAgent β) : tAgent β :=
  let fitness := a.classificationFitness / 10
  { a with
    truePositiveRate := fun i =>
      if i < 10 then rate (a.truePositives i) (a.truePositives i + a.falseNegatives i)
      else a.truePositiveRate i
    trueNegativeRate := fun i =>
      if i < 10 then rate (a.trueNegatives i) (a.trueNegatives i + a.falsePositives i)
      else a.trueNegativeRate i
    classificationFitness := a.classificationFitness / 10
    fitness := if fitness ≤ 0 then 1 / 1000000 else fitness }

/-- The part of `executeGame` after the placement of the digits (lines 144-401), in
exact arithmetic: `digits` is the vector `digits` after `random_shuffle`. -/
def playGame {β : Type} (C : Controller β) (maxNodes : Nat) (g : DigitGrid)
    (zoomingCamera : Bool) (digits : List Nat) (eddAgent : tAgent β) : tAgent β :=
  finishGame (digits.foldl (runTrial C maxNodes g zoomingCamera) (resetAgent C eddAgent))

set_option linter.unusedVariables false in
/-- The function `tGame::executeGame`, its fitness computed in exact arithmetic
(`executeGameFloat` has the roundings).  `shuffle` is the outcome of `random_shuffle` on
the vector `digits` and `draws` the stream of `randDouble` pairs of the placement
search.  The result is the agent as left by the call, with the line written to
`dataFile` (`born`, `fitness`) when a file is given; `none` when the placement search
does not end within `draws`.  The report string is not modelled. -/
def executeGame {β : Type} (C : Controller β) (maxNodes : Nat)
    (shuffle : List Nat → List Nat) (draws : List (ℚ × ℚ))
    (eddAgent : tAgent β) (dataFile : Bool) (report : Bool)
    (gridSizeX gridSizeY : Nat) (zoomingCamera randomPlacement noise : Bool)
    (noiseAmount : ℚ) : Option (tAgent β × Option (Nat × ℚ)) :=
  match placeDigits randomPlacement (List.range 10) (emptyGrid gridSizeX gridSizeY) draws with
  | none => none
  | some g =>
    let a := playGame C maxNodes g zoomingCamera (shuffle (List.range 10)) eddAgent
    some (a, if dataFile then some (a.born, a.fitness) else none)

/-! ## `tGame::executeGame` with the roundings of the source -/

/-- Lines 333-377: the scoring of one trial.  `score` and `numDigitsGuessed` are
`float`s holding small integers (0 or 1, and 0 to 10), so the loop is `scoreLoop`; the
quotient `score / numDigitsGuessed` is a `float` and it is added to the `double`
`classificationFitness`. -/
def scoreTrialFloat {β : Type} (digit : Nat) (classify veto : Nat → Nat)
    (agent : tAgent β) : tAgent β :=
  let s := scoreLoop digit classify veto agent
  if s.numDigitsGuessed > 0 then
    { s.agent with
      classificationFitness :=
        toDouble (s.agent.classificationFitness + toFloat (s.score / s.numDigitsGuessed)) }
  else s.agent

/-- The body of the trial loop (lines 175-377) for `digit`. -/
def runTrialFloat {β : Type} (C : Controller β) (maxNodes : Nat) (g : DigitGrid)
    (zoomingCamera : Bool) (agent : tAgent β) (digit : Nat) : tAgent β :=
  let s := runSteps C maxNodes g zoomingCamera agent digit
  scoreTrialFloat digit (classifyDigit maxNodes s.states) (vetoBits maxNodes s.states)
    { agent with brain := s.brain, states := s.states }

/-- Lines 382-401: the rates, then `fitness = classificationFitness / 10.0` and
`classificationFitness = classificationFitness / 10.0` in `double`, and a fitness `<= 0`
is replaced by the `double` constant `0.000001`. -/
def finishGameFloat {β : Type} (a : tAgent β) : tAgent β :=
  let fitness := toDouble (a.classificationFitness / 10)
  { a with
    truePositiveRate := fun i =>
      if i < 10 then rate (a.truePositives i) (a.truePositives i + a.falseNegatives i)
      else a.truePositiveRate i
    trueNegativeRate := fun i =>
      if i < 10 then rate (a.trueNegatives i) (a.trueNegatives i + a.falsePositives i)
      else a.trueNegativeRate i
    classificationFitness := toDouble (a.classificationFitness / 10)
    fitness := if fitness ≤ 0 then toDouble (1 / 1000000) else fitness }

/-- The part of `executeGame` after the placement of the digits (lines 144-401). -/
def playGameFloat {β : Type} (C : Controller β) (maxNodes : Nat) (g : DigitGrid)
    (zoomingCamera : Bool) (digits : List Nat) (eddAgent : tAgent β) : tAgent β :=
  finishGameFloat
    (digits.foldl (runTrialFloat C maxNodes g zoomingCamera) (resetAgent C eddAgent))

set_option linter.unusedVariables false in
/-- The function `tGame::executeGame`, with the same parameters and result as
`executeGame`. -/
def executeGameFloat {β : Type} (C : Controller β) (maxNodes : Nat)
    (shuffle : List Nat → List Nat) (draws : List (ℚ × ℚ))
    (eddAgent : tAgent β) (dataFile : Bool) (report : Bool)
    (gridSizeX gridSizeY : Nat) (zoomingCamera randomPlacement noise : Bool)
    (noiseAmount : ℚ) : Option (tAgent β × Option (Nat × ℚ)) :=
  match placeDigits randomPlacement (List.range 10) (emptyGrid gridSizeX gridSizeY) draws with
  | none => none
  | some g =>
    let a := playGameFloat C maxNodes g zoomingCamera (shuffle (List.range 10)) eddAgent
    some (a, if dataFile then some (a.born, a.fitness) else none)

/-! ## `main`: the selection step of a generation (lines 541-884) -/

/-- Modelled from the spec: the comparator `compare` given to `std::sort` is defined
outside `src/`; the specification sorts the population "ascending by fitness". -/
def compare {β : Type} (a b : tAgent β) : Bool :=
  decide (a.fitness < b.fitness)

/-- Modelled from the spec: `tAgent::inherit` is defined outside `src/`.  In the
specification `inherit(parent, mutationRate, generation)` clones and mutates the genome
of `parent`, links `ancestor = parent`, and `born` is the generation index.  `self` is
the newly constructed agent on which `inherit` is called and `mutate` the outcome of the
random mutation at the given rate. -/
def inherit {β : Type} (self : tAgent β) (mutate : ℚ → List Nat → List Nat)
    (parent : tAgent β) (mutationRate : ℚ) (generation : Nat) : tAgent β :=
  { self with
    genome := mutate mutationRate parent.genome
    ancestor := some parent
    born := generation }

/-- The outcomes of the library calls and of the random stream during one selection
step: the two `random_shuffle` calls, `std::sort` with `compare`, the successive values
of `randDouble`, the mutation of the offspring written to each slot of `EANextGen` and
the mutation of the agent `best`. -/
structure Outcomes (β : Type) where
  shufflePopulation : List (tAgent β) → List (tAgent β)
  shuffleNextGen : List (tAgent β) → List (tAgent β)
  sort : List (tAgent β) → List (tAgent β)
  randDouble : Nat → ℚ
  mutate : Nat → ℚ → List Nat → List Nat
  mutateBest : ℚ → List Nat → List Nat

/-- What the library guarantees of the outcomes: a shuffle and a sort rearrange their
argument, and after a sort no element compares less than an earlier one. -/
structure Outcomes.Valid {β : Type} (o : Outcomes β) : Prop where
  shufflePopulation_perm : ∀ l, (o.shufflePopulation l).Perm l
  shuffleNextGen_perm : ∀ l, (o.shuffleNextGen l).Perm l
  sort_perm : ∀ l, (o.sort l).Perm l
  sort_sorted : ∀ l, (o.sort l).Pairwise (fun a b => compare b a = false)

/-- The vector `EANextGen` during a selection pass: `some p` at slot `k` when
`EANextGen[k]` has been assigned a new agent that inherits from `eddAgents[p]`, `none`
while slot `k` has not been assigned in this pass. -/
abbrev NextGen := Nat → Option Nat

/-- The expression `eddAgents[k]->fitness`. -/
def fitnessAt {β : Type} (eddAgents : List (tAgent β)) (k : Nat) : ℚ :=
  match eddAgents[k]? with
  | some a => a.fitness
  | none => 0

/-- The loops `for (j = 0; j < size; j++) { offspring->inherit(eddAgents[parent], ..);
EANextGen[i + j] = offspring; }` of lines 591-597, 612-618, 715-723 and 750-757. -/
def assignGroup (EANextGen : NextGen) (i size parent : Nat) : NextGen :=
  (List.range size).foldl (fun nx j => fun k => if k = i + j then some parent else nx k)
    EANextGen

/-- Lines 582-589 and 603-610: `best_index` after the scan of the group of `size`
members that starts at `i`. -/
def bestIndex (fitness : Nat → ℚ) (i size : Nat) : Nat :=
  (List.range size).foldl
    (fun best_index j => if fitness (i + j) > fitness (i + best_index) then j else best_index)
    0

/-- The body of the tournament loop (lines 580-621) for the group that starts at `i`. -/
def tournamentGroup (fitness : Nat → ℚ) (populationSize tourney_size i : Nat)
    (EANextGen : NextGen) : NextGen :=
  if populationSize - i > tourney_size then
    assignGroup EANextGen i tourney_size (i + bestIndex fitness i tourney_size)
  else
    let tourney_remainder := populationSize - i
    assignGroup EANextGen i tourney_remainder (i + bestIndex fitness i tourney_remainder)

/-- The loop `for (i = 0; i < populationSize; i += tourney_size)` of lines 577-623, run
for at most the given number of iterations; `none` when the loop has not ended by then. -/
def tournamentLoop (fitness : Nat → ℚ) (populationSize tourney_size : Nat) :
    Nat → Nat → NextGen → Option NextGen
  | 0, i, nx => if i < populationSize then none else some nx
  | fuel + 1, i, nx =>
    if i < populationSize then
      tournamentLoop fitness populationSize tourney_size fuel (i + tourney_size)
        (tournamentGroup fitness populationSize tourney_size i nx)
    else some nx

/-- The variables of the winner scan of the roulette (lines 709-727). -/
structure RouletteScan where
  chosen : Bool
  fit_count : ℚ
  EANextGen : NextGen

/-- One value `j` of the loop `for (j = 0; (chosen == false) and (j < size); j++)` in
exact arithmetic (`rouletteScanStepFloat` has the roundings of `fit_count`). -/
def rouletteScanStep (fitness : Nat → ℚ) (random_cutoff : ℚ) (i size : Nat)
    (s : RouletteScan) (j : Nat) : RouletteScan :=
  if s.chosen then s
  else
    let fit_count := s.fit_count + fitness (i + j)
    if fit_count > random_cutoff then
      { chosen := true
        fit_count := fit_count
        EANextGen := assignGroup s.EANextGen i size (i + j) }
    else { s with fit_count := fit_count }

/-- Lines 699-704 in exact arithmetic: `total_fit` of the group of `size` members that
starts at `i` (`totalFitFloat` has the roundings). -/
def totalFit (fitness : Nat → ℚ) (i size : Nat) : ℚ :=
  (List.range size).foldl (fun total_fit j => total_fit + fitness (i + j)) 0

/-- Lines 699-727 (and 734-761) in exact arithmetic: the wheel of one group, given the
value of `randDouble` (`rouletteWheelFloat` has the roundings). -/
def rouletteWheel (fitness : Nat → ℚ) (randDouble : ℚ) (i size : Nat)
    (EANextGen : NextGen) : NextGen :=
  let random_cutoff := randDouble * totalFit fitness i size
  ((List.range size).foldl (rouletteScanStep fitness random_cutoff i size)
    { chosen := false, fit_count := 0, EANextGen := EANextGen }).EANextGen

/-- The body of the roulette loop (lines 695-763) for the group that starts at `i`, in
exact arithmetic. -/
def rouletteGroup (fitness : Nat → ℚ) (randDouble : ℚ) (populationSize roulette_size i : Nat)
    (EANextGen : NextGen) : NextGen :=
  if populationSize - i > roulette_size then
    rouletteWheel fitness randDouble i roulette_size EANextGen
  else
    let roulette_remainder := populationSize - i
    rouletteWheel fitness randDouble i roulette_remainder EANextGen

/-- The loop `for (i = 0; i < populationSize; i += roulette_size)` of lines 692-764 in
exact arithmetic, run for at most the given number of iterations; `draw` counts the
values of `randDouble` already used. -/
def rouletteLoop (fitness : Nat → ℚ) (randDouble : Nat → ℚ)
    (populationSize roulette_size : Nat) : Nat → Nat → Nat → NextGen → Option NextGen
  | 0, i, _, nx => if i < populationSize then none else some nx
  | fuel + 1, i, draw, nx =>
    if i < populationSize then
      rouletteLoop fitness randDouble populationSize roulette_size fuel (i + roulette_size)
        (draw + 1)
        (rouletteGroup fitness (randDouble draw) populationSize roulette_size i nx)
    else some nx

/-- Lines 817-818 in exact arithmetic: `selection = floor(populationSize *
percent_select)` (`topPercentSelectionFloat` has the rounding of the product). -/
def topPercentSelection (populationSize : Nat) (percent_select : ℚ) : Int :=
  ⌊(populationSize : ℚ) * percent_select⌋

/-- Lines 817-822 in exact arithmetic: the index `populationSize - 1 - cutoff` of the
parent, with `cutoff = randDouble * selection` converted to `int`. -/
def topPercentParent (populationSize : Nat) (percent_select randDouble : ℚ) : Int :=
  let selection := topPercentSelection populationSize percent_select
  let cutoff := truncToInt (randDouble * (selection : ℚ))
  (populationSize : Int) - 1 - cutoff

/-- The loop of lines 820-824 in exact arithmetic: every slot receives an offspring of
the same parent; `none` when the parent index is negative. -/
def topPercentSlots (populationSize : Nat) (percent_select randDouble : ℚ) : Option NextGen :=
  let parent := topPercentParent populationSize percent_select randDouble
  if 0 ≤ parent then
    some ((List.range populationSize).foldl
      (fun nx k => fun s => if s = k then some parent.toNat else nx s) (fun _ => none))
  else none

/-- The loop of lines 864-868: slot `k` receives an offspring of
`eddAgents[populationSize - 1 - (k % elite_size)]`; `none` when `elite_size` is 0 (the
remainder is then undefined). -/
def pureElitismSlots (populationSize elite_size : Nat) : Option NextGen :=
  if elite_size = 0 then none
  else
    some ((List.range populationSize).foldl
      (fun nx k => fun s =>
        if s = k then some (populationSize - 1 - (k % elite_size)) else nx s)
      (fun _ => none))

/-- Lines 563-572: the index of the agent copied into `best`. -/
def eliteIndex (fitness : Nat → ℚ) (populationSize : Nat) : Nat :=
  (List.range' 1 (populationSize - 1)).foldl
    (fun index i => if fitness i > fitness index then i else index) 0

/-- Lines 560-575: the agent `best` when elitism is on. -/
def eliteCopy {β : Type} (o : Outcomes β) (self : tAgent β) (eddAgents : List (tAgent β))
    (perSiteMutationRate : ℚ) (update populationSize : Nat) : Option (tAgent β) :=
  match eddAgents[eliteIndex (fitnessAt eddAgents) populationSize]? with
  | none => none
  | some parent => some (inherit self o.mutateBest parent perSiteMutationRate update)

/-- A list of optional values as a list of values, when none is missing. -/
def allWritten {α : Type} : List (Option α) → Option (List α)
  | [] => some []
  | none :: _ => none
  | some a :: rest =>
    match allWritten rest with
    | none => none
    | some l => some (a :: l)

/-- The agent stored in slot `k` of `EANextGen`: a new agent that inherits from
`eddAgents[p]`; `none` for a slot that was not assigned or a parent index out of range. -/
def offspringAt {β : Type} (o : Outcomes β) (self : tAgent β) (eddAgents : List (tAgent β))
    (perSiteMutationRate : ℚ) (update k : Nat) (slot : Option Nat) : Option (tAgent β) :=
  match slot with
  | none => none
  | some p =>
    match eddAgents[p]? with
    | none => none
    | some parent => some (inherit self (o.mutate k) parent perSiteMutationRate update)

/-- The agents of `EANextGen` after a selection pass; `none` when some slot does not hold
a new agent. -/
def offspringList {β : Type} (o : Outcomes β) (self : tAgent β)
    (eddAgents : List (tAgent β)) (perSiteMutationRate : ℚ) (update populationSize : Nat)
    (EANextGen : NextGen) : Option (List (tAgent β)) :=
  allWritten ((List.range populationSize).map
    (fun k => offspringAt o self eddAgents perSiteMutationRate update k (EANextGen k)))

/-- Lines 627-649 (and 768-793, 829-850): `EANextGen` is shuffled and replaces the
population; with elitism the new population is sorted and `*eddAgents[0] = best`. -/
def installNextGen {β : Type} (o : Outcomes β) (elitism : Bool) (best : Option (tAgent β))
    (EANextGen : List (tAgent β)) : Option (List (tAgent β)) :=
  let eddAgents := o.shuffleNextGen EANextGen
  if elitism then
    match best with
    | none => none
    | some b => some ((o.sort eddAgents).set 0 b)
  else some eddAgents

/-- The branch `tournament == true` (lines 541-654). -/
def selectTournament {β : Type} (o : Outcomes β) (self : tAgent β)
    (perSiteMutationRate : ℚ) (update populationSize tourney_size : Nat) (elitism : Bool)
    (eddAgents : List (tAgent β)) : Option (List (tAgent β)) :=
  let shuffled := o.shufflePopulation eddAgents
  let best := eliteCopy o self shuffled perSiteMutationRate update populationSize
  match tournamentLoop (fitnessAt shuffled) populationSize tourney_size populationSize 0
      (fun _ => none) with
  | none => none
  | some nx =>
    match offspringList o self shuffled perSiteMutationRate update populationSize nx with
    | none => none
    | some next => installNextGen o elitism best next

/-- The branch `roulette == true` (lines 656-793) in exact arithmetic. -/
def selectRoulette {β : Type} (o : Outcomes β) (self : tAgent β)
    (perSiteMutationRate : ℚ) (update populationSize roulette_size : Nat) (elitism : Bool)
    (eddAgents : List (tAgent β)) : Option (List (tAgent β)) :=
  let shuffled := o.shufflePopulation eddAgents
  let best := eliteCopy o self shuffled perSiteMutationRate update populationSize
  match rouletteLoop (fitnessAt shuffled) o.randDouble populationSize roulette_size
      populationSize 0 0 (fun _ => none) with
  | none => none
  | some nx =>
    match offspringList o self shuffled perSiteMutationRate update populationSize nx with
    | none => none
    | some next => installNextGen o elitism best next

/-- The branch `top_percent == true` (lines 795-850) in exact arithmetic. -/
def selectTopPercent {β : Type} (o : Outcomes β) (self : tAgent β)
    (perSiteMutationRate : ℚ) (update populationSize : Nat) (percent_select : ℚ)
    (elitism : Bool) (eddAgents : List (tAgent β)) : Option (List (tAgent β)) :=
  let shuffled := o.shufflePopulation eddAgents
  let best := eliteCopy o self shuffled perSiteMutationRate update populationSize
  let sorted := o.sort shuffled
  match topPercentSlots populationSize percent_select (o.randDouble 0) with
  | none => none
  | some nx =>
    match offspringList o self sorted perSiteMutationRate update populationSize nx with
    | none => none
    | some next => installNextGen o elitism best next

/-- The branch `pure_elitism == true` (lines 852-884): sort, fill `EANextGen`, replace
the population. -/
def selectPureElitism {β : Type} (o : Outcomes β) (self : tAgent β)
    (perSiteMutationRate : ℚ) (update populationSize elite_size : Nat)
    (eddAgents : List (tAgent β)) : Option (List (tAgent β)) :=
  let sorted := o.sort eddAgents
  match pureElitismSlots populationSize elite_size with
  | none => none
  | some nx => offspringList o self sorted perSiteMutationRate update populationSize nx

/-! ## `main`: roulette and top-percent selection with the roundings of the source -/

/-- Lines 699-704 (and 733-737): the `float` variable `total_fit` after the members
`0 .. size - 1` of the group that starts at `i` have been added.  Each `total_fit +=
eddAgents[i + j]->fitness` adds a `double` to a `float`: the sum is formed in `double` and
stored in `float`. -/
def totalFitFloat (fitness : Nat → ℚ) (i size : Nat) : ℚ :=
  (List.range size).foldl
    (fun total_fit j => toFloat (toDouble (total_fit + fitness (i + j)))) 0

/-- One value `j` of the loop `for (j = 0; (chosen == false) and (j < size); j++)` of
lines 709-727: `fit_count += eddAgents[i + j]->fitness` on the `float` variable
`fit_count`, then the test `fit_count > random_cutoff`. -/
def rouletteScanStepFloat (fitness : Nat → ℚ) (random_cutoff : ℚ) (i size : Nat)
    (s : RouletteScan) (j : Nat) : RouletteScan :=
  if s.chosen then s
  else
    let fit_count := toFloat (toDouble (s.fit_count + fitness (i + j)))
    if fit_count > random_cutoff then
      { chosen := true
        fit_count := fit_count
        EANextGen := assignGroup s.EANextGen i size (i + j) }
    else { s with fit_count := fit_count }

/-- Line 706 (and 741): `random_cutoff = randDouble * total_fit`, the product of a
`double` and a `float` formed in `double` and stored in the `float` variable
`random_cutoff`. -/
def randomCutoffFloat (fitness : Nat → ℚ) (randDouble : ℚ) (i size : Nat) : ℚ :=
  toFloat (toDouble (randDouble * totalFitFloat fitness i size))

/-- Lines 699-727 (and 733-761): the wheel of one group, given the value of
`randDouble`. -/
def rouletteWheelFloat (fitness : Nat → ℚ) (randDouble : ℚ) (i size : Nat)
    (EANextGen : NextGen) : NextGen :=
  let random_cutoff := randomCutoffFloat fitness randDouble i size
  ((List.range size).foldl (rouletteScanStepFloat fitness random_cutoff i size)
    { chosen := false, fit_count := 0, EANextGen := EANextGen }).EANextGen

/-- The body of the roulette loop (lines 695-763) for the group that starts at `i`. -/
def rouletteGroupFloat (fitness : Nat → ℚ) (randDouble : ℚ)
    (populationSize roulette_size i : Nat) (EANextGen : NextGen) : NextGen :=
  if populationSize - i > roulette_size then
    rouletteWheelFloat fitness randDouble i roulette_size EANextGen
  else
    let roulette_remainder := populationSize - i
    rouletteWheelFloat fitness randDouble i roulette_remainder EANextGen

/-- The loop `for (i = 0; i < populationSize; i += roulette_size)` of lines 692-764, run
for at most the given number of iterations; `draw` counts the values of `randDouble`
already used. -/
def rouletteLoopFloat (fitness : Nat → ℚ) (randDouble : Nat → ℚ)
    (populationSize roulette_size : Nat) : Nat → Nat → Nat → NextGen → Option NextGen
  | 0, i, _, nx => if i < populationSize then none else some nx
  | fuel + 1, i, draw, nx =>
    if i < populationSize then
      rouletteLoopFloat fitness randDouble populationSize roulette_size fuel
        (i + roulette_size) (draw + 1)
        (rouletteGroupFloat fitness (randDouble draw) populationSize roulette_size i nx)
    else some nx

/-- The branch `roulette == true` (lines 656-793). -/
def selectRouletteFloat {β : Type} (o : Outcomes β) (self : tAgent β)
    (perSiteMutationRate : ℚ) (update populationSize roulette_size : Nat) (elitism : Bool)
    (eddAgents : List (tAgent β)) : Option (List (tAgent β)) :=
  let shuffled := o.shufflePopulation eddAgents
  let best := eliteCopy o self shuffled perSiteMutationRate update populationSize
  match rouletteLoopFloat (fitnessAt shuffled) o.randDouble populationSize roulette_size
      populationSize 0 0 (fun _ => none) with
  | none => none
  | some nx =>
    match offspringList o self shuffled perSiteMutationRate update populationSize nx with
    | none => none
    | some next => installNextGen o elitism best next

/-- Line 817: `int selection = floor(populationSize * percent_select)`.  `percent_select`
is a `float` (line 73), so the `int` is converted to `float` and the product is a
`float`. -/
def topPercentSelectionFloat (populationSize : Nat) (percent_select : ℚ) : Int :=
  ⌊toFloat (toFloat (populationSize : ℚ) * percent_select)⌋

/-- Lines 817-822: the index `populationSize - 1 - cutoff` of the parent, with
`int cutoff = randDouble * selection`: the product is formed in `double` and converted
to `int`. -/
def topPercentParentFloat (populationSize : Nat) (percent_select randDouble : ℚ) : Int :=
  let selection := topPercentSelectionFloat populationSize percent_select
  let cutoff := truncToInt (toDouble (randDouble * (selection : ℚ)))
  (populationSize : Int) - 1 - cutoff

/-- The loop of lines 820-824: every slot receives an offspring of the same parent;
`none` when the parent index is negative. -/
def topPercentSlotsFloat (populationSize : Nat) (percent_select randDouble : ℚ) :
    Option NextGen :=
  let parent := topPercentParentFloat populationSize percent_select randDouble
  if 0 ≤ parent then
    some ((List.range populationSize).foldl
      (fun nx k => fun s => if s = k then some parent.toNat else nx s) (fun _ => none))
  else none

/-- The branch `top_percent == true` (lines 795-850). -/
def selectTopPercentFloat {β : Type} (o : Outcomes β) (self : tAgent β)
    (perSiteMutationRate : ℚ) (update populationSize : Nat) (percent_select : ℚ)
    (elitism : Bool) (eddAgents : List (tAgent β)) : Option (List (tAgent β)) :=
  let shuffled := o.shufflePopulation eddAgents
  let best := eliteCopy o self shuffled perSiteMutationRate update populationSize
  let sorted := o.sort shuffled
  match topPercentSlotsFloat populationSize percent_select (o.randDouble 0) with
  | none => none
  | some nx =>
    match offspringList o self sorted perSiteMutationRate update populationSize nx with
    | none => none
    | some next => installNextGen o elitism best next

/-- The global settings read by the selection step. -/
structure Settings where
  perSiteMutationRate : ℚ
  populationSize : Nat
  tournament : Bool
  roulette : Bool
  pure_elitism : Bool
  roulette_size : Nat
  rank_selection : Bool
  elitism : Bool
  top_percent : Bool
  percent_select : ℚ
  tourney_size : Nat
  elite_size : Nat

/-- The chain `if (tournament) .. else if (roulette) .. else if (top_percent) .. else if
(pure_elitism) ..` of lines 541-884: the population after the selection step of
generation `update`; `none` when the step does not produce a population of new agents
(a loop that does not end, a slot of `EANextGen` left unassigned or an index out of
range). -/
def selectionStep {β : Type} (o : Outcomes β) (self : tAgent β) (cfg : Settings)
    (update : Nat) (eddAgents : List (tAgent β)) : Option (List (tAgent β)) :=
  if cfg.tournament then
    selectTournament o self cfg.perSiteMutationRate update cfg.populationSize
      cfg.tourney_size cfg.elitism eddAgents
  else if cfg.roulette then
    selectRouletteFloat o self cfg.perSiteMutationRate update cfg.populationSize
      cfg.roulette_size cfg.elitism eddAgents
  else if cfg.top_percent then
    selectTopPercentFloat o self cfg.perSiteMutationRate update cfg.populationSize
      cfg.percent_select cfg.elitism eddAgents
  else if cfg.pure_elitism then
    selectPureElitism o self cfg.perSiteMutationRate update cfg.populationSize
      cfg.elite_size eddAgents
  else some eddAgents

/-! ## `tGame::executeGame`: the variables followed through the loops -/

/-- Lines 116-142 with the arrays `digitCentersX`, `digitCentersY`: the centers passed to
`placeDigit` for the digits of the list, in order; `none` when a placement search does
not end within the stream. -/
def digitCenters (gridSizeX gridSizeY : Nat) (randomPlacement : Bool) :
    List Nat → List (ℚ × ℚ) → Option (List (Int × Int))
  | [], _ => some []
  | _ :: rest, draws =>
    match digitCenter gridSizeX gridSizeY randomPlacement draws with
    | none => none
    | some (c, draws1) =>
      match digitCenters gridSizeX gridSizeY randomPlacement rest draws1 with
      | none => none
      | some cs => some (c :: cs)

/-- The variables of a trial after the first `n` iterations of the step loop
(lines 213-312); `runSteps` is the case `n = totalStepsInSimulation`. -/
def stateAfterSteps {β : Type} (C : Controller β) (maxNodes : Nat) (g : DigitGrid)
    (zoomingCamera : Bool) (agent : tAgent β) (digit n : Nat) : TrialState β :=
  let r := C.resetBrain agent.brain agent.states
  (List.range n).foldl
    (fun s _ => simulationStep C maxNodes g digit zoomingCamera s)
    { brain := r.1, states := r.2, camera := initialCamera g.sizeX g.sizeY }

/-- Lines 177-180, with the camera variables as the preceding trial (or the
declarations of lines 150-151) left them: `resetBrain`, then `cameraX`, `cameraY` and
`cameraSize` are assigned. -/
def startTrial {β : Type} (C : Controller β) (gridSizeX gridSizeY : Nat)
    (agent : tAgent β) (camera : Camera) : TrialState β :=
  let r := C.resetBrain agent.brain agent.states
  let c1 := { camera with cameraX := ((gridSizeX / 2 : Nat) : Int) }
  let c2 := { c1 with cameraY := ((gridSizeY / 2 : Nat) : Int) }
  let c3 := { c2 with cameraSize := 3 }
  { brain := r.1, states := r.2, camera := c3 }

/-- The body of the trial loop (lines 175-377) on the agent and the camera variables,
which are declared before the loop (lines 150-151) and live across the trials. -/
def trialBody {β : Type} (C : Controller β) (maxNodes : Nat) (g : DigitGrid)
    (zoomingCamera : Bool) (v : tAgent β × Camera) (digit : Nat) : tAgent β × Camera :=
  let s := (List.range totalStepsInSimulation).foldl
    (fun s _ => simulationStep C maxNodes g digit zoomingCamera s)
    (startTrial C g.sizeX g.sizeY v.1 v.2)
  (scoreTrial digit (classifyDigit maxNodes s.states) (vetoBits maxNodes s.states)
    { v.1 with brain := s.brain, states := s.states }, s.camera)

/-- The trial loop (lines 173-378) on the agent and the camera variables. -/
def trialLoop {β : Type} (C : Controller β) (maxNodes : Nat) (g : DigitGrid)
    (zoomingCamera : Bool) (digits : List Nat) (v : tAgent β × Camera) : tAgent β × Camera :=
  digits.foldl (trialBody C maxNodes g zoomingCamera) v

/-! ## `main`: the evaluation of a generation (lines 480-507) -/

/-- The globals of `main.cpp` that every call of `executeGame` receives. -/
structure GameSettings where
  gridSizeX : Nat
  gridSizeY : Nat
  zoomingCamera : Bool
  randomPlacement : Bool
  noise : Bool
  noiseAmount : ℚ

/-- The variables of the evaluation loop of lines 487-505: the agents evaluated so far
and `eddAvgFitness`, `eddMaxFitness`, `eddMaxIndex`. -/
structure Evaluation (β : Type) where
  eddAgents : List (tAgent β)
  eddAvgFitness : ℚ
  eddMaxFitness : ℚ
  eddMaxIndex : Nat

/-- The loop of lines 492-505 from agent `i` on (with the reset of line 483 applied to
each agent): `executeGame`, then the running sum and the running maximum of
`classificationFitness`.  `shuffles i` and `draws i` are the outcomes of the random
stream during the call for agent `i`. -/
def evaluateLoop {β : Type} (C : Controller β) (maxNodes : Nat)
    (shuffles : Nat → List Nat → List Nat) (draws : Nat → List (ℚ × ℚ)) (w : GameSettings) :
    Nat → List (tAgent β) → Evaluation β → Option (Evaluation β)
  | _, [], s => some s
  | i, a :: rest, s =>
    match executeGame C maxNodes (shuffles i) (draws i) { a with fitness := 0 } false false
        w.gridSizeX w.gridSizeY w.zoomingCamera w.randomPlacement w.noise w.noiseAmount with
    | none => none
    | some r =>
      evaluateLoop C maxNodes shuffles draws w (i + 1) rest
        { eddAgents := s.eddAgents ++ [r.1]
          eddAvgFitness := s.eddAvgFitness + r.1.classificationFitness
          eddMaxFitness :=
            if r.1.classificationFitness > s.eddMaxFitness then r.1.classificationFitness
            else s.eddMaxFitness
          eddMaxIndex :=
            if r.1.classificationFitness > s.eddMaxFitness then i else s.eddMaxIndex }

/-- Lines 480-507: the evaluation of the population of one generation. -/
def evaluatePopulation {β : Type} (C : Controller β) (maxNodes : Nat)
    (shuffles : Nat → List Nat → List Nat) (draws : Nat → List (ℚ × ℚ)) (w : GameSettings)
    (populationSize : Nat) (eddAgents : List (tAgent β)) : Option (Evaluation β) :=
  match evaluateLoop C maxNodes shuffles draws w 0 eddAgents
      { eddAgents := [], eddAvgFitness := 0, eddMaxFitness := 0, eddMaxIndex := 0 } with
  | none => none
  | some s => some { s with eddAvgFitness := s.eddAvgFitness / (populationSize : ℚ) }

/-! ## `main`: the tracked best and the line of descent (lines 509-516, 905-940) -/

/-- The expression `eddAgents[k]->classificationFitness`. -/
def classificationFitnessAt {β : Type} (eddAgents : List (tAgent β)) (k : Nat) : ℚ :=
  match eddAgents[k]? with
  | some a => a.classificationFitness
  | none => 0

set_option linter.unusedVariables false in
/-- Lines 509-516: `bestEddAgent` after the evaluation of generation `update`.  The
previous `bestEddAgent` is deleted; a new agent inherits from `eddAgents[eddMaxIndex]`
with mutation rate `0.0` and its phenotype is set up.  `mutateTracked` is the outcome of
the mutation inside this call of `inherit`; `none` when `eddMaxIndex` is not an index of
the population. -/
def trackBest {β : Type} (C : Controller β) (mutateTracked : ℚ → List Nat → List Nat)
    (self : tAgent β) (update : Nat) (ev : Evaluation β)
    (bestEddAgent : Option (tAgent β)) : Option (tAgent β) :=
  match ev.eddAgents[ev.eddMaxIndex]? with
  | none => none
  | some parent =>
    let b := inherit self mutateTracked parent 0 update
    some { b with brain := C.setupPhenotype b.genome b.brain }

/-- The loop `while (curAncestor != NULL)` of lines 912-921 on the variables
`curAncestor` and `saveLOD`: an agent that has an ancestor is inserted at the front of
`saveLOD`, then `curAncestor = curAncestor->ancestor`. -/
def lodLoop {β : Type} : Option (tAgent β) → List (tAgent β) → List (tAgent β)
  | none, saveLOD => saveLOD
  | some curAncestor, saveLOD =>
    lodLoop curAncestor.ancestor
      (if curAncestor.ancestor.isSome then curAncestor :: saveLOD else saveLOD)
termination_by cur => sizeOf cur
decreasing_by
  have key : ∀ x : tAgent β, sizeOf x.ancestor < sizeOf (some x) := by
    intro x
    cases x
    simp only [Option.some.sizeOf_spec, tAgent.mk.sizeOf_spec]
    omega
  exact key _

/-- Lines 906-921: the vector `saveLOD` built from `bestEddAgent`. -/
def saveLOD {β : Type} (bestEddAgent : tAgent β) : List (tAgent β) :=
  lodLoop (some bestEddAgent) []

/-- The loop of lines 930-943 from element `k` of `saveLOD` on: each call of
`executeGame` with the file `LOD` writes one line `born,fitness`.  `shuffles k` and
`draws k` are the outcomes of the random stream during the call for element `k`. -/
def writeLODLines {β : Type} (C : Controller β) (maxNodes : Nat)
    (shuffles : Nat → List Nat → List Nat) (draws : Nat → List (ℚ × ℚ)) (w : GameSettings) :
    Nat → List (tAgent β) → Option (List (Nat × ℚ))
  | _, [] => some []
  | k, a :: rest =>
    match executeGame C maxNodes (shuffles k) (draws k) a true false
        w.gridSizeX w.gridSizeY w.zoomingCamera w.randomPlacement w.noise w.noiseAmount with
    | none => none
    | some r =>
      match writeLODLines C maxNodes shuffles draws w (k + 1) rest with
      | none => none
      | some lines => some (r.2.toList ++ lines)

/-- Lines 906-945: the contents of the file `LOD`: the header line, then the lines
written by the calls of `executeGame` on the elements of `saveLOD`. -/
def writeLOD {β : Type} (C : Controller β) (maxNodes : Nat)
    (shuffles : Nat → List Nat → List Nat) (draws : Nat → List (ℚ × ℚ)) (w : GameSettings)
    (bestEddAgent : tAgent β) : Option (String × List (Nat × ℚ)) :=
  match writeLODLines C maxNodes shuffles draws w 0 (saveLOD bestEddAgent) with
  | none => none
  | some lines => some ("generation,fitness", lines)

/-! ## `tGame::executeGame`: the sensor register and the accesses of the fill loop -/

/-- Lines 231-269: the register presented to `updateStates` in a step, after the clear
loop and the fill loop. -/
def sensedStates {β : Type} (g : DigitGrid) (digit : Nat) (s : TrialState β) : Nat → Nat :=
  fillSensors g digit s.camera (clearSensors g.sizeX g.sizeY s.states)

/-- The accesses of iteration `sensor` of the loop of lines 257-269: the index of
`sensorOffsetMap` read in lines 259-260 and, when the test of line 262 lets the
iteration reach line 264, the cell `(sensorX, sensorY)` of `digitGrid[digit]` read
there. -/
def sensorAccess (g : DigitGrid) (cam : Camera) (sensor : Nat) : Nat × Option (Int × Int) :=
  (sensor,
    match sensorOffsetMap sensor with
    | none => none
    | some (dx, dy) =>
      if cam.cameraX + dx ≥ 0 ∧ cam.cameraX + dx < g.sizeX ∧
          cam.cameraY + dy ≥ 0 ∧ cam.cameraY + dy < g.sizeY then
        some (cam.cameraX + dx, cam.cameraY + dy)
      else none)

/-- The accesses of the whole loop of lines 257-269, in order. -/
def sensorAccesses (g : DigitGrid) (cam : Camera) : List (Nat × Option (Int × Int)) :=
  (List.range (cam.cameraSize * cam.cameraSize)).map (sensorAccess g cam)

/-! ## `tGame::placeDigit` as a call on a vector of grids -/

/-- Digit `i` is claimed: `classify[i] = 1 ∧ veto[i] = 0`. -/
def claimed (classify veto : Nat → Nat) (i : Nat) : Prop :=
  classify i = 1 ∧ veto i = 0

instance (classify veto : Nat → Nat) (i : Nat) : Decidable (claimed classify veto i) := by
  unfold claimed
  infer_instance

/-- The number `k` of claimed digits among `0..9`. -/
def numClaimed (classify veto : Nat → Nat) : Nat :=
  (List.range 10).countP (fun i => decide (claimed classify veto i))

/-- The trial score in the words of the specification: `1/k` if the true digit is among
the claims and `k > 0`, else `0`. -/
def specTrialScore (digit : Nat) (classify veto : Nat → Nat) : ℚ :=
  if claimed classify veto digit ∧ 0 < numClaimed classify veto then
    1 / (numClaimed classify veto : ℚ)
  else 0

/-- A sample agent: empty genome, zeroed registers and counters. -/
def sampleAgent : tAgent Unit :=
  { genome := []
    brain := ()
    states := fun _ => 0
    fitness := 0
    classificationFitness := 0
    truePositives := fun _ => 0
    falsePositives := fun _ => 0
    trueNegatives := fun _ => 0
    falseNegatives := fun _ => 0
    truePositiveRate := fun _ => none
    trueNegativeRate := fun _ => none
    born := 0
    ancestor := none }

/-- The loop of lines 337-372 run over an arbitrary list of indices. -/
def scoreOver {β : Type} (digit : Nat) (classify veto : Nat → Nat)
    (l : List Nat) (s : ScoreLoop β) : ScoreLoop β :=
  l.foldl (scoreDigit digit classify veto) s

/-- The classify bits read at the end of the trial of `digit` started from `agent`. -/
def trialClassify {β : Type} (C : Controller β) (maxNodes : Nat) (g : DigitGrid)
    (zoomingCamera : Bool) (agent : tAgent β) (digit : Nat) : Nat → Nat :=
  classifyDigit maxNodes (runSteps C maxNodes g zoomingCamera agent digit).states

/-- The veto bits read at the end of the trial of `digit` started from `agent`. -/
def trialVeto {β : Type} (C : Controller β) (maxNodes : Nat) (g : DigitGrid)
    (zoomingCamera : Bool) (agent : tAgent β) (digit : Nat) : Nat → Nat :=
  vetoBits maxNodes (runSteps C maxNodes g zoomingCamera agent digit).states

/-- The scores, in the words of the specification, of the successive trials of an
evaluation that runs the digits of the list in order, starting from `agent`. -/
def trialScores {β : Type} (C : Controller β) (maxNodes : Nat) (g : DigitGrid)
    (zoomingCamera : Bool) : List Nat → tAgent β → List ℚ
  | [], _ => []
  | digit :: rest, agent =>
    specTrialScore digit (trialClassify C maxNodes g zoomingCamera agent digit)
        (trialVeto C maxNodes g zoomingCamera agent digit) ::
      trialScores C maxNodes g zoomingCamera rest (runTrial C maxNodes g zoomingCamera agent digit)

/-- The sum of the four confusion counters of digit `i`. -/
def confusionTotal {β : Type} (a : tAgent β) (i : Nat) : Nat :=
  a.truePositives i + a.falsePositives i + a.trueNegatives i + a.falseNegatives i

/-- A sample controller on the sample agent: every update leaves bit `classify[3]` set
(register `64 - 7 - 3`) and all other registers clear. -/
def sampleController : Controller Unit :=
  { setupPhenotype := fun _ b => b
    resetBrain := fun b _ => (b, fun _ => 0)
    updateStates := fun b _ => (b, fun n => if n = 54 then 1 else 0) }

/-! ## Vocabulary of the specification for the selection step -/

/-- The first slot of the group of slot `s` when the slots are cut into consecutive
groups of `groupSize` slots. -/
def groupStart (groupSize s : Nat) : Nat :=
  groupSize * (s / groupSize)

/-- The number of slots of the group of slot `s`: `groupSize`, or what is left of the
population after the start of the group when that is less. -/
def groupLength (populationSize groupSize s : Nat) : Nat :=
  min groupSize (populationSize - groupStart groupSize s)

/-- The running sum of the fitness of the members `0..j` of the group that starts at
`i`. -/
def runningSum (fitness : Nat → ℚ) (i j : Nat) : ℚ :=
  ∑ t in Finset.range (j + 1), fitness (i + t)

/-- A sample population of four agents with fitness 1, 3, 2, 2. -/
def samplePopulation : List (tAgent Unit) :=
  [{ sampleAgent with fitness := 1 }, { sampleAgent with fitness := 3 },
   { sampleAgent with fitness := 2 }, { sampleAgent with fitness := 2 }]

/-- Sample outcomes: the population is reversed by the first shuffle and left in place by
the second, the sort is an insertion sort by fitness, every `randDouble` is `1/2` and no
mutation changes a genome. -/
def sampleOutcomes : Outcomes Unit :=
  { shufflePopulation := List.reverse
    shuffleNextGen := id
    sort := List.insertionSort (fun a b => a.fitness ≤ b.fitness)
    randDouble := fun _ => 1 / 2
    mutate := fun _ _ genome => genome
    mutateBest := fun _ genome => genome }

/-- The agent `a` is a new agent produced by `inherit` in generation `update` from a
member of `population`. -/
def InheritsFrom {β : Type} (self : tAgent β) (mutationRate : ℚ) (update : Nat)
    (population : List (tAgent β)) (a : tAgent β) : Prop :=
  ∃ parent, parent ∈ population ∧
    ∃ mutate : ℚ → List Nat → List Nat, a = inherit self mutate parent mutationRate update

/-! ## Vocabulary of the specification for the grid and the camera -/

/-- The offset at position `m` (counted from the base index of the ring) of ring `k`, in
the words of the specification: bottom edge left to right, right edge bottom to top, top
edge right to left, left edge top to bottom. -/
def ringOffset (k m : Nat) : Int × Int :=
  if m ≤ 2 * k then (-(k : Int) + (m : Int), -(k : Int))
  else if m ≤ 4 * k then ((k : Int), -(k : Int) + ((m - 2 * k : Nat) : Int))
  else if m ≤ 6 * k then ((k : Int) - ((m - 4 * k : Nat) : Int), (k : Int))
  else (-(k : Int), (k : Int) - ((m - 6 * k : Nat) : Int))

/-- The 7x7 diagram of the comment of lines 43-49: the sensor index at each cell, rows
from top to bottom. -/
def sensorDiagram : List (List Nat) :=
  [[43, 42, 41, 40, 39, 38, 37],
   [44, 21, 20, 19, 18, 17, 36],
   [45, 22, 7, 6, 5, 16, 35],
   [46, 23, 8, 0, 4, 15, 34],
   [47, 24, 1, 2, 3, 14, 33],
   [48, 9, 10, 11, 12, 13, 32],
   [25, 26, 27, 28, 29, 30, 31]]

/-- The pictures of the ten digits in the comments of `placeDigit` (lines 431-435,
470-474, ..): five rows of five cells, from top to bottom. -/
def glyphPicture : Nat → List (List Int)
  | 0 =>
    [[0, 1, 1, 1, 0],
     [0, 1, 0, 1, 0],
     [0, 1, 0, 1, 0],
     [0, 1, 0, 1, 0],
     [0, 1, 1, 1, 0]]
  | 1 =>
    [[0, 0, 1, 0, 0],
     [0, 0, 1, 0, 0],
     [0, 0, 1, 0, 0],
     [0, 0, 1, 0, 0],
     [0, 0, 1, 0, 0]]
  | 2 =>
    [[0, 1, 1, 1, 0],
     [0, 0, 0, 1, 0],
     [0, 0, 1, 0, 0],
     [0, 1, 0, 0, 0],
     [0, 1, 1, 1, 0]]
  | 3 =>
    [[0, 1, 1, 1, 0],
     [0, 0, 0, 1, 0],
     [0, 0, 1, 1, 0],
     [0, 0, 0, 1, 0],
     [0, 1, 1, 1, 0]]
  | 4 =>
    [[0, 1, 0, 1, 0],
     [0, 1, 0, 1, 0],
     [0, 1, 1, 1, 0],
     [0, 0, 0, 1, 0],
     [0, 0, 0, 1, 0]]
  | 5 =>
    [[0, 1, 1, 1, 0],
     [0, 1, 0, 0, 0],
     [0, 1, 1, 1, 0],
     [0, 0, 0, 1, 0],
     [0, 1, 1, 1, 0]]
  | 6 =>
    [[0, 1, 0, 0, 0],
     [0, 1, 0, 0, 0],
     [0, 1, 1, 1, 0],
     [0, 1, 0, 1, 0],
     [0, 1, 1, 1, 0]]
  | 7 =>
    [[0, 1, 1, 1, 0],
     [0, 0, 0, 1, 0],
     [0, 0, 0, 1, 0],
     [0, 0, 0, 1, 0],
     [0, 0, 0, 1, 0]]
  | 8 =>
    [[0, 1, 1, 1, 0],
     [0, 1, 0, 1, 0],
     [0, 1, 1, 1, 0],
     [0, 1, 0, 1, 0],
     [0, 1, 1, 1, 0]]
  | 9 =>
    [[0, 1, 1, 1, 0],
     [0, 1, 0, 1, 0],
     [0, 1, 1, 1, 0],
     [0, 0, 0, 1, 0],
     [0, 0, 0, 1, 0]]
  | _ => []

/-- The fixed 5x5 pattern of a digit at offset `(dx, dy)` from the center: its picture
read with `y` growing upwards (the top row is `dy = 2`, the left column `dx = -2`). -/
def glyphPattern (digit : Nat) (dx dy : Int) : Int :=
  ((glyphPicture digit).getD (2 - dy).toNat []).getD (dx + 2).toNat 0

/-- The value that a list of writes `(dx, dy, v)` leaves at offset `(dx, dy)`, starting
from the value `old`: the last write to that offset. -/
def lastWrite (ws : List (Int × Int × Int)) (dx dy old : Int) : Int :=
  ws.foldl (fun v w => if w.1 = dx ∧ w.2.1 = dy then w.2.2 else v) old

/-- A controller that sets every register to 1 at each update: all six motor bits are
on at every step. -/
def allOnController : Controller Unit :=
  { setupPhenotype := fun _ b => b
    resetBrain := fun b _ => (b, fun _ => 0)
    updateStates := fun b _ => (b, fun _ => 1) }

/-! ## Vocabulary of the specification for a generation -/

/-- The best fitness in a population (fitness values are positive after evaluation). -/
def bestFitness {β : Type} (population : List (tAgent β)) : ℚ :=
  (population.map (fun a => a.fitness)).foldl max 0

/-- The agent `a` is one of the new agents of a selection step: produced by `inherit`
in generation `update` from a member of `population`, with the mutation outcome of a
slot of `EANextGen` or with that of the agent `best`. -/
def OffspringOf {β : Type} (o : Outcomes β) (self : tAgent β) (mutationRate : ℚ)
    (update : Nat) (population : List (tAgent β)) (a : tAgent β) : Prop :=
  ∃ parent, parent ∈ population ∧
    ((∃ k, a = inherit self (o.mutate k) parent mutationRate update) ∨
      a = inherit self o.mutateBest parent mutationRate update)

/-- A controller whose behaviour is read from the genome: with genome `[1]` every update
leaves bit `classify[3]` set (register `64 - 7 - 3`), with any other genome it leaves all
registers clear. -/
def geneController : Controller (List Nat) :=
  { setupPhenotype := fun genome _ => genome
    resetBrain := fun b _ => (b, fun _ => 0)
    updateStates := fun b _ => (b, fun n => if b = [1] ∧ n = 54 then 1 else 0) }

/-- A newly constructed agent with the given genome. -/
def geneAgent (genome : List Nat) : tAgent (List Nat) :=
  { genome := genome
    brain := []
    states := fun _ => 0
    fitness := 0
    classificationFitness := 0
    truePositives := fun _ => 0
    falsePositives := fun _ => 0
    trueNegatives := fun _ => 0
    falseNegatives := fun _ => 0
    truePositiveRate := fun _ => none
    trueNegativeRate := fun _ => none
    born := 0
    ancestor := none }

/-- The fitness that `executeGame` gives to an agent driven by `geneController`. -/
def geneFitness (genome : List Nat) : ℚ :=
  if genome = [1] then 1 / 10 else 1 / 1000000

/-- A population of two agents: genome `[1]` and genome `[0]`. -/
def genePopulation : List (tAgent (List Nat)) :=
  [geneAgent [1], geneAgent [0]]

/-- A 5x5 grid with centered placement, fixed camera and no noise. -/
def geneWorld : GameSettings :=
  { gridSizeX := 5, gridSizeY := 5, zoomingCamera := false, randomPlacement := false,
    noise := false, noiseAmount := 1 / 20 }

/-- Outcomes in which every mutation at a rate other than 0 turns the genome into `[0]`
and a mutation at rate 0 leaves it unchanged; shuffles leave the order in place. -/
def lossyOutcomes : Outcomes (List Nat) :=
  { shufflePopulation := id
    shuffleNextGen := id
    sort := List.insertionSort (fun a b => a.fitness ≤ b.fitness)
    randDouble := fun _ => 1 / 2
    mutate := fun _ rate genome => if rate = 0 then genome else [0]
    mutateBest := fun rate genome => if rate = 0 then genome else [0] }

/-- Tournament selection with groups of 2 on 2 agents, elitism on, mutation rate
0.0005. -/
def eliteSettings : Settings :=
  { perSiteMutationRate := 1 / 2000, populationSize := 2, tournament := true,
    roulette := false, pure_elitism := false, roulette_size := 2, rank_selection := false,
    elitism := true, top_percent := false, percent_select := 1 / 10, tourney_size := 2,
    elite_size := 1 }

/-- Pure elitism with count 1 on 2 agents, mutation rate 0. -/
def pureEliteSettings : Settings :=
  { perSiteMutationRate := 0, populationSize := 2, tournament := false,
    roulette := false, pure_elitism := true, roulette_size := 2, rank_selection := false,
    elitism := false, top_percent := false, percent_select := 1 / 10, tourney_size := 2,
    elite_size := 1 }

/-- The multiset of the fitness values of a population. -/
def fitnessValues {β : Type} (population : List (tAgent β)) : Multiset ℚ :=
  ((population.map (fun a => a.fitness) : List ℚ) : Multiset ℚ)

/-- A population of four agents with genomes `[0]`, `[1]`, `[2]`, `[3]` and fitness
1, 3, 2, 2: the agent with genome `[1]` alone has the greatest fitness. -/
def rankedPopulation : List (tAgent Unit) :=
  [{ sampleAgent with genome := [0], fitness := 1 },
   { sampleAgent with genome := [1], fitness := 3 },
   { sampleAgent with genome := [2], fitness := 2 },
   { sampleAgent with genome := [3], fitness := 2 }]

/-- The population `genePopulation` with the fitness values that an evaluation with
`geneController` gives: `1/10` for the genome `[1]` and `1/1000000` for the genome
`[0]`. -/
def evaluatedGenePopulation : List (tAgent (List Nat)) :=
  [{ geneAgent [1] with fitness := 1 / 10 }, { geneAgent [0] with fitness := 1 / 1000000 }]

/-! ## Vocabulary of the specification for the sensors and the output register -/

/-- The noise-free reading of sensor `n`: the cell `(cameraX, cameraY) + offset(n)` is
inside the grid and the grid of `digit` holds 1 there. -/
def sensorReading (g : DigitGrid) (digit : Nat) (cam : Camera) (n : Nat) : Bool :=
  match sensorOffsetMap n with
  | none => false
  | some (dx, dy) =>
    decide (0 ≤ cam.cameraX + dx ∧ cam.cameraX + dx < g.sizeX ∧
      0 ≤ cam.cameraY + dy ∧ cam.cameraY + dy < g.sizeY ∧
      g.cell digit (cam.cameraX + dx) (cam.cameraY + dy) = 1)

/-- The camera after one step in the words of the specification, from the six motor
bits: with the zooming camera enabled `up`/`down` change `cameraY` by `+1`/`-1`,
`right`/`left` change `cameraX` by `+1`/`-1`, `zoomIn` shrinks the size by 2 when it is
above 1, then `zoomOut` grows it by 2 when the result fits `gridSizeX` and 9; with the
zooming camera disabled the camera is unchanged. -/
def applyMotors (zoomingCamera : Bool) (gridSizeX : Nat)
    (up down left right zoomIn zoomOut : Nat) (cam : Camera) : Camera :=
  if zoomingCamera then
    { cameraX := cam.cameraX + (if right ≠ 0 then 1 else 0) - (if left ≠ 0 then 1 else 0)
      cameraY := cam.cameraY + (if up ≠ 0 then 1 else 0) - (if down ≠ 0 then 1 else 0)
      cameraSize :=
        if zoomOut ≠ 0 ∧
            (if zoomIn ≠ 0 ∧ cam.cameraSize > 1 then cam.cameraSize - 2
              else cam.cameraSize) + 2 ≤ gridSizeX ∧
            (if zoomIn ≠ 0 ∧ cam.cameraSize > 1 then cam.cameraSize - 2
              else cam.cameraSize) + 2 ≤ 9 then
          (if zoomIn ≠ 0 ∧ cam.cameraSize > 1 then cam.cameraSize - 2
            else cam.cameraSize) + 2
        else
          (if zoomIn ≠ 0 ∧ cam.cameraSize > 1 then cam.cameraSize - 2
            else cam.cameraSize) }
  else cam

/-- The 26 positions of the output register of width `W`, in the order move up, down,
left, right, zoom in, zoom out, `classify[0..9]`, `veto[0..9]`. -/
def outputPositions (W : Nat) : List Nat :=
  [W - 1, W - 2, W - 3, W - 4, W - 5, W - 6] ++
    (List.range 10).map (fun i => W - 7 - i) ++ (List.range 10).map (fun i => W - 17 - i)

/-- The acceptable centers of a grid: the cells `(cx, cy)` of the grid with
`cx - 2 ≥ 0`, `cx + 2 < gridSizeX`, `cy - 2 ≥ 0`, `cy + 2 < gridSizeY`. -/
def acceptableCenters (gridSizeX gridSizeY : Nat) : Finset (Int × Int) :=
  ((Finset.Ico (0 : Int) gridSizeX) ×ˢ (Finset.Ico (0 : Int) gridSizeY)).filter
    (fun c => validPlacement gridSizeX gridSizeY c.1 c.2 = true)

/-- A controller for a register of width 128 that at every update sets the zoom-out
bit (register `128 - 6`) and register 30, and clears all other registers. -/
def staleController : Controller Unit :=
  { setupPhenotype := fun _ b => b
    resetBrain := fun b _ => (b, fun _ => 0)
    updateStates := fun b _ => (b, fun n => if n = 30 ∨ n = 122 then 1 else 0) }

/-! ## Vocabulary of the specification for the tracked best and the lineage -/

/-- The walk from an agent through the `ancestor` links: the agent first, the root (the
agent without ancestor) last. -/
def ancestorChain {β : Type} : Option (tAgent β) → List (tAgent β)
  | none => []
  | some a => a :: ancestorChain a.ancestor
termination_by cur => sizeOf cur
decreasing_by
  have key : ∀ x : tAgent β, sizeOf x.ancestor < sizeOf (some x) := by
    intro x
    cases x
    simp only [Option.some.sizeOf_spec, tAgent.mk.sizeOf_spec]
    omega
  exact key _

/-- The running maximum of the evaluation loop over the agents `rs` evaluated so far:
no `classificationFitness` exceeds `m`, and either `m` is still the initial `0` with
index `0`, or `index` is the first agent whose `classificationFitness` is `m`. -/
def RunningMax {β : Type} (rs : List (tAgent β)) (m : ℚ) (index : Nat) : Prop :=
  (∀ j, j < rs.length → classificationFitnessAt rs j ≤ m) ∧
    ((m = 0 ∧ index = 0) ∨
      (index < rs.length ∧ classificationFitnessAt rs index = m ∧
        ∀ j, j < index → classificationFitnessAt rs j < m))

/-- A sample line of descent: a root agent without ancestor (born 0). -/
def lineageRoot : tAgent (List Nat) :=
  geneAgent [0]

/-- A sample line of descent: an offspring of `lineageRoot`, born in generation 1. -/
def lineageMiddle : tAgent (List Nat) :=
  { geneAgent [1] with born := 1, ancestor := some lineageRoot }

/-- A sample line of descent: an offspring of `lineageMiddle`, born in generation 2. -/
def lineageTip : tAgent (List Nat) :=
  { geneAgent [0] with born := 2, ancestor := some lineageMiddle }

/-! ## `main`: the option `-rs` (lines 288-294) -/

/-- The body of the option `-rs`: `rank_selection = true; tournament = false;`. -/
def rankSelectionOption (cfg : Settings) : Settings :=
  { cfg with rank_selection := true, tournament := false }

/-- The globals of lines 45-74 before any option is read, for a population of `n`
agents: tournament selection with groups of 2. -/
def defaultSettings (n : Nat) : Settings :=
  { perSiteMutationRate := 1 / 2000, populationSize := n, tournament := true,
    roulette := false, pure_elitism := false, roulette_size := 2, rank_selection := false,
    elitism := false, top_percent := false, percent_select := 1 / 10, tourney_size := 2,
    elite_size := 1 }

/-! ## Vocabulary of the specification for the claims of an evaluation -/

/-- The digits among `0..9` claimed at the end of the trial of `digit` started from
`agent`, in increasing order. -/
def claimedDigits {β : Type} (C : Controller β) (maxNodes : Nat) (g : DigitGrid)
    (zoomingCamera : Bool) (agent : tAgent β) (digit : Nat) : List Nat :=
  (List.range 10).filter
    (fun i => decide (claimed (trialClassify C maxNodes g zoomingCamera agent digit)
      (trialVeto C maxNodes g zoomingCamera agent digit) i))

/-- The successive trials of an evaluation that runs the digits of the list in order,
starting from `agent`: the true digit of each trial with the digits claimed in it. -/
def trialClaims {β : Type} (C : Controller β) (maxNodes : Nat) (g : DigitGrid)
    (zoomingCamera : Bool) : List Nat → tAgent β → List (Nat × List Nat)
  | [], _ => []
  | digit :: rest, agent =>
    (digit, claimedDigits C maxNodes g zoomingCamera agent digit) ::
      trialClaims C maxNodes g zoomingCamera rest
        (runTrial C maxNodes g zoomingCamera agent digit)

/-- The score of a trial from its true digit and its claimed digits: `1/k` when the true
digit is among the `k` claims, else `0`. -/
def claimScore (r : Nat × List Nat) : ℚ :=
  if r.1 ∈ r.2 then 1 / (r.2.length : ℚ) else 0

/-! ## Vocabulary of the specification for the order of the trials -/

/-- The hypothesis of the specification on a controller whose outputs in a trial are a
function of the sensor registers presented since `resetBrain`: the brain has a part
`prog` (what `setupPhenotype` compiled from the genome) that neither `updateStates` nor
`resetBrain` changes, and what `resetBrain` leaves depends on that part only, not on the
registers or the rest of the brain left by an earlier trial. -/
def Controller.TrialDeterministic {β : Type} (C : Controller β) : Prop :=
  ∃ (γ : Type) (prog : β → γ),
    (∀ b st, prog (C.updateStates b st).1 = prog b) ∧
    (∀ b st, prog (C.resetBrain b st).1 = prog b) ∧
    ∀ b st b' st', prog b = prog b' → C.resetBrain b st = C.resetBrain b' st'

/-! ## Vocabulary of the specification for the window of the camera -/

/-- The ring of an offset: the greater of `|dx|` and `|dy|`. -/
def offsetRing (dx dy : Int) : Nat :=
  max dx.natAbs dy.natAbs

/-- The position of the offset `(dx, dy)` in the spiral: 0 for the center; on ring `k`,
from the base `(2k-1)^2`, the bottom edge from left to right, then the right edge
upwards, the top edge from right to left and the left edge downwards. -/
def offsetIndex (dx dy : Int) : Nat :=
  if offsetRing dx dy = 0 then 0
  else if dy = -(offsetRing dx dy : Int) then
    (2 * offsetRing dx dy - 1) * (2 * offsetRing dx dy - 1) +
      (dx + (offsetRing dx dy : Int)).toNat
  else if dx = (offsetRing dx dy : Int) then
    (2 * offsetRing dx dy - 1) * (2 * offsetRing dx dy - 1) + 2 * offsetRing dx dy +
      (dy + (offsetRing dx dy : Int)).toNat
  else if dy = (offsetRing dx dy : Int) then
    (2 * offsetRing dx dy - 1) * (2 * offsetRing dx dy - 1) + 4 * offsetRing dx dy +
      ((offsetRing dx dy : Int) - dx).toNat
  else
    (2 * offsetRing dx dy - 1) * (2 * offsetRing dx dy - 1) + 6 * offsetRing dx dy +
      ((offsetRing dx dy : Int) - dy).toNat

/-- Lines 257-260: the cells `(sensorX, sensorY) = (cameraX, cameraY) + sensorOffsetMap[sensor]`
at which the sensors `0 .. cameraSize^2 - 1` of a camera look, in the order of the
sensors. -/
def cameraWindow (cam : Camera) : List (Int × Int) :=
  (List.range (cam.cameraSize * cam.cameraSize)).filterMap
    (fun sensor => (sensorOffsetMap sensor).map
      (fun p => (cam.cameraX + p.1, cam.cameraY + p.2)))

/-! ## Vocabulary of the specification for the rounded arithmetic -/

/-- The scores of the successive trials of an evaluation as the program holds them: each
trial score of the specification (`1/k` or `0`) rounded to `float`; the evaluation runs
the digits of the list in order, starting from `agent`. -/
def trialScoresFloat {β : Type} (C : Controller β) (maxNodes : Nat) (g : DigitGrid)
    (zoomingCamera : Bool) : List Nat → tAgent β → List ℚ
  | [], _ => []
  | digit :: rest, agent =>
    toFloat (specTrialScore digit (trialClassify C maxNodes g zoomingCamera agent digit)
        (trialVeto C maxNodes g zoomingCamera agent digit)) ::
      trialScoresFloat C maxNodes g zoomingCamera rest
        (runTrialFloat C maxNodes g zoomingCamera agent digit)

/-- A sample controller on the sample agent: every update leaves the bits `classify[3]`,
`classify[4]` and `classify[5]` set (registers `64 - 7 - 3`, `64 - 7 - 4`, `64 - 7 - 5`)
and all other registers clear: three digits are claimed in every trial. -/
def tripleController : Controller Unit :=
  { setupPhenotype := fun _ b => b
    resetBrain := fun b _ => (b, fun _ => 0)
    updateStates := fun b _ => (b, fun n => if n = 54 ∨ n = 53 ∨ n = 52 then 1 else 0) }

/-- The cut-off that the program holds in `random_cutoff` for the group of slot `s`. -/
def groupCutoffFloat (fitness : Nat → ℚ) (randDouble : Nat → ℚ)
    (populationSize groupSize s : Nat) : ℚ :=
  randomCutoffFloat fitness (randDouble (s / groupSize)) (groupStart groupSize s)
    (groupLength populationSize groupSize s)

/-- Two agents with the fitness `1/2` (5 of the 10 trials had the score 1). -/
def halfPopulation : List (tAgent Unit) :=
  [{ sampleAgent with fitness := 1 / 2 }, { sampleAgent with fitness := 1 / 2 }]

/-- Outcomes in which no shuffle moves an agent and every `randDouble` is the `double`
quotient of `rand()` by `RAND_MAX = 2147483647`. -/
def drawOutcomes (rand : Nat) : Outcomes Unit :=
  { shufflePopulation := id
    shuffleNextGen := id
    sort := List.insertionSort (fun a b => a.fitness ≤ b.fitness)
    randDouble := fun _ => toDouble ((rand : ℚ) / 2147483647)
    mutate := fun _ _ genome => genome
    mutateBest := fun _ genome => genome }

/-! # Theorems -/

/-! ## The scoring loop, field by field -/

section ScoreLemmas

variable {β : Type} (digit : Nat) (classify veto : Nat → Nat)

theorem guessed_iff (i : Nat) :
    guessedThisDigit classify veto i = true ↔ claimed classify veto i := by
  simp [guessedThisDigit, claimed]

theorem scoreDigit_num (s : ScoreLoop β) (i : Nat) :
    (scoreDigit digit classify veto s i).numDigitsGuessed =
      s.numDigitsGuessed + (if claimed classify veto i then 1 else 0) := by
  have h := guessed_iff classify veto i
  unfold scoreDigit
  by_cases hc : claimed classify veto i
  · have hg := h.mpr hc
    by_cases hd : i = digit
    · subst hd
      simp [hg, hc]
    · simp [hg, hc, hd]
  · have hg : guessedThisDigit classify veto i = false := by
      cases hb : guessedThisDigit classify veto i
      · rfl
      · exact absurd (h.mp hb) hc
    by_cases hd : i = digit
    · subst hd
      simp [hg, hc]
    · simp [hg, hc, hd]

theorem scoreDigit_score (s : ScoreLoop β) (i : Nat) :
    (scoreDigit digit classify veto s i).score =
      if claimed classify veto i ∧ i = digit then 1 else s.score := by
  have h := guessed_iff classify veto i
  unfold scoreDigit
  by_cases hc : claimed classify veto i
  · have hg := h.mpr hc
    by_cases hd : i = digit
    · subst hd
      simp [hg, hc]
    · simp [hg, hc, hd]
  · have hg : guessedThisDigit classify veto i = false := by
      cases hb : guessedThisDigit classify veto i
      · rfl
      · exact absurd (h.mp hb) hc
    by_cases hd : i = digit
    · subst hd
      simp [hg, hc]
    · simp [hg, hc, hd]

theorem scoreDigit_agent (s : ScoreLoop β) (i : Nat) :
    (scoreDigit digit classify veto s i).agent =
      { s.agent with
        truePositives :=
          if claimed classify veto i ∧ i = digit then incr s.agent.truePositives i
          else s.agent.truePositives
        falsePositives :=
          if claimed classify veto i ∧ i ≠ digit then incr s.agent.falsePositives i
          else s.agent.falsePositives
        falseNegatives :=
          if ¬ claimed classify veto i ∧ i = digit then incr s.agent.falseNegatives i
          else s.agent.falseNegatives
        trueNegatives :=
          if ¬ claimed classify veto i ∧ i ≠ digit then incr s.agent.trueNegatives i
          else s.agent.trueNegatives } := by
  have h := guessed_iff classify veto i
  unfold scoreDigit
  by_cases hc : claimed classify veto i
  · have hg := h.mpr hc
    by_cases hd : i = digit
    · subst hd
      simp [hg, hc]
    · simp [hg, hc, hd]
  · have hg : guessedThisDigit classify veto i = false := by
      cases hb : guessedThisDigit classify veto i
      · rfl
      · exact absurd (h.mp hb) hc
    by_cases hd : i = digit
    · subst hd
      simp [hg, hc]
    · simp [hg, hc, hd]

theorem scoreOver_num (l : List Nat) (s : ScoreLoop β) :
    (scoreOver digit classify veto l s).numDigitsGuessed =
      s.numDigitsGuessed + (l.countP (fun i => decide (claimed classify veto i)) : ℕ) := by
  induction l generalizing s with
  | nil => simp [scoreOver]
  | cons i l ih =>
    have h := ih (scoreDigit digit classify veto s i)
    simp only [scoreOver, List.foldl_cons] at h ⊢
    rw [h, scoreDigit_num, List.countP_cons]
    by_cases hc : claimed classify veto i
    · simp [hc]; ring
    · simp [hc]

theorem scoreOver_score (l : List Nat) (s : ScoreLoop β) :
    (scoreOver digit classify veto l s).score =
      if claimed classify veto digit ∧ digit ∈ l then 1 else s.score := by
  induction l generalizing s with
  | nil => simp [scoreOver]
  | cons i l ih =>
    have h := ih (scoreDigit digit classify veto s i)
    simp only [scoreOver, List.foldl_cons] at h ⊢
    rw [h, scoreDigit_score]
    by_cases hc : claimed classify veto digit
    · by_cases hm : digit ∈ l
      · simp [hc, hm]
      · by_cases hd : i = digit
        · subst hd
          simp [hc]
        · have hd2 : ¬ digit = i := fun e => hd e.symm
          simp [hc, hm, hd, hd2]
    · by_cases hd : i = digit
      · subst hd
        simp [hc]
      · simp [hc, hd]

theorem scoreOver_fitness (l : List Nat) (s : ScoreLoop β) :
    (scoreOver digit classify veto l s).agent.classificationFitness =
        s.agent.classificationFitness ∧
      (scoreOver digit classify veto l s).agent.fitness = s.agent.fitness := by
  induction l generalizing s with
  | nil => simp [scoreOver]
  | cons i l ih =>
    have h := ih (scoreDigit digit classify veto s i)
    simp only [scoreOver, List.foldl_cons] at h ⊢
    rw [h.1, h.2, scoreDigit_agent]
    simp

theorem scoreOver_counters (l : List Nat) (s : ScoreLoop β) (j : Nat) :
    (scoreOver digit classify veto l s).agent.truePositives j =
        s.agent.truePositives j +
          (if claimed classify veto j ∧ j = digit then l.count j else 0) ∧
      (scoreOver digit classify veto l s).agent.falsePositives j =
        s.agent.falsePositives j +
          (if claimed classify veto j ∧ j ≠ digit then l.count j else 0) ∧
      (scoreOver digit classify veto l s).agent.falseNegatives j =
        s.agent.falseNegatives j +
          (if ¬ claimed classify veto j ∧ j = digit then l.count j else 0) ∧
      (scoreOver digit classify veto l s).agent.trueNegatives j =
        s.agent.trueNegatives j +
          (if ¬ claimed classify veto j ∧ j ≠ digit then l.count j else 0) := by
  induction l generalizing s with
  | nil => simp [scoreOver]
  | cons i l ih =>
    have h := ih (scoreDigit digit classify veto s i)
    simp only [scoreOver, List.foldl_cons] at h ⊢
    obtain ⟨h1, h2, h3, h4⟩ := h
    rw [h1, h2, h3, h4, scoreDigit_agent]
    by_cases hij : i = j
    · subst hij
      by_cases hd : i = digit
      · subst hd
        by_cases hc : claimed classify veto i <;>
          simp [hc, incr, List.count_cons] <;> omega
      · by_cases hc : claimed classify veto i <;>
          simp [hc, hd, incr, List.count_cons] <;> omega
    · have hji : ¬ j = i := fun e => hij e.symm
      by_cases hd : i = digit
      · subst hd
        by_cases hc : claimed classify veto i <;>
          simp [hc, incr, List.count_cons, hij, hji]
      · by_cases hc : claimed classify veto i <;>
          simp [hc, hd, incr, List.count_cons, hij, hji]

end ScoreLemmas

/-! ## One trial -/

section TrialLemmas

variable {β : Type} (digit : Nat) (classify veto : Nat → Nat)

theorem scoreLoop_eq (agent : tAgent β) :
    scoreLoop digit classify veto agent =
      scoreOver digit classify veto (List.range 10)
        { agent := agent, score := 0, numDigitsGuessed := 0 } := rfl

theorem count_range_ten (j : Nat) : (List.range 10).count j = if j < 10 then 1 else 0 := by
  by_cases h : j < 10
  · rw [if_pos h]
    exact List.count_eq_one_of_mem (List.nodup_range 10) (List.mem_range.mpr h)
  · rw [if_neg h]
    exact List.count_eq_zero_of_not_mem (fun hm => h (List.mem_range.mp hm))

theorem numClaimed_pos_of_claimed (hd : digit < 10) (hc : claimed classify veto digit) :
    0 < numClaimed classify veto := by
  unfold numClaimed
  rw [List.countP_pos_iff]
  exact ⟨digit, List.mem_range.mpr hd, by simpa using hc⟩

theorem numClaimed_le : numClaimed classify veto ≤ 10 := by
  unfold numClaimed
  have h := List.countP_le_length (fun i => decide (claimed classify veto i))
    (l := List.range 10)
  simpa using h

/-- The amount one trial adds to `classificationFitness`, in closed form. -/
theorem scoreTrial_fitness (agent : tAgent β) :
    (scoreTrial digit classify veto agent).classificationFitness =
        agent.classificationFitness +
          (if claimed classify veto digit ∧ digit < 10 then
            1 / (numClaimed classify veto : ℚ) else 0) ∧
      (scoreTrial digit classify veto agent).fitness = agent.fitness := by
  have hn := scoreOver_num digit classify veto (List.range 10)
    { agent := agent, score := 0, numDigitsGuessed := 0 }
  have hs := scoreOver_score digit classify veto (List.range 10)
    { agent := agent, score := 0, numDigitsGuessed := 0 }
  have hf := scoreOver_fitness digit classify veto (List.range 10)
    { agent := agent, score := 0, numDigitsGuessed := 0 }
  simp only [zero_add, List.mem_range] at hn hs hf
  unfold scoreTrial
  simp only [scoreLoop_eq]
  by_cases hk : 0 < numClaimed classify veto
  · have hk2 : (scoreOver digit classify veto (List.range 10)
        { agent := agent, score := 0, numDigitsGuessed := 0 }).numDigitsGuessed > 0 := by
      rw [hn]
      exact_mod_cast hk
    rw [if_pos hk2]
    simp only [hf.1, hf.2, hn, hs]
    refine ⟨?_, trivial⟩
    by_cases hc : claimed classify veto digit ∧ digit < 10
    · simp [hc, numClaimed]
    · simp [hc]
  · have hk0 : numClaimed classify veto = 0 := by omega
    have hk2 : ¬ (scoreOver digit classify veto (List.range 10)
        { agent := agent, score := 0, numDigitsGuessed := 0 }).numDigitsGuessed > 0 := by
      rw [hn]
      unfold numClaimed at hk0
      simp [hk0]
    rw [if_neg hk2]
    refine ⟨?_, hf.2⟩
    rw [hf.1, hk0]
    simp

/-- The counters after one trial, in closed form. -/
theorem scoreTrial_counters (agent : tAgent β) (j : Nat) (hj : j < 10) :
    (scoreTrial digit classify veto agent).truePositives j =
        agent.truePositives j + (if claimed classify veto j ∧ j = digit then 1 else 0) ∧
      (scoreTrial digit classify veto agent).falsePositives j =
        agent.falsePositives j + (if claimed classify veto j ∧ j ≠ digit then 1 else 0) ∧
      (scoreTrial digit classify veto agent).falseNegatives j =
        agent.falseNegatives j + (if ¬ claimed classify veto j ∧ j = digit then 1 else 0) ∧
      (scoreTrial digit classify veto agent).trueNegatives j =
        agent.trueNegatives j + (if ¬ claimed classify veto j ∧ j ≠ digit then 1 else 0) := by
  have hc := scoreOver_counters digit classify veto (List.range 10)
    { agent := agent, score := 0, numDigitsGuessed := 0 } j
  rw [count_range_ten, if_pos hj] at hc
  unfold scoreTrial
  simp only [scoreLoop_eq]
  by_cases hk : (scoreOver digit classify veto (List.range 10)
      { agent := agent, score := 0, numDigitsGuessed := 0 }).numDigitsGuessed > 0
  · rw [if_pos hk]
    exact hc
  · rw [if_neg hk]
    exact hc

end TrialLemmas

/-! ## A full evaluation -/

section GameLemmas

variable {β : Type} (C : Controller β) (maxNodes : Nat) (g : DigitGrid) (zoomingCamera : Bool)

theorem specTrialScore_eq (digit : Nat) (classify veto : Nat → Nat) (hd : digit < 10) :
    specTrialScore digit classify veto =
      if claimed classify veto digit ∧ digit < 10 then
        1 / (numClaimed classify veto : ℚ) else 0 := by
  unfold specTrialScore
  by_cases hc : claimed classify veto digit
  · have hk := numClaimed_pos_of_claimed digit classify veto hd hc
    simp [hc, hk, hd]
  · simp [hc]

theorem specTrialScore_bounds (digit : Nat) (classify veto : Nat → Nat) :
    0 ≤ specTrialScore digit classify veto ∧ specTrialScore digit classify veto ≤ 1 := by
  unfold specTrialScore
  split_ifs with h
  · have hk : (1 : ℚ) ≤ (numClaimed classify veto : ℚ) := by exact_mod_cast h.2
    constructor
    · positivity
    · rw [div_le_one (by linarith)]
      exact hk
  · exact ⟨le_refl 0, zero_le_one⟩

theorem runTrial_fitness (agent : tAgent β) (digit : Nat) (hd : digit < 10) :
    (runTrial C maxNodes g zoomingCamera agent digit).classificationFitness =
        agent.classificationFitness +
          specTrialScore digit (trialClassify C maxNodes g zoomingCamera agent digit)
            (trialVeto C maxNodes g zoomingCamera agent digit) ∧
      (runTrial C maxNodes g zoomingCamera agent digit).fitness = agent.fitness := by
  unfold runTrial
  simp only []
  rw [(scoreTrial_fitness digit _ _ _).1, (scoreTrial_fitness digit _ _ _).2,
    specTrialScore_eq digit _ _ hd]
  exact ⟨rfl, rfl⟩

theorem scoreTrial_confusionTotal (digit : Nat) (classify veto : Nat → Nat)
    (agent : tAgent β) (i : Nat) (hi : i < 10) :
    confusionTotal (scoreTrial digit classify veto agent) i = confusionTotal agent i + 1 := by
  unfold confusionTotal
  obtain ⟨h1, h2, h3, h4⟩ := scoreTrial_counters digit classify veto agent i hi
  rw [h1, h2, h3, h4]
  by_cases hd : i = digit
  · subst hd
    by_cases hc : claimed classify veto i <;> simp [hc] <;> omega
  · by_cases hc : claimed classify veto i <;> simp [hc, hd] <;> omega

theorem runTrial_confusionTotal (agent : tAgent β) (digit i : Nat) (hi : i < 10) :
    confusionTotal (runTrial C maxNodes g zoomingCamera agent digit) i =
      confusionTotal agent i + 1 := by
  unfold runTrial
  simp only []
  rw [scoreTrial_confusionTotal digit _ _ _ i hi]
  rfl

theorem trials_confusionTotal (digits : List Nat) (agent : tAgent β) (i : Nat) (hi : i < 10) :
    confusionTotal (digits.foldl (runTrial C maxNodes g zoomingCamera) agent) i =
      confusionTotal agent i + digits.length := by
  induction digits generalizing agent with
  | nil => simp
  | cons d ds ih =>
    rw [List.foldl_cons, ih, runTrial_confusionTotal C maxNodes g zoomingCamera agent d i hi,
      List.length_cons]
    omega

theorem trialScores_length (digits : List Nat) (agent : tAgent β) :
    (trialScores C maxNodes g zoomingCamera digits agent).length = digits.length := by
  induction digits generalizing agent with
  | nil => simp [trialScores]
  | cons d ds ih => simp [trialScores, ih]

theorem trialScores_bounds (digits : List Nat) (agent : tAgent β) :
    0 ≤ (trialScores C maxNodes g zoomingCamera digits agent).sum ∧
      (trialScores C maxNodes g zoomingCamera digits agent).sum ≤ digits.length := by
  induction digits generalizing agent with
  | nil => simp [trialScores]
  | cons d ds ih =>
    have hb := specTrialScore_bounds d (trialClassify C maxNodes g zoomingCamera agent d)
      (trialVeto C maxNodes g zoomingCamera agent d)
    have h := ih (runTrial C maxNodes g zoomingCamera agent d)
    simp only [trialScores, List.sum_cons, List.length_cons, Nat.cast_add, Nat.cast_one]
    constructor <;> linarith [hb.1, hb.2, h.1, h.2]

theorem trials_fitness (digits : List Nat) (agent : tAgent β) (hd : ∀ d ∈ digits, d < 10) :
    (digits.foldl (runTrial C maxNodes g zoomingCamera) agent).classificationFitness =
        agent.classificationFitness +
          (trialScores C maxNodes g zoomingCamera digits agent).sum := by
  induction digits generalizing agent with
  | nil => simp [trialScores]
  | cons d ds ih =>
    have hd0 : d < 10 := hd d (List.mem_cons_self d ds)
    have hds : ∀ x ∈ ds, x < 10 := fun x hx => hd x (List.mem_cons_of_mem d hx)
    rw [List.foldl_cons, ih _ hds, (runTrial_fitness C maxNodes g zoomingCamera agent d hd0).1]
    simp only [trialScores, List.sum_cons]
    ring

theorem finishGame_confusionTotal (a : tAgent β) (i : Nat) :
    confusionTotal (finishGame a) i = confusionTotal a i := rfl

theorem resetAgent_confusionTotal (a : tAgent β) (i : Nat) (hi : i < 10) :
    confusionTotal (resetAgent C a) i = 0 := by
  simp [confusionTotal, resetAgent, hi]

theorem playGame_confusionTotal (digits : List Nat) (a : tAgent β) (i : Nat) (hi : i < 10) :
    confusionTotal (playGame C maxNodes g zoomingCamera digits a) i = digits.length := by
  unfold playGame
  rw [finishGame_confusionTotal, trials_confusionTotal C maxNodes g zoomingCamera _ _ i hi,
    resetAgent_confusionTotal C a i hi]
  omega

theorem playGame_fitness (digits : List Nat) (a : tAgent β) (hd : ∀ d ∈ digits, d < 10) :
    (playGame C maxNodes g zoomingCamera digits a).classificationFitness =
        (trialScores C maxNodes g zoomingCamera digits (resetAgent C a)).sum / 10 ∧
      (playGame C maxNodes g zoomingCamera digits a).fitness =
        (if (playGame C maxNodes g zoomingCamera digits a).classificationFitness ≤ 0
          then 1 / 1000000
          else (playGame C maxNodes g zoomingCamera digits a).classificationFitness) := by
  have h := trials_fitness C maxNodes g zoomingCamera digits (resetAgent C a) hd
  have h0 : (resetAgent C a).classificationFitness = 0 := rfl
  rw [h0, zero_add] at h
  unfold playGame finishGame
  simp only [h]
  exact ⟨trivial, trivial⟩

theorem placeDigits_centered (l : List Nat) (g0 : DigitGrid) (draws : List (ℚ × ℚ)) :
    (placeDigits false l g0 draws).isSome = true := by
  induction l generalizing g0 draws with
  | nil => simp [placeDigits]
  | cons d ds ih =>
    simp only [placeDigits, digitCenter]
    exact ih _ _

end GameLemmas

/-! ## Claims about `tGame::executeGame` -/

section GameClaims

variable {β : Type}

/-- C1: in the trial of a true digit `digit` in `0..9`, for all classify and veto
readings, with `k` the number of claimed digits among `0..9`, the amount added to
`classificationFitness` is exactly `1/k` if `digit` is claimed (and then `k > 0`) and
`0` otherwise; the same holds for the body of the trial loop of `executeGame`, whose
readings are the register bits left by the controller. -/
theorem trial_reward_split_among_claims (digit : Nat) (hd : digit < 10)
    (classify veto : Nat → Nat) (agent : tAgent β) :
    ((scoreTrial digit classify veto agent).classificationFitness -
          agent.classificationFitness =
        if claimed classify veto digit then 1 / (numClaimed classify veto : ℚ) else 0) ∧
      (claimed classify veto digit → 0 < numClaimed classify veto) ∧
      (∀ (C : Controller β) (maxNodes : Nat) (g : DigitGrid) (zoomingCamera : Bool),
        (runTrial C maxNodes g zoomingCamera agent digit).classificationFitness -
            agent.classificationFitness =
          if claimed (trialClassify C maxNodes g zoomingCamera agent digit)
              (trialVeto C maxNodes g zoomingCamera agent digit) digit then
            1 / (numClaimed (trialClassify C maxNodes g zoomingCamera agent digit)
              (trialVeto C maxNodes g zoomingCamera agent digit) : ℚ)
          else 0) := by
  have key : ∀ (c v : Nat → Nat) (a : tAgent β),
      (scoreTrial digit c v a).classificationFitness - a.classificationFitness =
        if claimed c v digit then 1 / (numClaimed c v : ℚ) else 0 := by
    intro c v a
    rw [(scoreTrial_fitness digit c v a).1]
    by_cases hc : claimed c v digit
    · simp [hc, hd]
    · simp [hc]
  refine ⟨key classify veto agent, numClaimed_pos_of_claimed digit classify veto hd, ?_⟩
  intro C maxNodes g zoomingCamera
  exact key _ _ _

/-- Witness of C1: true digit 3, digits 3 and 5 claimed, so the trial adds `1/2`. -/
theorem trial_reward_split_among_claims_witness :
    (scoreTrial 3 (fun i => if i = 3 ∨ i = 5 then 1 else 0) (fun _ => 0)
        sampleAgent).classificationFitness - sampleAgent.classificationFitness = 1 / 2 := by
  have h := (trial_reward_split_among_claims 3 (by decide)
    (fun i => if i = 3 ∨ i = 5 then 1 else 0) (fun _ => 0) sampleAgent).1
  rw [h]
  have hk : numClaimed (fun i => if i = 3 ∨ i = 5 then 1 else 0) (fun _ => 0) = 2 := by
    decide
  rw [hk]
  norm_num [claimed]

/-- C2: in the trial of true digit `digit`, for every digit `i` in `0..9` exactly one of
the four counters of `i` grows by 1 and the other three keep their value: the
true-positive counter if `i` is claimed and `i = digit`, the false-positive counter if
claimed and `i ≠ digit`, the false-negative counter if not claimed and `i = digit`, the
true-negative counter if not claimed and `i ≠ digit`.  Stated for all readings
(`scoreTrial`) and for the body of the trial loop (`runTrial`). -/
theorem trial_updates_one_bucket (digit i : Nat) (hi : i < 10)
    (classify veto : Nat → Nat) (agent : tAgent β) :
    ((scoreTrial digit classify veto agent).truePositives i =
          agent.truePositives i + (if claimed classify veto i ∧ i = digit then 1 else 0) ∧
        (scoreTrial digit classify veto agent).falsePositives i =
          agent.falsePositives i + (if claimed classify veto i ∧ i ≠ digit then 1 else 0) ∧
        (scoreTrial digit classify veto agent).falseNegatives i =
          agent.falseNegatives i + (if ¬ claimed classify veto i ∧ i = digit then 1 else 0) ∧
        (scoreTrial digit classify veto agent).trueNegatives i =
          agent.trueNegatives i +
            (if ¬ claimed classify veto i ∧ i ≠ digit then 1 else 0)) ∧
      (∀ (C : Controller β) (maxNodes : Nat) (g : DigitGrid) (zoomingCamera : Bool),
        (runTrial C maxNodes g zoomingCamera agent digit).truePositives i =
          agent.truePositives i +
            (if claimed (trialClassify C maxNodes g zoomingCamera agent digit)
                (trialVeto C maxNodes g zoomingCamera agent digit) i ∧ i = digit
              then 1 else 0) ∧
        (runTrial C maxNodes g zoomingCamera agent digit).falsePositives i =
          agent.falsePositives i +
            (if claimed (trialClassify C maxNodes g zoomingCamera agent digit)
                (trialVeto C maxNodes g zoomingCamera agent digit) i ∧ i ≠ digit
              then 1 else 0) ∧
        (runTrial C maxNodes g zoomingCamera agent digit).falseNegatives i =
          agent.falseNegatives i +
            (if ¬ claimed (trialClassify C maxNodes g zoomingCamera agent digit)
                (trialVeto C maxNodes g zoomingCamera agent digit) i ∧ i = digit
              then 1 else 0) ∧
        (runTrial C maxNodes g zoomingCamera agent digit).trueNegatives i =
          agent.trueNegatives i +
            (if ¬ claimed (trialClassify C maxNodes g zoomingCamera agent digit)
                (trialVeto C maxNodes g zoomingCamera agent digit) i ∧ i ≠ digit
              then 1 else 0)) := by
  refine ⟨scoreTrial_counters digit classify veto agent i hi, ?_⟩
  intro C maxNodes g zoomingCamera
  exact scoreTrial_counters digit _ _ _ i hi

/-- Witness of C2: true digit 3, digit 5 claimed: the false-positive counter of 5 is the
only one of its four counters to change. -/
theorem trial_updates_one_bucket_witness :
    (scoreTrial 3 (fun i => if i = 3 ∨ i = 5 then 1 else 0) (fun _ => 0)
          sampleAgent).truePositives 5 = 0 ∧
      (scoreTrial 3 (fun i => if i = 3 ∨ i = 5 then 1 else 0) (fun _ => 0)
          sampleAgent).falsePositives 5 = 1 ∧
      (scoreTrial 3 (fun i => if i = 3 ∨ i = 5 then 1 else 0) (fun _ => 0)
          sampleAgent).falseNegatives 5 = 0 ∧
      (scoreTrial 3 (fun i => if i = 3 ∨ i = 5 then 1 else 0) (fun _ => 0)
          sampleAgent).trueNegatives 5 = 0 := by
  have h := (trial_updates_one_bucket 3 5 (by decide)
    (fun i => if i = 3 ∨ i = 5 then 1 else 0) (fun _ => 0) sampleAgent).1
  simpa [claimed, sampleAgent] using h

end GameClaims


section EvaluationClaims

variable {β : Type}

theorem executeGame_some (C : Controller β) (maxNodes : Nat)
    (shuffle : List Nat → List Nat) (draws : List (ℚ × ℚ)) (eddAgent : tAgent β)
    (dataFile report : Bool) (gridSizeX gridSizeY : Nat)
    (zoomingCamera randomPlacement noise : Bool) (noiseAmount : ℚ)
    (r : tAgent β × Option (Nat × ℚ))
    (h : executeGame C maxNodes shuffle draws eddAgent dataFile report gridSizeX gridSizeY
      zoomingCamera randomPlacement noise noiseAmount = some r) :
    ∃ g, placeDigits randomPlacement (List.range 10) (emptyGrid gridSizeX gridSizeY) draws =
        some g ∧
      r.1 = playGame C maxNodes g zoomingCamera (shuffle (List.range 10)) eddAgent := by
  unfold executeGame at h
  cases hp : placeDigits randomPlacement (List.range 10) (emptyGrid gridSizeX gridSizeY) draws with
  | none => rw [hp] at h; simp at h
  | some g =>
    rw [hp] at h
    simp only [Option.some.injEq] at h
    exact ⟨g, rfl, by rw [← h]⟩

theorem executeGame_centered (C : Controller β) (maxNodes : Nat)
    (shuffle : List Nat → List Nat) (draws : List (ℚ × ℚ)) (eddAgent : tAgent β)
    (dataFile report : Bool) (gridSizeX gridSizeY : Nat)
    (zoomingCamera noise : Bool) (noiseAmount : ℚ) :
    (executeGame C maxNodes shuffle draws eddAgent dataFile report gridSizeX gridSizeY
      zoomingCamera false noise noiseAmount).isSome = true := by
  unfold executeGame
  have h := placeDigits_centered (List.range 10) (emptyGrid gridSizeX gridSizeY) draws
  cases hp : placeDigits false (List.range 10) (emptyGrid gridSizeX gridSizeY) draws with
  | none => rw [hp] at h; simp at h
  | some g => simp

theorem shuffled_digits (digits : List Nat) (hperm : digits.Perm (List.range 10)) :
    digits.length = 10 ∧ ∀ d ∈ digits, d < 10 := by
  refine ⟨by simpa using hperm.length_eq, ?_⟩
  intro d hd
  exact List.mem_range.mp (hperm.mem_iff.mp hd)

/-- C3: after a full evaluation by `executeGame`, whatever the counters of the agent held
before the call and whatever the controller does, every digit `i` in `0..9` has
`TP[i] + FP[i] + TN[i] + FN[i] = 10`.  The trial order is any permutation of `0..9`;
with centered placement the evaluation always completes. -/
theorem confusion_counters_total_ten (C : Controller β) (maxNodes : Nat)
    (shuffle : List Nat → List Nat) (draws : List (ℚ × ℚ)) (eddAgent : tAgent β)
    (dataFile report : Bool) (gridSizeX gridSizeY : Nat)
    (zoomingCamera randomPlacement noise : Bool) (noiseAmount : ℚ)
    (hperm : (shuffle (List.range 10)).Perm (List.range 10)) :
    (randomPlacement = false →
        (executeGame C maxNodes shuffle draws eddAgent dataFile report gridSizeX gridSizeY
          zoomingCamera randomPlacement noise noiseAmount).isSome = true) ∧
      ∀ r, executeGame C maxNodes shuffle draws eddAgent dataFile report gridSizeX gridSizeY
          zoomingCamera randomPlacement noise noiseAmount = some r →
        ∀ i, i < 10 →
          r.1.truePositives i + r.1.falsePositives i + r.1.trueNegatives i +
            r.1.falseNegatives i = 10 := by
  constructor
  · intro hrp
    subst hrp
    exact executeGame_centered C maxNodes shuffle draws eddAgent dataFile report gridSizeX
      gridSizeY zoomingCamera noise noiseAmount
  · intro r hr i hi
    obtain ⟨g, _, hg⟩ := executeGame_some C maxNodes shuffle draws eddAgent dataFile report
      gridSizeX gridSizeY zoomingCamera randomPlacement noise noiseAmount r hr
    have h := playGame_confusionTotal C maxNodes g zoomingCamera (shuffle (List.range 10))
      eddAgent i hi
    rw [(shuffled_digits _ hperm).1] at h
    rw [hg]
    exact h

/-- Witness of C3: the sample controller on a 5x5 grid, trial order `9, 8, .., 0`,
centered placement: the evaluation completes and every digit's counters sum to 10. -/
theorem confusion_counters_total_ten_witness :
    ∃ r, executeGame sampleController 64 List.reverse [] sampleAgent false false 5 5
        false false false 0 = some r ∧
      ∀ i, i < 10 →
        r.1.truePositives i + r.1.falsePositives i + r.1.trueNegatives i +
          r.1.falseNegatives i = 10 := by
  have h := confusion_counters_total_ten sampleController 64 List.reverse [] sampleAgent
    false false 5 5 false false false 0 (List.reverse_perm _)
  obtain ⟨r, hr⟩ := Option.isSome_iff_exists.mp (h.1 rfl)
  exact ⟨r, hr, h.2 r hr⟩

/-- The sample controller leaves the same register contents at the end of every trial. -/
theorem sample_states (g : DigitGrid) (zoomingCamera : Bool) (agent : tAgent Unit)
    (digit : Nat) :
    (runSteps sampleController 64 g zoomingCamera agent digit).states =
      fun n => if n = 54 then 1 else 0 := by
  unfold runSteps totalStepsInSimulation
  rw [List.range_succ, List.foldl_append]
  rfl

/-- With the sample controller digit 3 alone is claimed, so only the trial of digit 3
scores. -/
theorem sample_trialScores (g : DigitGrid) (zoomingCamera : Bool) (digits : List Nat)
    (agent : tAgent Unit) :
    trialScores sampleController 64 g zoomingCamera digits agent =
      digits.map (fun d => if d = 3 then 1 else 0) := by
  induction digits generalizing agent with
  | nil => rfl
  | cons d ds ih =>
    have hc : ∀ i, claimed (trialClassify sampleController 64 g zoomingCamera agent d)
        (trialVeto sampleController 64 g zoomingCamera agent d) i ↔ i = 3 := by
      intro i
      unfold claimed trialClassify trialVeto classifyDigit vetoBits
      rw [sample_states]
      have h1 : ¬ (64 - 17 - i = 54) := by omega
      by_cases h3 : i = 3
      · subst h3
        simp
      · have h2 : ¬ (64 - 7 - i = 54) := by omega
        simp [h1, h2, h3]
    have hk : numClaimed (trialClassify sampleController 64 g zoomingCamera agent d)
        (trialVeto sampleController 64 g zoomingCamera agent d) = 1 := by
      unfold numClaimed
      simp only [hc]
      decide
    simp only [trialScores, List.map_cons, ih, specTrialScore, hc, hk]
    by_cases h3 : d = 3
    · simp [h3]
    · simp [h3]

/-- C5: for every controller and every trial order, every trial score (the amount a
trial adds to `classificationFitness`) lies in `[0, 1]`, and the fitness left on the
agent by `executeGame` satisfies `0 < fitness ≤ 1`. -/
theorem fitness_in_unit_interval (C : Controller β) (maxNodes : Nat)
    (shuffle : List Nat → List Nat) (draws : List (ℚ × ℚ)) (eddAgent : tAgent β)
    (dataFile report : Bool) (gridSizeX gridSizeY : Nat)
    (zoomingCamera randomPlacement noise : Bool) (noiseAmount : ℚ)
    (hperm : (shuffle (List.range 10)).Perm (List.range 10)) :
    (∀ (digit : Nat) (classify veto : Nat → Nat) (agent : tAgent β),
        0 ≤ (scoreTrial digit classify veto agent).classificationFitness -
            agent.classificationFitness ∧
          (scoreTrial digit classify veto agent).classificationFitness -
            agent.classificationFitness ≤ 1) ∧
      (randomPlacement = false →
        (executeGame C maxNodes shuffle draws eddAgent dataFile report gridSizeX gridSizeY
          zoomingCamera randomPlacement noise noiseAmount).isSome = true) ∧
      (∀ r, executeGame C maxNodes shuffle draws eddAgent dataFile report gridSizeX gridSizeY
          zoomingCamera randomPlacement noise noiseAmount = some r →
        0 < r.1.fitness ∧ r.1.fitness ≤ 1) := by
  refine ⟨?_, ?_, ?_⟩
  · intro digit classify veto agent
    rw [(scoreTrial_fitness digit classify veto agent).1, add_sub_cancel_left]
    by_cases hc : claimed classify veto digit ∧ digit < 10
    · have hb := specTrialScore_bounds digit classify veto
      rw [specTrialScore_eq digit classify veto hc.2] at hb
      exact hb
    · rw [if_neg hc]
      exact ⟨le_refl 0, zero_le_one⟩
  · intro hrp
    subst hrp
    exact executeGame_centered C maxNodes shuffle draws eddAgent dataFile report gridSizeX
      gridSizeY zoomingCamera noise noiseAmount
  · intro r hr
    obtain ⟨g, _, hg⟩ := executeGame_some C maxNodes shuffle draws eddAgent dataFile report
      gridSizeX gridSizeY zoomingCamera randomPlacement noise noiseAmount r hr
    obtain ⟨hlen, hlt⟩ := shuffled_digits _ hperm
    obtain ⟨h1, h2⟩ := playGame_fitness C maxNodes g zoomingCamera (shuffle (List.range 10))
      eddAgent hlt
    have hb := trialScores_bounds C maxNodes g zoomingCamera (shuffle (List.range 10))
      (resetAgent C eddAgent)
    rw [hlen] at hb
    rw [hg, h2]
    have hcf : (playGame C maxNodes g zoomingCamera (shuffle (List.range 10))
        eddAgent).classificationFitness ≤ 1 := by
      rw [h1]
      have := hb.2
      push_cast at this
      linarith
    split_ifs with hle
    · norm_num
    · exact ⟨not_le.mp hle, hcf⟩

/-- Witness of C5: the evaluation of the sample controller completes with a fitness in
`(0, 1]`. -/
theorem fitness_in_unit_interval_witness :
    ∃ r, executeGame sampleController 64 List.reverse [] sampleAgent false false 5 5
        false false false 0 = some r ∧ 0 < r.1.fitness ∧ r.1.fitness ≤ 1 := by
  have h := fitness_in_unit_interval sampleController 64 List.reverse [] sampleAgent
    false false 5 5 false false false 0 (List.reverse_perm _)
  obtain ⟨r, hr⟩ := Option.isSome_iff_exists.mp (h.2.1 rfl)
  exact ⟨r, hr, h.2.2 r hr⟩

end EvaluationClaims

/-! ## The selection loops -/

section SelectionLemmas

theorem assignGroup_apply (nx : NextGen) (i size parent k : Nat) :
    assignGroup nx i size parent k =
      if i ≤ k ∧ k < i + size then some parent else nx k := by
  induction size with
  | zero =>
    have h : ¬ (i ≤ k ∧ k < i + 0) := by omega
    rw [if_neg h]
    rfl
  | succ n ih =>
    unfold assignGroup at ih ⊢
    rw [List.range_succ, List.foldl_append]
    simp only [List.foldl_cons, List.foldl_nil]
    rw [ih]
    by_cases h1 : k = i + n
    · have h2 : i ≤ k ∧ k < i + (n + 1) := by omega
      rw [if_pos h1, if_pos h2]
    · rw [if_neg h1]
      by_cases h3 : i ≤ k ∧ k < i + n
      · have h4 : i ≤ k ∧ k < i + (n + 1) := by omega
        rw [if_pos h3, if_pos h4]
      · have h4 : ¬ (i ≤ k ∧ k < i + (n + 1)) := by omega
        rw [if_neg h3, if_neg h4]

theorem bestIndex_succ (f : Nat → ℚ) (i n : Nat) :
    bestIndex f i (n + 1) =
      if f (i + n) > f (i + bestIndex f i n) then n else bestIndex f i n := by
  unfold bestIndex
  rw [List.range_succ, List.foldl_append]
  rfl

/-- The scan of a group returns the first index of a member of greatest fitness. -/
theorem bestIndex_spec (f : Nat → ℚ) (i n : Nat) :
    bestIndex f i (n + 1) < n + 1 ∧
      (∀ j, j < n + 1 → f (i + j) ≤ f (i + bestIndex f i (n + 1))) ∧
      (∀ j, j < bestIndex f i (n + 1) → f (i + j) < f (i + bestIndex f i (n + 1))) := by
  induction n with
  | zero =>
    have h0 : bestIndex f i (0 + 1) = 0 := by
      rw [bestIndex_succ]
      simp [bestIndex]
    rw [h0]
    refine ⟨by omega, ?_, ?_⟩
    · intro j hj
      have : j = 0 := by omega
      subst this
      exact le_refl _
    · intro j hj
      omega
  | succ n ih =>
    obtain ⟨h1, h2, h3⟩ := ih
    rw [bestIndex_succ f i (n + 1)]
    by_cases hgt : f (i + (n + 1)) > f (i + bestIndex f i (n + 1))
    · rw [if_pos hgt]
      refine ⟨by omega, ?_, ?_⟩
      · intro j hj
        by_cases hjn : j = n + 1
        · subst hjn
          exact le_refl _
        · exact le_of_lt (lt_of_le_of_lt (h2 j (by omega)) hgt)
      · intro j hj
        exact lt_of_le_of_lt (h2 j hj) hgt
    · rw [if_neg hgt]
      refine ⟨by omega, ?_, h3⟩
      intro j hj
      by_cases hjn : j = n + 1
      · subst hjn
        exact not_lt.mp hgt
      · exact h2 j (by omega)

theorem tournamentGroup_eq (f : Nat → ℚ) (N g i : Nat) (nx : NextGen) :
    tournamentGroup f N g i nx =
      assignGroup nx i (min g (N - i)) (i + bestIndex f i (min g (N - i))) := by
  unfold tournamentGroup
  by_cases h : N - i > g
  · rw [if_pos h, min_eq_left (le_of_lt h)]
  · rw [if_neg h, min_eq_right (not_lt.mp h)]

theorem groupStart_eq (g m k : Nat) (h1 : g * m ≤ k) (h2 : k < g * m + g) :
    groupStart g k = g * m := by
  unfold groupStart
  have hg : 0 < g := by
    rcases Nat.eq_zero_or_pos g with h | h
    · subst h
      omega
    · exact h
  have : k / g = m := by
    apply Nat.div_eq_of_lt_le
    · rw [Nat.mul_comm]
      exact h1
    · rw [Nat.succ_mul, Nat.mul_comm]
      exact h2
  rw [this]

/-- The slot-to-parent map that the tournament loop builds. -/
theorem tournamentLoop_spec (f : Nat → ℚ) (N g : Nat) (hg : 0 < g) :
    ∀ (fuel m : Nat) (nx : NextGen), N ≤ g * m + fuel →
      tournamentLoop f N g fuel (g * m) nx =
        some (fun k =>
          if g * m ≤ k ∧ k < N then
            some (groupStart g k + bestIndex f (groupStart g k) (groupLength N g k))
          else nx k) := by
  intro fuel
  induction fuel with
  | zero =>
    intro m nx h
    have hlt : ¬ g * m < N := by omega
    simp only [tournamentLoop, if_neg hlt, Option.some.injEq]
    funext k
    have hc : ¬ (g * m ≤ k ∧ k < N) := by omega
    rw [if_neg hc]
  | succ fuel ih =>
    intro m nx h
    by_cases hlt : g * m < N
    · have hstep : g * m + g = g * (m + 1) := by ring
      simp only [tournamentLoop, if_pos hlt]
      rw [hstep, ih (m + 1) _ (by rw [← hstep]; omega), tournamentGroup_eq]
      simp only [Option.some.injEq]
      funext k
      rw [assignGroup_apply]
      by_cases h1 : g * (m + 1) ≤ k ∧ k < N
      · have h2 : g * m ≤ k ∧ k < N := by omega
        rw [if_pos h1, if_pos h2]
      · rw [if_neg h1]
        by_cases h2 : g * m ≤ k ∧ k < N
        · have hk : k < g * m + g := by omega
          have hs := groupStart_eq g m k h2.1 hk
          have h3 : g * m ≤ k ∧ k < g * m + min g (N - g * m) := by
            refine ⟨h2.1, ?_⟩
            rcases Nat.le_total g (N - g * m) with hle | hle
            · rw [min_eq_left hle]
              exact hk
            · rw [min_eq_right hle]
              omega
          rw [if_pos h3, if_pos h2]
          unfold groupLength
          rw [hs]
        · have h3 : ¬ (g * m ≤ k ∧ k < g * m + min g (N - g * m)) := by
            intro hh
            apply h2
            refine ⟨hh.1, ?_⟩
            have : min g (N - g * m) ≤ N - g * m := min_le_right _ _
            omega
          rw [if_neg h3, if_neg h2]
    · simp only [tournamentLoop, if_neg hlt, Option.some.injEq]
      funext k
      have hc : ¬ (g * m ≤ k ∧ k < N) := by omega
      rw [if_neg hc]

/-- The group of a slot: it starts at a multiple of the group size, contains the slot,
lies within the population and is not empty. -/
theorem group_bounds (N g s : Nat) (hg : 0 < g) (hs : s < N) :
    groupStart g s ≤ s ∧ s < groupStart g s + groupLength N g s ∧
      groupStart g s + groupLength N g s ≤ N ∧ 0 < groupLength N g s := by
  unfold groupLength groupStart
  have h1 : g * (s / g) ≤ s := Nat.mul_div_le s g
  have h2 : s < g * (s / g) + g := by
    have := Nat.lt_mul_div_succ s hg
    rw [Nat.mul_succ] at this
    exact this
  rcases Nat.le_total g (N - g * (s / g)) with hle | hle
  · rw [min_eq_left hle]
    omega
  · rw [min_eq_right hle]
    omega

end SelectionLemmas

section RouletteLemmas

theorem totalFit_eq (f : Nat → ℚ) (i size : Nat) :
    totalFit f i size = ∑ t in Finset.range size, f (i + t) := by
  unfold totalFit
  induction size with
  | zero => simp
  | succ n ih =>
    rw [List.range_succ, List.foldl_append, Finset.sum_range_succ, ← ih]
    rfl

/-- The winner scan over the members `0..n-1` of a group: either no running sum has
exceeded the cut-off and nothing is assigned, or the group is assigned to the first
member whose running sum exceeds it. -/
theorem rouletteScan_spec (f : Nat → ℚ) (c : ℚ) (i size : Nat) (nx : NextGen) (n : Nat) :
    ((∀ j, j < n → runningSum f i j ≤ c) →
        (List.range n).foldl (rouletteScanStep f c i size)
            { chosen := false, fit_count := 0, EANextGen := nx } =
          { chosen := false, fit_count := ∑ t in Finset.range n, f (i + t),
            EANextGen := nx }) ∧
      (∀ w, w < n → runningSum f i w > c → (∀ j, j < w → runningSum f i j ≤ c) →
        ((List.range n).foldl (rouletteScanStep f c i size)
            { chosen := false, fit_count := 0, EANextGen := nx }).chosen = true ∧
          ((List.range n).foldl (rouletteScanStep f c i size)
            { chosen := false, fit_count := 0, EANextGen := nx }).EANextGen =
            assignGroup nx i size (i + w)) := by
  induction n with
  | zero =>
    refine ⟨fun _ => by simp, ?_⟩
    intro w hw
    omega
  | succ n ih =>
    obtain ⟨iha, ihb⟩ := ih
    constructor
    · intro hall
      have hprev := iha (fun j hj => hall j (by omega))
      rw [List.range_succ, List.foldl_append, hprev]
      have hn := hall n (by omega)
      unfold runningSum at hn
      simp only [List.foldl_cons, List.foldl_nil, rouletteScanStep]
      rw [← Finset.sum_range_succ (fun t => f (i + t)) n]
      simp [not_lt.mpr hn]
    · intro w hw hgt hfirst
      rw [List.range_succ, List.foldl_append]
      simp only [List.foldl_cons, List.foldl_nil]
      by_cases hwn : w < n
      · obtain ⟨h1, h2⟩ := ihb w hwn hgt hfirst
        generalize (List.range n).foldl (rouletteScanStep f c i size)
          { chosen := false, fit_count := 0, EANextGen := nx } = S at h1 h2 ⊢
        have hS : rouletteScanStep f c i size S n = S := by
          unfold rouletteScanStep
          rw [if_pos h1]
        rw [hS]
        exact ⟨h1, h2⟩
      · have hwn2 : w = n := by omega
        subst hwn2
        rw [iha hfirst]
        unfold runningSum at hgt
        simp only [rouletteScanStep]
        rw [← Finset.sum_range_succ (fun t => f (i + t)) w]
        simp [hgt]

/-- Either some member of the group is the first whose running sum exceeds the cut-off,
or none does. -/
theorem first_exceeding_cases (f : Nat → ℚ) (c : ℚ) (i size : Nat) :
    (∃ w, w < size ∧ runningSum f i w > c ∧ ∀ j, j < w → runningSum f i j ≤ c) ∨
      (∀ j, j < size → runningSum f i j ≤ c) := by
  by_cases h : ∃ w, w < size ∧ runningSum f i w > c
  · left
    classical
    refine ⟨Nat.find h, (Nat.find_spec h).1, (Nat.find_spec h).2, ?_⟩
    intro j hj
    have hmin := Nat.find_min h hj
    have hjs : j < size := lt_trans hj (Nat.find_spec h).1
    exact not_lt.mp (fun hgt => hmin ⟨hjs, hgt⟩)
  · right
    intro j hj
    exact not_lt.mp (fun hgt => h ⟨j, hj, hgt⟩)

/-- The wheel of one group: all slots of the group go to the first member whose running
sum exceeds the cut-off; when there is none, no slot is assigned. -/
theorem rouletteWheel_spec (f : Nat → ℚ) (r : ℚ) (i size : Nat) (nx : NextGen) :
    (∀ w, w < size → runningSum f i w > r * (∑ t in Finset.range size, f (i + t)) →
        (∀ j, j < w → runningSum f i j ≤ r * (∑ t in Finset.range size, f (i + t))) →
        rouletteWheel f r i size nx = assignGroup nx i size (i + w)) ∧
      ((∀ j, j < size → runningSum f i j ≤ r * (∑ t in Finset.range size, f (i + t))) →
        rouletteWheel f r i size nx = nx) := by
  obtain ⟨ha, hb⟩ := rouletteScan_spec f (r * (∑ t in Finset.range size, f (i + t)))
    i size nx size
  unfold rouletteWheel
  rw [totalFit_eq]
  constructor
  · intro w hw hgt hfirst
    exact (hb w hw hgt hfirst).2
  · intro hall
    simp only []
    rw [ha hall]

theorem rouletteGroup_eq (f : Nat → ℚ) (r : ℚ) (N g i : Nat) (nx : NextGen) :
    rouletteGroup f r N g i nx = rouletteWheel f r i (min g (N - i)) nx := by
  unfold rouletteGroup
  by_cases h : N - i > g
  · rw [if_pos h, min_eq_left (le_of_lt h)]
  · rw [if_neg h, min_eq_right (not_lt.mp h)]

/-- The wheel changes the slots of its group only; when the slots from `i` on are not yet
assigned, the result on the group does not depend on the other slots. -/
theorem rouletteWheel_local (f : Nat → ℚ) (r : ℚ) (i size : Nat) (nx : NextGen)
    (hnx : ∀ k, i ≤ k → nx k = none) (k : Nat) :
    rouletteWheel f r i size nx k =
      if i ≤ k ∧ k < i + size then rouletteWheel f r i size (fun _ => none) k else nx k := by
  rcases first_exceeding_cases f (r * (∑ t in Finset.range size, f (i + t))) i size with
    ⟨w, hw, hgt, hfirst⟩ | hall
  · rw [(rouletteWheel_spec f r i size nx).1 w hw hgt hfirst,
      (rouletteWheel_spec f r i size (fun _ => none)).1 w hw hgt hfirst,
      assignGroup_apply, assignGroup_apply]
    by_cases hk : i ≤ k ∧ k < i + size
    · simp [hk]
    · simp [hk]
  · rw [(rouletteWheel_spec f r i size nx).2 hall,
      (rouletteWheel_spec f r i size (fun _ => none)).2 hall]
    by_cases hk : i ≤ k ∧ k < i + size
    · rw [if_pos hk]
      exact hnx k hk.1
    · rw [if_neg hk]

theorem group_div (g m k : Nat) (h1 : g * m ≤ k) (h2 : k < g * m + g) : k / g = m := by
  apply Nat.div_eq_of_lt_le
  · rw [Nat.mul_comm]
    exact h1
  · rw [Nat.succ_mul, Nat.mul_comm]
    exact h2

/-- The slot-to-parent map that the roulette loop builds from an empty `EANextGen`. -/
theorem rouletteLoop_spec (f : Nat → ℚ) (rnd : Nat → ℚ) (N g : Nat) (hg : 0 < g) :
    ∀ (fuel m : Nat) (nx : NextGen), N ≤ g * m + fuel → (∀ k, g * m ≤ k → nx k = none) →
      rouletteLoop f rnd N g fuel (g * m) m nx =
        some (fun k =>
          if g * m ≤ k ∧ k < N then
            rouletteWheel f (rnd (k / g)) (groupStart g k) (groupLength N g k)
              (fun _ => none) k
          else nx k) := by
  intro fuel
  induction fuel with
  | zero =>
    intro m nx h _
    have hlt : ¬ g * m < N := by omega
    simp only [rouletteLoop, if_neg hlt, Option.some.injEq]
    funext k
    have hc : ¬ (g * m ≤ k ∧ k < N) := by omega
    rw [if_neg hc]
  | succ fuel ih =>
    intro m nx h hnx
    by_cases hlt : g * m < N
    · have hstep : g * m + g = g * (m + 1) := by ring
      have hsize : min g (N - g * m) ≤ g := min_le_left _ _
      have hsize2 : min g (N - g * m) ≤ N - g * m := min_le_right _ _
      have hnx2 : ∀ k, g * (m + 1) ≤ k →
          rouletteGroup f (rnd m) N g (g * m) nx k = none := by
        intro k hk
        rw [rouletteGroup_eq, rouletteWheel_local f (rnd m) (g * m) _ nx hnx k]
        have hc : ¬ (g * m ≤ k ∧ k < g * m + min g (N - g * m)) := by omega
        rw [if_neg hc]
        exact hnx k (by omega)
      simp only [rouletteLoop, if_pos hlt]
      rw [hstep, ih (m + 1) _ (by rw [← hstep]; omega) hnx2, rouletteGroup_eq]
      simp only [Option.some.injEq]
      funext k
      rw [rouletteWheel_local f (rnd m) (g * m) _ nx hnx k]
      by_cases h1 : g * (m + 1) ≤ k ∧ k < N
      · have h2 : g * m ≤ k ∧ k < N := by omega
        rw [if_pos h1, if_pos h2]
      · rw [if_neg h1]
        by_cases h2 : g * m ≤ k ∧ k < N
        · have hk : k < g * m + g := by omega
          have hs := groupStart_eq g m k h2.1 hk
          have hd := group_div g m k h2.1 hk
          have h3 : g * m ≤ k ∧ k < g * m + min g (N - g * m) := by
            refine ⟨h2.1, ?_⟩
            rcases Nat.le_total g (N - g * m) with hle | hle
            · rw [min_eq_left hle]
              exact hk
            · rw [min_eq_right hle]
              omega
          rw [if_pos h3, if_pos h2]
          unfold groupLength
          rw [hs, hd]
        · have h3 : ¬ (g * m ≤ k ∧ k < g * m + min g (N - g * m)) := by
            intro hh
            apply h2
            refine ⟨hh.1, ?_⟩
            omega
          rw [if_neg h3, if_neg h2]
    · simp only [rouletteLoop, if_neg hlt, Option.some.injEq]
      funext k
      have hc : ¬ (g * m ≤ k ∧ k < N) := by omega
      rw [if_neg hc]

end RouletteLemmas

theorem fitnessAt_of_get {β : Type} (eddAgents : List (tAgent β)) (p : Nat) (hp : p < eddAgents.length) :
    ∃ parent, eddAgents[p]? = some parent ∧ fitnessAt eddAgents p = parent.fitness := by
  refine ⟨eddAgents[p], List.getElem?_eq_getElem hp, ?_⟩
  unfold fitnessAt
  rw [List.getElem?_eq_getElem hp]

section OffspringLemmas

variable {β : Type}

theorem allWritten_some {α : Type} (L : List (Option α)) (ys : List α)
    (h : allWritten L = some ys) : L = ys.map some := by
  induction L generalizing ys with
  | nil =>
    simp only [allWritten, Option.some.injEq] at h
    rw [← h]
    rfl
  | cons x L ih =>
    cases x with
    | none => simp [allWritten] at h
    | some a =>
      cases hr : allWritten L with
      | none => simp [allWritten, hr] at h
      | some l =>
        simp only [allWritten, hr, Option.some.injEq] at h
        rw [← h, List.map_cons, ← ih l hr]

theorem allWritten_of_forall {α : Type} (L : List (Option α)) (h : ∀ x ∈ L, x ≠ none) :
    ∃ ys, allWritten L = some ys := by
  induction L with
  | nil => exact ⟨[], rfl⟩
  | cons x L ih =>
    obtain ⟨l, hl⟩ := ih (fun y hy => h y (List.mem_cons_of_mem x hy))
    cases x with
    | none => exact absurd rfl (h none (List.mem_cons_self _ _))
    | some a => exact ⟨a :: l, by simp [allWritten, hl]⟩

/-- The agents of `EANextGen`, slot by slot. -/
theorem offspringList_some (o : Outcomes β) (self : tAgent β) (eddAgents : List (tAgent β))
    (mr : ℚ) (update N : Nat) (nx : NextGen) (next : List (tAgent β))
    (h : offspringList o self eddAgents mr update N nx = some next) :
    next.length = N ∧
      ∀ k, k < N → offspringAt o self eddAgents mr update k (nx k) = next[k]? := by
  have hm := allWritten_some _ _ h
  have hlen : next.length = N := by
    have := congrArg List.length hm
    simpa using this.symm
  refine ⟨hlen, ?_⟩
  intro k hk
  have hk2 : k < next.length := by omega
  have := congrArg (fun l => l[k]?) hm
  simp only [List.getElem?_map, List.getElem?_range hk, Option.map_some'] at this
  rw [List.getElem?_eq_getElem hk2] at this ⊢
  simpa using this

theorem offspringList_exists (o : Outcomes β) (self : tAgent β) (eddAgents : List (tAgent β))
    (mr : ℚ) (update N : Nat) (nx : NextGen)
    (h : ∀ k, k < N → ∃ p, nx k = some p ∧ p < eddAgents.length) :
    ∃ next, offspringList o self eddAgents mr update N nx = some next := by
  apply allWritten_of_forall
  intro x hx
  obtain ⟨k, hk, rfl⟩ := List.mem_map.mp hx
  obtain ⟨p, hp, hlt⟩ := h k (List.mem_range.mp hk)
  rw [hp]
  simp [offspringAt, List.getElem?_eq_getElem hlt]

/-- An agent stored in a slot inherits, in generation `update`, from a member of the
population the parents are taken from. -/
theorem offspringAt_some (o : Outcomes β) (self : tAgent β) (eddAgents : List (tAgent β))
    (mr : ℚ) (update k : Nat) (slot : Option Nat) (a : tAgent β)
    (h : offspringAt o self eddAgents mr update k slot = some a) :
    ∃ p parent, slot = some p ∧ eddAgents[p]? = some parent ∧
      a = inherit self (o.mutate k) parent mr update := by
  cases slot with
  | none => simp [offspringAt] at h
  | some p =>
    cases hp : eddAgents[p]? with
    | none => simp [offspringAt, hp] at h
    | some parent =>
      simp only [offspringAt, hp, Option.some.injEq] at h
      exact ⟨p, parent, rfl, hp, h.symm⟩

theorem slots_fold (N : Nat) (h : Nat → Nat) :
    (List.range N).foldl (fun nx k => fun s => if s = k then some (h k) else nx s)
        (fun _ => none) =
      fun s => if s < N then some (h s) else none := by
  induction N with
  | zero =>
    funext s
    simp
  | succ n ih =>
    rw [List.range_succ, List.foldl_append, ih]
    funext s
    simp only [List.foldl_cons, List.foldl_nil]
    by_cases h1 : s = n
    · subst h1
      simp
    · by_cases h2 : s < n
      · have h3 : s < n + 1 := by omega
        simp [h1, h2, h3]
      · have h3 : ¬ s < n + 1 := by omega
        simp [h1, h2, h3]

theorem pureElitismSlots_eq (N c : Nat) (hc : 1 ≤ c) :
    pureElitismSlots N c = some (fun s => if s < N then some (N - 1 - s % c) else none) := by
  unfold pureElitismSlots
  rw [if_neg (by omega), slots_fold N (fun k => N - 1 - k % c)]

end OffspringLemmas

section InstallLemmas

variable {β : Type}

theorem InheritsFrom.of_perm {self : tAgent β} {mr : ℚ} {update : Nat}
    {l1 l2 : List (tAgent β)} {a : tAgent β} (hp : l1.Perm l2)
    (h : InheritsFrom self mr update l1 a) : InheritsFrom self mr update l2 a := by
  obtain ⟨parent, hmem, m, ha⟩ := h
  exact ⟨parent, hp.mem_iff.mp hmem, m, ha⟩

theorem InheritsFrom.born {self : tAgent β} {mr : ℚ} {update : Nat}
    {l : List (tAgent β)} {a : tAgent β} (h : InheritsFrom self mr update l a) :
    a.born = update := by
  obtain ⟨parent, _, m, ha⟩ := h
  rw [ha]
  rfl

/-- Every agent of `EANextGen` inherits from a member of the population the parents are
taken from. -/
theorem offspringList_inherits (o : Outcomes β) (self : tAgent β)
    (eddAgents : List (tAgent β)) (mr : ℚ) (update N : Nat) (nx : NextGen)
    (next : List (tAgent β))
    (h : offspringList o self eddAgents mr update N nx = some next) :
    next.length = N ∧ ∀ a, a ∈ next → InheritsFrom self mr update eddAgents a := by
  obtain ⟨hl, hget⟩ := offspringList_some o self eddAgents mr update N nx next h
  refine ⟨hl, ?_⟩
  intro a ha
  obtain ⟨k, hk, hka⟩ := List.mem_iff_getElem.mp ha
  have hk2 : k < N := by omega
  have h1 := hget k hk2
  rw [List.getElem?_eq_getElem hk, hka] at h1
  obtain ⟨p, parent, _, hparent, hinh⟩ := offspringAt_some o self eddAgents mr update k _ a h1
  exact ⟨parent, List.getElem?_mem hparent, o.mutate k, hinh⟩

theorem eliteIndex_lt (f : Nat → ℚ) (N : Nat) (hN : 1 ≤ N) : eliteIndex f N < N := by
  unfold eliteIndex
  have key : ∀ (l : List Nat) (init : Nat), init < N → (∀ x ∈ l, x < N) →
      l.foldl (fun index i => if f i > f index then i else index) init < N := by
    intro l
    induction l with
    | nil => intro init h _; exact h
    | cons x l ih =>
      intro init h hall
      rw [List.foldl_cons]
      apply ih
      · split_ifs
        · exact hall x (List.mem_cons_self _ _)
        · exact h
      · intro y hy
        exact hall y (List.mem_cons_of_mem _ hy)
  apply key
  · omega
  · intro x hx
    rw [List.mem_range'_1] at hx
    omega

/-- With a population of at least one agent, `best` is a new agent that inherits from a
member of the population. -/
theorem eliteCopy_inherits (o : Outcomes β) (self : tAgent β) (eddAgents : List (tAgent β))
    (mr : ℚ) (update N : Nat) (hN : eddAgents.length = N) (hN1 : 1 ≤ N) :
    ∃ b, eliteCopy o self eddAgents mr update N = some b ∧
      InheritsFrom self mr update eddAgents b := by
  have hlt : eliteIndex (fitnessAt eddAgents) N < eddAgents.length := by
    rw [hN]
    exact eliteIndex_lt _ N hN1
  obtain ⟨parent, hparent, _⟩ := fitnessAt_of_get eddAgents _ hlt
  refine ⟨inherit self o.mutateBest parent mr update, ?_, parent,
    List.getElem?_mem hparent, o.mutateBest, rfl⟩
  simp only [eliteCopy, hparent]

/-- The population installed after a selection pass has the size of `EANextGen`, and a
property shared by the agents of `EANextGen` and by `best` holds of all its members. -/
theorem installNextGen_spec (o : Outcomes β) (hv : o.Valid) (elitism : Bool)
    (best : Option (tAgent β)) (next : List (tAgent β)) (P : tAgent β → Prop)
    (hbest : ∃ b, best = some b ∧ P b) (hnext : ∀ a, a ∈ next → P a) :
    ∃ installed, installNextGen o elitism best next = some installed ∧
      installed.length = next.length ∧ ∀ a, a ∈ installed → P a := by
  obtain ⟨b, hb, hPb⟩ := hbest
  cases elitism with
  | false =>
    refine ⟨o.shuffleNextGen next, by simp [installNextGen],
      (hv.shuffleNextGen_perm next).length_eq, ?_⟩
    intro a ha
    exact hnext a ((hv.shuffleNextGen_perm next).mem_iff.mp ha)
  | true =>
    refine ⟨(o.sort (o.shuffleNextGen next)).set 0 b, by simp [installNextGen, hb], ?_, ?_⟩
    · rw [List.length_set, (hv.sort_perm _).length_eq, (hv.shuffleNextGen_perm next).length_eq]
    · intro a ha
      rcases List.mem_or_eq_of_mem_set ha with h | h
      · exact hnext a ((hv.shuffleNextGen_perm next).mem_iff.mp
          ((hv.sort_perm _).mem_iff.mp h))
      · rw [h]
        exact hPb

/-- The tournament loop assigns every slot a parent index within the population. -/
theorem tournament_slots (f : Nat → ℚ) (N g : Nat) (hg : 1 ≤ g) :
    ∃ nx, tournamentLoop f N g N 0 (fun _ => none) = some nx ∧
      ∀ s, s < N → ∃ p, nx s = some p ∧ p < N := by
  have hloop := tournamentLoop_spec f N g hg N 0 (fun _ => none) (by omega)
  rw [Nat.mul_zero] at hloop
  refine ⟨_, hloop, ?_⟩
  intro s hs
  obtain ⟨hb1, hb2, hb3, hb4⟩ := group_bounds N g s hg hs
  obtain ⟨n, hn⟩ : ∃ n, groupLength N g s = n + 1 := ⟨groupLength N g s - 1, by omega⟩
  obtain ⟨hw1, _, _⟩ := bestIndex_spec f (groupStart g s) n
  rw [← hn] at hw1
  refine ⟨groupStart g s + bestIndex f (groupStart g s) (groupLength N g s), ?_, by omega⟩
  simp [hs]

/-- With positive fitness and cut-off draws in `[0, 1)`, the roulette loop assigns every
slot a parent index within the population. -/
theorem roulette_slots (f : Nat → ℚ) (rnd : Nat → ℚ) (N g : Nat) (hg : 1 ≤ g)
    (hf : ∀ k, k < N → 0 < f k) (hr : ∀ d, 0 ≤ rnd d ∧ rnd d < 1) :
    ∃ nx, rouletteLoop f rnd N g N 0 0 (fun _ => none) = some nx ∧
      ∀ s, s < N → ∃ p, nx s = some p ∧ p < N := by
  have hloop := rouletteLoop_spec f rnd N g hg N 0 (fun _ => none) (by omega)
    (fun _ _ => rfl)
  rw [Nat.mul_zero] at hloop
  refine ⟨_, hloop, ?_⟩
  intro s hs
  obtain ⟨hb1, hb2, hb3, hb4⟩ := group_bounds N g s hg hs
  obtain ⟨hw1, hw2⟩ := rouletteWheel_spec f (rnd (s / g)) (groupStart g s)
    (groupLength N g s) (fun _ => none)
  have htotal : 0 < ∑ t in Finset.range (groupLength N g s), f (groupStart g s + t) := by
    apply Finset.sum_pos
    · intro t ht
      exact hf _ (by have := Finset.mem_range.mp ht; omega)
    · exact ⟨0, Finset.mem_range.mpr hb4⟩
  have hcut : rnd (s / g) * ∑ t in Finset.range (groupLength N g s), f (groupStart g s + t) <
      ∑ t in Finset.range (groupLength N g s), f (groupStart g s + t) := by
    have := (hr (s / g)).2
    nlinarith
  rcases first_exceeding_cases f
      (rnd (s / g) * ∑ t in Finset.range (groupLength N g s), f (groupStart g s + t))
      (groupStart g s) (groupLength N g s) with ⟨w, hw, hgt, hfirst⟩ | hall
  · refine ⟨groupStart g s + w, ?_, by omega⟩
    simp only [hs, Nat.zero_le, true_and, if_true]
    rw [hw1 w hw hgt hfirst, assignGroup_apply, if_pos ⟨hb1, hb2⟩]
  · exfalso
    have hlast := hall (groupLength N g s - 1) (by omega)
    unfold runningSum at hlast
    rw [show groupLength N g s - 1 + 1 = groupLength N g s by omega] at hlast
    linarith

end InstallLemmas

/-! ## Claims about the selection step of `main` -/

section SelectionClaims

variable {β : Type}

theorem group_partition (N g s : Nat) (hg : 0 < g) (hs : s < N) :
    g ∣ groupStart g s ∧
      (groupLength N g s = g ∨
        (groupLength N g s = N % g ∧ ¬ g ∣ N ∧ groupStart g s + N % g = N)) := by
  obtain ⟨h1, h2, h3, h4⟩ := group_bounds N g s hg hs
  refine ⟨Dvd.intro _ rfl, ?_⟩
  unfold groupLength at h2 h3 h4 ⊢
  rcases Nat.le_total g (N - groupStart g s) with hle | hle
  · left
    exact min_eq_left hle
  · rw [min_eq_right hle] at h2 h3 h4 ⊢
    by_cases heq : N - groupStart g s = g
    · left
      exact heq
    · right
      have hlt : N - groupStart g s < g := by omega
      have hN : N = g * (s / g) + (N - groupStart g s) := by
        unfold groupStart at h1 h4 ⊢
        omega
      have hmod : N % g = N - groupStart g s := by
        conv_lhs => rw [hN]
        rw [Nat.mul_add_mod, Nat.mod_eq_of_lt hlt]
      refine ⟨hmod.symm, ?_, by omega⟩
      intro hdvd
      have := Nat.mod_eq_zero_of_dvd hdvd
      omega

/-- C6: tournament selection with group size `g ≥ 1` on a (shuffled) population of `N`
agents.  The loop ends; the slots are cut into consecutive groups `[0,g)`, `[g,2g)`, ..
(the group of a slot starts at a multiple of `g` and has `g` slots, except a final group
of `N mod g` slots when `g` does not divide `N`); and every slot `s` of the next
generation is assigned an offspring of the member `p` of its group that has the greatest
fitness, the lowest index among equal maxima. -/
theorem tournament_parent_is_group_best (o : Outcomes β) (self : tAgent β)
    (perSiteMutationRate : ℚ) (update : Nat) (eddAgents : List (tAgent β)) (N g : Nat)
    (hN : eddAgents.length = N) (hg : 1 ≤ g) :
    ∃ nx, tournamentLoop (fitnessAt eddAgents) N g N 0 (fun _ => none) = some nx ∧
      ∀ s, s < N →
        (g ∣ groupStart g s ∧ groupStart g s ≤ s ∧
          s < groupStart g s + groupLength N g s ∧
          (groupLength N g s = g ∨
            (groupLength N g s = N % g ∧ ¬ g ∣ N ∧ groupStart g s + N % g = N))) ∧
        ∃ p parent, nx s = some p ∧ eddAgents[p]? = some parent ∧
          offspringAt o self eddAgents perSiteMutationRate update s (nx s) =
            some (inherit self (o.mutate s) parent perSiteMutationRate update) ∧
          groupStart g s ≤ p ∧ p < groupStart g s + groupLength N g s ∧
          (∀ q, groupStart g s ≤ q → q < groupStart g s + groupLength N g s →
            fitnessAt eddAgents q ≤ fitnessAt eddAgents p) ∧
          (∀ q, groupStart g s ≤ q → q < p →
            fitnessAt eddAgents q < fitnessAt eddAgents p) := by
  have hloop := tournamentLoop_spec (fitnessAt eddAgents) N g hg N 0 (fun _ => none)
    (by omega)
  rw [Nat.mul_zero] at hloop
  generalize hnx : (fun k => if 0 ≤ k ∧ k < N then
      some (groupStart g k + bestIndex (fitnessAt eddAgents) (groupStart g k)
        (groupLength N g k)) else (fun _ => none) k) = nx at hloop
  refine ⟨nx, hloop, ?_⟩
  intro s hs
  obtain ⟨hb1, hb2, hb3, hb4⟩ := group_bounds N g s hg hs
  obtain ⟨hp1, hp2⟩ := group_partition N g s hg hs
  refine ⟨⟨hp1, hb1, hb2, hp2⟩, ?_⟩
  obtain ⟨n, hn⟩ : ∃ n, groupLength N g s = n + 1 := ⟨groupLength N g s - 1, by omega⟩
  obtain ⟨hw1, hw2, hw3⟩ := bestIndex_spec (fitnessAt eddAgents) (groupStart g s) n
  rw [← hn] at hw1 hw2 hw3
  have hval : nx s =
      some (groupStart g s + bestIndex (fitnessAt eddAgents) (groupStart g s)
        (groupLength N g s)) := by
    rw [← hnx]
    simp [hs]
  have hplt : groupStart g s + bestIndex (fitnessAt eddAgents) (groupStart g s)
      (groupLength N g s) < eddAgents.length := by omega
  obtain ⟨parent, hparent, _⟩ := fitnessAt_of_get eddAgents _ hplt
  refine ⟨_, parent, hval, hparent, ?_, by omega, by omega, ?_, ?_⟩
  · rw [hval]
    simp only [offspringAt, hparent]
  · intro q hq1 hq2
    have := hw2 (q - groupStart g s) (by omega)
    rw [show groupStart g s + (q - groupStart g s) = q by omega] at this
    exact this
  · intro q hq1 hq2
    have := hw3 (q - groupStart g s) (by omega)
    rw [show groupStart g s + (q - groupStart g s) = q by omega] at this
    exact this

/-- Witness of C6: `N = 4`, `g = 2`, fitness 1, 3, 2, 2: two groups of two slots; both
slots of the first group receive an offspring of member 1 and both slots of the second
group an offspring of member 2 (first index among the equal maxima 2, 2). -/
theorem tournament_parent_is_group_best_witness :
    (∃ nx, tournamentLoop (fitnessAt samplePopulation) 4 2 4 0 (fun _ => none) = some nx ∧
      ∀ s, s < 4 →
        (2 ∣ groupStart 2 s ∧ groupStart 2 s ≤ s ∧
          s < groupStart 2 s + groupLength 4 2 s ∧
          (groupLength 4 2 s = 2 ∨
            (groupLength 4 2 s = 4 % 2 ∧ ¬ 2 ∣ 4 ∧ groupStart 2 s + 4 % 2 = 4))) ∧
        ∃ p parent, nx s = some p ∧ samplePopulation[p]? = some parent ∧
          offspringAt sampleOutcomes sampleAgent samplePopulation 0 1 s (nx s) =
            some (inherit sampleAgent (sampleOutcomes.mutate s) parent 0 1) ∧
          groupStart 2 s ≤ p ∧ p < groupStart 2 s + groupLength 4 2 s ∧
          (∀ q, groupStart 2 s ≤ q → q < groupStart 2 s + groupLength 4 2 s →
            fitnessAt samplePopulation q ≤ fitnessAt samplePopulation p) ∧
          (∀ q, groupStart 2 s ≤ q → q < p →
            fitnessAt samplePopulation q < fitnessAt samplePopulation p)) ∧
      (tournamentLoop (fitnessAt samplePopulation) 4 2 4 0 (fun _ => none)).map
          (fun nx => (List.range 4).map nx) = some [some 1, some 1, some 2, some 2] ∧
      (List.range 4).map (groupStart 2) = [0, 0, 2, 2] ∧
      (List.range 4).map (groupLength 4 2) = [2, 2, 2, 2] :=
  ⟨tournament_parent_is_group_best sampleOutcomes sampleAgent 0 1 samplePopulation 4 2 rfl
    (by decide), by decide, by decide, by decide⟩

theorem sort_ascending (o : Outcomes β) (hv : o.Valid) (l : List (tAgent β)) :
    (o.sort l).Pairwise (fun a b => a.fitness ≤ b.fitness) := by
  refine (hv.sort_sorted l).imp ?_
  intro a b h
  simp only [compare, decide_eq_false_iff_not, not_lt] at h
  exact h

theorem sampleOutcomes_valid : sampleOutcomes.Valid := by
  haveI : IsTotal (tAgent Unit) (fun a b => a.fitness ≤ b.fitness) :=
    ⟨fun a b => le_total a.fitness b.fitness⟩
  haveI : IsTrans (tAgent Unit) (fun a b => a.fitness ≤ b.fitness) :=
    ⟨fun a b c hab hbc => le_trans hab hbc⟩
  refine ⟨fun l => List.reverse_perm l, fun l => List.Perm.refl l,
    fun l => List.perm_insertionSort _ l, ?_⟩
  intro l
  have hs := List.sorted_insertionSort (fun a b : tAgent Unit => a.fitness ≤ b.fitness) l
  refine List.Pairwise.imp ?_ hs
  intro a b h
  simp only [compare, decide_eq_false_iff_not, not_lt]
  exact h

theorem truncToInt_of_nonneg (q : ℚ) (h : 0 ≤ q) : truncToInt q = ⌊q⌋ := by
  simp [truncToInt, h]

theorem ceil_div_eq (N c : Nat) (hc : 1 ≤ c) (h : N % c ≠ 0) : (N + c - 1) / c = N / c + 1 := by
  have hmod : N % c < c := Nat.mod_lt N (by omega)
  have hN : c * (N / c) + N % c = N := Nat.div_add_mod N c
  apply Nat.div_eq_of_lt_le
  · calc (N / c + 1) * c = c * (N / c) + c := by ring
      _ ≤ N + c - 1 := by omega
  · calc N + c - 1 < c * (N / c) + c + c := by omega
      _ = (N / c + 1).succ * c := by
        rw [Nat.succ_eq_add_one]
        ring

/-- The number of slots `k < N` whose parent index `N - 1 - k % c` is `p`, for `p` among
the last `c` indices. -/
theorem pureElitism_count (N c p : Nat) (hc : 1 ≤ c) (hcN : c ≤ N) (hp1 : N - c ≤ p)
    (hp2 : p < N) :
    ((Finset.range N).filter (fun k => N - 1 - k % c = p)).card = N / c ∨
      ((Finset.range N).filter (fun k => N - 1 - k % c = p)).card = (N + c - 1) / c := by
  have hfilter : (Finset.range N).filter (fun k => N - 1 - k % c = p) =
      (Finset.range N).filter (fun k => k ≡ (N - 1 - p) [MOD c]) := by
    apply Finset.filter_congr
    intro k _
    have hk : k % c < c := Nat.mod_lt k (by omega)
    have hm : (N - 1 - p) % c = N - 1 - p := Nat.mod_eq_of_lt (by omega)
    unfold Nat.ModEq
    rw [hm]
    omega
  have hcount : Nat.count (fun k => k ≡ (N - 1 - p) [MOD c]) N =
      N / c + if (N - 1 - p) % c < N % c then 1 else 0 :=
    Nat.count_modEq_card N (by omega) _
  rw [hfilter, ← Nat.count_eq_card_filter_range, hcount]
  by_cases h : (N - 1 - p) % c < N % c
  · right
    rw [if_pos h, ceil_div_eq N c hc (by omega)]
  · left
    rw [if_neg h]
    rfl

/-- C9: pure elitism with count `c ≥ 1`.  The population is sorted ascending by fitness
and no shuffle takes part (the result depends on the outcomes of the sort and of the
mutations only); for every slot `k < N` the member of the next generation at slot `k` is
an offspring of the individual at sorted index `N - 1 - (k mod c)`; hence for `c ≤ N`
only the `c` best individuals (sorted indices `N - c .. N - 1`) have offspring and each
has `floor(N / c)` or `ceil(N / c)` of them. -/
theorem pure_elitism_round_robin (o : Outcomes β) (self : tAgent β)
    (perSiteMutationRate : ℚ) (update : Nat) (eddAgents : List (tAgent β)) (N c : Nat)
    (hv : o.Valid) (hN : eddAgents.length = N) (hc : 1 ≤ c) :
    (o.sort eddAgents).Perm eddAgents ∧
      (o.sort eddAgents).Pairwise (fun a b => a.fitness ≤ b.fitness) ∧
      (∀ o2 : Outcomes β, o2.sort = o.sort → o2.mutate = o.mutate →
        selectPureElitism o2 self perSiteMutationRate update N c eddAgents =
          selectPureElitism o self perSiteMutationRate update N c eddAgents) ∧
      ∃ next, selectPureElitism o self perSiteMutationRate update N c eddAgents = some next ∧
        next.length = N ∧
        (∀ k, k < N → ∃ parent, (o.sort eddAgents)[N - 1 - k % c]? = some parent ∧
          next[k]? = some (inherit self (o.mutate k) parent perSiteMutationRate update)) ∧
        (c ≤ N →
          (∀ k, k < N → N - c ≤ N - 1 - k % c ∧ N - 1 - k % c < N) ∧
          ∀ p, N - c ≤ p → p < N →
            ((Finset.range N).filter (fun k => N - 1 - k % c = p)).card = N / c ∨
              ((Finset.range N).filter (fun k => N - 1 - k % c = p)).card =
                (N + c - 1) / c) := by
  have hlen : (o.sort eddAgents).length = N := by rw [(hv.sort_perm _).length_eq, hN]
  refine ⟨hv.sort_perm _, sort_ascending o hv _, ?_, ?_⟩
  · intro o2 h1 h2
    simp only [selectPureElitism, offspringList, offspringAt, h1, h2]
  · have hslots := pureElitismSlots_eq N c hc
    have hex := offspringList_exists o self (o.sort eddAgents) perSiteMutationRate update N
      (fun s => if s < N then some (N - 1 - s % c) else none)
      (fun k hk => ⟨N - 1 - k % c, by simp [hk], by omega⟩)
    obtain ⟨next, hnext⟩ := hex
    obtain ⟨hl, hget⟩ := offspringList_some o self (o.sort eddAgents) perSiteMutationRate
      update N _ next hnext
    refine ⟨next, ?_, hl, ?_, ?_⟩
    · simp only [selectPureElitism, hslots, hnext]
    · intro k hk
      have hidx : N - 1 - k % c < (o.sort eddAgents).length := by omega
      obtain ⟨parent, hparent, _⟩ := fitnessAt_of_get _ _ hidx
      refine ⟨parent, hparent, ?_⟩
      rw [← hget k hk]
      simp only [if_pos hk, offspringAt, hparent]
    · intro hcN
      refine ⟨?_, fun p hp1 hp2 => pureElitism_count N c p hc hcN hp1 hp2⟩
      intro k hk
      have hk2 : k % c < c := Nat.mod_lt k (by omega)
      omega

/-- Witness of C9: four agents with fitness 1, 3, 2, 2 and `c = 3`. -/
theorem pure_elitism_round_robin_witness :
    (∃ next, selectPureElitism sampleOutcomes sampleAgent 0 1 4 3 samplePopulation =
          some next ∧
        next.length = 4 ∧
        (∀ k, k < 4 → ∃ parent, (sampleOutcomes.sort samplePopulation)[4 - 1 - k % 3]? =
            some parent ∧
          next[k]? = some (inherit sampleAgent (sampleOutcomes.mutate k) parent 0 1)) ∧
        (3 ≤ 4 →
          (∀ k, k < 4 → 4 - 3 ≤ 4 - 1 - k % 3 ∧ 4 - 1 - k % 3 < 4) ∧
          ∀ p, 4 - 3 ≤ p → p < 4 →
            ((Finset.range 4).filter (fun k => 4 - 1 - k % 3 = p)).card = 4 / 3 ∨
              ((Finset.range 4).filter (fun k => 4 - 1 - k % 3 = p)).card =
                (4 + 3 - 1) / 3)) ∧
      (pureElitismSlots 4 3).map (fun nx => (List.range 4).map nx) =
        some [some 3, some 2, some 1, some 3] :=
  ⟨(pure_elitism_round_robin sampleOutcomes sampleAgent 0 1 samplePopulation 4 3
    sampleOutcomes_valid rfl (by decide)).2.2.2, by decide⟩

/-- The end of a selection branch: once every slot has a parent index within the
population, `EANextGen` is filled with new agents and the installed population has `N`
members, each inheriting in generation `update` from a member of the population. -/
theorem finish_selection (o : Outcomes β) (hv : o.Valid) (self : tAgent β) (mr : ℚ)
    (update N : Nat) (eddAgents shuffled parents : List (tAgent β))
    (hs : shuffled.Perm eddAgents) (hp : parents.Perm eddAgents)
    (hN : eddAgents.length = N) (hN1 : 1 ≤ N) (nx : NextGen)
    (hnx : ∀ s, s < N → ∃ p, nx s = some p ∧ p < N) (elitism : Bool) :
    ∃ next, offspringList o self parents mr update N nx = some next ∧
      ∃ installed,
        installNextGen o elitism (eliteCopy o self shuffled mr update N) next =
          some installed ∧
        installed.length = N ∧
        ∀ a, a ∈ installed → InheritsFrom self mr update eddAgents a ∧ a.born = update := by
  have hplen : parents.length = N := by rw [hp.length_eq, hN]
  have hslen : shuffled.length = N := by rw [hs.length_eq, hN]
  obtain ⟨next, hnext⟩ := offspringList_exists o self parents mr update N nx
    (fun k hk => by
      obtain ⟨p, h1, h2⟩ := hnx k hk
      exact ⟨p, h1, by omega⟩)
  obtain ⟨hl, hinh⟩ := offspringList_inherits o self parents mr update N nx next hnext
  obtain ⟨b, hb, hbinh⟩ := eliteCopy_inherits o self shuffled mr update N hslen hN1
  obtain ⟨installed, hi1, hi2, hi3⟩ := installNextGen_spec o hv elitism
    (eliteCopy o self shuffled mr update N) next
    (fun a => InheritsFrom self mr update eddAgents a)
    ⟨b, hb, hbinh.of_perm hs⟩ (fun a ha => (hinh a ha).of_perm hp)
  exact ⟨next, hnext, installed, hi1, by omega, fun a ha => ⟨hi3 a ha, (hi3 a ha).born⟩⟩

theorem fitnessAt_pos (l : List (tAgent β)) (h : ∀ a, a ∈ l → 0 < a.fitness) (k : Nat)
    (hk : k < l.length) : 0 < fitnessAt l k := by
  obtain ⟨parent, hparent, hfit⟩ := fitnessAt_of_get l k hk
  rw [hfit]
  exact h parent (List.getElem?_mem hparent)

end SelectionClaims

/-! ## The sensor offset table -/

section SensorTable

theorem offsetState_eq (a b : OffsetState) (hx : a.offsetX = b.offsetX)
    (hy : a.offsetY = b.offsetY) (ha : a.offsetAmount = b.offsetAmount) : a = b := by
  cases a
  cases b
  simp only [OffsetState.mk.injEq]
  exact ⟨hx, hy, ha⟩

/-- Inside a ring the index is not an odd perfect square. -/
theorem not_odd_square_inside (j m r : Nat) (hm : m + 1 < 8 * (j + 1))
    (hr : r * r = (2 * j + 1) * (2 * j + 1) + (m + 1)) : r % 2 = 0 := by
  have h1 : (2 * j + 1) * (2 * j + 1) < r * r := by omega
  have h2 : r * r < (2 * j + 3) * (2 * j + 3) := by
    have : (2 * j + 3) * (2 * j + 3) = (2 * j + 1) * (2 * j + 1) + 8 * (j + 1) := by ring
    omega
  have h3 : 2 * j + 1 < r := Nat.mul_self_lt_mul_self_iff.mp h1
  have h4 : r < 2 * j + 3 := Nat.mul_self_lt_mul_self_iff.mp h2
  omega

/-- The four edges of a ring as affine expressions of the position. -/
theorem ringOffset_edges (k m : Nat) :
    (m ≤ 2 * k → ringOffset k m = (-(k : Int) + (m : Int), -(k : Int))) ∧
      (2 * k ≤ m → m ≤ 4 * k → ringOffset k m = ((k : Int), (m : Int) - 3 * (k : Int))) ∧
      (4 * k ≤ m → m ≤ 6 * k → ringOffset k m = (5 * (k : Int) - (m : Int), (k : Int))) ∧
      (6 * k ≤ m → ringOffset k m = (-(k : Int), 7 * (k : Int) - (m : Int))) := by
  unfold ringOffset
  refine ⟨?_, ?_, ?_, ?_⟩
  · intro h
    rw [if_pos h]
  · intro h1 h2
    split_ifs <;> apply Prod.ext <;> simp only [] <;> omega
  · intro h1 h2
    split_ifs <;> apply Prod.ext <;> simp only [] <;> omega
  · intro h1
    split_ifs <;> apply Prod.ext <;> simp only [] <;> omega

/-- A step of the constructor loop at an index that is not an odd perfect square. -/
theorem offsetStep_inside (s : OffsetState) (sensor : Nat)
    (hnot : ¬ (Nat.sqrt sensor % 2 = 1 ∧ Nat.sqrt sensor * Nat.sqrt sensor = sensor)) :
    offsetStep s sensor =
      if s.offsetX ≠ s.offsetAmount ∧ s.offsetY = -s.offsetAmount then
        { s with offsetX := s.offsetX + 1 }
      else if s.offsetX = s.offsetAmount ∧ s.offsetY ≠ s.offsetAmount then
        { s with offsetY := s.offsetY + 1 }
      else if s.offsetX ≠ -s.offsetAmount ∧ s.offsetY = s.offsetAmount then
        { s with offsetX := s.offsetX - 1 }
      else if s.offsetX = -s.offsetAmount ∧ s.offsetY ≠ -s.offsetAmount then
        { s with offsetY := s.offsetY - 1 }
      else s := by
  unfold offsetStep
  simp only []
  rw [if_neg hnot]

/-- The locals of the constructor after the iteration of index `(2j+1)^2 + m`, for
`m < 8 (j+1)`: the closed form of ring `j + 1`. -/
theorem offsetStateAfter_ring :
    ∀ (n j m : Nat), m < 8 * (j + 1) → n = (2 * j + 1) * (2 * j + 1) + m →
      offsetStateAfter n =
        { offsetX := (ringOffset (j + 1) m).1
          offsetY := (ringOffset (j + 1) m).2
          offsetAmount := ((j + 1 : Nat) : Int) } := by
  intro n
  induction n with
  | zero =>
    intro j m _ hn
    have : 0 < (2 * j + 1) * (2 * j + 1) := Nat.mul_pos (by omega) (by omega)
    omega
  | succ n ih =>
    intro j m hm hn
    cases m with
    | zero =>
      have hsq : Nat.sqrt (n + 1) = 2 * j + 1 := by
        rw [hn, Nat.add_zero, Nat.sqrt_eq]
      have hgoal := (ringOffset_edges (j + 1) 0).1 (by omega)
      rw [hgoal]
      cases j with
      | zero =>
        have hn0 : n = 0 := by omega
        subst hn0
        rfl
      | succ i =>
        have hprev := ih i (8 * (i + 1) - 1) (by omega) (by
          have : (2 * (i + 1) + 1) * (2 * (i + 1) + 1) =
              (2 * i + 1) * (2 * i + 1) + 8 * (i + 1) := by ring
          omega)
        simp only [offsetStateAfter]
        rw [hprev]
        unfold offsetStep
        simp only [hsq]
        have hodd : (2 * (i + 1) + 1) % 2 = 1 := by omega
        have hmul : (2 * (i + 1) + 1) * (2 * (i + 1) + 1) = n + 1 := by omega
        rw [if_pos ⟨hodd, hmul⟩]
        apply offsetState_eq <;>
          first | (simp only []; done) | (simp only []; push_cast; omega)
    | succ m =>
      have hprev := ih j m (by omega) (by omega)
      have hnot : ¬ (Nat.sqrt (n + 1) % 2 = 1 ∧ Nat.sqrt (n + 1) * Nat.sqrt (n + 1) = n + 1) := by
        rintro ⟨h1, h2⟩
        have := not_odd_square_inside j m (Nat.sqrt (n + 1)) hm (by omega)
        omega
      simp only [offsetStateAfter]
      rw [hprev, offsetStep_inside _ _ hnot]
      simp only []
      obtain ⟨e1, e2, e3, e4⟩ := ringOffset_edges (j + 1) m
      obtain ⟨f1, f2, f3, f4⟩ := ringOffset_edges (j + 1) (m + 1)
      have hk : ((j + 1 : Nat) : Int) = (j : Int) + 1 := by push_cast; ring
      rcases Nat.lt_or_ge m (2 * (j + 1)) with h1 | h1
      · rw [e1 (by omega), f1 (by omega)]
        simp only []
        rw [if_pos ⟨by omega, trivial⟩]
        apply offsetState_eq <;>
          first | (simp only []; done) | (simp only []; push_cast; omega)
      · rcases Nat.lt_or_ge m (4 * (j + 1)) with h2 | h2
        · rw [e2 h1 (by omega), f2 (by omega) (by omega)]
          simp only []
          rw [if_neg (by intro h; exact h.1 rfl), if_pos ⟨trivial, by omega⟩]
          apply offsetState_eq <;>
          first | (simp only []; done) | (simp only []; push_cast; omega)
        · rcases Nat.lt_or_ge m (6 * (j + 1)) with h3 | h3
          · rw [e3 h2 (by omega), f3 (by omega) (by omega)]
            simp only []
            rw [if_neg (by intro h; omega), if_neg (by intro h; exact h.2 rfl),
              if_pos ⟨by omega, trivial⟩]
            apply offsetState_eq <;>
          first | (simp only []; done) | (simp only []; push_cast; omega)
          · rw [e4 h3, f4 (by omega)]
            simp only []
            rw [if_neg (by intro h; omega), if_neg (by intro h; omega),
              if_neg (by intro h; exact h.1 rfl), if_pos ⟨trivial, by omega⟩]
            apply offsetState_eq <;>
          first | (simp only []; done) | (simp only []; push_cast; omega)

/-- The table entry at position `m` of ring `k`, for the rings `1..55` that the table
holds completely. -/
theorem sensorOffsetMap_ring (k m : Nat) (hk1 : 1 ≤ k) (hk : k ≤ 55) (hm : m < 8 * k) :
    sensorOffsetMap ((2 * k - 1) * (2 * k - 1) + m) = some (ringOffset k m) := by
  obtain ⟨j, rfl⟩ : ∃ j, k = j + 1 := ⟨k - 1, by omega⟩
  have hbase : 2 * (j + 1) - 1 = 2 * j + 1 := by omega
  rw [hbase]
  have hlt : (2 * j + 1) * (2 * j + 1) + m < sensorOffsetMapSize := by
    have h1 : (2 * j + 3) * (2 * j + 3) = (2 * j + 1) * (2 * j + 1) + 8 * (j + 1) := by ring
    have h2 : (2 * j + 3) * (2 * j + 3) ≤ 111 * 111 :=
      Nat.mul_le_mul (by omega) (by omega)
    unfold sensorOffsetMapSize
    omega
  unfold sensorOffsetMap
  rw [if_pos hlt, offsetStateAfter_ring _ j m hm rfl]

/-- Every offset of ring `k` is at distance `k` from the center in the maximum norm. -/
theorem ringOffset_radius (k m : Nat) (hm : m < 8 * k) :
    max |(ringOffset k m).1| |(ringOffset k m).2| = (k : Int) := by
  obtain ⟨e1, e2, e3, e4⟩ := ringOffset_edges k m
  rcases Nat.lt_or_ge m (2 * k) with h1 | h1
  · rw [e1 (by omega)]
    simp only []
    rw [abs_neg, abs_of_nonneg (by omega : (0 : Int) ≤ (k : Int))]
    apply max_eq_right
    rw [abs_le]
    constructor <;> omega
  · rcases Nat.lt_or_ge m (4 * k) with h2 | h2
    · rw [e2 h1 (by omega)]
      simp only []
      rw [abs_of_nonneg (by omega : (0 : Int) ≤ (k : Int))]
      apply max_eq_left
      rw [abs_le]
      constructor <;> omega
    · rcases Nat.lt_or_ge m (6 * k) with h3 | h3
      · rw [e3 h2 (by omega)]
        simp only []
        rw [abs_of_nonneg (by omega : (0 : Int) ≤ (k : Int))]
        apply max_eq_right
        rw [abs_le]
        constructor <;> omega
      · rw [e4 h3]
        simp only []
        rw [abs_neg, abs_of_nonneg (by omega : (0 : Int) ≤ (k : Int))]
        apply max_eq_left
        rw [abs_le]
        constructor <;> omega

theorem sensorOffsetMap_zero : sensorOffsetMap 0 = some (0, 0) := by decide

/-- The table entry of an index given with the ring that contains it. -/
theorem sensorOffsetMap_of_ring (n k : Nat)
    (h : 1 ≤ k ∧ k ≤ 55 ∧ (2 * k - 1) * (2 * k - 1) ≤ n ∧ n < (2 * k + 1) * (2 * k + 1)) :
    sensorOffsetMap n = some (ringOffset k (n - (2 * k - 1) * (2 * k - 1))) := by
  obtain ⟨hk1, hk, hlo, hhi⟩ := h
  have hsq : (2 * k + 1) * (2 * k + 1) = (2 * k - 1) * (2 * k - 1) + 8 * k := by
    obtain ⟨j, rfl⟩ : ∃ j, k = j + 1 := ⟨k - 1, by omega⟩
    have hbase : 2 * (j + 1) - 1 = 2 * j + 1 := by omega
    rw [hbase]
    ring
  have := sensorOffsetMap_ring k (n - (2 * k - 1) * (2 * k - 1)) hk1 hk (by omega)
  rw [show (2 * k - 1) * (2 * k - 1) + (n - (2 * k - 1) * (2 * k - 1)) = n by omega] at this
  exact this

end SensorTable

/-! ## The digit grids -/

section GridLemmas

theorem writes_sizes (ws : List (Int × Int × Int)) (g0 : DigitGrid) (digit : Nat)
    (cx cy : Int) :
    (ws.foldl (fun g w => setCell g digit (cx + w.1) (cy + w.2.1) w.2.2) g0).sizeX =
        g0.sizeX ∧
      (ws.foldl (fun g w => setCell g digit (cx + w.1) (cy + w.2.1) w.2.2) g0).sizeY =
        g0.sizeY := by
  induction ws generalizing g0 with
  | nil => exact ⟨rfl, rfl⟩
  | cons w ws ih =>
    rw [List.foldl_cons]
    exact ih _

theorem placeDigit_sizes (g : DigitGrid) (digit : Nat) (cx cy : Int) :
    (placeDigit g digit cx cy).sizeX = g.sizeX ∧ (placeDigit g digit cx cy).sizeY = g.sizeY := by
  unfold placeDigit
  exact writes_sizes _ (clearGrid g digit) digit cx cy

/-- A cell after a list of writes holds the last value written to it. -/
theorem writes_cell (ws : List (Int × Int × Int)) (g0 : DigitGrid) (digit : Nat)
    (cx cy : Int) (d : Nat) (x y : Int) :
    (ws.foldl (fun g w => setCell g digit (cx + w.1) (cy + w.2.1) w.2.2) g0).cell d x y =
      if d = digit then lastWrite ws (x - cx) (y - cy) (g0.cell d x y) else g0.cell d x y := by
  induction ws generalizing g0 with
  | nil =>
    simp [lastWrite]
  | cons w ws ih =>
    rw [List.foldl_cons, ih]
    by_cases hd : d = digit
    · rw [if_pos hd, if_pos hd]
      simp only [lastWrite, List.foldl_cons, setCell]
      congr 1
      by_cases hw : w.1 = x - cx ∧ w.2.1 = y - cy
      · have hw2 : d = digit ∧ x = cx + w.1 ∧ y = cy + w.2.1 := ⟨hd, by omega, by omega⟩
        rw [if_pos hw, if_pos hw2]
      · have hw2 : ¬ (d = digit ∧ x = cx + w.1 ∧ y = cy + w.2.1) := by
          intro h
          apply hw
          constructor <;> omega
        rw [if_neg hw, if_neg hw2]
    · rw [if_neg hd, if_neg hd]
      simp only [setCell]
      rw [if_neg (fun h => hd h.1)]

theorem lastWrite_outside (ws : List (Int × Int × Int)) (dx dy old : Int)
    (h : ∀ w, w ∈ ws → ¬ (w.1 = dx ∧ w.2.1 = dy)) : lastWrite ws dx dy old = old := by
  unfold lastWrite
  induction ws generalizing old with
  | nil => rfl
  | cons w ws ih =>
    rw [List.foldl_cons, if_neg (h w (List.mem_cons_self _ _))]
    exact ih old (fun v hv => h v (List.mem_cons_of_mem _ hv))

/-- On a cleared cell the writes of a digit leave its 5x5 pattern. -/
theorem glyph_lastWrite :
    ∀ d, d ∈ List.range 10 → ∀ dx, dx ∈ [(-2 : Int), -1, 0, 1, 2] →
      ∀ dy, dy ∈ [(-2 : Int), -1, 0, 1, 2] →
        lastWrite (glyphWrites d) dx dy 0 = glyphPattern d dx dy := by
  decide

theorem glyphPattern_bit :
    ∀ d, d ∈ List.range 10 → ∀ dx, dx ∈ [(-2 : Int), -1, 0, 1, 2] →
      ∀ dy, dy ∈ [(-2 : Int), -1, 0, 1, 2] →
        glyphPattern d dx dy = 0 ∨ glyphPattern d dx dy = 1 := by
  decide

theorem glyphWrites_block_ten :
    ∀ d, d ∈ List.range 10 → ∀ w, w ∈ glyphWrites d →
      -2 ≤ w.1 ∧ w.1 ≤ 2 ∧ -2 ≤ w.2.1 ∧ w.2.1 ≤ 2 := by
  decide

theorem glyphWrites_default (d : Nat) (hd : 10 ≤ d) : glyphWrites d = [] := by
  obtain ⟨n, rfl⟩ : ∃ n, d = n + 10 := ⟨d - 10, by omega⟩
  rfl

/-- Every write of the `switch` is within the 5x5 block around the center. -/
theorem glyphWrites_block (d : Nat) (w : Int × Int × Int) (hw : w ∈ glyphWrites d) :
    -2 ≤ w.1 ∧ w.1 ≤ 2 ∧ -2 ≤ w.2.1 ∧ w.2.1 ≤ 2 := by
  rcases Nat.lt_or_ge d 10 with h | h
  · exact glyphWrites_block_ten d (List.mem_range.mpr h) w hw
  · rw [glyphWrites_default d h] at hw
    simp at hw

theorem mem_block (v : Int) (h1 : -2 ≤ v) (h2 : v ≤ 2) : v ∈ [(-2 : Int), -1, 0, 1, 2] := by
  have : v = -2 ∨ v = -1 ∨ v = 0 ∨ v = 1 ∨ v = 2 := by omega
  simp only [List.mem_cons, List.mem_singleton, List.not_mem_nil, or_false]
  exact this

/-- The grid of a digit after `placeDigit`, cell by cell within the allocated range. -/
theorem placeDigit_cell (g : DigitGrid) (digit : Nat) (cx cy : Int) (hd : digit < 10)
    (x y : Int) (hx1 : 0 ≤ x) (hx2 : x < g.sizeX) (hy1 : 0 ≤ y) (hy2 : y < g.sizeY) :
    (placeDigit g digit cx cy).cell digit x y =
      if (-2 ≤ x - cx ∧ x - cx ≤ 2) ∧ (-2 ≤ y - cy ∧ y - cy ≤ 2) then
        glyphPattern digit (x - cx) (y - cy)
      else 0 := by
  unfold placeDigit
  rw [writes_cell, if_pos rfl]
  have hclear : (clearGrid g digit).cell digit x y = 0 := by
    simp [clearGrid, hx1, hx2, hy1, hy2]
  rw [hclear]
  by_cases hb : (-2 ≤ x - cx ∧ x - cx ≤ 2) ∧ (-2 ≤ y - cy ∧ y - cy ≤ 2)
  · rw [if_pos hb]
    exact glyph_lastWrite digit (List.mem_range.mpr hd) _ (mem_block _ hb.1.1 hb.1.2) _
      (mem_block _ hb.2.1 hb.2.2)
  · rw [if_neg hb]
    apply lastWrite_outside
    intro w hw hxy
    obtain ⟨h1, h2, h3, h4⟩ := glyphWrites_block digit w hw
    apply hb
    rw [← hxy.1, ← hxy.2]
    exact ⟨⟨h1, h2⟩, ⟨h3, h4⟩⟩

/-- The grids of the other digits are not touched by `placeDigit`. -/
theorem placeDigit_other (g : DigitGrid) (digit : Nat) (cx cy : Int) (d : Nat)
    (hd : d ≠ digit) (x y : Int) : (placeDigit g digit cx cy).cell d x y = g.cell d x y := by
  unfold placeDigit
  rw [writes_cell, if_neg hd]
  simp only [clearGrid]
  rw [if_neg (fun h => hd h.1)]

theorem searchPlacement_valid (gx gy : Nat) (draws : List (ℚ × ℚ)) (c : Int × Int)
    (rest : List (ℚ × ℚ)) (h : searchPlacement gx gy draws = some (c, rest)) :
    validPlacement gx gy c.1 c.2 = true := by
  induction draws with
  | nil => simp [searchPlacement] at h
  | cons r draws ih =>
    obtain ⟨rx, ry⟩ := r
    simp only [searchPlacement] at h
    by_cases hv : validPlacement gx gy (truncToInt (rx * gx)) (truncToInt (ry * gy)) = true
    · rw [if_pos hv] at h
      simp only [Option.some.injEq, Prod.mk.injEq] at h
      rw [← h.1]
      exact hv
    · rw [if_neg hv] at h
      exact ih h

theorem validPlacement_iff (gx gy : Nat) (cx cy : Int) :
    validPlacement gx gy cx cy = true ↔
      cx - 2 ≥ 0 ∧ cx + 2 < gx ∧ cy - 2 ≥ 0 ∧ cy + 2 < gy := by
  simp [validPlacement, and_assoc]

/-- The center chosen for a digit on a grid of at least 5x5 keeps the stamp inside the
grid. -/
theorem digitCenter_valid (gx gy : Nat) (hx : 5 ≤ gx) (hy : 5 ≤ gy) (rp : Bool)
    (draws : List (ℚ × ℚ)) (c : Int × Int) (rest : List (ℚ × ℚ))
    (h : digitCenter gx gy rp draws = some (c, rest)) :
    c.1 - 2 ≥ 0 ∧ c.1 + 2 < gx ∧ c.2 - 2 ≥ 0 ∧ c.2 + 2 < gy := by
  unfold digitCenter at h
  cases rp with
  | true =>
    simp only [if_true] at h
    exact (validPlacement_iff gx gy c.1 c.2).mp (searchPlacement_valid gx gy draws c rest h)
  | false =>
    simp only [Bool.false_eq_true, if_false, Option.some.injEq, Prod.mk.injEq] at h
    rw [← h.1]
    simp only []
    omega

theorem digitCenters_valid (gx gy : Nat) (hx : 5 ≤ gx) (hy : 5 ≤ gy) (rp : Bool)
    (l : List Nat) (draws : List (ℚ × ℚ)) (cs : List (Int × Int))
    (h : digitCenters gx gy rp l draws = some cs) :
    cs.length = l.length ∧
      ∀ c, c ∈ cs → c.1 - 2 ≥ 0 ∧ c.1 + 2 < gx ∧ c.2 - 2 ≥ 0 ∧ c.2 + 2 < gy := by
  induction l generalizing draws cs with
  | nil =>
    simp only [digitCenters, Option.some.injEq] at h
    rw [← h]
    simp
  | cons d l ih =>
    simp only [digitCenters] at h
    cases hc : digitCenter gx gy rp draws with
    | none => simp [hc] at h
    | some p =>
      obtain ⟨c, draws1⟩ := p
      simp only [hc] at h
      cases hr : digitCenters gx gy rp l draws1 with
      | none => simp [hr] at h
      | some cs1 =>
        simp only [hr, Option.some.injEq] at h
        obtain ⟨hl, hall⟩ := ih draws1 cs1 hr
        rw [← h]
        refine ⟨by simp [hl], ?_⟩
        intro c2 hc2
        rcases List.mem_cons.mp hc2 with h1 | h1
        · rw [h1]
          exact digitCenter_valid gx gy hx hy rp draws c draws1 hc
        · exact hall c2 h1

theorem digitCenters_centered (gx gy : Nat) (l : List Nat) (draws : List (ℚ × ℚ)) :
    digitCenters gx gy false l draws =
      some (List.replicate l.length (((gx / 2 : Nat) : Int), ((gy / 2 : Nat) : Int))) := by
  induction l with
  | nil => rfl
  | cons d l ih =>
    simp only [digitCenters, digitCenter, Bool.false_eq_true, if_false, ih, List.length_cons,
      List.replicate_succ]

/-- The placement loop calls `placeDigit` with the centers of `digitCenters`, in order. -/
theorem placeDigits_eq (rp : Bool) (l : List Nat) (g : DigitGrid) (draws : List (ℚ × ℚ)) :
    placeDigits rp l g draws =
      match digitCenters g.sizeX g.sizeY rp l draws with
      | none => none
      | some cs =>
        some ((l.zip cs).foldl (fun g dc => placeDigit g dc.1 dc.2.1 dc.2.2) g) := by
  induction l generalizing g draws with
  | nil => rfl
  | cons d l ih =>
    simp only [placeDigits, digitCenters]
    cases hc : digitCenter g.sizeX g.sizeY rp draws with
    | none => rfl
    | some p =>
      obtain ⟨c, draws1⟩ := p
      simp only []
      rw [ih, (placeDigit_sizes g d c.1 c.2).1, (placeDigit_sizes g d c.1 c.2).2]
      cases hr : digitCenters g.sizeX g.sizeY rp l draws1 with
      | none => rfl
      | some cs1 => rfl

end GridLemmas

/-! ## Claims about the sensor offset table -/

section SensorClaims

/-- C14: the sensor offset table has the closed form of the spiral: index 0 maps to
`(0,0)`, and for every ring `k` with `1 ≤ k ≤ 55` and base `b = (2k-1)^2`, `b + j` maps
to `(-k + j, -k)` for `j ≤ 2k`, `b + 2k + j` to `(k, -k + j)` for `j ≤ 2k`, `b + 4k + j`
to `(k - j, k)` for `j ≤ 2k` and `b + 6k + j` to `(-k, k - j)` for `j < 2k`.  The table
reproduces the 7x7 diagram of the source comment, in particular `1 ↦ (-1,-1)`,
`4 ↦ (1,0)`, `9 ↦ (-2,-2)`, `37 ↦ (3,3)` and `48 ↦ (-3,-2)`. -/
theorem sensor_table_closed_form :
    sensorOffsetMap 0 = some (0, 0) ∧
      (∀ k : Nat, 1 ≤ k → k ≤ 55 →
        (∀ j : Nat, j ≤ 2 * k →
          sensorOffsetMap ((2 * k - 1) * (2 * k - 1) + j) =
            some (-(k : Int) + (j : Int), -(k : Int))) ∧
        (∀ j : Nat, j ≤ 2 * k →
          sensorOffsetMap ((2 * k - 1) * (2 * k - 1) + 2 * k + j) =
            some ((k : Int), -(k : Int) + (j : Int))) ∧
        (∀ j : Nat, j ≤ 2 * k →
          sensorOffsetMap ((2 * k - 1) * (2 * k - 1) + 4 * k + j) =
            some ((k : Int) - (j : Int), (k : Int))) ∧
        (∀ j : Nat, j < 2 * k →
          sensorOffsetMap ((2 * k - 1) * (2 * k - 1) + 6 * k + j) =
            some (-(k : Int), (k : Int) - (j : Int)))) ∧
      (∀ r, r < 7 → ∀ c, c < 7 →
        sensorOffsetMap ((sensorDiagram.getD r []).getD c 0) =
          some ((c : Int) - 3, 3 - (r : Int))) ∧
      sensorOffsetMap 1 = some (-1, -1) ∧ sensorOffsetMap 4 = some (1, 0) ∧
      sensorOffsetMap 9 = some (-2, -2) ∧ sensorOffsetMap 37 = some (3, 3) ∧
      sensorOffsetMap 48 = some (-3, -2) := by
  have hdiagram : ∀ r, r < 7 → ∀ c, c < 7 →
      sensorOffsetMap ((sensorDiagram.getD r []).getD c 0) =
        some ((c : Int) - 3, 3 - (r : Int)) := by
    intro r hr c hc
    interval_cases r <;> interval_cases c <;>
      first
        | exact sensorOffsetMap_zero
        | exact (sensorOffsetMap_of_ring _ 1 (by decide)).trans (by decide)
        | exact (sensorOffsetMap_of_ring _ 2 (by decide)).trans (by decide)
        | exact (sensorOffsetMap_of_ring _ 3 (by decide)).trans (by decide)
  refine ⟨sensorOffsetMap_zero, ?_, hdiagram,
    (sensorOffsetMap_of_ring 1 1 (by decide)).trans (by decide),
    (sensorOffsetMap_of_ring 4 1 (by decide)).trans (by decide),
    (sensorOffsetMap_of_ring 9 2 (by decide)).trans (by decide),
    (sensorOffsetMap_of_ring 37 3 (by decide)).trans (by decide),
    (sensorOffsetMap_of_ring 48 3 (by decide)).trans (by decide)⟩
  intro k hk1 hk
  refine ⟨?_, ?_, ?_, ?_⟩
  · intro j hj
    rw [sensorOffsetMap_ring k j hk1 hk (by omega), (ringOffset_edges k j).1 hj]
  · intro j hj
    rw [Nat.add_assoc, sensorOffsetMap_ring k (2 * k + j) hk1 hk (by omega),
      (ringOffset_edges k (2 * k + j)).2.1 (by omega) (by omega)]
    congr 2
    push_cast
    ring
  · intro j hj
    rw [Nat.add_assoc, sensorOffsetMap_ring k (4 * k + j) hk1 hk (by omega),
      (ringOffset_edges k (4 * k + j)).2.2.1 (by omega) (by omega)]
    congr 2
    push_cast
    ring
  · intro j hj
    rw [Nat.add_assoc, sensorOffsetMap_ring k (6 * k + j) hk1 hk (by omega),
      (ringOffset_edges k (6 * k + j)).2.2.2 (by omega)]
    congr 2
    push_cast
    ring

/-- Witness of C14: ring 3 has base 25; index `25 + 12 + 0 = 37` is the start of the top
edge and maps to `(3, 3)`, index `25 + 18 + 5 = 48` is on the left edge and maps to
`(-3, -2)`. -/
theorem sensor_table_closed_form_witness :
    sensorOffsetMap ((2 * 3 - 1) * (2 * 3 - 1) + 4 * 3 + 0) =
        some (((3 : Nat) : Int) - ((0 : Nat) : Int), ((3 : Nat) : Int)) ∧
      sensorOffsetMap ((2 * 3 - 1) * (2 * 3 - 1) + 6 * 3 + 5) =
        some (-((3 : Nat) : Int), ((3 : Nat) : Int) - ((5 : Nat) : Int)) :=
  ⟨(sensor_table_closed_form.2.1 3 (by decide) (by decide)).2.2.1 0 (by decide),
    (sensor_table_closed_form.2.1 3 (by decide) (by decide)).2.2.2 5 (by decide)⟩

/-- C15: in the sensor offset table index 0 maps to `(0,0)`, and for every ring `k`
with `1 ≤ k ≤ 55` the indices `n` with `(2k-1)^2 ≤ n < (2k+1)^2` are exactly `8k` in
number and each maps to an offset `(dx, dy)` with `max(|dx|, |dy|) = k`. -/
theorem sensor_ring_size_and_radius :
    sensorOffsetMap 0 = some (0, 0) ∧
      ∀ k : Nat, 1 ≤ k → k ≤ 55 →
        (Finset.Ico ((2 * k - 1) * (2 * k - 1)) ((2 * k + 1) * (2 * k + 1))).card = 8 * k ∧
        ∀ n, (2 * k - 1) * (2 * k - 1) ≤ n → n < (2 * k + 1) * (2 * k + 1) →
          ∃ dx dy : Int, sensorOffsetMap n = some (dx, dy) ∧ max |dx| |dy| = (k : Int) := by
  refine ⟨sensorOffsetMap_zero, ?_⟩
  intro k hk1 hk
  have hsq : (2 * k + 1) * (2 * k + 1) = (2 * k - 1) * (2 * k - 1) + 8 * k := by
    obtain ⟨j, rfl⟩ : ∃ j, k = j + 1 := ⟨k - 1, by omega⟩
    have hbase : 2 * (j + 1) - 1 = 2 * j + 1 := by omega
    rw [hbase]
    ring
  constructor
  · rw [Nat.card_Ico, hsq]
    omega
  · intro n hlo hhi
    obtain ⟨m, rfl⟩ : ∃ m, n = (2 * k - 1) * (2 * k - 1) + m :=
      ⟨n - (2 * k - 1) * (2 * k - 1), by omega⟩
    have hm : m < 8 * k := by omega
    exact ⟨(ringOffset k m).1, (ringOffset k m).2, sensorOffsetMap_ring k m hk1 hk hm,
      ringOffset_radius k m hm⟩

/-- Witness of C15: ring 2 consists of the 16 indices `9..24`, and index 15 maps to
`(2, 0)`, at distance 2. -/
theorem sensor_ring_size_and_radius_witness :
    (Finset.Ico ((2 * 2 - 1) * (2 * 2 - 1)) ((2 * 2 + 1) * (2 * 2 + 1))).card = 8 * 2 ∧
      (∃ dx dy : Int, sensorOffsetMap 15 = some (dx, dy) ∧ max |dx| |dy| = ((2 : Nat) : Int)) ∧
      sensorOffsetMap 15 = some (2, 0) :=
  ⟨(sensor_ring_size_and_radius.2 2 (by decide) (by decide)).1,
    (sensor_ring_size_and_radius.2 2 (by decide) (by decide)).2 15 (by decide) (by decide),
    (sensorOffsetMap_of_ring 15 2 (by decide)).trans (by decide)⟩

end SensorClaims


/-! ## Claims about the digit grids and the camera -/

section GridClaims

variable {β : Type}

/-- C16: for every digit `d` in `0..9`, every grid and every center `(cx, cy)` with
`cx - 2 ≥ 0`, `cx + 2 < gx`, `cy - 2 ≥ 0`, `cy + 2 < gy`, whatever the grid held before:
after `placeDigit(d, cx, cy)` the cell `(x, y)` of grid `d` is 1 iff `|x - cx| ≤ 2`,
`|y - cy| ≤ 2` and the 5x5 pattern of `d` has a 1 at `(x - cx, y - cy)`, and it is 0
otherwise; in particular every cell outside the 5x5 block is 0.  Every write of the
stamp is inside the grid; the size of the grid and the grids of the other digits are
unchanged. -/
theorem placeDigit_stamps_pattern (digitGrid : DigitGrid) (digit : Nat) (cx cy : Int)
    (hd : digit < 10) (hcx1 : cx - 2 ≥ 0) (hcx2 : cx + 2 < digitGrid.sizeX)
    (hcy1 : cy - 2 ≥ 0) (hcy2 : cy + 2 < digitGrid.sizeY) :
    (∀ x y : Int, 0 ≤ x → x < digitGrid.sizeX → 0 ≤ y → y < digitGrid.sizeY →
        ((placeDigit digitGrid digit cx cy).cell digit x y = 1 ↔
          |x - cx| ≤ 2 ∧ |y - cy| ≤ 2 ∧ glyphPattern digit (x - cx) (y - cy) = 1) ∧
        (¬ (|x - cx| ≤ 2 ∧ |y - cy| ≤ 2 ∧ glyphPattern digit (x - cx) (y - cy) = 1) →
          (placeDigit digitGrid digit cx cy).cell digit x y = 0) ∧
        (¬ (|x - cx| ≤ 2 ∧ |y - cy| ≤ 2) →
          (placeDigit digitGrid digit cx cy).cell digit x y = 0)) ∧
      (∀ w, w ∈ glyphWrites digit →
        0 ≤ cx + w.1 ∧ cx + w.1 < digitGrid.sizeX ∧
          0 ≤ cy + w.2.1 ∧ cy + w.2.1 < digitGrid.sizeY) ∧
      (placeDigit digitGrid digit cx cy).sizeX = digitGrid.sizeX ∧
      (placeDigit digitGrid digit cx cy).sizeY = digitGrid.sizeY ∧
      (∀ d x y, d ≠ digit →
        (placeDigit digitGrid digit cx cy).cell d x y = digitGrid.cell d x y) := by
  refine ⟨?_, ?_, (placeDigit_sizes digitGrid digit cx cy).1,
    (placeDigit_sizes digitGrid digit cx cy).2,
    fun d x y hne => placeDigit_other digitGrid digit cx cy d hne x y⟩
  swap
  · intro w hw
    obtain ⟨b1, b2, b3, b4⟩ := glyphWrites_block digit w hw
    omega
  intro x y hx1 hx2 hy1 hy2
  have hcell := placeDigit_cell digitGrid digit cx cy hd x y hx1 hx2 hy1 hy2
  have habs : (|x - cx| ≤ 2 ∧ |y - cy| ≤ 2) ↔
      ((-2 ≤ x - cx ∧ x - cx ≤ 2) ∧ (-2 ≤ y - cy ∧ y - cy ≤ 2)) := by
    rw [abs_le, abs_le]
  by_cases hb : (-2 ≤ x - cx ∧ x - cx ≤ 2) ∧ (-2 ≤ y - cy ∧ y - cy ≤ 2)
  · rw [if_pos hb] at hcell
    have hbit := glyphPattern_bit digit (List.mem_range.mpr hd) _
      (mem_block _ hb.1.1 hb.1.2) _ (mem_block _ hb.2.1 hb.2.2)
    have hab := habs.mpr hb
    rw [hcell]
    refine ⟨⟨fun h => ⟨hab.1, hab.2, h⟩, fun h => h.2.2⟩, ?_, fun h => absurd hab h⟩
    intro hnot
    rcases hbit with h0 | h1
    · exact h0
    · exact absurd ⟨hab.1, hab.2, h1⟩ hnot
  · rw [if_neg hb] at hcell
    rw [hcell]
    refine ⟨⟨fun h => by omega, fun h => absurd (habs.mp ⟨h.1, h.2.1⟩) hb⟩, fun _ => rfl,
      fun _ => rfl⟩

/-- Witness of C16: digit 7 stamped at the center `(2, 2)` of a 5x5 grid that held 1 in
every cell: the cell `(3, 4)` of the top bar is 1, the cell `(1, 1)` is 0. -/
theorem placeDigit_stamps_pattern_witness :
    (placeDigit { sizeX := 5, sizeY := 5, cell := fun _ _ _ => 1 } 7 2 2).cell 7 3 4 = 1 ∧
      (placeDigit { sizeX := 5, sizeY := 5, cell := fun _ _ _ => 1 } 7 2 2).cell 7 1 1 = 0 := by
  have h := (placeDigit_stamps_pattern { sizeX := 5, sizeY := 5, cell := fun _ _ _ => 1 }
    7 2 2 (by decide) (by decide) (by decide) (by decide) (by decide)).1
  refine ⟨((h 3 4 (by decide) (by decide) (by decide) (by decide)).1).mpr (by decide),
    (h 1 1 (by decide) (by decide) (by decide) (by decide)).2.1 (by decide)⟩

/-- C17: for every grid size `gx ≥ 5`, `gy ≥ 5` and both placement modes, the center
`(cx, cy)` passed to `placeDigit` for each of the ten digits satisfies `cx - 2 ≥ 0`,
`cx + 2 < gx`, `cy - 2 ≥ 0`, `cy + 2 < gy`, so every cell written by the stamp is inside
the grid; in centered mode the center is `(floor(gx/2), floor(gy/2))` for every digit. -/
theorem centers_keep_stamp_in_grid (gridSizeX gridSizeY : Nat) (hx : 5 ≤ gridSizeX)
    (hy : 5 ≤ gridSizeY) (draws : List (ℚ × ℚ)) :
    digitCenters gridSizeX gridSizeY false (List.range 10) draws =
        some (List.replicate 10
          (((gridSizeX / 2 : Nat) : Int), ((gridSizeY / 2 : Nat) : Int))) ∧
      ∀ (randomPlacement : Bool) (cs : List (Int × Int)),
        digitCenters gridSizeX gridSizeY randomPlacement (List.range 10) draws = some cs →
        cs.length = 10 ∧
        placeDigits randomPlacement (List.range 10) (emptyGrid gridSizeX gridSizeY) draws =
          some (((List.range 10).zip cs).foldl
            (fun g dc => placeDigit g dc.1 dc.2.1 dc.2.2) (emptyGrid gridSizeX gridSizeY)) ∧
        ∀ c, c ∈ cs →
          (c.1 - 2 ≥ 0 ∧ c.1 + 2 < gridSizeX ∧ c.2 - 2 ≥ 0 ∧ c.2 + 2 < gridSizeY) ∧
          ∀ digit w, w ∈ glyphWrites digit →
            0 ≤ c.1 + w.1 ∧ c.1 + w.1 < gridSizeX ∧ 0 ≤ c.2 + w.2.1 ∧ c.2 + w.2.1 < gridSizeY := by
  refine ⟨digitCenters_centered gridSizeX gridSizeY (List.range 10) draws, ?_⟩
  intro rp cs hcs
  obtain ⟨hl, hall⟩ := digitCenters_valid gridSizeX gridSizeY hx hy rp _ draws cs hcs
  refine ⟨by simpa using hl, ?_, ?_⟩
  · rw [placeDigits_eq]
    simp only [emptyGrid, hcs]
  · intro c hc
    obtain ⟨h1, h2, h3, h4⟩ := hall c hc
    refine ⟨⟨h1, h2, h3, h4⟩, ?_⟩
    intro digit w hw
    obtain ⟨b1, b2, b3, b4⟩ := glyphWrites_block digit w hw
    omega

/-- Witness of C17: a 6x7 grid.  In centered mode every center is `(3, 3)`; in random
mode, on a stream whose first pair `(0, 0)` is rejected and whose next ten pairs are
`(1/2, 1/2)`, every center is `(3, 3)` as well; the stamps stay inside the grid. -/
theorem centers_keep_stamp_in_grid_witness :
    digitCenters 6 7 false (List.range 10) [] = some (List.replicate 10 (3, 3)) ∧
      digitCenters 6 7 true (List.range 10) ((0, 0) :: List.replicate 10 (1 / 2, 1 / 2)) =
        some (List.replicate 10 (3, 3)) ∧
      ∀ c, c ∈ List.replicate 10 ((3 : Int), (3 : Int)) →
        (c.1 - 2 ≥ 0 ∧ c.1 + 2 < ((6 : Nat) : Int) ∧ c.2 - 2 ≥ 0 ∧ c.2 + 2 < ((7 : Nat) : Int)) ∧
        ∀ digit w, w ∈ glyphWrites digit →
          0 ≤ c.1 + w.1 ∧ c.1 + w.1 < ((6 : Nat) : Int) ∧
            0 ≤ c.2 + w.2.1 ∧ c.2 + w.2.1 < ((7 : Nat) : Int) := by
  have h := centers_keep_stamp_in_grid 6 7 (by decide) (by decide)
    ((0, 0) :: List.replicate 10 (1 / 2, 1 / 2))
  have h1 : truncToInt (0 : ℚ) = 0 := by norm_num [truncToInt]
  have h3 : truncToInt ((2 : ℚ)⁻¹ * 6) = 3 := by
    norm_num [truncToInt]
  have h4 : truncToInt ((2 : ℚ)⁻¹ * 7) = 3 := by
    unfold truncToInt
    rw [if_pos (by norm_num), Int.floor_eq_iff]
    norm_num
  have hv0 : validPlacement 6 7 0 0 = false := by decide
  have hv3 : validPlacement 6 7 3 3 = true := by decide
  have hrandom : digitCenters 6 7 true (List.range 10)
      ((0, 0) :: List.replicate 10 (1 / 2, 1 / 2)) = some (List.replicate 10 (3, 3)) := by
    simp [List.range_succ, List.replicate, digitCenters, digitCenter, searchPlacement,
      h1, h3, h4, hv0, hv3]
  exact ⟨(centers_keep_stamp_in_grid 6 7 (by decide) (by decide) []).1, hrandom,
    (h.2 true _ hrandom).2.2⟩

end GridClaims

/-! ## Claims about the camera -/

section CameraClaims

variable {β : Type}

/-- The update of `cameraSize` in lines 302-311 keeps the size odd and between 1 and
`min(gridSizeX, 9)`. -/
theorem moveCamera_size (zoomingCamera : Bool) (gridSizeX maxNodes : Nat)
    (states : Nat → Nat) (cam : Camera)
    (h : cam.cameraSize % 2 = 1 ∧ 1 ≤ cam.cameraSize ∧ cam.cameraSize ≤ min gridSizeX 9) :
    (moveCamera zoomingCamera gridSizeX maxNodes states cam).cameraSize % 2 = 1 ∧
      1 ≤ (moveCamera zoomingCamera gridSizeX maxNodes states cam).cameraSize ∧
      (moveCamera zoomingCamera gridSizeX maxNodes states cam).cameraSize ≤ min gridSizeX 9 := by
  obtain ⟨h1, h2, h3⟩ := h
  have h4 := Nat.le_min.mp h3
  simp only [moveCamera, Nat.le_min]
  split_ifs <;> omega

/-- The state after `n + 1` steps is one step after the state after `n` steps. -/
theorem stateAfterSteps_succ (C : Controller β) (maxNodes : Nat) (g : DigitGrid)
    (zoomingCamera : Bool) (agent : tAgent β) (digit n : Nat) :
    stateAfterSteps C maxNodes g zoomingCamera agent digit (n + 1) =
      simulationStep C maxNodes g digit zoomingCamera
        (stateAfterSteps C maxNodes g zoomingCamera agent digit n) := by
  simp only [stateAfterSteps, List.range_succ, List.foldl_append, List.foldl_cons,
    List.foldl_nil]

/-- The trial starts with the camera of lines 178-180, whatever the camera was. -/
theorem startTrial_eq (C : Controller β) (gridSizeX gridSizeY : Nat) (agent : tAgent β)
    (camera : Camera) :
    startTrial C gridSizeX gridSizeY agent camera =
      { brain := (C.resetBrain agent.brain agent.states).1
        states := (C.resetBrain agent.brain agent.states).2
        camera := initialCamera gridSizeX gridSizeY } := rfl

/-- The agent left by the body of the trial loop does not depend on the camera left by
the preceding trial. -/
theorem trialBody_agent (C : Controller β) (maxNodes : Nat) (g : DigitGrid)
    (zoomingCamera : Bool) (v : tAgent β × Camera) (digit : Nat) :
    (trialBody C maxNodes g zoomingCamera v digit).1 =
      runTrial C maxNodes g zoomingCamera v.1 digit := rfl

/-- The agent left by the trial loop is the one that `runTrial` computes trial after
trial. -/
theorem trialLoop_agent (C : Controller β) (maxNodes : Nat) (g : DigitGrid)
    (zoomingCamera : Bool) (digits : List Nat) (v : tAgent β × Camera) :
    (trialLoop C maxNodes g zoomingCamera digits v).1 =
      digits.foldl (runTrial C maxNodes g zoomingCamera) v.1 := by
  induction digits generalizing v with
  | nil => rfl
  | cons d rest ih =>
    simp only [trialLoop, List.foldl_cons] at ih ⊢
    rw [ih, trialBody_agent]

/-- Claim C18.  For every grid width `gridSizeX ≥ 5`, every controller (hence every
sequence of motor outputs) and with zooming enabled or not: the camera size after each
number `n` of steps of a trial is odd and satisfies `1 ≤ size ≤ min(gridSizeX, 9)`.  The
state after `n + 1` steps is one step of the loop after the state after `n` steps, the
trial ends in the state after `totalStepsInSimulation` steps, and the camera update
itself keeps the property for any register contents. -/
theorem camera_size_odd_and_bounded (C : Controller β) (maxNodes : Nat) (g : DigitGrid)
    (zoomingCamera : Bool) (agent : tAgent β) (digit : Nat) (hg : 5 ≤ g.sizeX) :
    (∀ n,
      (stateAfterSteps C maxNodes g zoomingCamera agent digit n).camera.cameraSize % 2 = 1 ∧
        1 ≤ (stateAfterSteps C maxNodes g zoomingCamera agent digit n).camera.cameraSize ∧
        (stateAfterSteps C maxNodes g zoomingCamera agent digit n).camera.cameraSize ≤
          min g.sizeX 9) ∧
      (∀ n, stateAfterSteps C maxNodes g zoomingCamera agent digit (n + 1) =
        simulationStep C maxNodes g digit zoomingCamera
          (stateAfterSteps C maxNodes g zoomingCamera agent digit n)) ∧
      runSteps C maxNodes g zoomingCamera agent digit =
        stateAfterSteps C maxNodes g zoomingCamera agent digit totalStepsInSimulation ∧
      (∀ (states : Nat → Nat) (cam : Camera),
        cam.cameraSize % 2 = 1 ∧ 1 ≤ cam.cameraSize ∧ cam.cameraSize ≤ min g.sizeX 9 →
        (moveCamera zoomingCamera g.sizeX maxNodes states cam).cameraSize % 2 = 1 ∧
          1 ≤ (moveCamera zoomingCamera g.sizeX maxNodes states cam).cameraSize ∧
          (moveCamera zoomingCamera g.sizeX maxNodes states cam).cameraSize ≤
            min g.sizeX 9) := by
  refine ⟨?_, stateAfterSteps_succ C maxNodes g zoomingCamera agent digit, rfl,
    fun states cam h => moveCamera_size zoomingCamera g.sizeX maxNodes states cam h⟩
  intro n
  induction n with
  | zero =>
    have h3 : (3 : Nat) ≤ min g.sizeX 9 := Nat.le_min.mpr ⟨by omega, by omega⟩
    simpa [stateAfterSteps, initialCamera] using h3
  | succ n ih =>
    rw [stateAfterSteps_succ]
    exact moveCamera_size zoomingCamera g.sizeX maxNodes _ _ ih

/-- Witness of C18: a 5x5 grid, zooming enabled, a controller with all motor bits on;
after one step the camera size is still 3 (zoom in to 1, then zoom out to 3). -/
theorem camera_size_odd_and_bounded_witness :
    (stateAfterSteps allOnController 64 (emptyGrid 5 5) true sampleAgent 0 1).camera.cameraSize
        = 3 ∧
      ∀ n,
        (stateAfterSteps allOnController 64 (emptyGrid 5 5) true sampleAgent 0
            n).camera.cameraSize % 2 = 1 ∧
          1 ≤ (stateAfterSteps allOnController 64 (emptyGrid 5 5) true sampleAgent 0
            n).camera.cameraSize ∧
          (stateAfterSteps allOnController 64 (emptyGrid 5 5) true sampleAgent 0
            n).camera.cameraSize ≤ min (emptyGrid 5 5).sizeX 9 :=
  ⟨by
    rw [stateAfterSteps_succ]
    simp [simulationStep, moveCamera, allOnController, stateAfterSteps, initialCamera,
      emptyGrid],
    (camera_size_odd_and_bounded allOnController 64 (emptyGrid 5 5) true sampleAgent 0
      (by decide)).1⟩

/-- Claim C19.  Whatever trials `pre` have been run before and whatever the camera
variables were at the start, the trial that follows starts (lines 177-180) with the
camera at `(floor(gridSizeX / 2), floor(gridSizeY / 2))` and with camera size 3; so the
agent left by the trial loop is the one obtained by running each trial from that
camera. -/
theorem trial_starts_centered_size_three (C : Controller β) (maxNodes : Nat)
    (g : DigitGrid) (zoomingCamera : Bool) (agent : tAgent β) (camera : Camera) :
    (∀ pre : List Nat,
      (startTrial C g.sizeX g.sizeY
          (trialLoop C maxNodes g zoomingCamera pre (agent, camera)).1
          (trialLoop C maxNodes g zoomingCamera pre (agent, camera)).2).camera =
        { cameraX := ((g.sizeX / 2 : Nat) : Int)
          cameraY := ((g.sizeY / 2 : Nat) : Int)
          cameraSize := 3 }) ∧
      (∀ digits : List Nat,
        (trialLoop C maxNodes g zoomingCamera digits (agent, camera)).1 =
          digits.foldl (runTrial C maxNodes g zoomingCamera) agent) ∧
      ∀ digit : Nat,
        (stateAfterSteps C maxNodes g zoomingCamera agent digit 0).camera =
          { cameraX := ((g.sizeX / 2 : Nat) : Int)
            cameraY := ((g.sizeY / 2 : Nat) : Int)
            cameraSize := 3 } :=
  ⟨fun _ => rfl,
    fun digits => trialLoop_agent C maxNodes g zoomingCamera digits (agent, camera),
    fun _ => rfl⟩

/-- Claim C20.  With the zooming camera enabled, the camera update of one step changes
the position from `(x, y)` to `(x + right - left, y + up - down)`, where `up`, `down`,
`left`, `right` are the low bits of the registers `maxNodes - 1 .. maxNodes - 4`, for
every integer position and every grid width (no clamping); the same holds for the
camera after one iteration of the step loop; and when `up = down` (resp.
`left = right`) that coordinate is unchanged. -/
theorem camera_moves_without_clamping (gridSizeX maxNodes : Nat) (states : Nat → Nat)
    (cam : Camera) :
    (moveCamera true gridSizeX maxNodes states cam).cameraX =
        cam.cameraX + ((states (maxNodes - 4) % 2 : Nat) : Int) -
          ((states (maxNodes - 3) % 2 : Nat) : Int) ∧
      (moveCamera true gridSizeX maxNodes states cam).cameraY =
        cam.cameraY + ((states (maxNodes - 1) % 2 : Nat) : Int) -
          ((states (maxNodes - 2) % 2 : Nat) : Int) ∧
      (states (maxNodes - 4) % 2 = states (maxNodes - 3) % 2 →
        (moveCamera true gridSizeX maxNodes states cam).cameraX = cam.cameraX) ∧
      (states (maxNodes - 1) % 2 = states (maxNodes - 2) % 2 →
        (moveCamera true gridSizeX maxNodes states cam).cameraY = cam.cameraY) ∧
      ∀ (C : Controller β) (g : DigitGrid) (digit : Nat) (s : TrialState β),
        (simulationStep C maxNodes g digit true s).camera.cameraX =
            s.camera.cameraX +
              (((simulationStep C maxNodes g digit true s).states (maxNodes - 4) % 2 : Nat) : Int) -
              (((simulationStep C maxNodes g digit true s).states (maxNodes - 3) % 2 : Nat) : Int) ∧
          (simulationStep C maxNodes g digit true s).camera.cameraY =
            s.camera.cameraY +
              (((simulationStep C maxNodes g digit true s).states (maxNodes - 1) % 2 : Nat) : Int) -
              (((simulationStep C maxNodes g digit true s).states (maxNodes - 2) % 2 : Nat) : Int) := by
  have key : ∀ (gx : Nat) (st : Nat → Nat) (c : Camera),
      (moveCamera true gx maxNodes st c).cameraX =
          c.cameraX + ((st (maxNodes - 4) % 2 : Nat) : Int) -
            ((st (maxNodes - 3) % 2 : Nat) : Int) ∧
        (moveCamera true gx maxNodes st c).cameraY =
          c.cameraY + ((st (maxNodes - 1) % 2 : Nat) : Int) -
            ((st (maxNodes - 2) % 2 : Nat) : Int) := by
    intro gx st c
    have h1 := Nat.mod_two_eq_zero_or_one (st (maxNodes - 1))
    have h2 := Nat.mod_two_eq_zero_or_one (st (maxNodes - 2))
    have h3 := Nat.mod_two_eq_zero_or_one (st (maxNodes - 3))
    have h4 := Nat.mod_two_eq_zero_or_one (st (maxNodes - 4))
    simp only [moveCamera, true_and]
    rcases h1 with h1 | h1 <;> rcases h2 with h2 | h2 <;> rcases h3 with h3 | h3 <;>
      rcases h4 with h4 | h4 <;> simp [h1, h2, h3, h4]
  obtain ⟨kx, ky⟩ := key gridSizeX states cam
  refine ⟨kx, ky, ?_, ?_, ?_⟩
  · intro h
    rw [kx, h]
    omega
  · intro h
    rw [ky, h]
    omega
  · intro C g digit s
    exact key g.sizeX _ s.camera

/-- Witness of C20: camera at `(0, 0)` on a grid of width 5; with only the `left` and
`down` bits on the position becomes `(-1, -1)`, outside the grid; with all four bits on
it stays `(0, 0)`. -/
theorem camera_moves_without_clamping_witness :
    (moveCamera true 5 64 (fun n => if n = 61 ∨ n = 62 then 1 else 0)
        { cameraX := 0, cameraY := 0, cameraSize := 3 }).cameraX = -1 ∧
      (moveCamera true 5 64 (fun n => if n = 61 ∨ n = 62 then 1 else 0)
        { cameraX := 0, cameraY := 0, cameraSize := 3 }).cameraY = -1 ∧
      (moveCamera true 5 64 (fun _ => 1)
        { cameraX := 0, cameraY := 0, cameraSize := 3 }).cameraX = 0 ∧
      (moveCamera true 5 64 (fun _ => 1)
        { cameraX := 0, cameraY := 0, cameraSize := 3 }).cameraY = 0 := by
  have h := @camera_moves_without_clamping Unit 5 64
    (fun n => if n = 61 ∨ n = 62 then 1 else 0) { cameraX := 0, cameraY := 0, cameraSize := 3 }
  have k := @camera_moves_without_clamping Unit 5 64 (fun _ => 1)
    { cameraX := 0, cameraY := 0, cameraSize := 3 }
  exact ⟨h.1.trans (by decide), h.2.1.trans (by decide), k.2.2.1 rfl, k.2.2.2.1 rfl⟩

end CameraClaims

/-! ## The evaluation of a generation -/

section GenerationLemmas

variable {β : Type}

/-- The scoring loop changes the counters only. -/
theorem scoreOver_frame (digit : Nat) (classify veto : Nat → Nat) (l : List Nat)
    (s : ScoreLoop β) :
    (scoreOver digit classify veto l s).agent.genome = s.agent.genome ∧
      (scoreOver digit classify veto l s).agent.brain = s.agent.brain ∧
      (scoreOver digit classify veto l s).agent.states = s.agent.states := by
  induction l generalizing s with
  | nil => simp [scoreOver]
  | cons i l ih =>
    have h := ih (scoreDigit digit classify veto s i)
    simp only [scoreOver, List.foldl_cons] at h ⊢
    rw [h.1, h.2.1, h.2.2, scoreDigit_agent]
    simp

theorem scoreTrial_frame (digit : Nat) (classify veto : Nat → Nat) (agent : tAgent β) :
    (scoreTrial digit classify veto agent).genome = agent.genome ∧
      (scoreTrial digit classify veto agent).brain = agent.brain ∧
      (scoreTrial digit classify veto agent).states = agent.states := by
  have h := scoreOver_frame digit classify veto (List.range 10)
    { agent := agent, score := 0, numDigitsGuessed := 0 }
  unfold scoreTrial
  simp only [scoreLoop_eq]
  split_ifs
  · exact h
  · exact h

theorem runTrial_frame (C : Controller β) (maxNodes : Nat) (g : DigitGrid)
    (zoomingCamera : Bool) (agent : tAgent β) (digit : Nat) :
    (runTrial C maxNodes g zoomingCamera agent digit).genome = agent.genome ∧
      (runTrial C maxNodes g zoomingCamera agent digit).brain =
        (runSteps C maxNodes g zoomingCamera agent digit).brain ∧
      (runTrial C maxNodes g zoomingCamera agent digit).states =
        (runSteps C maxNodes g zoomingCamera agent digit).states := by
  unfold runTrial
  simp only []
  obtain ⟨h1, h2, h3⟩ := scoreTrial_frame digit
    (classifyDigit maxNodes (runSteps C maxNodes g zoomingCamera agent digit).states)
    (vetoBits maxNodes (runSteps C maxNodes g zoomingCamera agent digit).states)
    { agent with
      brain := (runSteps C maxNodes g zoomingCamera agent digit).brain
      states := (runSteps C maxNodes g zoomingCamera agent digit).states }
  exact ⟨h1, h2, h3⟩

theorem trials_genome (C : Controller β) (maxNodes : Nat) (g : DigitGrid)
    (zoomingCamera : Bool) (digits : List Nat) (agent : tAgent β) :
    (digits.foldl (runTrial C maxNodes g zoomingCamera) agent).genome = agent.genome := by
  induction digits generalizing agent with
  | nil => rfl
  | cons d ds ih =>
    rw [List.foldl_cons, ih, (runTrial_frame C maxNodes g zoomingCamera agent d).1]

/-- An evaluation leaves the genome of the agent unchanged. -/
theorem executeGame_genome (C : Controller β) (maxNodes : Nat)
    (shuffle : List Nat → List Nat) (draws : List (ℚ × ℚ)) (eddAgent : tAgent β)
    (dataFile report : Bool) (gridSizeX gridSizeY : Nat)
    (zoomingCamera randomPlacement noise : Bool) (noiseAmount : ℚ)
    (r : tAgent β × Option (Nat × ℚ))
    (h : executeGame C maxNodes shuffle draws eddAgent dataFile report gridSizeX gridSizeY
      zoomingCamera randomPlacement noise noiseAmount = some r) :
    r.1.genome = eddAgent.genome := by
  obtain ⟨g, _, hg⟩ := executeGame_some C maxNodes shuffle draws eddAgent dataFile report
    gridSizeX gridSizeY zoomingCamera randomPlacement noise noiseAmount r h
  rw [hg]
  unfold playGame finishGame
  simp only []
  rw [trials_genome]
  rfl

/-- The evaluation loop, when the fitness given by an evaluation is a function `score`
of the genome: the fitness values and the genomes of the evaluated agents. -/
theorem evaluateLoop_fitness (C : Controller β) (maxNodes : Nat)
    (shuffles : Nat → List Nat → List Nat) (draws : Nat → List (ℚ × ℚ)) (w : GameSettings)
    (score : List Nat → ℚ)
    (hdet : ∀ (i : Nat) (a : tAgent β) (r : tAgent β × Option (Nat × ℚ)),
      executeGame C maxNodes (shuffles i) (draws i) a false false w.gridSizeX w.gridSizeY
          w.zoomingCamera w.randomPlacement w.noise w.noiseAmount = some r →
        r.1.fitness = score a.genome)
    (l : List (tAgent β)) (i : Nat) (s s2 : Evaluation β)
    (h : evaluateLoop C maxNodes shuffles draws w i l s = some s2) :
    s2.eddAgents.map (fun a => a.fitness) =
        s.eddAgents.map (fun a => a.fitness) ++ l.map (fun a => score a.genome) ∧
      s2.eddAgents.map (fun a => a.genome) =
        s.eddAgents.map (fun a => a.genome) ++ l.map (fun a => a.genome) := by
  induction l generalizing i s with
  | nil =>
    simp only [evaluateLoop, Option.some.injEq] at h
    rw [← h]
    simp
  | cons a rest ih =>
    unfold evaluateLoop at h
    cases hr : executeGame C maxNodes (shuffles i) (draws i) { a with fitness := 0 } false
        false w.gridSizeX w.gridSizeY w.zoomingCamera w.randomPlacement w.noise
        w.noiseAmount with
    | none => rw [hr] at h; simp at h
    | some r =>
      rw [hr] at h
      simp only [] at h
      obtain ⟨h1, h2⟩ := ih _ _ h
      have hf := hdet i _ r hr
      have hg := executeGame_genome C maxNodes (shuffles i) (draws i) _ false false
        w.gridSizeX w.gridSizeY w.zoomingCamera w.randomPlacement w.noise w.noiseAmount r hr
      simp only [List.map_append, List.map_cons, List.map_nil, List.append_assoc,
        List.singleton_append] at h1 h2
      rw [h1, h2, hf, hg]
      exact ⟨rfl, rfl⟩

/-- With centered placement the evaluation loop runs to its end. -/
theorem evaluateLoop_centered (C : Controller β) (maxNodes : Nat)
    (shuffles : Nat → List Nat → List Nat) (draws : Nat → List (ℚ × ℚ)) (w : GameSettings)
    (hw : w.randomPlacement = false) (l : List (tAgent β)) (i : Nat) (s : Evaluation β) :
    ∃ s2, evaluateLoop C maxNodes shuffles draws w i l s = some s2 := by
  induction l generalizing i s with
  | nil => exact ⟨s, rfl⟩
  | cons a rest ih =>
    unfold evaluateLoop
    have hc := executeGame_centered C maxNodes (shuffles i) (draws i) { a with fitness := 0 }
      false false w.gridSizeX w.gridSizeY w.zoomingCamera w.noise w.noiseAmount
    obtain ⟨r, hr⟩ := Option.isSome_iff_exists.mp hc
    rw [hw, hr]
    exact ih _ _

/-- The evaluation of a population, when the fitness given by an evaluation is a function
`score` of the genome. -/
theorem evaluatePopulation_fitness (C : Controller β) (maxNodes : Nat)
    (shuffles : Nat → List Nat → List Nat) (draws : Nat → List (ℚ × ℚ)) (w : GameSettings)
    (score : List Nat → ℚ)
    (hdet : ∀ (i : Nat) (a : tAgent β) (r : tAgent β × Option (Nat × ℚ)),
      executeGame C maxNodes (shuffles i) (draws i) a false false w.gridSizeX w.gridSizeY
          w.zoomingCamera w.randomPlacement w.noise w.noiseAmount = some r →
        r.1.fitness = score a.genome)
    (N : Nat) (l : List (tAgent β)) (ev : Evaluation β)
    (h : evaluatePopulation C maxNodes shuffles draws w N l = some ev) :
    ev.eddAgents.map (fun a => a.fitness) = l.map (fun a => score a.genome) ∧
      ev.eddAgents.map (fun a => a.genome) = l.map (fun a => a.genome) := by
  unfold evaluatePopulation at h
  cases hl : evaluateLoop C maxNodes shuffles draws w 0 l
      { eddAgents := [], eddAvgFitness := 0, eddMaxFitness := 0, eddMaxIndex := 0 } with
  | none => rw [hl] at h; simp at h
  | some s =>
    rw [hl] at h
    simp only [Option.some.injEq] at h
    have := evaluateLoop_fitness C maxNodes shuffles draws w score hdet l 0 _ s hl
    rw [← h]
    simpa using this

theorem evaluatePopulation_centered (C : Controller β) (maxNodes : Nat)
    (shuffles : Nat → List Nat → List Nat) (draws : Nat → List (ℚ × ℚ)) (w : GameSettings)
    (hw : w.randomPlacement = false) (N : Nat) (l : List (tAgent β)) :
    ∃ ev, evaluatePopulation C maxNodes shuffles draws w N l = some ev := by
  obtain ⟨s, hs⟩ := evaluateLoop_centered C maxNodes shuffles draws w hw l 0
    { eddAgents := [], eddAvgFitness := 0, eddMaxFitness := 0, eddMaxIndex := 0 }
  unfold evaluatePopulation
  rw [hs]
  exact ⟨_, rfl⟩

end GenerationLemmas

/-! ## The controller read from the genome -/

section GeneLemmas

/-- The steps of a trial leave the brain of `geneController` unchanged. -/
theorem gene_steps_brain (g : DigitGrid) (zoomingCamera : Bool) (digit : Nat) (l : List Nat)
    (s : TrialState (List Nat)) :
    (l.foldl (fun s _ => simulationStep geneController 64 g digit zoomingCamera s) s).brain =
      s.brain := by
  induction l generalizing s with
  | nil => rfl
  | cons x l ih =>
    rw [List.foldl_cons, ih]
    rfl

/-- The brain and the register contents at the end of a trial run by `geneController`. -/
theorem gene_states (g : DigitGrid) (zoomingCamera : Bool) (agent : tAgent (List Nat))
    (digit : Nat) :
    (runSteps geneController 64 g zoomingCamera agent digit).brain = agent.brain ∧
      (runSteps geneController 64 g zoomingCamera agent digit).states =
        fun n => if agent.brain = [1] ∧ n = 54 then 1 else 0 := by
  unfold runSteps totalStepsInSimulation
  constructor
  · rw [gene_steps_brain]
    rfl
  · have hstep : ∀ s : TrialState (List Nat),
        (simulationStep geneController 64 g digit zoomingCamera s).states =
          fun n => if s.brain = [1] ∧ n = 54 then 1 else 0 := fun _ => rfl
    rw [List.range_succ, List.foldl_append]
    simp only [List.foldl_cons, List.foldl_nil]
    rw [hstep, gene_steps_brain]
    rfl

theorem gene_runTrial_brain (g : DigitGrid) (zoomingCamera : Bool)
    (agent : tAgent (List Nat)) (digit : Nat) :
    (runTrial geneController 64 g zoomingCamera agent digit).brain = agent.brain := by
  rw [(runTrial_frame geneController 64 g zoomingCamera agent digit).2.1,
    (gene_states g zoomingCamera agent digit).1]

/-- With `geneController` digit 3 alone is claimed when the brain is `[1]` and no digit
is claimed otherwise, so only the trial of digit 3 of a brain `[1]` scores. -/
theorem gene_trialScores (g : DigitGrid) (zoomingCamera : Bool) (digits : List Nat)
    (agent : tAgent (List Nat)) :
    trialScores geneController 64 g zoomingCamera digits agent =
      digits.map (fun d => if agent.brain = [1] ∧ d = 3 then 1 else 0) := by
  induction digits generalizing agent with
  | nil => rfl
  | cons d ds ih =>
    have hc : ∀ i, claimed (trialClassify geneController 64 g zoomingCamera agent d)
        (trialVeto geneController 64 g zoomingCamera agent d) i ↔
          (agent.brain = [1] ∧ i = 3) := by
      intro i
      unfold claimed trialClassify trialVeto classifyDigit vetoBits
      rw [(gene_states g zoomingCamera agent d).2]
      have h1 : ¬ (64 - 17 - i = 54) := by omega
      by_cases hb : agent.brain = [1]
      · by_cases h3 : i = 3
        · subst h3
          simp [hb]
        · have h2 : ¬ (64 - 7 - i = 54) := by omega
          simp [h1, h2, h3]
      · simp [hb]
    have hk : numClaimed (trialClassify geneController 64 g zoomingCamera agent d)
        (trialVeto geneController 64 g zoomingCamera agent d) =
          if agent.brain = [1] then 1 else 0 := by
      unfold numClaimed
      simp only [hc]
      by_cases hb : agent.brain = [1]
      · simp only [hb, true_and, if_true]
        decide
      · simp [hb]
    simp only [trialScores, List.map_cons, ih, specTrialScore, hc, hk,
      gene_runTrial_brain]
    by_cases hb : agent.brain = [1]
    · by_cases h3 : d = 3
      · simp [hb, h3]
      · simp [hb, h3]
    · simp [hb]

/-- An evaluation with `geneController` on the 5x5 grid, trial order `0, 1, .., 9`: the
fitness of the evaluated agent is `geneFitness` of its genome, whatever its other
fields held. -/
theorem gene_executeGame (draws : List (ℚ × ℚ)) (a : tAgent (List Nat))
    (r : tAgent (List Nat) × Option (Nat × ℚ))
    (h : executeGame geneController 64 id draws a false false geneWorld.gridSizeX
      geneWorld.gridSizeY geneWorld.zoomingCamera geneWorld.randomPlacement geneWorld.noise
      geneWorld.noiseAmount = some r) :
    r.1.fitness = geneFitness a.genome := by
  obtain ⟨g, _, hg⟩ := executeGame_some geneController 64 id draws a false false _ _ _ _ _ _
    r h
  obtain ⟨h1, h2⟩ := playGame_fitness geneController 64 g geneWorld.zoomingCamera
    (id (List.range 10)) a (fun d hd => List.mem_range.mp hd)
  rw [gene_trialScores] at h1
  have hbrain : (resetAgent geneController a).brain = a.genome := rfl
  rw [hbrain] at h1
  rw [hg, h2, h1]
  unfold geneFitness
  by_cases hb : a.genome = [1]
  · have hsum : ((id (List.range 10)).map
        (fun d => if a.genome = [1] ∧ d = 3 then (1 : ℚ) else 0)).sum = 1 := by
      simp only [hb, true_and]
      norm_num [List.range_succ]
    rw [hsum, if_pos hb]
    norm_num
  · have hsum : ((id (List.range 10)).map
        (fun d => if a.genome = [1] ∧ d = 3 then (1 : ℚ) else 0)).sum = 0 := by
      simp [hb]
    rw [hsum, if_neg hb]
    norm_num

end GeneLemmas

/-! ## Pure elitism with count 1 -/

section EliteLemmas

theorem lossyOutcomes_valid : lossyOutcomes.Valid := by
  haveI : IsTotal (tAgent (List Nat)) (fun a b => a.fitness ≤ b.fitness) :=
    ⟨fun a b => le_total a.fitness b.fitness⟩
  haveI : IsTrans (tAgent (List Nat)) (fun a b => a.fitness ≤ b.fitness) :=
    ⟨fun a b c hab hbc => le_trans hab hbc⟩
  refine ⟨fun l => List.Perm.refl l, fun l => List.Perm.refl l,
    fun l => List.perm_insertionSort _ l, ?_⟩
  intro l
  have hs := List.sorted_insertionSort
    (fun a b : tAgent (List Nat) => a.fitness ≤ b.fitness) l
  refine List.Pairwise.imp ?_ hs
  intro a b h
  simp only [compare, decide_eq_false_iff_not, not_lt]
  exact h

/-- The last agent of the sorted population is a member of greatest fitness. -/
theorem sorted_last_max {β : Type} (o : Outcomes β) (hv : o.Valid) (l : List (tAgent β))
    (N : Nat) (hN : l.length = N) (hN1 : 1 ≤ N) :
    ∃ best, (o.sort l)[N - 1]? = some best ∧ best ∈ l ∧
      ∀ a, a ∈ l → a.fitness ≤ best.fitness := by
  have hlen : (o.sort l).length = N := by rw [(hv.sort_perm l).length_eq, hN]
  have hlt : N - 1 < (o.sort l).length := by omega
  refine ⟨(o.sort l)[N - 1], List.getElem?_eq_getElem hlt,
    (hv.sort_perm l).mem_iff.mp (List.getElem_mem hlt), ?_⟩
  intro a ha
  obtain ⟨i, hi, hia⟩ := List.mem_iff_getElem.mp ((hv.sort_perm l).mem_iff.mpr ha)
  by_cases hlast : i = N - 1
  · subst hlast
    rw [← hia]
  · have hp := List.pairwise_iff_getElem.mp (sort_ascending o hv l) i (N - 1) hi hlt
      (by omega)
    rw [← hia]
    exact hp

/-- Pure elitism with count 1: every member of the next generation inherits from the
last agent of the sorted population. -/
theorem pureElitism_one {β : Type} (o : Outcomes β) (hv : o.Valid) (self : tAgent β)
    (mr : ℚ) (update N : Nat) (eddAgents : List (tAgent β)) (hN : eddAgents.length = N)
    (best : tAgent β) (hbest : (o.sort eddAgents)[N - 1]? = some best) :
    ∃ next, selectPureElitism o self mr update N 1 eddAgents = some next ∧
      next.length = N ∧
      ∀ a, a ∈ next → ∃ k, a = inherit self (o.mutate k) best mr update := by
  have hslots := pureElitismSlots_eq N 1 (le_refl 1)
  have hidx : N - 1 < (o.sort eddAgents).length := by
    by_contra hcon
    rw [List.getElem?_eq_none (not_lt.mp hcon)] at hbest
    exact Option.noConfusion hbest
  have hlen : (o.sort eddAgents).length = N := by rw [(hv.sort_perm _).length_eq, hN]
  obtain ⟨next, hnext⟩ := offspringList_exists o self (o.sort eddAgents) mr update N
    (fun s => if s < N then some (N - 1 - s % 1) else none)
    (fun k hk => ⟨N - 1 - k % 1, by simp [hk], by omega⟩)
  obtain ⟨hl, hget⟩ := offspringList_some o self (o.sort eddAgents) mr update N _ next hnext
  refine ⟨next, by simp only [selectPureElitism, hslots, hnext], hl, ?_⟩
  intro a ha
  obtain ⟨k, hk, hka⟩ := List.mem_iff_getElem.mp ha
  have h1 := hget k (by omega)
  have hk0 : N - 1 - k % 1 = N - 1 := by omega
  rw [List.getElem?_eq_getElem hk, hka, if_pos (by omega), hk0] at h1
  simp only [offspringAt, hbest, Option.some.injEq] at h1
  exact ⟨k, h1.symm⟩

end EliteLemmas

/-! ## Claims about a generation transition -/

section GenerationClaims

/-- The selection step of `eliteSettings` on a population `[a, b]` in which `a` has the
greater fitness: `best` and both offspring inherit from `a`. -/
theorem elite_step_of_two (a b : tAgent (List Nat)) (h : b.fitness < a.fitness) :
    selectionStep lossyOutcomes (geneAgent []) eliteSettings 1 [a, b] =
      some [inherit (geneAgent []) lossyOutcomes.mutateBest a (1 / 2000) 1,
        inherit (geneAgent []) (lossyOutcomes.mutate 1) a (1 / 2000) 1] := by
  have h1 : ¬ (b.fitness > a.fitness) := not_lt.mpr (le_of_lt h)
  simp [selectionStep, eliteSettings, selectTournament, lossyOutcomes, eliteCopy, eliteIndex,
    fitnessAt, tournamentLoop, tournamentGroup, bestIndex, assignGroup, offspringList,
    offspringAt, allWritten, installNextGen, h1, List.range_succ, inherit, geneAgent]

/-- A population whose evaluated fitness values are the two given ones has two
members. -/
theorem two_members {β : Type} (l : List (tAgent β)) (x y : ℚ)
    (h : l.map (fun a => a.fitness) = [x, y]) :
    ∃ a b, l = [a, b] ∧ a.fitness = x ∧ b.fitness = y := by
  rcases l with _ | ⟨a, _ | ⟨b, _ | ⟨c, rest⟩⟩⟩
  · simp at h
  · simp at h
  · simp only [List.map_cons, List.map_nil, List.cons.injEq, and_true] at h
    exact ⟨a, b, rfl, h.1, h.2⟩
  · simp at h

/-- Claim C11, evaluated at a failing input.  Two agents driven by `geneController`
(genomes `[1]` and `[0]`), tournament selection with groups of 2, elitism on, mutation
rate 0.0005, and mutation outcomes that turn a genome into `[0]`.  Generation `g` is
evaluated to the fitness values `1/10` and `1/1000000`; the selection step copies the
best agent into `best` and into both slots with `inherit(.., perSiteMutationRate, ..)`,
so every member of generation `g + 1` descends from the best agent but has the mutated
genome `[0]`; after evaluation the best fitness of generation `g + 1` is `1/1000000`,
less than the best fitness `1/10` of generation `g`. -/
theorem elitism_best_fitness_drops :
    ∃ ev1 next ev2,
      evaluatePopulation geneController 64 (fun _ => id) (fun _ => []) geneWorld 2
          genePopulation = some ev1 ∧
        selectionStep lossyOutcomes (geneAgent []) eliteSettings 1 ev1.eddAgents =
          some next ∧
        evaluatePopulation geneController 64 (fun _ => id) (fun _ => []) geneWorld 2 next =
          some ev2 ∧
        ev1.eddAgents.map (fun a => a.fitness) = [1 / 10, 1 / 1000000] ∧
        next.map (fun a => a.ancestor.map (fun p => (p.genome, p.fitness))) =
          [some ([1], 1 / 10), some ([1], 1 / 10)] ∧
        next.map (fun a => a.genome) = [[0], [0]] ∧
        ev2.eddAgents.map (fun a => a.fitness) = [1 / 1000000, 1 / 1000000] ∧
        bestFitness ev1.eddAgents = 1 / 10 ∧
        bestFitness ev2.eddAgents = 1 / 1000000 ∧
        bestFitness ev2.eddAgents < bestFitness ev1.eddAgents := by
  have hdet : ∀ (i : Nat) (a : tAgent (List Nat)) (r : tAgent (List Nat) × Option (Nat × ℚ)),
      executeGame geneController 64 ((fun _ => id) i) ((fun _ => []) i) a false false
          geneWorld.gridSizeX geneWorld.gridSizeY geneWorld.zoomingCamera
          geneWorld.randomPlacement geneWorld.noise geneWorld.noiseAmount = some r →
        r.1.fitness = geneFitness a.genome := fun _ a r h => gene_executeGame [] a r h
  obtain ⟨ev1, h1⟩ := evaluatePopulation_centered geneController 64 (fun _ => id)
    (fun _ => []) geneWorld rfl 2 genePopulation
  obtain ⟨hf1, hg1⟩ := evaluatePopulation_fitness geneController 64 (fun _ => id)
    (fun _ => []) geneWorld geneFitness hdet 2 genePopulation ev1 h1
  have hf1b : ev1.eddAgents.map (fun a => a.fitness) = [1 / 10, 1 / 1000000] := by
    rw [hf1]
    simp [genePopulation, geneAgent, geneFitness]
  obtain ⟨a, b, hab, hfa, hfb⟩ := two_members _ _ _ hf1b
  have hga : a.genome = [1] := by
    rw [hab] at hg1
    simp only [genePopulation, geneAgent, List.map_cons, List.map_nil, List.cons.injEq,
      and_true] at hg1
    exact hg1.1
  have hstep := elite_step_of_two a b (by rw [hfa, hfb]; norm_num)
  obtain ⟨ev2, h2⟩ := evaluatePopulation_centered geneController 64 (fun _ => id)
    (fun _ => []) geneWorld rfl 2
    [inherit (geneAgent []) lossyOutcomes.mutateBest a (1 / 2000) 1,
      inherit (geneAgent []) (lossyOutcomes.mutate 1) a (1 / 2000) 1]
  obtain ⟨hf2, _⟩ := evaluatePopulation_fitness geneController 64 (fun _ => id)
    (fun _ => []) geneWorld geneFitness hdet 2 _ ev2 h2
  have hf2b : ev2.eddAgents.map (fun a => a.fitness) = [1 / 1000000, 1 / 1000000] := by
    rw [hf2]
    simp [inherit, lossyOutcomes, geneFitness]
  have hb1 : bestFitness ev1.eddAgents = 1 / 10 := by
    unfold bestFitness
    rw [hf1b]
    norm_num [List.foldl]
  have hb2 : bestFitness ev2.eddAgents = 1 / 1000000 := by
    unfold bestFitness
    rw [hf2b]
    norm_num [List.foldl]
  refine ⟨ev1, _, ev2, h1, ?_, h2, hf1b, ?_, ?_, hf2b, hb1, hb2, ?_⟩
  · rw [hab]
    exact hstep
  · simp [inherit, hga, hfa]
  · simp [inherit, lossyOutcomes]
  · rw [hb1, hb2]
    norm_num

/-- Counterexample to C12 as stated.  Four agents with genomes `[0]`, `[1]`, `[2]`, `[3]`
and fitness 1, 3, 2, 2 (the agent with genome `[1]` is strictly dominant), groups of 2,
mutation rate 0 with a mutation that leaves the genome unchanged, the first shuffle
reverses the population.  The group of the agents of fitness 2, 2 does not contain the
dominant agent: its two slots receive clones of the agent with genome `[3]` (fitness 2),
so not every member of the next population is a clone of the dominant agent. -/
theorem tournament_dominant_counterexample :
    rankedPopulation.map (fun a => a.fitness) = [1, 3, 2, 2] ∧
      (selectTournament sampleOutcomes sampleAgent 0 1 4 2 false rankedPopulation).map
          (fun next => next.map (fun a => (a.genome, a.ancestor.map (fun p => p.fitness)))) =
        some [([3], some 2), ([3], some 2), ([1], some 3), ([1], some 3)] ∧
      ¬ ∀ next, selectTournament sampleOutcomes sampleAgent 0 1 4 2 false rankedPopulation =
          some next → ∀ a, a ∈ next → a.genome = [1] := by
  have h2 : (selectTournament sampleOutcomes sampleAgent 0 1 4 2 false rankedPopulation).map
        (fun next => next.map (fun a => (a.genome, a.ancestor.map (fun p => p.fitness)))) =
      some [([3], some 2), ([3], some 2), ([1], some 3), ([1], some 3)] := by decide
  refine ⟨by decide, h2, ?_⟩
  intro hall
  cases hsel : selectTournament sampleOutcomes sampleAgent 0 1 4 2 false rankedPopulation with
  | none =>
    rw [hsel] at h2
    simp at h2
  | some next =>
    rw [hsel] at h2
    simp only [Option.map_some', Option.some.injEq] at h2
    rcases next with _ | ⟨a0, rest⟩
    · simp at h2
    · simp only [List.map_cons, List.cons.injEq, Prod.mk.injEq] at h2
      have h3 := hall (a0 :: rest) hsel a0 (List.mem_cons_self _ _)
      rw [h3] at h2
      simp at h2

/-- Claim C12 (amended).  Tournament with groups of 2 and mutation rate 0 (a mutation at
rate 0 leaves the genome unchanged) on a population of `N` agents in which the agent at
index `d` of the shuffled population has strictly greater fitness than all others.  The
selection step produces `N` new agents; the agent written to slot `s` of `EANextGen` is a
clone (same genome) of the winner `p` of the group of slot `s`, a member of that group of
greatest fitness; `p` is the dominant agent exactly for the slots of the dominant
agent's own group.  When the population has at most two agents (a single group) every
member of the next population is a clone of the dominant agent. -/
theorem tournament_clones_group_winner {β : Type} (o : Outcomes β) (self : tAgent β)
    (update : Nat) (eddAgents : List (tAgent β)) (N d : Nat) (hv : o.Valid)
    (hmut : ∀ (k : Nat) (genome : List Nat), o.mutate k 0 genome = genome)
    (hN : eddAgents.length = N) (hd : d < N)
    (hdom : ∀ q, q < N → q ≠ d →
      fitnessAt (o.shufflePopulation eddAgents) q <
        fitnessAt (o.shufflePopulation eddAgents) d) :
    ∃ nx pre next dominant,
      tournamentLoop (fitnessAt (o.shufflePopulation eddAgents)) N 2 N 0 (fun _ => none) =
          some nx ∧
        offspringList o self (o.shufflePopulation eddAgents) 0 update N nx = some pre ∧
        selectTournament o self 0 update N 2 false eddAgents = some next ∧
        next = o.shuffleNextGen pre ∧ next.length = N ∧
        (o.shufflePopulation eddAgents)[d]? = some dominant ∧
        (∀ s, s < N → ∃ p parent, nx s = some p ∧
          (o.shufflePopulation eddAgents)[p]? = some parent ∧
          pre[s]? = some (inherit self (o.mutate s) parent 0 update) ∧
          (inherit self (o.mutate s) parent 0 update).genome = parent.genome ∧
          groupStart 2 s ≤ p ∧ p < groupStart 2 s + groupLength N 2 s ∧
          (∀ q, groupStart 2 s ≤ q → q < groupStart 2 s + groupLength N 2 s →
            fitnessAt (o.shufflePopulation eddAgents) q ≤
              fitnessAt (o.shufflePopulation eddAgents) p) ∧
          (groupStart 2 s = groupStart 2 d → p = d) ∧
          (groupStart 2 s ≠ groupStart 2 d → p ≠ d)) ∧
        (N ≤ 2 → ∀ a, a ∈ next → a.genome = dominant.genome ∧ a.ancestor = some dominant) := by
  have hsh := hv.shufflePopulation_perm eddAgents
  have hshlen : (o.shufflePopulation eddAgents).length = N := by rw [hsh.length_eq, hN]
  generalize hpop : o.shufflePopulation eddAgents = pop at hdom hshlen
  have hloop := tournamentLoop_spec (fitnessAt pop) N 2 (by decide) N 0 (fun _ => none)
    (by omega)
  rw [Nat.mul_zero] at hloop
  generalize hnx : (fun k => if 0 ≤ k ∧ k < N then
      some (groupStart 2 k + bestIndex (fitnessAt pop) (groupStart 2 k)
        (groupLength N 2 k)) else (fun _ => none) k) = nx at hloop
  have hslot : ∀ s, s < N → ∃ p, nx s = some p ∧ p < N ∧
      groupStart 2 s ≤ p ∧ p < groupStart 2 s + groupLength N 2 s ∧
      (∀ q, groupStart 2 s ≤ q → q < groupStart 2 s + groupLength N 2 s →
        fitnessAt pop q ≤ fitnessAt pop p) := by
    intro s hs
    obtain ⟨hb1, hb2, hb3, hb4⟩ := group_bounds N 2 s (by decide) hs
    obtain ⟨n, hn⟩ : ∃ n, groupLength N 2 s = n + 1 := ⟨groupLength N 2 s - 1, by omega⟩
    obtain ⟨hw1, hw2, _⟩ := bestIndex_spec (fitnessAt pop) (groupStart 2 s) n
    rw [← hn] at hw1 hw2
    refine ⟨groupStart 2 s + bestIndex (fitnessAt pop) (groupStart 2 s) (groupLength N 2 s),
      ?_, by omega, by omega, by omega, ?_⟩
    · rw [← hnx]
      simp [hs]
    · intro q hq1 hq2
      have := hw2 (q - groupStart 2 s) (by omega)
      rw [show groupStart 2 s + (q - groupStart 2 s) = q by omega] at this
      exact this
  obtain ⟨pre, hpre⟩ := offspringList_exists o self pop 0 update N nx
    (fun k hk => by
      obtain ⟨p, h1, h2, _⟩ := hslot k hk
      exact ⟨p, h1, by omega⟩)
  obtain ⟨hprelen, hget⟩ := offspringList_some o self pop 0 update N nx pre hpre
  have hdlt : d < pop.length := by omega
  have hslots : ∀ s, s < N → ∃ p parent, nx s = some p ∧ pop[p]? = some parent ∧
      pre[s]? = some (inherit self (o.mutate s) parent 0 update) ∧
      (inherit self (o.mutate s) parent 0 update).genome = parent.genome ∧
      groupStart 2 s ≤ p ∧ p < groupStart 2 s + groupLength N 2 s ∧
      (∀ q, groupStart 2 s ≤ q → q < groupStart 2 s + groupLength N 2 s →
        fitnessAt pop q ≤ fitnessAt pop p) ∧
      (groupStart 2 s = groupStart 2 d → p = d) ∧
      (groupStart 2 s ≠ groupStart 2 d → p ≠ d) := by
    intro s hs
    obtain ⟨p, hp, hpN, hp1, hp2, hpmax⟩ := hslot s hs
    obtain ⟨parent, hparent, _⟩ := fitnessAt_of_get pop p (by omega)
    obtain ⟨hb1, hb2, hb3, hb4⟩ := group_bounds N 2 s (by decide) hs
    obtain ⟨hd1, hd2, hd3, hd4⟩ := group_bounds N 2 d (by decide) hd
    refine ⟨p, parent, hp, hparent, ?_, hmut s parent.genome, hp1, hp2, hpmax, ?_, ?_⟩
    · rw [← hget s hs, hp]
      simp only [offspringAt, hparent]
    · intro hsame
      by_contra hne
      have hlen : groupLength N 2 s = groupLength N 2 d := by
        unfold groupLength
        rw [hsame]
      have h1 := hpmax d (by omega) (by omega)
      have h2 := hdom p hpN hne
      exact absurd h1 (not_le.mpr h2)
    · intro hdiff hpd
      apply hdiff
      have hle : groupLength N 2 s ≤ 2 := by
        unfold groupLength
        exact min_le_left _ _
      have hgs : groupStart 2 s = 2 * (s / 2) := rfl
      have := groupStart_eq 2 (s / 2) p (by omega) (by omega)
      rw [← hpd, this]
      exact hgs
  refine ⟨nx, pre, o.shuffleNextGen pre, pop[d], hloop, hpre, ?_, rfl, ?_,
    List.getElem?_eq_getElem hdlt, hslots, ?_⟩
  · simp [selectTournament, hpop, hloop, hpre, installNextGen]
  · rw [(hv.shuffleNextGen_perm pre).length_eq, hprelen]
  · intro hN2 a ha
    have hapre : a ∈ pre := (hv.shuffleNextGen_perm pre).mem_iff.mp ha
    obtain ⟨s, hs, hsa⟩ := List.mem_iff_getElem.mp hapre
    have hsN : s < N := by omega
    obtain ⟨p, parent, _, hparent, hpres, hgenome, _, _, _, hsame, _⟩ := hslots s hsN
    have hgroup : groupStart 2 s = groupStart 2 d := by
      unfold groupStart
      have h1 : s / 2 = 0 := Nat.div_eq_of_lt (by omega)
      have h2 : d / 2 = 0 := Nat.div_eq_of_lt (by omega)
      rw [h1, h2]
    have hpd := hsame hgroup
    subst hpd
    rw [List.getElem?_eq_getElem hdlt, Option.some.injEq] at hparent
    rw [List.getElem?_eq_getElem hs, hsa, Option.some.injEq] at hpres
    rw [hparent, hpres]
    exact ⟨hgenome, rfl⟩

/-- Witness of C12 (amended): the four agents of `rankedPopulation`; after the reversing
shuffle the dominant agent is at index 2. -/
theorem tournament_clones_group_winner_witness :
    (sampleOutcomes.shufflePopulation rankedPopulation).map (fun a => a.fitness) =
        [2, 2, 3, 1] ∧
      ∃ nx pre next dominant,
        tournamentLoop (fitnessAt (sampleOutcomes.shufflePopulation rankedPopulation)) 4 2 4 0
            (fun _ => none) = some nx ∧
          offspringList sampleOutcomes sampleAgent
            (sampleOutcomes.shufflePopulation rankedPopulation) 0 1 4 nx = some pre ∧
          selectTournament sampleOutcomes sampleAgent 0 1 4 2 false rankedPopulation =
            some next ∧
          next = sampleOutcomes.shuffleNextGen pre ∧ next.length = 4 ∧
          (sampleOutcomes.shufflePopulation rankedPopulation)[2]? = some dominant ∧
          (∀ s, s < 4 → ∃ p parent, nx s = some p ∧
            (sampleOutcomes.shufflePopulation rankedPopulation)[p]? = some parent ∧
            pre[s]? = some (inherit sampleAgent (sampleOutcomes.mutate s) parent 0 1) ∧
            (inherit sampleAgent (sampleOutcomes.mutate s) parent 0 1).genome =
              parent.genome ∧
            groupStart 2 s ≤ p ∧ p < groupStart 2 s + groupLength 4 2 s ∧
            (∀ q, groupStart 2 s ≤ q → q < groupStart 2 s + groupLength 4 2 s →
              fitnessAt (sampleOutcomes.shufflePopulation rankedPopulation) q ≤
                fitnessAt (sampleOutcomes.shufflePopulation rankedPopulation) p) ∧
            (groupStart 2 s = groupStart 2 2 → p = 2) ∧
            (groupStart 2 s ≠ groupStart 2 2 → p ≠ 2)) ∧
          (4 ≤ 2 → ∀ a, a ∈ next → a.genome = dominant.genome ∧ a.ancestor = some dominant) :=
  ⟨by decide,
    tournament_clones_group_winner sampleOutcomes sampleAgent 1 rankedPopulation 4 2
      sampleOutcomes_valid (fun _ _ => rfl) rfl (by decide) (by decide)⟩

/-- The selection step of `pureEliteSettings` on a population `[a, b]` in which `a` has
the greater fitness: both offspring inherit from `a`. -/
theorem pure_step_of_two (a b : tAgent (List Nat)) (h : b.fitness < a.fitness) :
    selectionStep lossyOutcomes (geneAgent []) pureEliteSettings 1 [a, b] =
      some [inherit (geneAgent []) (lossyOutcomes.mutate 0) a 0 1,
        inherit (geneAgent []) (lossyOutcomes.mutate 1) a 0 1] := by
  have h1 : ¬ (a.fitness ≤ b.fitness) := not_le.mpr h
  simp [selectionStep, pureEliteSettings, selectPureElitism, lossyOutcomes, pureElitismSlots,
    offspringList, offspringAt, allWritten, h1, List.range_succ, inherit, geneAgent]

/-- Counterexample to C13 as stated.  Two agents driven by the deterministic controller
`geneController` and evaluated under the same conditions in both generations, pure
elitism with count 1 and mutation rate 0 (a mutation that leaves the genome unchanged).
The current generation has the fitness values `1/10` and `1/1000000`; both members of
the next generation are clones of the best agent and are evaluated to `1/10`, so the
multiset of fitness values is not the same. -/
theorem pure_elitism_fitness_values_counterexample :
    ∃ ev1 next ev2,
      evaluatePopulation geneController 64 (fun _ => id) (fun _ => []) geneWorld 2
          genePopulation = some ev1 ∧
        selectionStep lossyOutcomes (geneAgent []) pureEliteSettings 1 ev1.eddAgents =
          some next ∧
        evaluatePopulation geneController 64 (fun _ => id) (fun _ => []) geneWorld 2 next =
          some ev2 ∧
        ev1.eddAgents.map (fun a => a.fitness) = [1 / 10, 1 / 1000000] ∧
        next.map (fun a => a.genome) = [[1], [1]] ∧
        ev2.eddAgents.map (fun a => a.fitness) = [1 / 10, 1 / 10] ∧
        fitnessValues ev2.eddAgents ≠ fitnessValues ev1.eddAgents := by
  have hdet : ∀ (i : Nat) (a : tAgent (List Nat)) (r : tAgent (List Nat) × Option (Nat × ℚ)),
      executeGame geneController 64 ((fun _ => id) i) ((fun _ => []) i) a false false
          geneWorld.gridSizeX geneWorld.gridSizeY geneWorld.zoomingCamera
          geneWorld.randomPlacement geneWorld.noise geneWorld.noiseAmount = some r →
        r.1.fitness = geneFitness a.genome := fun _ a r h => gene_executeGame [] a r h
  obtain ⟨ev1, h1⟩ := evaluatePopulation_centered geneController 64 (fun _ => id)
    (fun _ => []) geneWorld rfl 2 genePopulation
  obtain ⟨hf1, hg1⟩ := evaluatePopulation_fitness geneController 64 (fun _ => id)
    (fun _ => []) geneWorld geneFitness hdet 2 genePopulation ev1 h1
  have hf1b : ev1.eddAgents.map (fun a => a.fitness) = [1 / 10, 1 / 1000000] := by
    rw [hf1]
    simp [genePopulation, geneAgent, geneFitness]
  obtain ⟨a, b, hab, hfa, hfb⟩ := two_members _ _ _ hf1b
  have hga : a.genome = [1] := by
    rw [hab] at hg1
    simp only [genePopulation, geneAgent, List.map_cons, List.map_nil, List.cons.injEq,
      and_true] at hg1
    exact hg1.1
  have hstep := pure_step_of_two a b (by rw [hfa, hfb]; norm_num)
  obtain ⟨ev2, h2⟩ := evaluatePopulation_centered geneController 64 (fun _ => id)
    (fun _ => []) geneWorld rfl 2
    [inherit (geneAgent []) (lossyOutcomes.mutate 0) a 0 1,
      inherit (geneAgent []) (lossyOutcomes.mutate 1) a 0 1]
  obtain ⟨hf2, _⟩ := evaluatePopulation_fitness geneController 64 (fun _ => id)
    (fun _ => []) geneWorld geneFitness hdet 2 _ ev2 h2
  have hf2b : ev2.eddAgents.map (fun a => a.fitness) = [1 / 10, 1 / 10] := by
    rw [hf2]
    simp [inherit, lossyOutcomes, geneFitness, hga]
  refine ⟨ev1, _, ev2, h1, ?_, h2, hf1b, ?_, hf2b, ?_⟩
  · rw [hab]
    exact hstep
  · simp [inherit, lossyOutcomes, hga]
  · unfold fitnessValues
    rw [hf1b, hf2b]
    intro hcon
    have hmem : (1 / 1000000 : ℚ) ∈ (([1 / 10, 1 / 10] : List ℚ) : Multiset ℚ) := by
      rw [hcon]
      simp
    simp only [Multiset.mem_coe, List.mem_cons, List.mem_singleton, List.not_mem_nil,
      or_false, or_self] at hmem
    norm_num at hmem

/-- Claim C13 (amended).  Pure elitism with count 1 and mutation rate 0 (a mutation at
rate 0 leaves the genome unchanged) on a population of `N ≥ 1` agents: every member of
the next generation is a clone of the best individual of the current one (same genome,
`ancestor` the best individual).  Under a deterministic controller and identical
evaluation conditions (the fitness given by an evaluation is a function `score` of the
genome, for the current population too), every fitness value of the next generation
after evaluation equals the best fitness of the current generation; the multiset of
fitness values is the same as the current one exactly when every member of the current
population has the best fitness.  With centered placement the evaluation completes. -/
theorem pure_elitism_clones_best {β : Type} (C : Controller β) (maxNodes : Nat)
    (shuffles : Nat → List Nat → List Nat) (draws : Nat → List (ℚ × ℚ)) (w : GameSettings)
    (o : Outcomes β) (self : tAgent β) (update N : Nat) (eddAgents : List (tAgent β))
    (score : List Nat → ℚ) (hv : o.Valid)
    (hmut : ∀ (k : Nat) (genome : List Nat), o.mutate k 0 genome = genome)
    (hN : eddAgents.length = N) (hN1 : 1 ≤ N)
    (hcur : ∀ a, a ∈ eddAgents → a.fitness = score a.genome)
    (hdet : ∀ (i : Nat) (a : tAgent β) (r : tAgent β × Option (Nat × ℚ)),
      executeGame C maxNodes (shuffles i) (draws i) a false false w.gridSizeX w.gridSizeY
          w.zoomingCamera w.randomPlacement w.noise w.noiseAmount = some r →
        r.1.fitness = score a.genome) :
    ∃ best next, best ∈ eddAgents ∧ (∀ a, a ∈ eddAgents → a.fitness ≤ best.fitness) ∧
      selectPureElitism o self 0 update N 1 eddAgents = some next ∧ next.length = N ∧
      (∀ a, a ∈ next → a.genome = best.genome ∧ a.ancestor = some best ∧ a.born = update) ∧
      (w.randomPlacement = false →
        ∃ ev, evaluatePopulation C maxNodes shuffles draws w N next = some ev) ∧
      ∀ ev, evaluatePopulation C maxNodes shuffles draws w N next = some ev →
        ev.eddAgents.map (fun a => a.fitness) = List.replicate N best.fitness ∧
          (fitnessValues ev.eddAgents = fitnessValues eddAgents ↔
            ∀ a, a ∈ eddAgents → a.fitness = best.fitness) := by
  obtain ⟨best, hbest, hmem, hmax⟩ := sorted_last_max o hv eddAgents N hN hN1
  obtain ⟨next, hnext, hlen, hclone⟩ := pureElitism_one o hv self 0 update N eddAgents hN
    best hbest
  have hgen : ∀ a, a ∈ next → a.genome = best.genome := by
    intro a ha
    obtain ⟨k, hk⟩ := hclone a ha
    rw [hk]
    exact hmut k best.genome
  refine ⟨best, next, hmem, hmax, hnext, hlen, ?_, ?_, ?_⟩
  · intro a ha
    obtain ⟨k, hk⟩ := hclone a ha
    refine ⟨hgen a ha, ?_, ?_⟩
    · rw [hk]
      rfl
    · rw [hk]
      rfl
  · intro hw
    exact evaluatePopulation_centered C maxNodes shuffles draws w hw N next
  · intro ev hev
    obtain ⟨hf, _⟩ := evaluatePopulation_fitness C maxNodes shuffles draws w score hdet N
      next ev hev
    have hrep : ev.eddAgents.map (fun a => a.fitness) = List.replicate N best.fitness := by
      rw [hf, List.eq_replicate_iff]
      refine ⟨by rw [List.length_map, hlen], ?_⟩
      intro x hx
      obtain ⟨a, ha, rfl⟩ := List.mem_map.mp hx
      rw [hgen a ha, hcur best hmem]
    refine ⟨hrep, ?_⟩
    unfold fitnessValues
    rw [hrep]
    constructor
    · intro h a ha
      have hin : a.fitness ∈ ((eddAgents.map (fun a => a.fitness) : List ℚ) : Multiset ℚ) :=
        Multiset.mem_coe.mpr (List.mem_map.mpr ⟨a, ha, rfl⟩)
      rw [← h] at hin
      exact List.eq_of_mem_replicate (Multiset.mem_coe.mp hin)
    · intro h
      have hl : eddAgents.map (fun a => a.fitness) = List.replicate N best.fitness := by
        rw [List.eq_replicate_iff]
        refine ⟨by rw [List.length_map, hN], ?_⟩
        intro x hx
        obtain ⟨a, ha, rfl⟩ := List.mem_map.mp hx
        exact h a ha
      rw [hl]

/-- Witness of C13 (amended): the two agents of `evaluatedGenePopulation`, driven by
`geneController` on the 5x5 grid with centered placement. -/
theorem pure_elitism_clones_best_witness :
    ∃ best next, best ∈ evaluatedGenePopulation ∧
      (∀ a, a ∈ evaluatedGenePopulation → a.fitness ≤ best.fitness) ∧
      selectPureElitism lossyOutcomes (geneAgent []) 0 1 2 1 evaluatedGenePopulation =
        some next ∧ next.length = 2 ∧
      (∀ a, a ∈ next → a.genome = best.genome ∧ a.ancestor = some best ∧ a.born = 1) ∧
      (geneWorld.randomPlacement = false →
        ∃ ev, evaluatePopulation geneController 64 (fun _ => id) (fun _ => []) geneWorld 2
          next = some ev) ∧
      ∀ ev, evaluatePopulation geneController 64 (fun _ => id) (fun _ => []) geneWorld 2
          next = some ev →
        ev.eddAgents.map (fun a => a.fitness) = List.replicate 2 best.fitness ∧
          (fitnessValues ev.eddAgents = fitnessValues evaluatedGenePopulation ↔
            ∀ a, a ∈ evaluatedGenePopulation → a.fitness = best.fitness) :=
  pure_elitism_clones_best geneController 64 (fun _ => id) (fun _ => []) geneWorld
    lossyOutcomes (geneAgent []) 1 2 evaluatedGenePopulation geneFitness lossyOutcomes_valid
    (fun _ _ => by simp [lossyOutcomes]) rfl (by decide)
    (fun a ha => by
      simp only [evaluatedGenePopulation, List.mem_cons, List.mem_singleton,
        List.not_mem_nil, or_false] at ha
      rcases ha with h | h <;> rw [h] <;> simp [geneFitness, geneAgent])
    (fun _ a r h => gene_executeGame [] a r h)

end GenerationClaims

/-! ## The sensor register -/

section SensorLemmas

variable {β : Type}

/-- One iteration of the fill loop sets its own register when the reading is 1 and
leaves every other register as it was. -/
theorem readSensor_apply (g : DigitGrid) (digit : Nat) (cam : Camera) (st : Nat → Nat)
    (sensor n : Nat) :
    readSensor g digit cam st sensor n =
      if n = sensor ∧ sensorReading g digit cam sensor = true then 1 else st n := by
  unfold readSensor sensorReading
  cases h : sensorOffsetMap sensor with
  | none => simp
  | some p =>
    obtain ⟨dx, dy⟩ := p
    simp only [decide_eq_true_eq]
    by_cases hin : cam.cameraX + dx ≥ 0 ∧ cam.cameraX + dx < g.sizeX ∧
        cam.cameraY + dy ≥ 0 ∧ cam.cameraY + dy < g.sizeY
    · rw [if_pos hin]
      by_cases hc : g.cell digit (cam.cameraX + dx) (cam.cameraY + dy) = 1
      · rw [if_pos hc]
        have hd : 0 ≤ cam.cameraX + dx ∧ cam.cameraX + dx < g.sizeX ∧
            0 ≤ cam.cameraY + dy ∧ cam.cameraY + dy < g.sizeY ∧
            g.cell digit (cam.cameraX + dx) (cam.cameraY + dy) = 1 :=
          ⟨hin.1, hin.2.1, hin.2.2.1, hin.2.2.2, hc⟩
        by_cases hn : n = sensor
        · rw [if_pos hn, if_pos ⟨hn, hd⟩]
        · rw [if_neg hn, if_neg (fun hh => hn hh.1)]
      · rw [if_neg hc, if_neg (fun hh => hc hh.2.2.2.2.2)]
    · rw [if_neg hin,
        if_neg (fun hh => hin ⟨hh.2.1, hh.2.2.1, hh.2.2.2.1, hh.2.2.2.2.1⟩)]

theorem fillLoop_apply (g : DigitGrid) (digit : Nat) (cam : Camera) (st : Nat → Nat)
    (m n : Nat) :
    (List.range m).foldl (readSensor g digit cam) st n =
      if n < m ∧ sensorReading g digit cam n = true then 1 else st n := by
  induction m with
  | zero => simp
  | succ m ih =>
    rw [List.range_succ, List.foldl_append]
    simp only [List.foldl_cons, List.foldl_nil]
    rw [readSensor_apply, ih]
    by_cases hn : n = m
    · subst hn
      by_cases hr : sensorReading g digit cam n = true
      · simp [hr]
      · simp [hr]
    · by_cases hlt : n < m
      · have h2 : n < m + 1 := by omega
        simp [hn, hlt, h2]
      · have h2 : ¬ n < m + 1 := by omega
        simp [hn, hlt, h2]

/-- The register after the fill loop: a register below `cameraSize^2` whose reading is 1
holds 1, every other register is as the loop found it. -/
theorem fillSensors_apply (g : DigitGrid) (digit : Nat) (cam : Camera) (st : Nat → Nat)
    (n : Nat) :
    fillSensors g digit cam st n =
      if n < cam.cameraSize * cam.cameraSize ∧ sensorReading g digit cam n = true then 1
      else st n := by
  unfold fillSensors
  exact fillLoop_apply g digit cam st _ n

/-- The register presented to the controller: a cleared register holds the reading, a
register that the clear loop does not reach keeps its value unless the reading is 1. -/
theorem sensedStates_apply (g : DigitGrid) (digit : Nat) (s : TrialState β) (n : Nat) :
    sensedStates g digit s n =
      if n < s.camera.cameraSize * s.camera.cameraSize ∧
          sensorReading g digit s.camera n = true then 1
      else if n < (min g.sizeX g.sizeY) ^ 2 then 0 else s.states n := by
  unfold sensedStates
  rw [fillSensors_apply]
  rfl

theorem simulationStep_eq (C : Controller β) (maxNodes : Nat) (g : DigitGrid) (digit : Nat)
    (zoomingCamera : Bool) (s : TrialState β) :
    simulationStep C maxNodes g digit zoomingCamera s =
      { brain := (C.updateStates s.brain (sensedStates g digit s)).1
        states := (C.updateStates s.brain (sensedStates g digit s)).2
        camera := moveCamera zoomingCamera g.sizeX maxNodes
          (C.updateStates s.brain (sensedStates g digit s)).2 s.camera } := rfl

/-- The camera size after any number of steps of a trial. -/
theorem stateAfterSteps_size (C : Controller β) (maxNodes : Nat) (g : DigitGrid)
    (zoomingCamera : Bool) (agent : tAgent β) (digit : Nat) (hg : 5 ≤ g.sizeX) (n : Nat) :
    (stateAfterSteps C maxNodes g zoomingCamera agent digit n).camera.cameraSize % 2 = 1 ∧
      1 ≤ (stateAfterSteps C maxNodes g zoomingCamera agent digit n).camera.cameraSize ∧
      (stateAfterSteps C maxNodes g zoomingCamera agent digit n).camera.cameraSize ≤
        min g.sizeX 9 := by
  induction n with
  | zero =>
    have h3 : (3 : Nat) ≤ min g.sizeX 9 := Nat.le_min.mpr ⟨by omega, by omega⟩
    simpa [stateAfterSteps, initialCamera] using h3
  | succ n ih =>
    rw [stateAfterSteps_succ]
    exact moveCamera_size zoomingCamera g.sizeX maxNodes _ _ ih

theorem moveCamera_fixed (gridSizeX maxNodes : Nat) (states : Nat → Nat) (cam : Camera) :
    moveCamera false gridSizeX maxNodes states cam = cam := by
  simp [moveCamera]

/-- With the zooming camera disabled the camera stays where the trial started. -/
theorem stateAfterSteps_fixed (C : Controller β) (maxNodes : Nat) (g : DigitGrid)
    (agent : tAgent β) (digit n : Nat) :
    (stateAfterSteps C maxNodes g false agent digit n).camera =
      initialCamera g.sizeX g.sizeY := by
  induction n with
  | zero => rfl
  | succ n ih =>
    rw [stateAfterSteps_succ, simulationStep_eq]
    simp only [moveCamera_fixed]
    exact ih

theorem placeDigits_sizes (randomPlacement : Bool) (l : List Nat) (g0 g : DigitGrid)
    (draws : List (ℚ × ℚ)) (h : placeDigits randomPlacement l g0 draws = some g) :
    g.sizeX = g0.sizeX ∧ g.sizeY = g0.sizeY := by
  induction l generalizing g0 draws with
  | nil =>
    simp only [placeDigits, Option.some.injEq] at h
    rw [← h]
    exact ⟨rfl, rfl⟩
  | cons d ds ih =>
    unfold placeDigits at h
    cases hc : digitCenter g0.sizeX g0.sizeY randomPlacement draws with
    | none => rw [hc] at h; simp at h
    | some r =>
      obtain ⟨c, draws1⟩ := r
      rw [hc] at h
      simp only [] at h
      obtain ⟨h1, h2⟩ := ih _ _ h
      rw [h1, h2]
      exact placeDigit_sizes g0 d c.1 c.2

end SensorLemmas

/-! ## Claims about the sensors and the output register -/

section RegisterClaims

variable {β : Type}

/-- Claim C21, evaluated at a failing input.  Grid 7x5 with centered placement, zooming
camera enabled, register width 128, a controller that at every update sets the zoom-out
bit and register 30.  After two steps the camera size is 7, so sensor 30 is below
`size^2 = 49`; the clear loop of lines 232-235 stops at `min(7, 5)^2 = 25` and leaves
register 30 as the controller wrote it.  The cell of sensor 30 is `(3, 2) + (2, -3)`,
outside the grid, so its reading is 0, yet the bit presented to the controller in the
third step is 1. -/
theorem stale_sensor_bit_survives :
    ∃ g, placeDigits false (List.range 10) (emptyGrid 7 5) [] = some g ∧
      (stateAfterSteps staleController 128 g true sampleAgent 0 2).camera =
        { cameraX := 3, cameraY := 2, cameraSize := 7 } ∧
      30 < 7 * 7 ∧ ¬ 30 < (min g.sizeX g.sizeY) ^ 2 ∧
      sensorOffsetMap 30 = some (2, -3) ∧
      sensorReading g 0 (stateAfterSteps staleController 128 g true sampleAgent 0 2).camera
        30 = false ∧
      (stateAfterSteps staleController 128 g true sampleAgent 0 2).states 30 = 1 ∧
      sensedStates g 0 (stateAfterSteps staleController 128 g true sampleAgent 0 2) 30 = 1 := by
  obtain ⟨g, hg⟩ := Option.isSome_iff_exists.mp
    (placeDigits_centered (List.range 10) (emptyGrid 7 5) [])
  obtain ⟨hsx, hsy⟩ := placeDigits_sizes false _ _ g [] hg
  have hx : g.sizeX = 7 := hsx
  have hy : g.sizeY = 5 := hsy
  have hoff : sensorOffsetMap 30 = some (2, -3) :=
    (sensorOffsetMap_of_ring 30 3 (by decide)).trans (by decide)
  have hcam : (stateAfterSteps staleController 128 g true sampleAgent 0 2).camera =
      { cameraX := 3, cameraY := 2, cameraSize := 7 } := by
    simp [simulationStep_eq, staleController, moveCamera, hx, hy, stateAfterSteps,
      initialCamera, List.range_succ]
  have hst : (stateAfterSteps staleController 128 g true sampleAgent 0 2).states 30 = 1 := by
    rw [stateAfterSteps_succ, simulationStep_eq]
    simp [staleController]
  have hread : sensorReading g 0
      (stateAfterSteps staleController 128 g true sampleAgent 0 2).camera 30 = false := by
    rw [hcam]
    simp [sensorReading, hoff]
  have hmin : ¬ 30 < (min g.sizeX g.sizeY) ^ 2 := by
    rw [hx, hy]
    decide
  refine ⟨g, hg, hcam, by decide, hmin, hoff, hread, hst, ?_⟩
  rw [sensedStates_apply, hread, if_neg (by simp), if_neg hmin, hst]

/-- Claim C22.  For every integer camera position and every camera size up to 9 (every
size reachable in a trial on a grid of width at least 5): each iteration of the fill
loop indexes the offset table below `111 * 111`, where the table has an entry; a cell of
the grid is read only inside `0 ≤ x < gridSizeX`, `0 ≤ y < gridSizeY`; and a sensor whose
target cell is out of range reads no cell and its register is left as it was. -/
theorem sensor_loop_stays_in_bounds (g : DigitGrid) (digit : Nat) (cam : Camera)
    (st : Nat → Nat) (hsize : cam.cameraSize ≤ 9) :
    (∀ acc, acc ∈ sensorAccesses g cam →
        acc.1 < sensorOffsetMapSize ∧ (sensorOffsetMap acc.1).isSome = true ∧
        ∀ x y, acc.2 = some (x, y) → 0 ≤ x ∧ x < g.sizeX ∧ 0 ≤ y ∧ y < g.sizeY) ∧
      (sensorAccesses g cam).map (fun acc => acc.1) =
        List.range (cam.cameraSize * cam.cameraSize) ∧
      (∀ n dx dy, n < cam.cameraSize * cam.cameraSize → sensorOffsetMap n = some (dx, dy) →
        ¬ (0 ≤ cam.cameraX + dx ∧ cam.cameraX + dx < g.sizeX ∧
          0 ≤ cam.cameraY + dy ∧ cam.cameraY + dy < g.sizeY) →
        (sensorAccess g cam n).2 = none ∧ fillSensors g digit cam st n = st n) ∧
      (∀ (γ : Type) (C : Controller γ) (maxNodes : Nat) (zoomingCamera : Bool)
          (agent : tAgent γ) (d k : Nat), 5 ≤ g.sizeX →
        (stateAfterSteps C maxNodes g zoomingCamera agent d k).camera.cameraSize ≤ 9) := by
  have hsq : cam.cameraSize * cam.cameraSize ≤ 81 := by nlinarith
  refine ⟨?_, ?_, ?_, ?_⟩
  · intro acc hacc
    obtain ⟨n, hn, rfl⟩ := List.mem_map.mp hacc
    have hn2 : n < cam.cameraSize * cam.cameraSize := List.mem_range.mp hn
    have hlt : n < sensorOffsetMapSize := by
      unfold sensorOffsetMapSize
      omega
    refine ⟨hlt, ?_, ?_⟩
    · simp [sensorAccess, sensorOffsetMap, hlt]
    · intro x y hxy
      unfold sensorAccess at hxy
      simp only [] at hxy
      cases hoff : sensorOffsetMap n with
      | none =>
        rw [hoff] at hxy
        simp at hxy
      | some p =>
        obtain ⟨dx, dy⟩ := p
        rw [hoff] at hxy
        simp only [] at hxy
        split_ifs at hxy with hin
        simp only [Option.some.injEq, Prod.mk.injEq] at hxy
        obtain ⟨h1, h2⟩ := hxy
        subst h1
        subst h2
        exact ⟨hin.1, hin.2.1, hin.2.2.1, hin.2.2.2⟩
  · simp [sensorAccesses, sensorAccess, Function.comp_def]
  · intro n dx dy hn hoff hout
    constructor
    · have hout2 : ¬ (cam.cameraX + dx ≥ 0 ∧ cam.cameraX + dx < g.sizeX ∧
          cam.cameraY + dy ≥ 0 ∧ cam.cameraY + dy < g.sizeY) := hout
      simp only [sensorAccess, hoff, if_neg hout2]
    · rw [fillSensors_apply]
      have hread : sensorReading g digit cam n = false := by
        unfold sensorReading
        rw [hoff]
        exact decide_eq_false (fun hh => hout ⟨hh.1, hh.2.1, hh.2.2.1, hh.2.2.2.1⟩)
      rw [hread]
      simp
  · intro γ C maxNodes zoomingCamera agent d k hg
    have := (stateAfterSteps_size C maxNodes g zoomingCamera agent d hg k).2.2
    exact le_trans this (min_le_right _ _)

/-- Witness of C22: a 9x9 camera at `(-5, 100)` over a 5x5 grid holding 1 everywhere:
sensor 0 has its target cell `(-5, 100)` outside the grid, reads no cell and its
register keeps the value 7. -/
theorem sensor_loop_stays_in_bounds_witness :
    (∀ acc, acc ∈ sensorAccesses { sizeX := 5, sizeY := 5, cell := fun _ _ _ => 1 }
          { cameraX := -5, cameraY := 100, cameraSize := 9 } →
        acc.1 < sensorOffsetMapSize ∧ (sensorOffsetMap acc.1).isSome = true ∧
        ∀ x y, acc.2 = some (x, y) →
          0 ≤ x ∧ x < ((5 : Nat) : Int) ∧ 0 ≤ y ∧ y < ((5 : Nat) : Int)) ∧
      (sensorAccess { sizeX := 5, sizeY := 5, cell := fun _ _ _ => 1 }
          { cameraX := -5, cameraY := 100, cameraSize := 9 } 0).2 = none ∧
      fillSensors { sizeX := 5, sizeY := 5, cell := fun _ _ _ => 1 } 3
          { cameraX := -5, cameraY := 100, cameraSize := 9 } (fun _ => 7) 0 = 7 := by
  have h := sensor_loop_stays_in_bounds { sizeX := 5, sizeY := 5, cell := fun _ _ _ => 1 } 3
    { cameraX := -5, cameraY := 100, cameraSize := 9 } (fun _ => 7) (by decide)
  have h0 := h.2.2.1 0 0 0 (by decide) sensorOffsetMap_zero (by decide)
  exact ⟨h.1, h0.1, h0.2⟩

/-- Claim C28.  With the zooming camera disabled, for every controller, every agent and
every digit the camera after any number of steps of a trial is at the grid center with
size 3: the camera update returns the camera unchanged whatever the register holds, any
two controllers see the same camera at every step, and the fill loop sets no register
from 9 on. -/
theorem fixed_camera_without_zoom (maxNodes : Nat) (g : DigitGrid) :
    (∀ (gridSizeX : Nat) (states : Nat → Nat) (cam : Camera),
        moveCamera false gridSizeX maxNodes states cam = cam) ∧
      (∀ (C : Controller β) (agent : tAgent β) (digit n : Nat),
        (stateAfterSteps C maxNodes g false agent digit n).camera =
          { cameraX := ((g.sizeX / 2 : Nat) : Int)
            cameraY := ((g.sizeY / 2 : Nat) : Int)
            cameraSize := 3 }) ∧
      (∀ (C1 C2 : Controller β) (agent1 agent2 : tAgent β) (digit n : Nat),
        (stateAfterSteps C1 maxNodes g false agent1 digit n).camera =
          (stateAfterSteps C2 maxNodes g false agent2 digit n).camera) ∧
      (∀ (C : Controller β) (agent : tAgent β) (digit n k : Nat), 9 ≤ k →
        sensedStates g digit (stateAfterSteps C maxNodes g false agent digit n) k =
          clearSensors g.sizeX g.sizeY
            (stateAfterSteps C maxNodes g false agent digit n).states k) := by
  refine ⟨fun gx states cam => moveCamera_fixed gx maxNodes states cam,
    fun C agent digit n => stateAfterSteps_fixed C maxNodes g agent digit n, ?_, ?_⟩
  · intro C1 C2 agent1 agent2 digit n
    rw [stateAfterSteps_fixed, stateAfterSteps_fixed]
  · intro C agent digit n k hk
    unfold sensedStates
    rw [fillSensors_apply, stateAfterSteps_fixed]
    have h9 : ¬ (k < (initialCamera g.sizeX g.sizeY).cameraSize *
        (initialCamera g.sizeX g.sizeY).cameraSize) := by
      simp only [initialCamera]
      omega
    rw [if_neg (fun hh => h9 hh.1)]

/-- Witness of C28: the controller that sets every register (all six motor bits on)
leaves the camera of a 5x5 grid at `(2, 2)` with size 3 after three steps, and register
9 presented to it in the next step is the cleared register. -/
theorem fixed_camera_without_zoom_witness :
    (stateAfterSteps allOnController 64 (emptyGrid 5 5) false sampleAgent 0 3).camera =
        { cameraX := 2, cameraY := 2, cameraSize := 3 } ∧
      sensedStates (emptyGrid 5 5) 0
          (stateAfterSteps allOnController 64 (emptyGrid 5 5) false sampleAgent 0 3) 9 =
        clearSensors 5 5
          (stateAfterSteps allOnController 64 (emptyGrid 5 5) false sampleAgent 0 3).states 9 :=
  ⟨(@fixed_camera_without_zoom Unit 64 (emptyGrid 5 5)).2.1 allOnController sampleAgent 0 3,
    (@fixed_camera_without_zoom Unit 64 (emptyGrid 5 5)).2.2.2 allOnController sampleAgent 0 3
      9 (by decide)⟩

/-- The scoring loop reads the classify and veto bits of the indices it visits only. -/
theorem scoreOver_congr (digit : Nat) (c1 v1 c2 v2 : Nat → Nat) (l : List Nat)
    (h : ∀ i, i ∈ l → c1 i = c2 i ∧ v1 i = v2 i) (s : ScoreLoop β) :
    scoreOver digit c1 v1 l s = scoreOver digit c2 v2 l s := by
  induction l generalizing s with
  | nil => rfl
  | cons i l ih =>
    have hi := h i (List.mem_cons_self i l)
    have hstep : scoreDigit digit c1 v1 s i = scoreDigit digit c2 v2 s i := by
      unfold scoreDigit guessedThisDigit
      rw [hi.1, hi.2]
    simp only [scoreOver, List.foldl_cons] at ih ⊢
    rw [hstep]
    exact ih (fun j hj => h j (List.mem_cons_of_mem i hj)) _

theorem scoreTrial_congr (digit : Nat) (c1 v1 c2 v2 : Nat → Nat)
    (h : ∀ i, i < 10 → c1 i = c2 i ∧ v1 i = v2 i) (agent : tAgent β) :
    scoreTrial digit c1 v1 agent = scoreTrial digit c2 v2 agent := by
  unfold scoreTrial
  simp only [scoreLoop_eq]
  rw [scoreOver_congr digit c1 v1 c2 v2 (List.range 10)
    (fun i hi => h i (List.mem_range.mp hi))]

theorem outputPositions_eq (W : Nat) :
    outputPositions W = (List.range 26).map (fun k => W - 1 - k) := by
  simp [outputPositions, List.range_succ, Nat.sub_sub]

theorem moveCamera_eq_applyMotors (zoomingCamera : Bool) (gridSizeX maxNodes : Nat)
    (states : Nat → Nat) (cam : Camera) :
    moveCamera zoomingCamera gridSizeX maxNodes states cam =
      applyMotors zoomingCamera gridSizeX (states (maxNodes - 1) % 2)
        (states (maxNodes - 2) % 2) (states (maxNodes - 3) % 2) (states (maxNodes - 4) % 2)
        (states (maxNodes - 5) % 2) (states (maxNodes - 6) % 2) cam := by
  cases zoomingCamera with
  | false => simp [moveCamera, applyMotors]
  | true =>
    have h1 := Nat.mod_two_eq_zero_or_one (states (maxNodes - 1))
    have h2 := Nat.mod_two_eq_zero_or_one (states (maxNodes - 2))
    have h3 := Nat.mod_two_eq_zero_or_one (states (maxNodes - 3))
    have h4 := Nat.mod_two_eq_zero_or_one (states (maxNodes - 4))
    simp only [moveCamera, applyMotors, true_and, if_true]
    rcases h1 with h1 | h1 <;> rcases h2 with h2 | h2 <;> rcases h3 with h3 | h3 <;>
      rcases h4 with h4 | h4 <;> simp [h1, h2, h3, h4]

/-- Claim C23.  With `W = maxNodes ≥ 26`: the camera update is the update of the
specification applied to the low bits of the registers `W-1` (up), `W-2` (down), `W-3`
(left), `W-4` (right), `W-5` (zoom in), `W-6` (zoom out); `classify[i]` is the low bit of
register `W-7-i` and `veto[i]` the low bit of register `W-17-i`; these 26 positions are
pairwise distinct and are exactly `W-26 .. W-1`; and two registers whose low bits agree
on these positions give the same camera update and the same scoring of a trial. -/
theorem output_register_layout (maxNodes : Nat) (hW : 26 ≤ maxNodes) :
    (∀ (zoomingCamera : Bool) (gridSizeX : Nat) (states : Nat → Nat) (cam : Camera),
        moveCamera zoomingCamera gridSizeX maxNodes states cam =
          applyMotors zoomingCamera gridSizeX (states (maxNodes - 1) % 2)
            (states (maxNodes - 2) % 2) (states (maxNodes - 3) % 2)
            (states (maxNodes - 4) % 2) (states (maxNodes - 5) % 2)
            (states (maxNodes - 6) % 2) cam) ∧
      (∀ (states : Nat → Nat) (i : Nat),
        classifyDigit maxNodes states i = states (maxNodes - 7 - i) % 2 ∧
          vetoBits maxNodes states i = states (maxNodes - 17 - i) % 2) ∧
      (outputPositions maxNodes).length = 26 ∧ (outputPositions maxNodes).Nodup ∧
      (∀ p, p ∈ outputPositions maxNodes ↔ maxNodes - 26 ≤ p ∧ p < maxNodes) ∧
      (∀ states1 states2 : Nat → Nat,
        (∀ p, p ∈ outputPositions maxNodes → states1 p % 2 = states2 p % 2) →
        (∀ (zoomingCamera : Bool) (gridSizeX : Nat) (cam : Camera),
          moveCamera zoomingCamera gridSizeX maxNodes states1 cam =
            moveCamera zoomingCamera gridSizeX maxNodes states2 cam) ∧
        (∀ (digit : Nat) (agent : tAgent β),
          scoreTrial digit (classifyDigit maxNodes states1) (vetoBits maxNodes states1)
              agent =
            scoreTrial digit (classifyDigit maxNodes states2) (vetoBits maxNodes states2)
              agent)) := by
  have hmem : ∀ p, p ∈ outputPositions maxNodes ↔ maxNodes - 26 ≤ p ∧ p < maxNodes := by
    intro p
    rw [outputPositions_eq, List.mem_map]
    constructor
    · rintro ⟨k, hk, rfl⟩
      have := List.mem_range.mp hk
      omega
    · rintro ⟨h1, h2⟩
      exact ⟨maxNodes - 1 - p, List.mem_range.mpr (by omega), by omega⟩
  refine ⟨fun zc gx states cam => moveCamera_eq_applyMotors zc gx maxNodes states cam,
    fun states i => ⟨rfl, rfl⟩, ?_, ?_, hmem, ?_⟩
  · rw [outputPositions_eq]
    simp
  · rw [outputPositions_eq]
    apply List.Nodup.map_on _ (List.nodup_range 26)
    intro a ha b hb hab
    have h1 := List.mem_range.mp ha
    have h2 := List.mem_range.mp hb
    omega
  · intro states1 states2 hagree
    have hbit : ∀ k, 1 ≤ k → k ≤ 26 →
        states1 (maxNodes - k) % 2 = states2 (maxNodes - k) % 2 := by
      intro k hk1 hk2
      exact hagree _ ((hmem _).mpr ⟨by omega, by omega⟩)
    constructor
    · intro zc gx cam
      rw [moveCamera_eq_applyMotors, moveCamera_eq_applyMotors, hbit 1 (by omega) (by omega),
        hbit 2 (by omega) (by omega), hbit 3 (by omega) (by omega),
        hbit 4 (by omega) (by omega), hbit 5 (by omega) (by omega),
        hbit 6 (by omega) (by omega)]
    · intro digit agent
      apply scoreTrial_congr
      intro i hi
      unfold classifyDigit vetoBits
      have e1 : maxNodes - 7 - i = maxNodes - (7 + i) := by omega
      have e2 : maxNodes - 17 - i = maxNodes - (17 + i) := by omega
      rw [e1, e2]
      exact ⟨hbit (7 + i) (by omega) (by omega), hbit (17 + i) (by omega) (by omega)⟩

/-- Witness of C23: width 64: the 26 positions are `63, 62, .., 38`; two registers that
differ only in register 0 and in the high bits of register 63 give the same camera. -/
theorem output_register_layout_witness :
    outputPositions 64 =
        [63, 62, 61, 60, 59, 58, 57, 56, 55, 54, 53, 52, 51, 50, 49, 48, 47, 46, 45, 44, 43,
          42, 41, 40, 39, 38] ∧
      (outputPositions 64).Nodup ∧
      moveCamera true 9 64 (fun n => if n = 63 then 3 else if n = 0 then 1 else 0)
          { cameraX := 4, cameraY := 4, cameraSize := 3 } =
        moveCamera true 9 64 (fun n => if n = 63 then 1 else 0)
          { cameraX := 4, cameraY := 4, cameraSize := 3 } :=
  ⟨by decide, (@output_register_layout Unit 64 (by decide)).2.2.2.1,
    ((@output_register_layout Unit 64 (by decide)).2.2.2.2.2
      (fun n => if n = 63 then 3 else if n = 0 then 1 else 0)
      (fun n => if n = 63 then 1 else 0)
      (fun p hp => by
        have h := ((@output_register_layout Unit 64 (by decide)).2.2.2.2.1 p).mp hp
        by_cases h63 : p = 63
        · subst h63
          decide
        · have h0 : p ≠ 0 := by omega
          simp [h63, h0])).1 true 9 { cameraX := 4, cameraY := 4, cameraSize := 3 }⟩

end RegisterClaims

/-! ## Claims about placement and noise -/

section PlacementClaims

variable {β : Type}

theorem searchPlacement_first (gridSizeX gridSizeY : Nat) (pre : List (ℚ × ℚ)) (rx ry : ℚ)
    (post : List (ℚ × ℚ))
    (hpre : ∀ p, p ∈ pre →
      validPlacement gridSizeX gridSizeY (truncToInt (p.1 * gridSizeX))
        (truncToInt (p.2 * gridSizeY)) = false)
    (hv : validPlacement gridSizeX gridSizeY (truncToInt (rx * gridSizeX))
      (truncToInt (ry * gridSizeY)) = true) :
    searchPlacement gridSizeX gridSizeY (pre ++ (rx, ry) :: post) =
      some ((truncToInt (rx * gridSizeX), truncToInt (ry * gridSizeY)), post) := by
  induction pre with
  | nil => simp [searchPlacement, hv]
  | cons p pre ih =>
    obtain ⟨px, py⟩ := p
    have hp := hpre (px, py) (List.mem_cons_self _ _)
    simp only [] at hp
    simp only [List.cons_append, searchPlacement, hp]
    exact ih (fun q hq => hpre q (List.mem_cons_of_mem _ hq))

theorem searchPlacement_none (gridSizeX gridSizeY : Nat) (draws : List (ℚ × ℚ))
    (h : ∀ p, p ∈ draws →
      validPlacement gridSizeX gridSizeY (truncToInt (p.1 * gridSizeX))
        (truncToInt (p.2 * gridSizeY)) = false) :
    searchPlacement gridSizeX gridSizeY draws = none := by
  induction draws with
  | nil => rfl
  | cons p rest ih =>
    obtain ⟨px, py⟩ := p
    have hp := h (px, py) (List.mem_cons_self _ _)
    simp only [] at hp
    simp only [searchPlacement, hp]
    exact ih (fun q hq => h q (List.mem_cons_of_mem _ hq))

theorem acceptableCenters_eq (gridSizeX gridSizeY : Nat) :
    acceptableCenters gridSizeX gridSizeY =
      (Finset.Ico (2 : Int) ((gridSizeX : Int) - 2)) ×ˢ
        (Finset.Ico (2 : Int) ((gridSizeY : Int) - 2)) := by
  ext c
  obtain ⟨x, y⟩ := c
  simp only [acceptableCenters, validPlacement, Finset.mem_filter, Finset.mem_product,
    Finset.mem_Ico, Bool.and_eq_true, decide_eq_true_eq]
  constructor
  · rintro ⟨_, ⟨⟨h1, h2⟩, h3⟩, h4⟩
    omega
  · rintro ⟨⟨h1, h2⟩, h3, h4⟩
    refine ⟨⟨⟨by omega, by omega⟩, by omega, by omega⟩, ⟨⟨by omega, by omega⟩, by omega⟩,
      by omega⟩

theorem truncToInt_draw (c : Int) (n : Nat) (hn : 0 < n) (hc : 0 ≤ c) :
    truncToInt (((c : ℚ) / (n : ℚ)) * (n : ℚ)) = c := by
  have hn0 : (n : ℚ) ≠ 0 := by positivity
  rw [div_mul_cancel₀ _ hn0]
  unfold truncToInt
  rw [if_pos (by exact_mod_cast hc)]
  exact Int.floor_intCast c

/-- Claim C29.  The placement search returns the first pair of the stream whose center
`(cx, cy)` passes the test `cx - 2 ≥ 0`, `cx + 2 < gridSizeX`, `cy - 2 ≥ 0`,
`cy + 2 < gridSizeY` (with the rest of the stream), and has no result on a stream without
such a pair.  For `gridSizeX ≥ 5` and `gridSizeY ≥ 5` the acceptable centers are exactly
`(gridSizeX - 4) * (gridSizeY - 4)` cells, at least one, and each is the center of some
pair of draws in `[0, 1)`; if either dimension is below 5 no center is acceptable and
the search has no result on any stream. -/
theorem placement_search_first_acceptable (gridSizeX gridSizeY : Nat) :
    (∀ (pre : List (ℚ × ℚ)) (rx ry : ℚ) (post : List (ℚ × ℚ)),
        (∀ p, p ∈ pre →
          validPlacement gridSizeX gridSizeY (truncToInt (p.1 * gridSizeX))
            (truncToInt (p.2 * gridSizeY)) = false) →
        validPlacement gridSizeX gridSizeY (truncToInt (rx * gridSizeX))
          (truncToInt (ry * gridSizeY)) = true →
        searchPlacement gridSizeX gridSizeY (pre ++ (rx, ry) :: post) =
          some ((truncToInt (rx * gridSizeX), truncToInt (ry * gridSizeY)), post)) ∧
      (∀ draws : List (ℚ × ℚ),
        (∀ p, p ∈ draws →
          validPlacement gridSizeX gridSizeY (truncToInt (p.1 * gridSizeX))
            (truncToInt (p.2 * gridSizeY)) = false) →
        searchPlacement gridSizeX gridSizeY draws = none) ∧
      (∀ cx cy : Int, validPlacement gridSizeX gridSizeY cx cy = true ↔
        (cx - 2 ≥ 0 ∧ cx + 2 < gridSizeX ∧ cy - 2 ≥ 0 ∧ cy + 2 < gridSizeY)) ∧
      (5 ≤ gridSizeX → 5 ≤ gridSizeY →
        (acceptableCenters gridSizeX gridSizeY).card = (gridSizeX - 4) * (gridSizeY - 4) ∧
          0 < (acceptableCenters gridSizeX gridSizeY).card ∧
          ∀ c, c ∈ acceptableCenters gridSizeX gridSizeY →
            ∃ rx ry : ℚ, 0 ≤ rx ∧ rx < 1 ∧ 0 ≤ ry ∧ ry < 1 ∧
              truncToInt (rx * gridSizeX) = c.1 ∧ truncToInt (ry * gridSizeY) = c.2) ∧
      (gridSizeX < 5 ∨ gridSizeY < 5 →
        acceptableCenters gridSizeX gridSizeY = ∅ ∧
          (∀ cx cy : Int, validPlacement gridSizeX gridSizeY cx cy = false) ∧
          ∀ draws : List (ℚ × ℚ), searchPlacement gridSizeX gridSizeY draws = none) := by
  have hvalid : ∀ cx cy : Int, validPlacement gridSizeX gridSizeY cx cy = true ↔
      (cx - 2 ≥ 0 ∧ cx + 2 < gridSizeX ∧ cy - 2 ≥ 0 ∧ cy + 2 < gridSizeY) := by
    intro cx cy
    simp only [validPlacement, Bool.and_eq_true, decide_eq_true_eq]
    constructor
    · rintro ⟨⟨⟨h1, h2⟩, h3⟩, h4⟩
      exact ⟨h1, h2, h3, h4⟩
    · rintro ⟨h1, h2, h3, h4⟩
      exact ⟨⟨⟨h1, h2⟩, h3⟩, h4⟩
  refine ⟨fun pre rx ry post hpre hv =>
      searchPlacement_first gridSizeX gridSizeY pre rx ry post hpre hv,
    fun draws h => searchPlacement_none gridSizeX gridSizeY draws h, hvalid, ?_, ?_⟩
  · intro hx hy
    have hcard : (acceptableCenters gridSizeX gridSizeY).card =
        (gridSizeX - 4) * (gridSizeY - 4) := by
      rw [acceptableCenters_eq, Finset.card_product, Int.card_Ico, Int.card_Ico]
      have e1 : ((gridSizeX : Int) - 2 - 2).toNat = gridSizeX - 4 := by omega
      have e2 : ((gridSizeY : Int) - 2 - 2).toNat = gridSizeY - 4 := by omega
      rw [e1, e2]
    refine ⟨hcard, ?_, ?_⟩
    · rw [hcard]
      exact Nat.mul_pos (by omega) (by omega)
    · intro c hc
      rw [acceptableCenters_eq, Finset.mem_product, Finset.mem_Ico, Finset.mem_Ico] at hc
      obtain ⟨⟨h1, h2⟩, h3, h4⟩ := hc
      have hgx : (0 : ℚ) < (gridSizeX : ℚ) := by exact_mod_cast (by omega : 0 < gridSizeX)
      have hgy : (0 : ℚ) < (gridSizeY : ℚ) := by exact_mod_cast (by omega : 0 < gridSizeY)
      have hc1 : (0 : ℚ) ≤ (c.1 : ℚ) := by exact_mod_cast (by omega : (0 : Int) ≤ c.1)
      have hc2 : (0 : ℚ) ≤ (c.2 : ℚ) := by exact_mod_cast (by omega : (0 : Int) ≤ c.2)
      have hc1lt : (c.1 : ℚ) < (gridSizeX : ℚ) := by
        exact_mod_cast (by omega : c.1 < (gridSizeX : Int))
      have hc2lt : (c.2 : ℚ) < (gridSizeY : ℚ) := by
        exact_mod_cast (by omega : c.2 < (gridSizeY : Int))
      refine ⟨(c.1 : ℚ) / (gridSizeX : ℚ), (c.2 : ℚ) / (gridSizeY : ℚ),
        div_nonneg hc1 (le_of_lt hgx), (div_lt_one hgx).mpr hc1lt,
        div_nonneg hc2 (le_of_lt hgy), (div_lt_one hgy).mpr hc2lt,
        truncToInt_draw c.1 gridSizeX (by omega) (by omega),
        truncToInt_draw c.2 gridSizeY (by omega) (by omega)⟩
  · intro hsmall
    have hnone : ∀ cx cy : Int, validPlacement gridSizeX gridSizeY cx cy = false := by
      intro cx cy
      cases hb : validPlacement gridSizeX gridSizeY cx cy with
      | false => rfl
      | true =>
        have := (hvalid cx cy).mp hb
        omega
    refine ⟨?_, hnone, fun draws =>
      searchPlacement_none gridSizeX gridSizeY draws (fun p _ => hnone _ _)⟩
    apply Finset.eq_empty_of_forall_not_mem
    intro c hc
    simp only [acceptableCenters, Finset.mem_filter] at hc
    rw [hnone] at hc
    exact Bool.noConfusion hc.2

/-- Witness of C29: a 6x7 grid has `2 * 3 = 6` acceptable centers; on the stream
`(0, 0), (1/2, 1/2), (9/10, 9/10)` the pair `(0, 0)` is rejected and the search returns
the center `(3, 3)` of the second pair with the rest of the stream; on a 4x7 grid the
same stream gives no result. -/
theorem placement_search_first_acceptable_witness :
    searchPlacement 6 7 ([(0, 0)] ++ (1 / 2, 1 / 2) :: [(9 / 10, 9 / 10)]) =
        some ((3, 3), [(9 / 10, 9 / 10)]) ∧
      (acceptableCenters 6 7).card = (6 - 4) * (7 - 4) ∧
      searchPlacement 4 7 [(0, 0), (1 / 2, 1 / 2), (9 / 10, 9 / 10)] = none := by
  have h3 : truncToInt ((1 / 2 : ℚ) * ((6 : Nat) : ℚ)) = 3 := by
    norm_num [truncToInt]
  have h4 : truncToInt ((1 / 2 : ℚ) * ((7 : Nat) : ℚ)) = 3 := by
    unfold truncToInt
    rw [if_pos (by norm_num), Int.floor_eq_iff]
    norm_num
  have h0 : truncToInt ((0 : ℚ) * ((6 : Nat) : ℚ)) = 0 := by norm_num [truncToInt]
  have h0b : truncToInt ((0 : ℚ) * ((7 : Nat) : ℚ)) = 0 := by norm_num [truncToInt]
  have hfirst := (placement_search_first_acceptable 6 7).1 [(0, 0)] (1 / 2) (1 / 2)
    [(9 / 10, 9 / 10)]
    (fun p hp => by
      rw [List.mem_singleton.mp hp]
      simp only []
      rw [h0, h0b]
      decide)
    (by
      rw [h3, h4]
      decide)
  rw [h3, h4] at hfirst
  exact ⟨hfirst, ((placement_search_first_acceptable 6 7).2.2.2.1 (by decide) (by decide)).1,
    ((placement_search_first_acceptable 4 7).2.2.2.2 (Or.inl (by decide))).2.2 _⟩

/-- Claim C27, evaluated at a failing input.  The parameters `noise` and `noiseAmount`
of `executeGame` are not used: the call with noise enabled and amount 1 is the call
without noise, for every controller, agent and grid.  In the first step of the trial of
digit 1 centered on a 5x5 grid, the reading of sensor 0 (the center cell) is 1 and the
bit presented to the controller is 1, not its complement; and every register below
`min(gridSizeX, gridSizeY)^2` presented to the controller is the noise-free reading. -/
theorem noise_is_not_applied :
    (∀ (γ : Type) (C : Controller γ) (maxNodes : Nat) (shuffle : List Nat → List Nat)
        (draws : List (ℚ × ℚ)) (eddAgent : tAgent γ) (dataFile report : Bool)
        (gridSizeX gridSizeY : Nat) (zoomingCamera randomPlacement : Bool),
        executeGame C maxNodes shuffle draws eddAgent dataFile report gridSizeX gridSizeY
            zoomingCamera randomPlacement true 1 =
          executeGame C maxNodes shuffle draws eddAgent dataFile report gridSizeX gridSizeY
            zoomingCamera randomPlacement false 0) ∧
      sensorReading (placeDigit (emptyGrid 5 5) 1 2 2) 1 (initialCamera 5 5) 0 = true ∧
      sensedStates (placeDigit (emptyGrid 5 5) 1 2 2) 1
          ({ brain := (), states := fun _ => 0, camera := initialCamera 5 5 } :
            TrialState Unit) 0 = 1 ∧
      (∀ (γ : Type) (g : DigitGrid) (digit : Nat) (s : TrialState γ) (n : Nat),
        sensedStates g digit s n =
          if n < s.camera.cameraSize * s.camera.cameraSize ∧
              sensorReading g digit s.camera n = true then 1
          else if n < (min g.sizeX g.sizeY) ^ 2 then 0 else s.states n) := by
  have hread : sensorReading (placeDigit (emptyGrid 5 5) 1 2 2) 1 (initialCamera 5 5) 0 =
      true := by
    unfold sensorReading
    rw [sensorOffsetMap_zero]
    decide
  refine ⟨fun _ _ _ _ _ _ _ _ _ _ _ _ => rfl, hread, ?_,
    fun γ g digit s n => sensedStates_apply g digit s n⟩
  rw [sensedStates_apply, hread]
  decide

end PlacementClaims

/-! ## The tracked best -/

section TrackLemmas

variable {β : Type}

/-- The scoring loop leaves `born` and `ancestor` as they were. -/
theorem scoreOver_lineage (digit : Nat) (classify veto : Nat → Nat) (l : List Nat)
    (s : ScoreLoop β) :
    (scoreOver digit classify veto l s).agent.born = s.agent.born ∧
      (scoreOver digit classify veto l s).agent.ancestor = s.agent.ancestor := by
  induction l generalizing s with
  | nil => simp [scoreOver]
  | cons i l ih =>
    have h := ih (scoreDigit digit classify veto s i)
    simp only [scoreOver, List.foldl_cons] at h ⊢
    rw [h.1, h.2, scoreDigit_agent]
    simp

theorem runTrial_lineage (C : Controller β) (maxNodes : Nat) (g : DigitGrid)
    (zoomingCamera : Bool) (agent : tAgent β) (digit : Nat) :
    (runTrial C maxNodes g zoomingCamera agent digit).born = agent.born ∧
      (runTrial C maxNodes g zoomingCamera agent digit).ancestor = agent.ancestor := by
  have h := scoreOver_lineage digit
    (classifyDigit maxNodes (runSteps C maxNodes g zoomingCamera agent digit).states)
    (vetoBits maxNodes (runSteps C maxNodes g zoomingCamera agent digit).states)
    (List.range 10)
    { agent := { agent with
        brain := (runSteps C maxNodes g zoomingCamera agent digit).brain
        states := (runSteps C maxNodes g zoomingCamera agent digit).states }
      score := 0, numDigitsGuessed := 0 }
  unfold runTrial scoreTrial
  simp only [scoreLoop_eq]
  split_ifs
  · exact h
  · exact h

theorem trials_lineage (C : Controller β) (maxNodes : Nat) (g : DigitGrid)
    (zoomingCamera : Bool) (digits : List Nat) (agent : tAgent β) :
    (digits.foldl (runTrial C maxNodes g zoomingCamera) agent).born = agent.born ∧
      (digits.foldl (runTrial C maxNodes g zoomingCamera) agent).ancestor =
        agent.ancestor := by
  induction digits generalizing agent with
  | nil => exact ⟨rfl, rfl⟩
  | cons d ds ih =>
    rw [List.foldl_cons, (ih _).1, (ih _).2]
    exact runTrial_lineage C maxNodes g zoomingCamera agent d

/-- An evaluation leaves `born` and `ancestor` of the agent unchanged. -/
theorem executeGame_lineage (C : Controller β) (maxNodes : Nat)
    (shuffle : List Nat → List Nat) (draws : List (ℚ × ℚ)) (eddAgent : tAgent β)
    (dataFile report : Bool) (gridSizeX gridSizeY : Nat)
    (zoomingCamera randomPlacement noise : Bool) (noiseAmount : ℚ)
    (r : tAgent β × Option (Nat × ℚ))
    (h : executeGame C maxNodes shuffle draws eddAgent dataFile report gridSizeX gridSizeY
      zoomingCamera randomPlacement noise noiseAmount = some r) :
    r.1.born = eddAgent.born ∧ r.1.ancestor = eddAgent.ancestor := by
  obtain ⟨g, _, hg⟩ := executeGame_some C maxNodes shuffle draws eddAgent dataFile report
    gridSizeX gridSizeY zoomingCamera randomPlacement noise noiseAmount r h
  rw [hg]
  unfold playGame finishGame
  simp only []
  rw [(trials_lineage C maxNodes g zoomingCamera _ _).1,
    (trials_lineage C maxNodes g zoomingCamera _ _).2]
  exact ⟨rfl, rfl⟩

/-- The line written to the data file is `born,fitness` of the evaluated agent. -/
theorem executeGame_line (C : Controller β) (maxNodes : Nat)
    (shuffle : List Nat → List Nat) (draws : List (ℚ × ℚ)) (eddAgent : tAgent β)
    (report : Bool) (gridSizeX gridSizeY : Nat)
    (zoomingCamera randomPlacement noise : Bool) (noiseAmount : ℚ)
    (r : tAgent β × Option (Nat × ℚ))
    (h : executeGame C maxNodes shuffle draws eddAgent true report gridSizeX gridSizeY
      zoomingCamera randomPlacement noise noiseAmount = some r) :
    r.2 = some (eddAgent.born, r.1.fitness) := by
  have hb := (executeGame_lineage C maxNodes shuffle draws eddAgent true report gridSizeX
    gridSizeY zoomingCamera randomPlacement noise noiseAmount r h).1
  unfold executeGame at h
  cases hp : placeDigits randomPlacement (List.range 10) (emptyGrid gridSizeX gridSizeY) draws with
  | none => rw [hp] at h; simp at h
  | some g =>
    rw [hp] at h
    simp only [if_true, Option.some.injEq] at h
    rw [← hb, ← h]

/-- The `classificationFitness` left by an evaluation is not negative. -/
theorem executeGame_nonneg (C : Controller β) (maxNodes : Nat)
    (shuffle : List Nat → List Nat) (draws : List (ℚ × ℚ)) (eddAgent : tAgent β)
    (dataFile report : Bool) (gridSizeX gridSizeY : Nat)
    (zoomingCamera randomPlacement noise : Bool) (noiseAmount : ℚ)
    (hperm : (shuffle (List.range 10)).Perm (List.range 10))
    (r : tAgent β × Option (Nat × ℚ))
    (h : executeGame C maxNodes shuffle draws eddAgent dataFile report gridSizeX gridSizeY
      zoomingCamera randomPlacement noise noiseAmount = some r) :
    0 ≤ r.1.classificationFitness := by
  obtain ⟨g, _, hg⟩ := executeGame_some C maxNodes shuffle draws eddAgent dataFile report
    gridSizeX gridSizeY zoomingCamera randomPlacement noise noiseAmount r h
  obtain ⟨_, hlt⟩ := shuffled_digits _ hperm
  rw [hg, (playGame_fitness C maxNodes g zoomingCamera _ eddAgent hlt).1]
  have hb := (trialScores_bounds C maxNodes g zoomingCamera (shuffle (List.range 10))
    (resetAgent C eddAgent)).1
  positivity

/-- A property that every evaluation establishes holds of all the agents evaluated by
the loop. -/
theorem evaluateLoop_forall (C : Controller β) (maxNodes : Nat)
    (shuffles : Nat → List Nat → List Nat) (draws : Nat → List (ℚ × ℚ)) (w : GameSettings)
    (P : tAgent β → Prop)
    (hP : ∀ (i : Nat) (a : tAgent β) (r : tAgent β × Option (Nat × ℚ)),
      executeGame C maxNodes (shuffles i) (draws i) a false false w.gridSizeX w.gridSizeY
          w.zoomingCamera w.randomPlacement w.noise w.noiseAmount = some r → P r.1)
    (l : List (tAgent β)) (i : Nat) (s s2 : Evaluation β)
    (hs : ∀ a, a ∈ s.eddAgents → P a)
    (h : evaluateLoop C maxNodes shuffles draws w i l s = some s2) :
    ∀ a, a ∈ s2.eddAgents → P a := by
  induction l generalizing i s with
  | nil =>
    simp only [evaluateLoop, Option.some.injEq] at h
    rw [← h]
    exact hs
  | cons a rest ih =>
    unfold evaluateLoop at h
    cases hr : executeGame C maxNodes (shuffles i) (draws i) { a with fitness := 0 } false
        false w.gridSizeX w.gridSizeY w.zoomingCamera w.randomPlacement w.noise
        w.noiseAmount with
    | none => rw [hr] at h; simp at h
    | some r =>
      rw [hr] at h
      simp only [] at h
      apply ih _ _ _ h
      intro x hx
      simp only [List.mem_append, List.mem_singleton] at hx
      rcases hx with hx | hx
      · exact hs x hx
      · rw [hx]
        exact hP i _ r hr

/-- The evaluation loop leaves genome, `born` and `ancestor` of every agent as they
were, in the order of the population. -/
theorem evaluateLoop_frame (C : Controller β) (maxNodes : Nat)
    (shuffles : Nat → List Nat → List Nat) (draws : Nat → List (ℚ × ℚ)) (w : GameSettings)
    (l : List (tAgent β)) (i : Nat) (s s2 : Evaluation β)
    (h : evaluateLoop C maxNodes shuffles draws w i l s = some s2) :
    s2.eddAgents.map (fun a => (a.genome, a.born, a.ancestor)) =
      s.eddAgents.map (fun a => (a.genome, a.born, a.ancestor)) ++
        l.map (fun a => (a.genome, a.born, a.ancestor)) := by
  induction l generalizing i s with
  | nil =>
    simp only [evaluateLoop, Option.some.injEq] at h
    rw [← h]
    simp
  | cons a rest ih =>
    unfold evaluateLoop at h
    cases hr : executeGame C maxNodes (shuffles i) (draws i) { a with fitness := 0 } false
        false w.gridSizeX w.gridSizeY w.zoomingCamera w.randomPlacement w.noise
        w.noiseAmount with
    | none => rw [hr] at h; simp at h
    | some r =>
      rw [hr] at h
      simp only [] at h
      have h1 := ih _ _ h
      have hg := executeGame_genome C maxNodes (shuffles i) (draws i) _ false false
        w.gridSizeX w.gridSizeY w.zoomingCamera w.randomPlacement w.noise w.noiseAmount r hr
      obtain ⟨hb, ha⟩ := executeGame_lineage C maxNodes (shuffles i) (draws i) _ false false
        w.gridSizeX w.gridSizeY w.zoomingCamera w.randomPlacement w.noise w.noiseAmount r hr
      simp only [List.map_append, List.map_cons, List.map_nil, List.append_assoc,
        List.singleton_append] at h1
      rw [h1, hg, hb, ha]
      rfl

theorem classificationFitnessAt_append (rs : List (tAgent β)) (r : tAgent β) (j : Nat) :
    classificationFitnessAt (rs ++ [r]) j =
      if j < rs.length then classificationFitnessAt rs j
      else if j = rs.length then r.classificationFitness else 0 := by
  unfold classificationFitnessAt
  by_cases h1 : j < rs.length
  · rw [if_pos h1, List.getElem?_append_left h1]
  · rw [if_neg h1]
    by_cases h2 : j = rs.length
    · subst h2
      simp
    · rw [if_neg h2]
      have h3 : (rs ++ [r]).length ≤ j := by
        rw [List.length_append, List.length_singleton]
        omega
      rw [List.getElem?_eq_none h3]

/-- The running maximum is kept by the evaluation loop. -/
theorem evaluateLoop_max (C : Controller β) (maxNodes : Nat)
    (shuffles : Nat → List Nat → List Nat) (draws : Nat → List (ℚ × ℚ)) (w : GameSettings)
    (l : List (tAgent β)) (i : Nat) (s s2 : Evaluation β)
    (hlen : s.eddAgents.length = i)
    (hinv : RunningMax s.eddAgents s.eddMaxFitness s.eddMaxIndex)
    (h : evaluateLoop C maxNodes shuffles draws w i l s = some s2) :
    s2.eddAgents.length = i + l.length ∧
      RunningMax s2.eddAgents s2.eddMaxFitness s2.eddMaxIndex := by
  induction l generalizing i s with
  | nil =>
    simp only [evaluateLoop, Option.some.injEq] at h
    rw [← h]
    exact ⟨by simpa using hlen, hinv⟩
  | cons a rest ih =>
    unfold evaluateLoop at h
    cases hr : executeGame C maxNodes (shuffles i) (draws i) { a with fitness := 0 } false
        false w.gridSizeX w.gridSizeY w.zoomingCamera w.randomPlacement w.noise
        w.noiseAmount with
    | none => rw [hr] at h; simp at h
    | some r =>
      rw [hr] at h
      simp only [] at h
      have hstep := ih (i + 1) _ (by simp [hlen]) ?_ h
      · refine ⟨?_, hstep.2⟩
        rw [hstep.1, List.length_cons]
        omega
      · obtain ⟨hle, hcase⟩ := hinv
        simp only []
        by_cases hgt : r.1.classificationFitness > s.eddMaxFitness
        · rw [if_pos hgt, if_pos hgt]
          refine ⟨?_, Or.inr ⟨by simp [hlen], ?_, ?_⟩⟩
          · intro j hj
            rw [classificationFitnessAt_append]
            by_cases h1 : j < s.eddAgents.length
            · rw [if_pos h1]
              exact le_of_lt (lt_of_le_of_lt (hle j h1) hgt)
            · have h2 : j = s.eddAgents.length := by
                rw [List.length_append, List.length_singleton] at hj
                omega
              rw [if_neg h1, if_pos h2]
          · rw [classificationFitnessAt_append, if_neg (by omega), if_pos hlen.symm]
          · intro j hj
            rw [classificationFitnessAt_append, if_pos (by omega)]
            exact lt_of_le_of_lt (hle j (by omega)) hgt
        · rw [if_neg hgt, if_neg hgt]
          refine ⟨?_, ?_⟩
          · intro j hj
            rw [classificationFitnessAt_append]
            by_cases h1 : j < s.eddAgents.length
            · rw [if_pos h1]
              exact hle j h1
            · have h2 : j = s.eddAgents.length := by
                rw [List.length_append, List.length_singleton] at hj
                omega
              rw [if_neg h1, if_pos h2]
              exact not_lt.mp hgt
          · rcases hcase with h0 | ⟨h1, h2, h3⟩
            · exact Or.inl h0
            · refine Or.inr ⟨by rw [List.length_append]; omega, ?_, ?_⟩
              · rw [classificationFitnessAt_append, if_pos h1]
                exact h2
              · intro j hj
                rw [classificationFitnessAt_append, if_pos (by omega)]
                exact h3 j hj

end TrackLemmas

section TrackClaims

variable {β : Type}

theorem evaluatePopulation_max (C : Controller β) (maxNodes : Nat)
    (shuffles : Nat → List Nat → List Nat) (draws : Nat → List (ℚ × ℚ)) (w : GameSettings)
    (N : Nat) (l : List (tAgent β)) (ev : Evaluation β)
    (h : evaluatePopulation C maxNodes shuffles draws w N l = some ev) :
    ev.eddAgents.length = l.length ∧
      RunningMax ev.eddAgents ev.eddMaxFitness ev.eddMaxIndex ∧
      ev.eddAgents.map (fun a => (a.genome, a.born, a.ancestor)) =
        l.map (fun a => (a.genome, a.born, a.ancestor)) := by
  unfold evaluatePopulation at h
  cases hl : evaluateLoop C maxNodes shuffles draws w 0 l
      { eddAgents := [], eddAvgFitness := 0, eddMaxFitness := 0, eddMaxIndex := 0 } with
  | none => rw [hl] at h; simp at h
  | some s =>
    rw [hl] at h
    simp only [Option.some.injEq] at h
    have hmax := evaluateLoop_max C maxNodes shuffles draws w l 0
      { eddAgents := [], eddAvgFitness := 0, eddMaxFitness := 0, eddMaxIndex := 0 } s rfl
      ⟨fun j hj => absurd hj (Nat.not_lt_zero j), Or.inl ⟨rfl, rfl⟩⟩ hl
    have hframe := evaluateLoop_frame C maxNodes shuffles draws w l 0 _ s hl
    rw [← h]
    refine ⟨by simpa using hmax.1, hmax.2, by simpa using hframe⟩

theorem evaluatePopulation_forall (C : Controller β) (maxNodes : Nat)
    (shuffles : Nat → List Nat → List Nat) (draws : Nat → List (ℚ × ℚ)) (w : GameSettings)
    (P : tAgent β → Prop)
    (hP : ∀ (i : Nat) (a : tAgent β) (r : tAgent β × Option (Nat × ℚ)),
      executeGame C maxNodes (shuffles i) (draws i) a false false w.gridSizeX w.gridSizeY
          w.zoomingCamera w.randomPlacement w.noise w.noiseAmount = some r → P r.1)
    (N : Nat) (l : List (tAgent β)) (ev : Evaluation β)
    (h : evaluatePopulation C maxNodes shuffles draws w N l = some ev) :
    ∀ a, a ∈ ev.eddAgents → P a := by
  unfold evaluatePopulation at h
  cases hl : evaluateLoop C maxNodes shuffles draws w 0 l
      { eddAgents := [], eddAvgFitness := 0, eddMaxFitness := 0, eddMaxIndex := 0 } with
  | none => rw [hl] at h; simp at h
  | some s =>
    rw [hl] at h
    simp only [Option.some.injEq] at h
    have := evaluateLoop_forall C maxNodes shuffles draws w P hP l 0 _ s
      (fun a ha => absurd ha (List.not_mem_nil a)) hl
    rw [← h]
    exact this

theorem classificationFitnessAt_of_get (rs : List (tAgent β)) (j : Nat) (hj : j < rs.length) :
    ∃ a, rs[j]? = some a ∧ a ∈ rs ∧ classificationFitnessAt rs j = a.classificationFitness := by
  refine ⟨rs[j], List.getElem?_eq_getElem hj, List.getElem_mem hj, ?_⟩
  unfold classificationFitnessAt
  rw [List.getElem?_eq_getElem hj]

/-- Claim C30.  In every generation, on a population of `N ≥ 1` agents (the trial order
of every evaluation being a permutation of the ten digits): after the evaluation loop
`eddMaxIndex` is the lowest index of a member whose `classificationFitness` is maximal
among all members (index 0 when every `classificationFitness` is 0), and the tracked
best is a new agent that inherits from that member with mutation rate 0 and
`born = update`, with its phenotype set up.  With centered placement the evaluation
completes. -/
theorem tracked_best_is_first_max (C : Controller β) (maxNodes : Nat)
    (shuffles : Nat → List Nat → List Nat) (draws : Nat → List (ℚ × ℚ)) (w : GameSettings)
    (mutateTracked : ℚ → List Nat → List Nat) (self : tAgent β) (update N : Nat)
    (eddAgents : List (tAgent β)) (bestEddAgent : Option (tAgent β))
    (hN : eddAgents.length = N) (hN1 : 1 ≤ N)
    (hperm : ∀ i, (shuffles i (List.range 10)).Perm (List.range 10)) :
    (w.randomPlacement = false →
        ∃ ev, evaluatePopulation C maxNodes shuffles draws w N eddAgents = some ev) ∧
      ∀ ev, evaluatePopulation C maxNodes shuffles draws w N eddAgents = some ev →
        ev.eddAgents.length = N ∧ ev.eddMaxIndex < N ∧
        (∀ j, j < N → classificationFitnessAt ev.eddAgents j ≤
          classificationFitnessAt ev.eddAgents ev.eddMaxIndex) ∧
        (∀ j, j < ev.eddMaxIndex → classificationFitnessAt ev.eddAgents j <
          classificationFitnessAt ev.eddAgents ev.eddMaxIndex) ∧
        ((∀ j, j < N → classificationFitnessAt ev.eddAgents j = 0) → ev.eddMaxIndex = 0) ∧
        ∃ parent b, ev.eddAgents[ev.eddMaxIndex]? = some parent ∧
          trackBest C mutateTracked self update ev bestEddAgent = some b ∧
          b = { inherit self mutateTracked parent 0 update with
                brain := C.setupPhenotype (mutateTracked 0 parent.genome) self.brain } ∧
          b.ancestor = some parent ∧ b.born = update ∧
          b.genome = mutateTracked 0 parent.genome := by
  refine ⟨fun hw => evaluatePopulation_centered C maxNodes shuffles draws w hw N eddAgents, ?_⟩
  intro ev hev
  obtain ⟨hlen, ⟨hle, hcase⟩, _⟩ := evaluatePopulation_max C maxNodes shuffles draws w N
    eddAgents ev hev
  rw [hN] at hlen
  have hnonneg : ∀ j, j < N → 0 ≤ classificationFitnessAt ev.eddAgents j := by
    intro j hj
    obtain ⟨a, _, hmem, hcf⟩ := classificationFitnessAt_of_get ev.eddAgents j (by omega)
    rw [hcf]
    exact evaluatePopulation_forall C maxNodes shuffles draws w
      (fun a => 0 ≤ a.classificationFitness)
      (fun i a r hr => executeGame_nonneg C maxNodes (shuffles i) (draws i) a false false
        w.gridSizeX w.gridSizeY w.zoomingCamera w.randomPlacement w.noise w.noiseAmount
        (hperm i) r hr) N eddAgents ev hev a hmem
  have hidx : ev.eddMaxIndex < N := by
    rcases hcase with ⟨_, h0⟩ | ⟨h1, _, _⟩
    · omega
    · omega
  obtain ⟨parent, hparent, _, _⟩ := classificationFitnessAt_of_get ev.eddAgents ev.eddMaxIndex
    (by omega)
  refine ⟨hlen, hidx, ?_, ?_, ?_, parent, _, hparent, ?_, rfl, rfl, rfl, rfl⟩
  · intro j hj
    rcases hcase with ⟨hm, h0⟩ | ⟨_, h2, _⟩
    · have h1 := hle j (by omega)
      have h2 := hnonneg 0 (by omega)
      rw [h0]
      rw [hm] at h1
      exact le_trans h1 h2
    · rw [h2]
      exact hle j (by omega)
  · intro j hj
    rcases hcase with ⟨_, h0⟩ | ⟨_, h2, h3⟩
    · omega
    · rw [h2]
      exact h3 j hj
  · intro hall
    rcases hcase with ⟨_, h0⟩ | ⟨h1, h2, h3⟩
    · exact h0
    · by_contra hne
      have hpos : 0 < ev.eddMaxIndex := Nat.pos_of_ne_zero hne
      have := h3 0 hpos
      rw [← h2, hall 0 (by omega), hall ev.eddMaxIndex hidx] at this
      exact lt_irrefl _ this
  · simp only [trackBest, hparent, inherit]

/-- Witness of C30: the two agents of `genePopulation` evaluated with `geneController`
on the 5x5 grid. -/
theorem tracked_best_is_first_max_witness :
    ∃ ev, evaluatePopulation geneController 64 (fun _ => id) (fun _ => []) geneWorld 2
        genePopulation = some ev ∧
      ev.eddAgents.length = 2 ∧ ev.eddMaxIndex < 2 ∧
      (∀ j, j < 2 → classificationFitnessAt ev.eddAgents j ≤
        classificationFitnessAt ev.eddAgents ev.eddMaxIndex) ∧
      (∀ j, j < ev.eddMaxIndex → classificationFitnessAt ev.eddAgents j <
        classificationFitnessAt ev.eddAgents ev.eddMaxIndex) ∧
      ((∀ j, j < 2 → classificationFitnessAt ev.eddAgents j = 0) → ev.eddMaxIndex = 0) ∧
      ∃ parent b, ev.eddAgents[ev.eddMaxIndex]? = some parent ∧
        trackBest geneController (fun _ genome => genome) (geneAgent []) 1 ev none =
          some b ∧
        b = { inherit (geneAgent []) (fun _ genome => genome) parent 0 1 with
              brain := geneController.setupPhenotype parent.genome (geneAgent []).brain } ∧
        b.ancestor = some parent ∧ b.born = 1 ∧ b.genome = parent.genome := by
  have h := tracked_best_is_first_max geneController 64 (fun _ => id) (fun _ => []) geneWorld
    (fun _ genome => genome) (geneAgent []) 1 2 genePopulation none rfl (by decide)
    (fun _ => List.Perm.refl _)
  obtain ⟨ev, hev⟩ := h.1 rfl
  exact ⟨ev, hev, h.2 ev hev⟩

theorem trackBest_of_index (C : Controller β) (mutateTracked : ℚ → List Nat → List Nat)
    (self : tAgent β) (update : Nat) (ev : Evaluation β) (bestEddAgent : Option (tAgent β))
    (parent : tAgent β) (h : ev.eddAgents[ev.eddMaxIndex]? = some parent) :
    trackBest C mutateTracked self update ev bestEddAgent =
      some { inherit self mutateTracked parent 0 update with
        brain := C.setupPhenotype (mutateTracked 0 parent.genome) self.brain } := by
  simp only [trackBest, h, inherit]

/-- Counterexample to C25 as stated.  Two agents driven by `geneController`, pure
elitism with count 1.  Generation 1 is evaluated and its tracked best `b1` is made;
after the selection step generation 2 is evaluated and its tracked best `b2` is made
while `bestEddAgent` holds `b1`.  The ancestor of `b2` is the member
`eddAgents[eddMaxIndex]` of generation 2, an evaluated agent of fitness `1/10`; it is
not `b1`, a clone that was never evaluated (fitness 0). -/
theorem tracked_best_ancestor_counterexample :
    ∃ ev1 b1 next ev2 b2 parent,
      evaluatePopulation geneController 64 (fun _ => id) (fun _ => []) geneWorld 2
          genePopulation = some ev1 ∧
        trackBest geneController (fun _ genome => genome) (geneAgent []) 1 ev1 none =
          some b1 ∧
        selectionStep lossyOutcomes (geneAgent []) pureEliteSettings 1 ev1.eddAgents =
          some next ∧
        evaluatePopulation geneController 64 (fun _ => id) (fun _ => []) geneWorld 2 next =
          some ev2 ∧
        trackBest geneController (fun _ genome => genome) (geneAgent []) 2 ev2 (some b1) =
          some b2 ∧
        ev2.eddAgents[ev2.eddMaxIndex]? = some parent ∧ b2.ancestor = some parent ∧
        parent.fitness = 1 / 10 ∧ b1.fitness = 0 ∧ b2.ancestor ≠ some b1 := by
  have hdet : ∀ (i : Nat) (a : tAgent (List Nat)) (r : tAgent (List Nat) × Option (Nat × ℚ)),
      executeGame geneController 64 ((fun _ => id) i) ((fun _ => []) i) a false false
          geneWorld.gridSizeX geneWorld.gridSizeY geneWorld.zoomingCamera
          geneWorld.randomPlacement geneWorld.noise geneWorld.noiseAmount = some r →
        r.1.fitness = geneFitness a.genome := fun _ a r h => gene_executeGame [] a r h
  obtain ⟨ev1, h1⟩ := evaluatePopulation_centered geneController 64 (fun _ => id)
    (fun _ => []) geneWorld rfl 2 genePopulation
  obtain ⟨hf1, hg1⟩ := evaluatePopulation_fitness geneController 64 (fun _ => id)
    (fun _ => []) geneWorld geneFitness hdet 2 genePopulation ev1 h1
  have hf1b : ev1.eddAgents.map (fun a => a.fitness) = [1 / 10, 1 / 1000000] := by
    rw [hf1]
    simp [genePopulation, geneAgent, geneFitness]
  obtain ⟨a, b, hab, hfa, hfb⟩ := two_members _ _ _ hf1b
  have hga : a.genome = [1] := by
    rw [hab] at hg1
    simp only [genePopulation, geneAgent, List.map_cons, List.map_nil, List.cons.injEq,
      and_true] at hg1
    exact hg1.1
  obtain ⟨hlen1, ⟨_, hcase1⟩, _⟩ := evaluatePopulation_max geneController 64 (fun _ => id)
    (fun _ => []) geneWorld 2 genePopulation ev1 h1
  have hidx1 : ev1.eddMaxIndex < ev1.eddAgents.length := by
    rcases hcase1 with ⟨_, h0⟩ | ⟨h, _, _⟩
    · rw [h0, hlen1]
      decide
    · exact h
  obtain ⟨p1, hp1, _, _⟩ := classificationFitnessAt_of_get ev1.eddAgents ev1.eddMaxIndex hidx1
  have hb1 := trackBest_of_index geneController (fun _ genome => genome) (geneAgent []) 1 ev1
    none p1 hp1
  have hstep := pure_step_of_two a b (by rw [hfa, hfb]; norm_num)
  obtain ⟨ev2, h2⟩ := evaluatePopulation_centered geneController 64 (fun _ => id)
    (fun _ => []) geneWorld rfl 2
    [inherit (geneAgent []) (lossyOutcomes.mutate 0) a 0 1,
      inherit (geneAgent []) (lossyOutcomes.mutate 1) a 0 1]
  obtain ⟨hf2, _⟩ := evaluatePopulation_fitness geneController 64 (fun _ => id)
    (fun _ => []) geneWorld geneFitness hdet 2 _ ev2 h2
  have hf2b : ev2.eddAgents.map (fun a => a.fitness) = [1 / 10, 1 / 10] := by
    rw [hf2]
    simp [inherit, lossyOutcomes, geneFitness, hga]
  obtain ⟨hlen2, ⟨_, hcase2⟩, _⟩ := evaluatePopulation_max geneController 64 (fun _ => id)
    (fun _ => []) geneWorld 2 _ ev2 h2
  have hidx2 : ev2.eddMaxIndex < ev2.eddAgents.length := by
    rcases hcase2 with ⟨_, h0⟩ | ⟨h, _, _⟩
    · rw [h0, hlen2]
      exact Nat.succ_pos _
    · exact h
  obtain ⟨p2, hp2, hmem2, _⟩ := classificationFitnessAt_of_get ev2.eddAgents ev2.eddMaxIndex
    hidx2
  have hb2 := trackBest_of_index geneController (fun _ genome => genome) (geneAgent []) 2 ev2
    (some { inherit (geneAgent []) (fun _ genome => genome) p1 0 1 with
      brain := geneController.setupPhenotype p1.genome (geneAgent []).brain }) p2 hp2
  have hfit2 : p2.fitness = 1 / 10 := by
    have hin : p2.fitness ∈ ev2.eddAgents.map (fun a => a.fitness) :=
      List.mem_map.mpr ⟨p2, hmem2, rfl⟩
    rw [hf2b] at hin
    simp only [List.mem_cons, List.mem_singleton, List.not_mem_nil, or_false, or_self] at hin
    exact hin
  refine ⟨ev1, _, _, ev2, _, p2, h1, hb1, ?_, h2, hb2, hp2, rfl, hfit2, rfl, ?_⟩
  · rw [hab]
    exact hstep
  · intro hcon
    have heq : p2.fitness = (0 : ℚ) := by
      have := congrArg (fun x => x.map (fun a => a.fitness)) hcon
      simp only [Option.map_some', Option.some.injEq] at this
      exact Option.some.inj this
    rw [hfit2] at heq
    norm_num at heq

/-- Claim C25 (amended).  In every generation the ancestor of the newly tracked
best-of-generation clone is the population member it is cloned from, that is
`eddAgents[eddMaxIndex]` of that generation after its evaluation, and its `born` is the
generation index; that member is the evaluated form of the member at the same index of
the population before the evaluation (same genome, `born` and `ancestor`), so the
lineage chain continues through the population members.  The previous tracked-best
clone has no influence on the new one. -/
theorem tracked_best_descends_from_member (C : Controller β) (maxNodes : Nat)
    (shuffles : Nat → List Nat → List Nat) (draws : Nat → List (ℚ × ℚ)) (w : GameSettings)
    (mutateTracked : ℚ → List Nat → List Nat) (self : tAgent β) (update N : Nat)
    (eddAgents : List (tAgent β)) (bestEddAgent : Option (tAgent β)) (ev : Evaluation β)
    (b : tAgent β)
    (hev : evaluatePopulation C maxNodes shuffles draws w N eddAgents = some ev)
    (hb : trackBest C mutateTracked self update ev bestEddAgent = some b) :
    ∃ parent member, ev.eddAgents[ev.eddMaxIndex]? = some parent ∧
      eddAgents[ev.eddMaxIndex]? = some member ∧
      b.ancestor = some parent ∧ b.born = update ∧
      parent.genome = member.genome ∧ parent.born = member.born ∧
      parent.ancestor = member.ancestor ∧
      ∀ previous : Option (tAgent β),
        trackBest C mutateTracked self update ev previous = some b := by
  cases hp : ev.eddAgents[ev.eddMaxIndex]? with
  | none => simp [trackBest, hp] at hb
  | some parent =>
    have hb2 := trackBest_of_index C mutateTracked self update ev bestEddAgent parent hp
    rw [hb2, Option.some.injEq] at hb
    obtain ⟨_, _, hframe⟩ := evaluatePopulation_max C maxNodes shuffles draws w N eddAgents ev
      hev
    have hget := congrArg (fun l => l[ev.eddMaxIndex]?) hframe
    simp only [List.getElem?_map, hp, Option.map_some'] at hget
    cases hm : eddAgents[ev.eddMaxIndex]? with
    | none =>
      rw [hm] at hget
      simp at hget
    | some member =>
      rw [hm] at hget
      simp only [Option.map_some', Option.some.injEq, Prod.mk.injEq] at hget
      refine ⟨parent, member, rfl, rfl, ?_, ?_, hget.1, hget.2.1, hget.2.2, ?_⟩
      · rw [← hb]
        rfl
      · rw [← hb]
        rfl
      · intro previous
        rw [trackBest_of_index C mutateTracked self update ev previous parent hp, hb]

/-- Witness of C25 (amended): the first generation of `genePopulation` with
`geneController`. -/
theorem tracked_best_descends_from_member_witness :
    ∃ ev b, evaluatePopulation geneController 64 (fun _ => id) (fun _ => []) geneWorld 2
        genePopulation = some ev ∧
      trackBest geneController (fun _ genome => genome) (geneAgent []) 1 ev
        (some (geneAgent [7])) = some b ∧
      ∃ parent member, ev.eddAgents[ev.eddMaxIndex]? = some parent ∧
        genePopulation[ev.eddMaxIndex]? = some member ∧
        b.ancestor = some parent ∧ b.born = 1 ∧
        parent.genome = member.genome ∧ parent.born = member.born ∧
        parent.ancestor = member.ancestor ∧
        ∀ previous : Option (tAgent (List Nat)),
          trackBest geneController (fun _ genome => genome) (geneAgent []) 1 ev previous =
            some b := by
  obtain ⟨ev, hev⟩ := evaluatePopulation_centered geneController 64 (fun _ => id)
    (fun _ => []) geneWorld rfl 2 genePopulation
  obtain ⟨hlen, ⟨_, hcase⟩, _⟩ := evaluatePopulation_max geneController 64 (fun _ => id)
    (fun _ => []) geneWorld 2 genePopulation ev hev
  have hidx : ev.eddMaxIndex < ev.eddAgents.length := by
    rcases hcase with ⟨_, h0⟩ | ⟨h, _, _⟩
    · rw [h0, hlen]
      decide
    · exact h
  obtain ⟨p, hp, _, _⟩ := classificationFitnessAt_of_get ev.eddAgents ev.eddMaxIndex hidx
  have hb := trackBest_of_index geneController (fun _ genome => genome) (geneAgent []) 1 ev
    (some (geneAgent [7])) p hp
  exact ⟨ev, _, hev, hb,
    tracked_best_descends_from_member geneController 64 (fun _ => id) (fun _ => []) geneWorld
      (fun _ genome => genome) (geneAgent []) 1 2 genePopulation (some (geneAgent [7])) ev _
      hev hb⟩

end TrackClaims

/-! ## The line of descent and the fitness log -/

section LineageClaims

variable {β : Type}

theorem lodLoop_none (acc : List (tAgent β)) : lodLoop none acc = acc := by
  rw [lodLoop]

theorem lodLoop_some (a : tAgent β) (acc : List (tAgent β)) :
    lodLoop (some a) acc =
      lodLoop a.ancestor (if a.ancestor.isSome then a :: acc else acc) := by
  rw [lodLoop]

theorem ancestorChain_none : ancestorChain (none : Option (tAgent β)) = [] := by
  rw [ancestorChain]

theorem ancestorChain_some (a : tAgent β) :
    ancestorChain (some a) = a :: ancestorChain a.ancestor := by
  rw [ancestorChain]

/-- The loop over the ancestor links puts in front of `saveLOD` the agents of the walk
that have an ancestor, the oldest first. -/
theorem lodLoop_eq (cur : Option (tAgent β)) (acc : List (tAgent β)) :
    lodLoop cur acc =
      ((ancestorChain cur).filter (fun a => a.ancestor.isSome)).reverse ++ acc := by
  induction cur, acc using lodLoop.induct with
  | case1 acc => rw [lodLoop_none, ancestorChain_none]; rfl
  | case2 a acc ih =>
    simp only [dite_eq_ite] at ih
    rw [lodLoop_some, ih, ancestorChain_some]
    by_cases h : a.ancestor.isSome = true
    · simp [h, List.filter_cons]
    · simp [h, List.filter_cons]

/-- In the walk through the ancestor links only the last agent has no ancestor. -/
theorem ancestorChain_filter (cur : Option (tAgent β)) :
    (ancestorChain cur).filter (fun a => a.ancestor.isSome) = (ancestorChain cur).dropLast := by
  induction cur using ancestorChain.induct with
  | case1 => rw [ancestorChain_none]; rfl
  | case2 a ih =>
    rw [ancestorChain_some]
    cases hanc : a.ancestor with
    | none =>
      rw [ancestorChain_none]
      simp [List.filter_cons, hanc]
    | some p =>
      rw [hanc] at ih
      rw [ancestorChain_some] at ih ⊢
      rw [List.dropLast_cons₂, ← ih]
      simp [List.filter_cons, hanc]

theorem ancestorChain_links (cur : Option (tAgent β)) :
    List.Chain' (fun a p => a.ancestor = some p) (ancestorChain cur) ∧
      ∀ a, (ancestorChain cur).getLast? = some a → a.ancestor = none := by
  induction cur using ancestorChain.induct with
  | case1 =>
    rw [ancestorChain_none]
    exact ⟨List.chain'_nil, fun a h => by simp at h⟩
  | case2 a ih =>
    rw [ancestorChain_some]
    cases hanc : a.ancestor with
    | none =>
      rw [ancestorChain_none]
      refine ⟨List.chain'_singleton a, ?_⟩
      intro x hx
      simp only [List.getLast?_singleton, Option.some.injEq] at hx
      rw [← hx]
      exact hanc
    | some p =>
      rw [hanc] at ih
      rw [ancestorChain_some] at ih ⊢
      refine ⟨List.Chain'.cons hanc ih.1, ?_⟩
      intro x hx
      rw [List.getLast?_cons_cons] at hx
      exact ih.2 x hx

/-- The lines written by the calls of `executeGame` on the elements of `saveLOD`. -/
theorem writeLODLines_spec (C : Controller β) (maxNodes : Nat)
    (shuffles : Nat → List Nat → List Nat) (draws : Nat → List (ℚ × ℚ)) (w : GameSettings)
    (l : List (tAgent β)) (i : Nat) (lines : List (Nat × ℚ))
    (h : writeLODLines C maxNodes shuffles draws w i l = some lines) :
    lines.length = l.length ∧
      ∀ k a, l[k]? = some a →
        ∃ r, executeGame C maxNodes (shuffles (i + k)) (draws (i + k)) a true false
            w.gridSizeX w.gridSizeY w.zoomingCamera w.randomPlacement w.noise
            w.noiseAmount = some r ∧
          lines[k]? = some (a.born, r.1.fitness) := by
  induction l generalizing i lines with
  | nil =>
    simp only [writeLODLines, Option.some.injEq] at h
    rw [← h]
    exact ⟨rfl, fun k a hk => by simp at hk⟩
  | cons a rest ih =>
    unfold writeLODLines at h
    cases hr : executeGame C maxNodes (shuffles i) (draws i) a true false w.gridSizeX
        w.gridSizeY w.zoomingCamera w.randomPlacement w.noise w.noiseAmount with
    | none => rw [hr] at h; simp at h
    | some r =>
      rw [hr] at h
      simp only [] at h
      cases hrest : writeLODLines C maxNodes shuffles draws w (i + 1) rest with
      | none => rw [hrest] at h; simp at h
      | some lines2 =>
        rw [hrest] at h
        simp only [Option.some.injEq] at h
        have hline := executeGame_line C maxNodes (shuffles i) (draws i) a false w.gridSizeX
          w.gridSizeY w.zoomingCamera w.randomPlacement w.noise w.noiseAmount r hr
        rw [hline] at h
        simp only [Option.toList_some, List.singleton_append] at h
        obtain ⟨hlen, hget⟩ := ih (i + 1) lines2 hrest
        rw [← h]
        refine ⟨by simp [hlen], ?_⟩
        intro k x hk
        cases k with
        | zero =>
          simp only [List.getElem?_cons_zero, Option.some.injEq] at hk
          rw [← hk]
          exact ⟨r, hr, by simp⟩
        | succ k =>
          simp only [List.getElem?_cons_succ] at hk
          obtain ⟨r2, hr2, hl2⟩ := hget k x hk
          refine ⟨r2, ?_, ?_⟩
          · rw [show i + (k + 1) = i + 1 + k by omega]
            exact hr2
          · simp only [List.getElem?_cons_succ]
            exact hl2

theorem writeLODLines_centered (C : Controller β) (maxNodes : Nat)
    (shuffles : Nat → List Nat → List Nat) (draws : Nat → List (ℚ × ℚ)) (w : GameSettings)
    (hw : w.randomPlacement = false) (l : List (tAgent β)) (i : Nat) :
    ∃ lines, writeLODLines C maxNodes shuffles draws w i l = some lines := by
  induction l generalizing i with
  | nil => exact ⟨[], rfl⟩
  | cons a rest ih =>
    unfold writeLODLines
    have hc := executeGame_centered C maxNodes (shuffles i) (draws i) a true false
      w.gridSizeX w.gridSizeY w.zoomingCamera w.noise w.noiseAmount
    obtain ⟨r, hr⟩ := Option.isSome_iff_exists.mp hc
    obtain ⟨lines, hl⟩ := ih (i + 1)
    rw [hw, hr, hl]
    exact ⟨_, rfl⟩

/-- Claim C26.  The vector `saveLOD` is the walk from the final tracked best through the
ancestor links without the root agent (the agent that has no ancestor), reversed: the
oldest agent first.  The walk starts at the tracked best, each agent is followed by its
ancestor, and only its last agent has no ancestor.  The file holds the header
`generation,fitness` and then one line per agent of `saveLOD`, in order: the agent's
`born` and the fitness that the call of `executeGame` for that agent computes.  With
centered placement the file is written to its end. -/
theorem fitness_log_is_lineage (C : Controller β) (maxNodes : Nat)
    (shuffles : Nat → List Nat → List Nat) (draws : Nat → List (ℚ × ℚ)) (w : GameSettings)
    (bestEddAgent : tAgent β) :
    saveLOD bestEddAgent =
        ((ancestorChain (some bestEddAgent)).filter (fun a => a.ancestor.isSome)).reverse ∧
      saveLOD bestEddAgent = (ancestorChain (some bestEddAgent)).dropLast.reverse ∧
      (ancestorChain (some bestEddAgent)).head? = some bestEddAgent ∧
      List.Chain' (fun a p => a.ancestor = some p) (ancestorChain (some bestEddAgent)) ∧
      (∀ a, (ancestorChain (some bestEddAgent)).getLast? = some a → a.ancestor = none) ∧
      (w.randomPlacement = false →
        ∃ f, writeLOD C maxNodes shuffles draws w bestEddAgent = some f) ∧
      ∀ f, writeLOD C maxNodes shuffles draws w bestEddAgent = some f →
        f.1 = "generation,fitness" ∧ f.2.length = (saveLOD bestEddAgent).length ∧
        ∀ k a, (saveLOD bestEddAgent)[k]? = some a →
          ∃ r, executeGame C maxNodes (shuffles k) (draws k) a true false
              w.gridSizeX w.gridSizeY w.zoomingCamera w.randomPlacement w.noise
              w.noiseAmount = some r ∧
            f.2[k]? = some (a.born, r.1.fitness) := by
  have h1 : saveLOD bestEddAgent =
      ((ancestorChain (some bestEddAgent)).filter (fun a => a.ancestor.isSome)).reverse := by
    unfold saveLOD
    rw [lodLoop_eq, List.append_nil]
  refine ⟨h1, ?_, ?_, (ancestorChain_links (some bestEddAgent)).1,
    (ancestorChain_links (some bestEddAgent)).2, ?_, ?_⟩
  · rw [h1, ancestorChain_filter]
  · rw [ancestorChain_some]
    rfl
  · intro hw
    obtain ⟨lines, hl⟩ := writeLODLines_centered C maxNodes shuffles draws w hw
      (saveLOD bestEddAgent) 0
    exact ⟨("generation,fitness", lines), by simp only [writeLOD, hl]⟩
  · intro f hf
    unfold writeLOD at hf
    cases hl : writeLODLines C maxNodes shuffles draws w 0 (saveLOD bestEddAgent) with
    | none => rw [hl] at hf; simp at hf
    | some lines =>
      rw [hl] at hf
      simp only [Option.some.injEq] at hf
      obtain ⟨hlen, hget⟩ := writeLODLines_spec C maxNodes shuffles draws w _ 0 lines hl
      rw [← hf]
      refine ⟨rfl, hlen, ?_⟩
      intro k a hk
      obtain ⟨r, hr, hline⟩ := hget k a hk
      rw [Nat.zero_add] at hr
      exact ⟨r, hr, hline⟩

/-- Witness of C26: the line of descent `lineageTip`, `lineageMiddle`, `lineageRoot`
(born 2, 1, 0): `saveLOD` holds the agents born in generations 1 and 2, in that order,
and the file is written with two lines. -/
theorem fitness_log_is_lineage_witness :
    (saveLOD lineageTip).map (fun a => a.born) = [1, 2] ∧
      (ancestorChain (some lineageTip)).map (fun a => a.born) = [2, 1, 0] ∧
      ∃ f, writeLOD geneController 64 (fun _ => id) (fun _ => []) geneWorld lineageTip =
          some f ∧
        f.1 = "generation,fitness" ∧ f.2.length = (saveLOD lineageTip).length := by
  have h := fitness_log_is_lineage geneController 64 (fun _ => id) (fun _ => []) geneWorld
    lineageTip
  have hchain : ancestorChain (some lineageTip) = [lineageTip, lineageMiddle, lineageRoot] := by
    rw [ancestorChain_some]
    have e1 : lineageTip.ancestor = some lineageMiddle := rfl
    rw [e1, ancestorChain_some]
    have e2 : lineageMiddle.ancestor = some lineageRoot := rfl
    rw [e2, ancestorChain_some]
    have e3 : lineageRoot.ancestor = none := rfl
    rw [e3, ancestorChain_none]
  obtain ⟨f, hf⟩ := h.2.2.2.2.2.1 rfl
  refine ⟨?_, ?_, f, hf, (h.2.2.2.2.2.2 f hf).1, (h.2.2.2.2.2.2 f hf).2.1⟩
  · rw [h.2.1, hchain]
    rfl
  · rw [hchain]
    rfl

end LineageClaims

/-! ## Claims about rank selection -/

section RankClaims

variable {β : Type}

/-- C31: when rank selection is configured (the option `-rs` has set `rank_selection` and
cleared `tournament`, and no other selection mode is set), the selection step is inert:
no branch of the chain runs and the population after the step is the population before
it, member for member and in the same order, whatever the library outcomes are. -/
theorem rank_selection_is_inert (o : Outcomes β) (self : tAgent β) (cfg : Settings)
    (update : Nat) (eddAgents : List (tAgent β))
    (hrl : cfg.roulette = false) (htp : cfg.top_percent = false)
    (hpe : cfg.pure_elitism = false) :
    (rankSelectionOption cfg).rank_selection = true ∧
      (rankSelectionOption cfg).tournament = false ∧
      selectionStep o self (rankSelectionOption cfg) update eddAgents = some eddAgents ∧
      ∀ next, selectionStep o self (rankSelectionOption cfg) update eddAgents = some next →
        next.length = eddAgents.length ∧ ∀ i : Nat, next[i]? = eddAgents[i]? := by
  have h : selectionStep o self (rankSelectionOption cfg) update eddAgents =
      some eddAgents := by
    simp [selectionStep, rankSelectionOption, hrl, htp, hpe]
  refine ⟨rfl, rfl, h, ?_⟩
  intro next hn
  rw [h] at hn
  cases hn
  exact ⟨rfl, fun _ => rfl⟩

/-- C31 at the default globals with the option `-rs`, on the sample population and its
outcomes. -/
theorem rank_selection_is_inert_witness :
    (defaultSettings 4).roulette = false ∧ (defaultSettings 4).top_percent = false ∧
      (defaultSettings 4).pure_elitism = false ∧
      selectionStep sampleOutcomes sampleAgent (rankSelectionOption (defaultSettings 4)) 1
        samplePopulation = some samplePopulation :=
  ⟨rfl, rfl, rfl,
    (rank_selection_is_inert sampleOutcomes sampleAgent (defaultSettings 4) 1
      samplePopulation rfl rfl rfl).2.2.1⟩

end RankClaims

/-! ## Claims about the zoom bits -/

section ZoomClaims

variable {β : Type}

/-- C40: with zooming enabled and `gridSizeX ≥ 5`, a step in which the controller sets
both the zoom-in and the zoom-out bit leaves the camera size unchanged when the size is
at least 3 (and within the bound `min(gridSizeX, 9)` that every size of a trial
respects), but changes a size of 1 to 3; at every step of a trial the size after such a
step is therefore 3 when it was 1 and unchanged otherwise. -/
theorem both_zoom_bits_set (gridSizeX maxNodes : Nat) (hg : 5 ≤ gridSizeX) :
    (∀ (states : Nat → Nat) (cam : Camera),
        states (maxNodes - 5) % 2 = 1 → states (maxNodes - 6) % 2 = 1 →
        (3 ≤ cam.cameraSize → cam.cameraSize ≤ min gridSizeX 9 →
          (moveCamera true gridSizeX maxNodes states cam).cameraSize = cam.cameraSize) ∧
        (cam.cameraSize = 1 →
          (moveCamera true gridSizeX maxNodes states cam).cameraSize = 3)) ∧
      ∀ (C : Controller β) (g : DigitGrid) (agent : tAgent β) (digit n : Nat),
        g.sizeX = gridSizeX →
        (stateAfterSteps C maxNodes g true agent digit (n + 1)).states (maxNodes - 5) % 2
          = 1 →
        (stateAfterSteps C maxNodes g true agent digit (n + 1)).states (maxNodes - 6) % 2
          = 1 →
        (stateAfterSteps C maxNodes g true agent digit (n + 1)).camera.cameraSize =
          if (stateAfterSteps C maxNodes g true agent digit n).camera.cameraSize = 1 then 3
          else (stateAfterSteps C maxNodes g true agent digit n).camera.cameraSize := by
  have key : ∀ (states : Nat → Nat) (cam : Camera),
      states (maxNodes - 5) % 2 = 1 → states (maxNodes - 6) % 2 = 1 →
      (3 ≤ cam.cameraSize → cam.cameraSize ≤ min gridSizeX 9 →
        (moveCamera true gridSizeX maxNodes states cam).cameraSize = cam.cameraSize) ∧
      (cam.cameraSize = 1 →
        (moveCamera true gridSizeX maxNodes states cam).cameraSize = 3) := by
    intro states cam hin hout
    constructor
    · intro h3 hle
      have hle2 := le_min_iff.mp hle
      simp only [moveCamera, hin, hout]
      have h1 : cam.cameraSize > 1 := by omega
      simp only [true_and, ne_eq, one_ne_zero, not_false_eq_true, h1, if_true]
      have h2 : cam.cameraSize - 2 + 2 ≤ gridSizeX ∧ cam.cameraSize - 2 + 2 ≤ 9 := by
        omega
      rw [if_pos h2]
      omega
    · intro h1
      simp only [moveCamera, hin, hout, h1]
      simp only [true_and, ne_eq, one_ne_zero, not_false_eq_true, gt_iff_lt, lt_self_iff_false,
        if_false, and_false]
      have h2 : 3 ≤ gridSizeX := by omega
      simp [h2]
  refine ⟨key, ?_⟩
  intro C g agent digit n hgx hin hout
  have hsz := stateAfterSteps_size C maxNodes g true agent digit (by omega) n
  rw [stateAfterSteps_succ, simulationStep_eq] at hin hout ⊢
  simp only at hin hout ⊢
  rw [hgx] at hsz ⊢
  obtain ⟨k1, k2⟩ := key _ (stateAfterSteps C maxNodes g true agent digit n).camera hin hout
  by_cases h1 : (stateAfterSteps C maxNodes g true agent digit n).camera.cameraSize = 1
  · rw [if_pos h1]
    exact k2 h1
  · rw [if_neg h1]
    exact k1 (by omega) hsz.2.2

/-- C40 on a grid 7 wide with every motor bit set: from size 1 the camera grows to 3,
from size 5 it stays at 5. -/
theorem both_zoom_bits_set_witness :
    5 ≤ 7 ∧
      (moveCamera true 7 128 (fun _ => 1)
        { cameraX := 3, cameraY := 2, cameraSize := 1 }).cameraSize = 3 ∧
      (moveCamera true 7 128 (fun _ => 1)
        { cameraX := 3, cameraY := 2, cameraSize := 5 }).cameraSize = 5 :=
  ⟨by decide,
    ((@both_zoom_bits_set Unit 7 128 (by decide)).1 (fun _ => 1)
      { cameraX := 3, cameraY := 2, cameraSize := 1 } rfl rfl).2 rfl,
    ((@both_zoom_bits_set Unit 7 128 (by decide)).1 (fun _ => 1)
      { cameraX := 3, cameraY := 2, cameraSize := 5 } rfl rfl).1 (by decide) (by decide)⟩

end ZoomClaims

/-! ## Claims about the parent index of top-percent selection -/

section TopPercentIndexClaims

variable {β : Type}

end TopPercentIndexClaims

/-! ## Claims about the roulette wheel of one group -/

section RouletteWheelClaims

/-- The sums of the first members of a group with positive fitness grow with the number
of members. -/
theorem leading_sum_mono (f : Nat → ℚ) (i size : Nat) (hpos : ∀ j, j < size → 0 < f (i + j))
    (a b : Nat) (hab : a ≤ b) (hb : b ≤ size) :
    ∑ t in Finset.range a, f (i + t) ≤ ∑ t in Finset.range b, f (i + t) := by
  apply Finset.sum_le_sum_of_subset_of_nonneg
  · intro x hx
    rw [Finset.mem_range] at hx ⊢
    omega
  · intro x hx _
    rw [Finset.mem_range] at hx
    exact le_of_lt (hpos x (by omega))

/-- C37: in roulette selection, for a group of `size` members starting at `i` whose
fitness values are all positive and every cut-off `c` with `0 ≤ c < sum of the group's
fitness`, the scan chooses exactly one winner `w` and assigns every slot of the group to
it; member `j` of the group is the winner exactly when `S(j-1) ≤ c < S(j)`, where `S(j)`
is the sum of the fitness of the members `0..j` of the group and `S(-1) = 0`.  The wheel
run with a draw `r` whose cut-off `r * total_fit` is `c` returns that assignment. -/
theorem roulette_positive_group_one_winner (f : Nat → ℚ) (c : ℚ) (i size : Nat)
    (nx : NextGen) (hpos : ∀ j, j < size → 0 < f (i + j)) (hc0 : 0 ≤ c)
    (hc1 : c < ∑ t in Finset.range size, f (i + t)) :
    ∃ w, w < size ∧
      (∀ j, j < size →
        (j = w ↔ (∑ t in Finset.range j, f (i + t) ≤ c ∧ c < runningSum f i j))) ∧
      ((List.range size).foldl (rouletteScanStep f c i size)
          { chosen := false, fit_count := 0, EANextGen := nx }).chosen = true ∧
      (∀ k, i ≤ k → k < i + size →
        ((List.range size).foldl (rouletteScanStep f c i size)
          { chosen := false, fit_count := 0, EANextGen := nx }).EANextGen k =
            some (i + w)) ∧
      (∀ k, ¬ (i ≤ k ∧ k < i + size) →
        ((List.range size).foldl (rouletteScanStep f c i size)
          { chosen := false, fit_count := 0, EANextGen := nx }).EANextGen k = nx k) ∧
      ∀ r, r * totalFit f i size = c →
        rouletteWheel f r i size nx = assignGroup nx i size (i + w) := by
  have hsize : 0 < size := by
    rcases Nat.eq_zero_or_pos size with h | h
    · subst h
      simp only [Finset.range_zero, Finset.sum_empty] at hc1
      exact absurd hc1 (not_lt.mpr hc0)
    · exact h
  rcases first_exceeding_cases f c i size with ⟨w, hw, hgt, hfirst⟩ | hall
  · obtain ⟨hch, hnx⟩ := (rouletteScan_spec f c i size nx size).2 w hw hgt hfirst
    refine ⟨w, hw, ?_, hch, ?_, ?_, ?_⟩
    · intro j hj
      constructor
      · intro hjw
        subst hjw
        refine ⟨?_, hgt⟩
        rcases Nat.eq_zero_or_pos j with h0 | h0
        · subst h0
          simpa using hc0
        · have := hfirst (j - 1) (by omega)
          unfold runningSum at this
          rw [Nat.sub_add_cancel h0] at this
          exact this
      · rintro ⟨hlo, hhi⟩
        rcases Nat.lt_trichotomy j w with h | h | h
        · exact absurd hhi (not_lt.mpr (hfirst j h))
        · exact h
        · exfalso
          have hm := leading_sum_mono f i size hpos (w + 1) j (by omega) (by omega)
          unfold runningSum at hgt
          linarith
    · intro k hk1 hk2
      rw [hnx, assignGroup_apply, if_pos ⟨hk1, hk2⟩]
    · intro k hk
      rw [hnx, assignGroup_apply, if_neg hk]
    · intro r hr
      unfold rouletteWheel
      simp only [hr]
      exact hnx
  · exfalso
    have := hall (size - 1) (by omega)
    unfold runningSum at this
    rw [Nat.sub_add_cancel hsize] at this
    linarith

/-- C37 on a group with fitness 1, 3, 2 and cut-off 3: the running sums are 1, 4, 6, the
member 1 wins and every slot of the group is assigned to it. -/
theorem roulette_positive_group_one_winner_witness :
    (∀ j, j < 3 → (0 : ℚ) < (fun k => if k = 5 then 1 else if k = 6 then 3 else 2) (5 + j)) ∧
      (0 : ℚ) ≤ 3 ∧
      (3 : ℚ) < ∑ t in Finset.range 3,
        (fun k => if k = 5 then (1 : ℚ) else if k = 6 then 3 else 2) (5 + t) ∧
      ∀ k, 5 ≤ k → k < 5 + 3 →
        ((List.range 3).foldl
          (rouletteScanStep (fun k => if k = 5 then 1 else if k = 6 then 3 else 2) 3 5 3)
          { chosen := false, fit_count := 0, EANextGen := fun _ => none }).EANextGen k =
            some (5 + 1) := by
  have hpos : ∀ j, j < 3 →
      (0 : ℚ) < (fun k => if k = 5 then 1 else if k = 6 then 3 else 2) (5 + j) := by
    intro j hj
    interval_cases j <;> norm_num
  have hsum : (3 : ℚ) < ∑ t in Finset.range 3,
      (fun k => if k = 5 then (1 : ℚ) else if k = 6 then 3 else 2) (5 + t) := by
    norm_num [Finset.sum_range_succ]
  obtain ⟨w, _, hiff, _, h, _⟩ := roulette_positive_group_one_winner
    (fun k => if k = 5 then 1 else if k = 6 then 3 else 2) 3 5 3 (fun _ => none) hpos
    (by norm_num) hsum
  have h1 : 1 = w := (hiff 1 (by decide)).mpr
    ⟨by norm_num [Finset.sum_range_succ], by norm_num [runningSum, Finset.sum_range_succ]⟩
  subst h1
  exact ⟨hpos, by norm_num, hsum, h⟩

end RouletteWheelClaims

/-! ## Claims about the offspring counts of the tournament -/

section TournamentCountClaims

variable {β : Type}

/-- The number of slots below `N` that lie in an interval. -/
theorem countP_range_interval (a b : Nat) :
    ∀ N, (List.range N).countP (fun s => decide (a ≤ s ∧ s < b)) = min b N - min a N := by
  intro N
  induction N with
  | zero => simp
  | succ n ih =>
    rw [List.range_succ, List.countP_append, ih]
    by_cases h : a ≤ n ∧ n < b
    · rw [List.countP_cons_of_pos _ _ (by simpa using h)]
      simp only [List.countP_nil]
      omega
    · rw [List.countP_cons_of_neg _ _ (by simpa using h)]
      simp only [List.countP_nil]
      omega

/-- A function on the indices below `N ≥ 1` takes a greatest value. -/
theorem exists_max_index (f : Nat → ℚ) (N : Nat) (hN : 1 ≤ N) :
    ∃ q, q < N ∧ ∀ k, k < N → f k ≤ f q := by
  obtain ⟨q, hq, hmax⟩ := Finset.exists_max_image (Finset.range N) f
    ⟨0, Finset.mem_range.mpr (by omega)⟩
  exact ⟨q, Finset.mem_range.mp hq, fun k hk => hmax k (Finset.mem_range.mpr hk)⟩

/-- The slots of the tournament: the parent of a slot lies in the group of the slot, no
member of the group is fitter, and two slots have the same parent exactly when they lie
in the same group. -/
theorem tournament_parent_slots (f : Nat → ℚ) (N g : Nat) (hg : 1 ≤ g) :
    ∃ nx, tournamentLoop f N g N 0 (fun _ => none) = some nx ∧
      (∀ s, s < N → ∃ p, nx s = some p ∧ p < N ∧ groupStart g p = groupStart g s ∧
        f s ≤ f p) ∧
      ∀ p, (∃ s, s < N ∧ nx s = some p) →
        p < N ∧
          (List.range N).countP (fun s => decide (nx s = some p)) = groupLength N g p := by
  have hloop := tournamentLoop_spec f N g hg N 0 (fun _ => none) (by omega)
  rw [Nat.mul_zero] at hloop
  generalize hnx : (fun k => if 0 ≤ k ∧ k < N then
      some (groupStart g k + bestIndex f (groupStart g k) (groupLength N g k))
      else (fun _ => none) k) = nx at hloop
  have hval : ∀ s, s < N →
      nx s = some (groupStart g s + bestIndex f (groupStart g s) (groupLength N g s)) := by
    intro s hs
    rw [← hnx]
    simp [hs]
  have hin : ∀ s, s < N →
      groupStart g s + bestIndex f (groupStart g s) (groupLength N g s) < N ∧
      groupStart g (groupStart g s + bestIndex f (groupStart g s) (groupLength N g s)) =
        groupStart g s ∧
      f s ≤ f (groupStart g s + bestIndex f (groupStart g s) (groupLength N g s)) := by
    intro s hs
    obtain ⟨hb1, hb2, hb3, hb4⟩ := group_bounds N g s hg hs
    obtain ⟨n, hn⟩ : ∃ n, groupLength N g s = n + 1 := ⟨groupLength N g s - 1, by omega⟩
    obtain ⟨hw1, hw2, _⟩ := bestIndex_spec f (groupStart g s) n
    rw [← hn] at hw1 hw2
    have hlen : groupLength N g s ≤ g := by
      unfold groupLength
      exact Nat.min_le_left _ _
    refine ⟨by omega, ?_, ?_⟩
    · exact groupStart_eq g (s / g) _ (by unfold groupStart at hb1 hw1 ⊢; omega)
        (by unfold groupStart at hb1 hw1 ⊢; omega)
    · have := hw2 (s - groupStart g s) (by omega)
      rw [show groupStart g s + (s - groupStart g s) = s by omega] at this
      exact this
  refine ⟨nx, hloop, ?_, ?_⟩
  · intro s hs
    exact ⟨_, hval s hs, (hin s hs).1, (hin s hs).2.1, (hin s hs).2.2⟩
  · rintro p ⟨s0, hs0, hp0⟩
    rw [hval s0 hs0] at hp0
    have hp : p = groupStart g s0 + bestIndex f (groupStart g s0) (groupLength N g s0) :=
      (Option.some.inj hp0).symm
    have hpN : p < N := by
      rw [hp]
      exact (hin s0 hs0).1
    have hgp : groupStart g p = groupStart g s0 := by
      rw [hp]
      exact (hin s0 hs0).2.1
    refine ⟨hpN, ?_⟩
    obtain ⟨hb1, hb2, hb3, hb4⟩ := group_bounds N g p hg hpN
    have hlen : groupLength N g p ≤ g := by
      unfold groupLength
      exact Nat.min_le_left _ _
    have hcongr : (List.range N).countP (fun s => decide (nx s = some p)) =
        (List.range N).countP
          (fun s => decide (groupStart g p ≤ s ∧ s < groupStart g p + groupLength N g p)) := by
      apply List.countP_congr
      intro s hs
      have hsN : s < N := List.mem_range.mp hs
      simp only [decide_eq_true_eq]
      rw [hval s hsN]
      constructor
      · intro h
        have hps : p = groupStart g s + bestIndex f (groupStart g s) (groupLength N g s) :=
          (Option.some.inj h).symm
        have hgs : groupStart g p = groupStart g s := by
          rw [hps]
          exact (hin s hsN).2.1
        obtain ⟨c1, c2, _, _⟩ := group_bounds N g s hg hsN
        have hl : groupLength N g p = groupLength N g s := by
          unfold groupLength
          rw [hgs]
        rw [hgs, hl]
        exact ⟨c1, c2⟩
      · rintro ⟨h1, h2⟩
        have hgs : groupStart g s = groupStart g p := by
          have := groupStart_eq g (p / g) s (by unfold groupStart at h1; exact h1)
            (by unfold groupStart at h2; omega)
          rw [this]
          rfl
        have hl : groupLength N g s = groupLength N g s0 := by
          unfold groupLength
          rw [hgs, hgp]
        rw [hgs, hgp, hl, ← hp]
    rw [hcongr, countP_range_interval]
    omega

/-- C38: tournament selection without elitism on `N ≥ 1` agents with group size `g ≥ 1`,
for every shuffle.  The step produces a next generation; some member whose fitness equals
the population maximum is the parent of at least one member of the next generation; and
every member that has offspring has exactly as many offspring (slots of `EANextGen`
assigned to it) as its group has slots. -/
theorem tournament_best_member_reproduces (o : Outcomes β) (self : tAgent β) (mr : ℚ)
    (update : Nat) (eddAgents : List (tAgent β)) (N g : Nat) (hv : o.Valid)
    (hN : eddAgents.length = N) (hN1 : 1 ≤ N) (hg : 1 ≤ g) :
    ∃ nx offspring next,
      tournamentLoop (fitnessAt (o.shufflePopulation eddAgents)) N g N 0 (fun _ => none) =
        some nx ∧
      offspringList o self (o.shufflePopulation eddAgents) mr update N nx = some offspring ∧
      selectTournament o self mr update N g false eddAgents = some next ∧
      next.Perm offspring ∧ next.length = N ∧
      (∃ p parent s, s < N ∧ nx s = some p ∧
        (o.shufflePopulation eddAgents)[p]? = some parent ∧ parent ∈ eddAgents ∧
        (∀ a, a ∈ eddAgents → a.fitness ≤ parent.fitness) ∧
        offspring[s]? = some (inherit self (o.mutate s) parent mr update) ∧
        inherit self (o.mutate s) parent mr update ∈ next) ∧
      ∀ p, (∃ s, s < N ∧ nx s = some p) →
        p < N ∧
          (List.range N).countP (fun s => decide (nx s = some p)) = groupLength N g p := by
  have hperm := hv.shufflePopulation_perm eddAgents
  have hlen : (o.shufflePopulation eddAgents).length = N := by rw [hperm.length_eq, hN]
  obtain ⟨nx, hloop, hslots, hcount⟩ :=
    tournament_parent_slots (fitnessAt (o.shufflePopulation eddAgents)) N g hg
  obtain ⟨offspring, hoff⟩ := offspringList_exists o self (o.shufflePopulation eddAgents)
    mr update N nx (fun k hk => by
      obtain ⟨p, h1, h2, _⟩ := hslots k hk
      exact ⟨p, h1, by omega⟩)
  obtain ⟨hol, hoat⟩ := offspringList_some o self _ mr update N nx offspring hoff
  have hsel : selectTournament o self mr update N g false eddAgents =
      some (o.shuffleNextGen offspring) := by
    simp [selectTournament, hloop, hoff, installNextGen]
  have hnp := hv.shuffleNextGen_perm offspring
  refine ⟨nx, offspring, o.shuffleNextGen offspring, hloop, hoff, hsel, hnp,
    by rw [hnp.length_eq, hol], ?_, hcount⟩
  have mem_of_get : ∀ (l : List (tAgent β)) (k : Nat) (a : tAgent β),
      l[k]? = some a → a ∈ l := by
    intro l k a h
    obtain ⟨hk, hka⟩ := List.getElem?_eq_some_iff.mp h
    exact hka ▸ List.getElem_mem hk
  obtain ⟨q, hq, hmax⟩ := exists_max_index (fitnessAt (o.shufflePopulation eddAgents)) N hN1
  obtain ⟨p, hp1, hp2, _, hp4⟩ := hslots q hq
  obtain ⟨parent, hpar, hfit⟩ := fitnessAt_of_get (o.shufflePopulation eddAgents) p
    (by omega)
  have hmem : parent ∈ o.shufflePopulation eddAgents := mem_of_get _ _ _ hpar
  have hos : offspring[q]? = some (inherit self (o.mutate q) parent mr update) := by
    rw [← hoat q hq, hp1]
    simp only [offspringAt, hpar]
  refine ⟨p, parent, q, hq, hp1, hpar, hperm.subset hmem, ?_, hos, ?_⟩
  · intro a ha
    have ha2 : a ∈ o.shufflePopulation eddAgents := hperm.symm.subset ha
    obtain ⟨k, hk, hka⟩ := List.getElem_of_mem ha2
    have hk2 : (o.shufflePopulation eddAgents)[k]? = some a := by
      rw [List.getElem?_eq_getElem hk, hka]
    have hfa : fitnessAt (o.shufflePopulation eddAgents) k = a.fitness := by
      simp only [fitnessAt, hk2]
    rw [← hfa, ← hfit]
    exact le_trans (hmax k (by omega)) hp4
  · exact hnp.symm.subset (mem_of_get _ _ _ hos)

/-- C38 on the sample population (fitness 1, 3, 2, 2) with groups of 2: the next
generation has 4 members and the parents 1 and 2 have two offspring each. -/
theorem tournament_best_member_reproduces_witness :
    sampleOutcomes.Valid ∧ samplePopulation.length = 4 ∧ 1 ≤ 4 ∧ 1 ≤ 2 ∧
      ∃ nx offspring next,
        tournamentLoop (fitnessAt (sampleOutcomes.shufflePopulation samplePopulation)) 4 2 4 0
          (fun _ => none) = some nx ∧
        offspringList sampleOutcomes sampleAgent
          (sampleOutcomes.shufflePopulation samplePopulation) 0 1 4 nx = some offspring ∧
        selectTournament sampleOutcomes sampleAgent 0 1 4 2 false samplePopulation =
          some next ∧
        next.length = 4 := by
  obtain ⟨nx, offspring, next, h1, h2, h3, _, h5, _⟩ :=
    tournament_best_member_reproduces sampleOutcomes sampleAgent 0 1 samplePopulation 4 2
      sampleOutcomes_valid rfl (by decide) (by decide)
  exact ⟨sampleOutcomes_valid, rfl, by decide, by decide, nx, offspring, next, h1, h2, h3, h5⟩

end TournamentCountClaims

/-! ## The claims of the trials of an evaluation -/

section ClaimLemmas

variable {β : Type} (C : Controller β) (maxNodes : Nat) (g : DigitGrid) (zoomingCamera : Bool)

theorem mem_claimedDigits (agent : tAgent β) (digit i : Nat) :
    i ∈ claimedDigits C maxNodes g zoomingCamera agent digit ↔
      i < 10 ∧ claimed (trialClassify C maxNodes g zoomingCamera agent digit)
        (trialVeto C maxNodes g zoomingCamera agent digit) i := by
  simp [claimedDigits, List.mem_filter]

theorem claimedDigits_length (agent : tAgent β) (digit : Nat) :
    (claimedDigits C maxNodes g zoomingCamera agent digit).length =
      numClaimed (trialClassify C maxNodes g zoomingCamera agent digit)
        (trialVeto C maxNodes g zoomingCamera agent digit) := by
  unfold claimedDigits numClaimed
  rw [List.countP_eq_length_filter]

theorem claimedDigits_nodup (agent : tAgent β) (digit : Nat) :
    (claimedDigits C maxNodes g zoomingCamera agent digit).Nodup :=
  (List.nodup_range 10).filter _

theorem trialClaims_digits (digits : List Nat) (agent : tAgent β) :
    (trialClaims C maxNodes g zoomingCamera digits agent).map Prod.fst = digits := by
  induction digits generalizing agent with
  | nil => rfl
  | cons d ds ih => simp [trialClaims, ih]

/-- Every record of an evaluation holds a duplicate-free list of digits below 10, with
at most 10 entries, and the true digit of one of the trials. -/
theorem trialClaims_wf (digits : List Nat) (agent : tAgent β) (r : Nat × List Nat)
    (hr : r ∈ trialClaims C maxNodes g zoomingCamera digits agent) :
    r.1 ∈ digits ∧ r.2.Nodup ∧ (∀ i, i ∈ r.2 → i < 10) ∧ r.2.length ≤ 10 := by
  induction digits generalizing agent with
  | nil => simp [trialClaims] at hr
  | cons d ds ih =>
    simp only [trialClaims, List.mem_cons] at hr
    rcases hr with rfl | hr
    · refine ⟨List.mem_cons_self _ _, claimedDigits_nodup C maxNodes g zoomingCamera agent d,
        fun i hi => ((mem_claimedDigits C maxNodes g zoomingCamera agent d i).mp hi).1, ?_⟩
      rw [claimedDigits_length]
      exact numClaimed_le _ _
    · obtain ⟨h1, h2⟩ := ih _ hr
      exact ⟨List.mem_cons_of_mem _ h1, h2⟩

theorem trialScores_eq_claims (digits : List Nat) (agent : tAgent β)
    (hd : ∀ d ∈ digits, d < 10) :
    trialScores C maxNodes g zoomingCamera digits agent =
      (trialClaims C maxNodes g zoomingCamera digits agent).map claimScore := by
  induction digits generalizing agent with
  | nil => rfl
  | cons d ds ih =>
    have hd10 : d < 10 := hd d (List.mem_cons_self _ _)
    simp only [trialScores, trialClaims, List.map_cons]
    rw [ih _ (fun x hx => hd x (List.mem_cons_of_mem _ hx)), specTrialScore_eq _ _ _ hd10]
    congr 1
    unfold claimScore
    simp only [mem_claimedDigits, claimedDigits_length, hd10, true_and, and_true]

/-- The four counters of digit `j` after the trials of the list, as counts of trials. -/
theorem trials_counters (digits : List Nat) (agent : tAgent β) (j : Nat) (hj : j < 10) :
    (digits.foldl (runTrial C maxNodes g zoomingCamera) agent).truePositives j =
        agent.truePositives j +
          (trialClaims C maxNodes g zoomingCamera digits agent).countP
            (fun r => decide (r.1 = j ∧ j ∈ r.2)) ∧
      (digits.foldl (runTrial C maxNodes g zoomingCamera) agent).falsePositives j =
        agent.falsePositives j +
          (trialClaims C maxNodes g zoomingCamera digits agent).countP
            (fun r => decide (r.1 ≠ j ∧ j ∈ r.2)) ∧
      (digits.foldl (runTrial C maxNodes g zoomingCamera) agent).falseNegatives j =
        agent.falseNegatives j +
          (trialClaims C maxNodes g zoomingCamera digits agent).countP
            (fun r => decide (r.1 = j ∧ j ∉ r.2)) ∧
      (digits.foldl (runTrial C maxNodes g zoomingCamera) agent).trueNegatives j =
        agent.trueNegatives j +
          (trialClaims C maxNodes g zoomingCamera digits agent).countP
            (fun r => decide (r.1 ≠ j ∧ j ∉ r.2)) := by
  induction digits generalizing agent with
  | nil => simp [trialClaims]
  | cons d ds ih =>
    obtain ⟨i1, i2, i3, i4⟩ := ih (runTrial C maxNodes g zoomingCamera agent d)
    have hc := scoreTrial_counters d
      (trialClassify C maxNodes g zoomingCamera agent d)
      (trialVeto C maxNodes g zoomingCamera agent d)
      { agent with
        brain := (runSteps C maxNodes g zoomingCamera agent d).brain
        states := (runSteps C maxNodes g zoomingCamera agent d).states } j hj
    have hrun : runTrial C maxNodes g zoomingCamera agent d =
        scoreTrial d (trialClassify C maxNodes g zoomingCamera agent d)
          (trialVeto C maxNodes g zoomingCamera agent d)
          { agent with
            brain := (runSteps C maxNodes g zoomingCamera agent d).brain
            states := (runSteps C maxNodes g zoomingCamera agent d).states } := rfl
    rw [← hrun] at hc
    obtain ⟨c1, c2, c3, c4⟩ := hc
    have hm := mem_claimedDigits C maxNodes g zoomingCamera agent d j
    simp only [hj, true_and] at hm
    rw [List.foldl_cons, i1, i2, i3, i4, c1, c2, c3, c4]
    simp only [trialClaims, List.countP_cons, hm, decide_eq_true_eq]
    have e1 : (d = j ∧ claimed (trialClassify C maxNodes g zoomingCamera agent d)
        (trialVeto C maxNodes g zoomingCamera agent d) j) ↔
        (claimed (trialClassify C maxNodes g zoomingCamera agent d)
        (trialVeto C maxNodes g zoomingCamera agent d) j ∧ j = d) := by
      exact ⟨fun ⟨a, b⟩ => ⟨b, a.symm⟩, fun ⟨a, b⟩ => ⟨b.symm, a⟩⟩
    have e2 : (d ≠ j ∧ claimed (trialClassify C maxNodes g zoomingCamera agent d)
        (trialVeto C maxNodes g zoomingCamera agent d) j) ↔
        (claimed (trialClassify C maxNodes g zoomingCamera agent d)
        (trialVeto C maxNodes g zoomingCamera agent d) j ∧ j ≠ d) := by
      exact ⟨fun ⟨a, b⟩ => ⟨b, fun h => a h.symm⟩, fun ⟨a, b⟩ => ⟨fun h => b h.symm, a⟩⟩
    have e3 : (d = j ∧ ¬ claimed (trialClassify C maxNodes g zoomingCamera agent d)
        (trialVeto C maxNodes g zoomingCamera agent d) j) ↔
        (¬ claimed (trialClassify C maxNodes g zoomingCamera agent d)
        (trialVeto C maxNodes g zoomingCamera agent d) j ∧ j = d) := by
      exact ⟨fun ⟨a, b⟩ => ⟨b, a.symm⟩, fun ⟨a, b⟩ => ⟨b.symm, a⟩⟩
    have e4 : (d ≠ j ∧ ¬ claimed (trialClassify C maxNodes g zoomingCamera agent d)
        (trialVeto C maxNodes g zoomingCamera agent d) j) ↔
        (¬ claimed (trialClassify C maxNodes g zoomingCamera agent d)
        (trialVeto C maxNodes g zoomingCamera agent d) j ∧ j ≠ d) := by
      exact ⟨fun ⟨a, b⟩ => ⟨b, fun h => a h.symm⟩, fun ⟨a, b⟩ => ⟨fun h => b h.symm, a⟩⟩
    simp only [e1, e2, e3, e4]
    refine ⟨by omega, by omega, by omega, by omega⟩

/-- The four counters of digit `j` after `playGame`, as counts of trials. -/
theorem playGame_counters (digits : List Nat) (a : tAgent β) (j : Nat) (hj : j < 10) :
    (playGame C maxNodes g zoomingCamera digits a).truePositives j =
        (trialClaims C maxNodes g zoomingCamera digits (resetAgent C a)).countP
          (fun r => decide (r.1 = j ∧ j ∈ r.2)) ∧
      (playGame C maxNodes g zoomingCamera digits a).falsePositives j =
        (trialClaims C maxNodes g zoomingCamera digits (resetAgent C a)).countP
          (fun r => decide (r.1 ≠ j ∧ j ∈ r.2)) ∧
      (playGame C maxNodes g zoomingCamera digits a).falseNegatives j =
        (trialClaims C maxNodes g zoomingCamera digits (resetAgent C a)).countP
          (fun r => decide (r.1 = j ∧ j ∉ r.2)) ∧
      (playGame C maxNodes g zoomingCamera digits a).trueNegatives j =
        (trialClaims C maxNodes g zoomingCamera digits (resetAgent C a)).countP
          (fun r => decide (r.1 ≠ j ∧ j ∉ r.2)) := by
  obtain ⟨h1, h2, h3, h4⟩ :=
    trials_counters C maxNodes g zoomingCamera digits (resetAgent C a) j hj
  have r1 : (resetAgent C a).truePositives j = 0 := by simp [resetAgent, hj]
  have r2 : (resetAgent C a).falsePositives j = 0 := by simp [resetAgent, hj]
  have r3 : (resetAgent C a).falseNegatives j = 0 := by simp [resetAgent, hj]
  have r4 : (resetAgent C a).trueNegatives j = 0 := by simp [resetAgent, hj]
  rw [r1, Nat.zero_add] at h1
  rw [r2, Nat.zero_add] at h2
  rw [r3, Nat.zero_add] at h3
  rw [r4, Nat.zero_add] at h4
  exact ⟨h1, h2, h3, h4⟩

/-- The trials whose true digit is `j` split into those that claim `j` and those that do
not; so do the other trials. -/
theorem claims_split (L : List (Nat × List Nat)) (j : Nat) :
    L.countP (fun r => decide (r.1 = j ∧ j ∈ r.2)) +
        L.countP (fun r => decide (r.1 = j ∧ j ∉ r.2)) = (L.map Prod.fst).count j ∧
      L.countP (fun r => decide (r.1 ≠ j ∧ j ∈ r.2)) +
        L.countP (fun r => decide (r.1 ≠ j ∧ j ∉ r.2)) + (L.map Prod.fst).count j =
          L.length := by
  induction L with
  | nil => simp
  | cons r L ih =>
    obtain ⟨ih1, ih2⟩ := ih
    simp only [ne_eq] at ih1 ih2 ⊢
    simp only [List.countP_cons, List.map_cons, List.count_cons, List.length_cons,
      decide_eq_true_eq, beq_iff_eq]
    by_cases h1 : r.1 = j <;> by_cases h2 : j ∈ r.2 <;>
      simp only [h1, h2, true_and, false_and, and_true, and_false, not_true_eq_false,
        not_false_eq_true, if_true, if_false, ne_eq] <;>
      constructor <;> omega

end ClaimLemmas
/-! ## Claims about the confusion counters of an evaluation -/

section CounterClaims

variable {β : Type}

/-- The counters of digit `i` after `playGame` over a permutation of the ten digits:
the true digit is `i` once and another digit nine times. -/
theorem playGame_truth_counts (C : Controller β) (maxNodes : Nat) (g : DigitGrid)
    (zoomingCamera : Bool) (digits : List Nat) (a : tAgent β)
    (hperm : digits.Perm (List.range 10)) (i : Nat) (hi : i < 10) :
    (playGame C maxNodes g zoomingCamera digits a).truePositives i +
        (playGame C maxNodes g zoomingCamera digits a).falseNegatives i = 1 ∧
      (playGame C maxNodes g zoomingCamera digits a).falsePositives i +
        (playGame C maxNodes g zoomingCamera digits a).trueNegatives i = 9 := by
  obtain ⟨h1, h2, h3, h4⟩ := playGame_counters C maxNodes g zoomingCamera digits a i hi
  obtain ⟨s1, s2⟩ :=
    claims_split (trialClaims C maxNodes g zoomingCamera digits (resetAgent C a)) i
  have hlen : (trialClaims C maxNodes g zoomingCamera digits (resetAgent C a)).length = 10 := by
    have := congrArg List.length
      (trialClaims_digits C maxNodes g zoomingCamera digits (resetAgent C a))
    rw [List.length_map] at this
    rw [this]
    exact (shuffled_digits digits hperm).1
  rw [trialClaims_digits, hperm.count_eq, count_range_ten, if_pos hi] at s1 s2
  rw [h1, h2, h3, h4]
  constructor <;> omega

/-- C33: after a full evaluation (ten trials, one per digit), for every digit `i`:
`TP[i] + FN[i] = 1` and `FP[i] + TN[i] = 9`; the denominators of the two rates are
therefore never zero and both rates are defined, `TP[i] / 1` and `TN[i] / 9`. -/
theorem truth_counters_sum_one_and_nine (C : Controller β) (maxNodes : Nat)
    (shuffle : List Nat → List Nat) (draws : List (ℚ × ℚ)) (eddAgent : tAgent β)
    (dataFile report : Bool) (gridSizeX gridSizeY : Nat)
    (zoomingCamera randomPlacement noise : Bool) (noiseAmount : ℚ)
    (hperm : (shuffle (List.range 10)).Perm (List.range 10)) :
    (randomPlacement = false →
        (executeGame C maxNodes shuffle draws eddAgent dataFile report gridSizeX gridSizeY
          zoomingCamera randomPlacement noise noiseAmount).isSome = true) ∧
      ∀ r, executeGame C maxNodes shuffle draws eddAgent dataFile report gridSizeX gridSizeY
          zoomingCamera randomPlacement noise noiseAmount = some r →
        ∀ i, i < 10 →
          r.1.truePositives i + r.1.falseNegatives i = 1 ∧
          r.1.falsePositives i + r.1.trueNegatives i = 9 ∧
          r.1.truePositives i + r.1.falseNegatives i ≠ 0 ∧
          r.1.trueNegatives i + r.1.falsePositives i ≠ 0 ∧
          r.1.truePositiveRate i = some ((r.1.truePositives i : ℚ) / 1) ∧
          r.1.trueNegativeRate i = some ((r.1.trueNegatives i : ℚ) / 9) := by
  constructor
  · intro hrp
    subst hrp
    exact executeGame_centered C maxNodes shuffle draws eddAgent dataFile report gridSizeX
      gridSizeY zoomingCamera noise noiseAmount
  · intro r hr i hi
    obtain ⟨g, _, hg⟩ := executeGame_some C maxNodes shuffle draws eddAgent dataFile report
      gridSizeX gridSizeY zoomingCamera randomPlacement noise noiseAmount r hr
    obtain ⟨h1, h2⟩ := playGame_truth_counts C maxNodes g zoomingCamera
      (shuffle (List.range 10)) eddAgent hperm i hi
    rw [← hg] at h1 h2
    refine ⟨h1, h2, by omega, by omega, ?_, ?_⟩
    · have hrate : r.1.truePositiveRate i =
          rate (r.1.truePositives i) (r.1.truePositives i + r.1.falseNegatives i) := by
        rw [hg]
        simp [playGame, finishGame, hi]
      rw [hrate, h1]
      simp [rate]
    · have hrate : r.1.trueNegativeRate i =
          rate (r.1.trueNegatives i) (r.1.trueNegatives i + r.1.falsePositives i) := by
        rw [hg]
        simp [playGame, finishGame, hi]
      have h9 : r.1.trueNegatives i + r.1.falsePositives i = 9 := by omega
      rw [hrate, h9]
      simp [rate]

/-- C33 on the sample controller, a 5x5 grid, trial order `9, 8, .., 0` and centered
placement: the evaluation completes with the stated sums for every digit. -/
theorem truth_counters_sum_one_and_nine_witness :
    (List.reverse (List.range 10)).Perm (List.range 10) ∧
      ∃ r, executeGame sampleController 64 List.reverse [] sampleAgent false false 5 5
          false false false 0 = some r ∧
        ∀ i, i < 10 →
          r.1.truePositives i + r.1.falseNegatives i = 1 ∧
          r.1.falsePositives i + r.1.trueNegatives i = 9 := by
  have h := truth_counters_sum_one_and_nine sampleController 64 List.reverse [] sampleAgent
    false false 5 5 false false false 0 (List.reverse_perm _)
  obtain ⟨r, hr⟩ := Option.isSome_iff_exists.mp (h.1 rfl)
  exact ⟨List.reverse_perm _, r, hr, fun i hi => ⟨(h.2 r hr i hi).1, (h.2 r hr i hi).2.1⟩⟩

end CounterClaims

/-! ## Claims about the extreme values of the fitness -/

section ExtremeFitness

variable {β : Type}

theorem sum_le_length (L : List ℚ) (h : ∀ x ∈ L, x ≤ 1) : L.sum ≤ L.length := by
  induction L with
  | nil => simp
  | cons x L ih =>
    have h1 := h x (List.mem_cons_self _ _)
    have h2 := ih (fun y hy => h y (List.mem_cons_of_mem _ hy))
    simp only [List.sum_cons, List.length_cons, Nat.cast_add, Nat.cast_one]
    linarith

theorem sum_eq_length_iff (L : List ℚ) (h : ∀ x ∈ L, x ≤ 1) :
    L.sum = L.length ↔ ∀ x ∈ L, x = 1 := by
  induction L with
  | nil => simp
  | cons x L ih =>
    have h1 := h x (List.mem_cons_self _ _)
    have hL : ∀ y ∈ L, y ≤ 1 := fun y hy => h y (List.mem_cons_of_mem _ hy)
    have h2 := sum_le_length L hL
    have ih2 := ih hL
    simp only [List.sum_cons, List.length_cons, Nat.cast_add, Nat.cast_one, List.mem_cons,
      forall_eq_or_imp]
    constructor
    · intro hs
      have hx : x = 1 := by linarith
      exact ⟨hx, ih2.mp (by linarith)⟩
    · rintro ⟨hx, hall⟩
      rw [hx, ih2.mpr hall]
      ring

theorem sum_eq_zero_iff_all (L : List ℚ) (h : ∀ x ∈ L, 0 ≤ x) :
    L.sum = 0 ↔ ∀ x ∈ L, x = 0 := by
  induction L with
  | nil => simp
  | cons x L ih =>
    have h1 := h x (List.mem_cons_self _ _)
    have hL : ∀ y ∈ L, 0 ≤ y := fun y hy => h y (List.mem_cons_of_mem _ hy)
    have h2 := List.sum_nonneg hL
    have ih2 := ih hL
    simp only [List.sum_cons, List.mem_cons, forall_eq_or_imp]
    constructor
    · intro hs
      have hx : x = 0 := by linarith
      exact ⟨hx, ih2.mp (by linarith)⟩
    · rintro ⟨hx, hall⟩
      rw [hx, ih2.mpr hall]
      ring

theorem sum_zero_or_tenth (L : List ℚ) (h : ∀ x ∈ L, x = 0 ∨ 1 / 10 ≤ x) :
    L.sum = 0 ∨ 1 / 10 ≤ L.sum := by
  induction L with
  | nil => simp
  | cons x L ih =>
    have h1 := h x (List.mem_cons_self _ _)
    have h2 := ih (fun y hy => h y (List.mem_cons_of_mem _ hy))
    simp only [List.sum_cons]
    rcases h1 with h1 | h1 <;> rcases h2 with h2 | h2
    · left
      rw [h1, h2]
      ring
    · right
      linarith
    · right
      linarith
    · right
      linarith

theorem claimScore_zero_or_tenth (r : Nat × List Nat) (hlen : r.2.length ≤ 10) :
    (claimScore r = 0 ↔ r.1 ∉ r.2) ∧ (claimScore r = 0 ∨ 1 / 10 ≤ claimScore r) ∧
      0 ≤ claimScore r ∧ claimScore r ≤ 1 := by
  unfold claimScore
  by_cases hm : r.1 ∈ r.2
  · have hpos : 0 < r.2.length := List.length_pos_of_mem hm
    have hq : (0 : ℚ) < (r.2.length : ℚ) := by exact_mod_cast hpos
    have h1 : (1 : ℚ) ≤ (r.2.length : ℚ) := by exact_mod_cast hpos
    have h10 : (r.2.length : ℚ) ≤ 10 := by exact_mod_cast hlen
    have hge : (1 : ℚ) / 10 ≤ 1 / (r.2.length : ℚ) :=
      one_div_le_one_div_of_le hq h10
    have hle : (1 : ℚ) / (r.2.length : ℚ) ≤ 1 := by
      rw [div_le_one hq]
      exact h1
    have hp : (0 : ℚ) < 1 / (r.2.length : ℚ) := by positivity
    rw [if_pos hm]
    refine ⟨⟨fun h => absurd h (ne_of_gt hp), fun h => absurd hm h⟩, Or.inr hge,
      le_of_lt hp, hle⟩
  · rw [if_neg hm]
    exact ⟨⟨fun _ => hm, fun _ => rfl⟩, Or.inl rfl, le_refl _, by norm_num⟩

theorem claimScore_eq_one_iff (r : Nat × List Nat) (h1 : r.1 < 10) (hnd : r.2.Nodup)
    (hlt : ∀ i, i ∈ r.2 → i < 10) :
    claimScore r = 1 ↔ ∀ i, i < 10 → (i ∈ r.2 ↔ i = r.1) := by
  unfold claimScore
  constructor
  · intro h
    by_cases hm : r.1 ∈ r.2
    · rw [if_pos hm] at h
      have hpos : 0 < r.2.length := List.length_pos_of_mem hm
      have hq : (r.2.length : ℚ) ≠ 0 := by exact_mod_cast (Nat.pos_iff_ne_zero.mp hpos)
      have hlen : r.2.length = 1 := by
        have : (r.2.length : ℚ) = 1 := by
          field_simp at h
          linarith
        exact_mod_cast this
      obtain ⟨x, hx⟩ := List.length_eq_one.mp hlen
      rw [hx] at hm ⊢
      have hx1 : r.1 = x := List.mem_singleton.mp hm
      intro i _
      rw [List.mem_singleton, hx1]
    · rw [if_neg hm] at h
      norm_num at h
  · intro h
    have hm : r.1 ∈ r.2 := (h r.1 h1).mpr rfl
    rw [if_pos hm]
    have hlen : r.2.length = 1 := by
      rcases hl : r.2 with _ | ⟨x, t⟩
      · rw [hl] at hm
        simp at hm
      · rcases t with _ | ⟨y, t'⟩
        · rfl
        · exfalso
          rw [hl] at hnd hlt h
          have hx : x = r.1 := (h x (hlt x (by simp))).mp (by simp)
          have hy : y = r.1 := (h y (hlt y (by simp))).mp (by simp)
          rw [hx, hy] at hnd
          simp at hnd
    rw [hlen]
    norm_num

/-- The extreme values of the fitness after `playGame` over a permutation of the ten
digits, in terms of the claims of the ten trials and of the counters. -/
theorem playGame_extremes (C : Controller β) (maxNodes : Nat) (g : DigitGrid)
    (zoomingCamera : Bool) (digits : List Nat) (a : tAgent β)
    (hperm : digits.Perm (List.range 10)) :
    ((playGame C maxNodes g zoomingCamera digits a).fitness = 1 ↔
        ∀ rec, rec ∈ trialClaims C maxNodes g zoomingCamera digits (resetAgent C a) →
          ∀ i, i < 10 → (i ∈ rec.2 ↔ i = rec.1)) ∧
      ((∀ rec, rec ∈ trialClaims C maxNodes g zoomingCamera digits (resetAgent C a) →
          ∀ i, i < 10 → (i ∈ rec.2 ↔ i = rec.1)) ↔
        ∀ i, i < 10 →
          (playGame C maxNodes g zoomingCamera digits a).truePositives i = 1 ∧
          (playGame C maxNodes g zoomingCamera digits a).falsePositives i = 0) ∧
      ((playGame C maxNodes g zoomingCamera digits a).fitness = 1 / 1000000 ↔
        ∀ i, i < 10 → (playGame C maxNodes g zoomingCamera digits a).truePositives i = 0) := by
  obtain ⟨hlen10, hlt10⟩ := shuffled_digits digits hperm
  obtain ⟨hcf, hfit⟩ := playGame_fitness C maxNodes g zoomingCamera digits a hlt10
  rw [trialScores_eq_claims C maxNodes g zoomingCamera digits _ hlt10] at hcf
  generalize hrecs : trialClaims C maxNodes g zoomingCamera digits (resetAgent C a) = recs
    at hcf
  have hwf : ∀ rec, rec ∈ recs →
      rec.1 < 10 ∧ rec.2.Nodup ∧ (∀ i, i ∈ rec.2 → i < 10) ∧ rec.2.length ≤ 10 := by
    intro rec hrec
    rw [← hrecs] at hrec
    obtain ⟨w1, w2, w3, w4⟩ := trialClaims_wf C maxNodes g zoomingCamera digits _ rec hrec
    exact ⟨hlt10 _ w1, w2, w3, w4⟩
  have hfst : recs.map Prod.fst = digits := by
    rw [← hrecs]
    exact trialClaims_digits C maxNodes g zoomingCamera digits _
  have hrl : recs.length = 10 := by
    have := congrArg List.length hfst
    rw [List.length_map] at this
    rw [this, hlen10]
  have hsl : (recs.map claimScore).length = 10 := by rw [List.length_map, hrl]
  have hle1 : ∀ x ∈ recs.map claimScore, x ≤ 1 := by
    intro x hx
    obtain ⟨rec, hrec, rfl⟩ := List.mem_map.mp hx
    exact (claimScore_zero_or_tenth rec (hwf rec hrec).2.2.2).2.2.2
  have hge0 : ∀ x ∈ recs.map claimScore, 0 ≤ x := by
    intro x hx
    obtain ⟨rec, hrec, rfl⟩ := List.mem_map.mp hx
    exact (claimScore_zero_or_tenth rec (hwf rec hrec).2.2.2).2.2.1
  have htenth : ∀ x ∈ recs.map claimScore, x = 0 ∨ 1 / 10 ≤ x := by
    intro x hx
    obtain ⟨rec, hrec, rfl⟩ := List.mem_map.mp hx
    exact (claimScore_zero_or_tenth rec (hwf rec hrec).2.2.2).2.1
  have hsum0 := List.sum_nonneg hge0
  have hone := sum_eq_length_iff _ hle1
  rw [hsl] at hone
  have hzero := sum_eq_zero_iff_all _ hge0
  have hcounters : ∀ i, i < 10 →
      (playGame C maxNodes g zoomingCamera digits a).truePositives i =
        recs.countP (fun r => decide (r.1 = i ∧ i ∈ r.2)) ∧
      (playGame C maxNodes g zoomingCamera digits a).falsePositives i =
        recs.countP (fun r => decide (r.1 ≠ i ∧ i ∈ r.2)) ∧
      recs.countP (fun r => decide (r.1 = i ∧ i ∈ r.2)) +
        recs.countP (fun r => decide (r.1 = i ∧ i ∉ r.2)) = 1 := by
    intro i hi
    obtain ⟨c1, c2, _, _⟩ := playGame_counters C maxNodes g zoomingCamera digits a i hi
    rw [hrecs] at c1 c2
    have s1 := (claims_split recs i).1
    rw [hfst, hperm.count_eq, count_range_ten, if_pos hi] at s1
    exact ⟨c1, c2, s1⟩
  rw [hfit, hcf]
  refine ⟨?_, ?_, ?_⟩
  · constructor
    · intro h
      have hs : (recs.map claimScore).sum = ((10 : Nat) : ℚ) := by
        by_cases hc : (recs.map claimScore).sum / 10 ≤ 0
        · rw [if_pos hc] at h
          norm_num at h
        · rw [if_neg hc] at h
          push_cast
          linarith
      have hall := hone.mp hs
      intro rec hrec
      exact (claimScore_eq_one_iff rec (hwf rec hrec).1 (hwf rec hrec).2.1
        (hwf rec hrec).2.2.1).mp (hall _ (List.mem_map.mpr ⟨rec, hrec, rfl⟩))
    · intro h
      have hall : ∀ x ∈ recs.map claimScore, x = 1 := by
        intro x hx
        obtain ⟨rec, hrec, rfl⟩ := List.mem_map.mp hx
        exact (claimScore_eq_one_iff rec (hwf rec hrec).1 (hwf rec hrec).2.1
          (hwf rec hrec).2.2.1).mpr (h rec hrec)
      have hs := hone.mpr hall
      rw [hs]
      norm_num
  · constructor
    · intro h i hi
      obtain ⟨c1, c2, s1⟩ := hcounters i hi
      have hfn : recs.countP (fun r => decide (r.1 = i ∧ i ∉ r.2)) = 0 := by
        rw [List.countP_eq_zero]
        intro rec hrec
        simp only [decide_eq_true_eq, not_and, not_not]
        intro he
        exact (h rec hrec i hi).mpr he.symm
      have hfp : recs.countP (fun r => decide (r.1 ≠ i ∧ i ∈ r.2)) = 0 := by
        rw [List.countP_eq_zero]
        intro rec hrec
        simp only [decide_eq_true_eq, not_and, ne_eq]
        intro hne hmem
        exact hne ((h rec hrec i hi).mp hmem).symm
      rw [c1, c2, hfp]
      exact ⟨by omega, rfl⟩
    · intro h rec hrec i hi
      obtain ⟨c1, c2, s1⟩ := hcounters i hi
      obtain ⟨t1, t2⟩ := h i hi
      rw [c1] at t1
      rw [c2, List.countP_eq_zero] at t2
      have hfn : recs.countP (fun r => decide (r.1 = i ∧ i ∉ r.2)) = 0 := by omega
      rw [List.countP_eq_zero] at hfn
      have f1 := t2 rec hrec
      have f2 := hfn rec hrec
      simp only [decide_eq_true_eq, not_and, not_not, ne_eq] at f1 f2
      constructor
      · intro hmem
        by_contra hne
        exact f1 (fun he => hne he.symm) hmem
      · intro he
        exact f2 he.symm
  · have hTP : (∀ i, i < 10 →
        (playGame C maxNodes g zoomingCamera digits a).truePositives i = 0) ↔
        ∀ rec, rec ∈ recs → rec.1 ∉ rec.2 := by
      constructor
      · intro h rec hrec hmem
        have hi := (hwf rec hrec).1
        have := h rec.1 hi
        rw [(hcounters rec.1 hi).1, List.countP_eq_zero] at this
        have f := this rec hrec
        simp only [decide_eq_true_eq, true_and] at f
        exact f hmem
      · intro h i hi
        rw [(hcounters i hi).1, List.countP_eq_zero]
        intro rec hrec
        simp only [decide_eq_true_eq, not_and]
        intro he hmem
        exact h rec hrec (he ▸ hmem)
    have hscore : (∀ x ∈ recs.map claimScore, x = 0) ↔ ∀ rec, rec ∈ recs → rec.1 ∉ rec.2 := by
      constructor
      · intro h rec hrec
        exact (claimScore_zero_or_tenth rec (hwf rec hrec).2.2.2).1.mp
          (h _ (List.mem_map.mpr ⟨rec, hrec, rfl⟩))
      · intro h x hx
        obtain ⟨rec, hrec, rfl⟩ := List.mem_map.mp hx
        exact (claimScore_zero_or_tenth rec (hwf rec hrec).2.2.2).1.mpr (h rec hrec)
    rw [hTP, ← hscore, ← hzero]
    constructor
    · intro h
      rcases sum_zero_or_tenth _ htenth with h0 | h0
      · exact h0
      · exfalso
        have hc : ¬ (recs.map claimScore).sum / 10 ≤ 0 := by
          intro hc
          linarith
        rw [if_neg hc] at h
        linarith
    · intro h
      rw [h]
      norm_num

/-- C34: after an evaluation, `fitness = 1` exactly when in every trial the claimed set
is exactly the set holding the true digit, which is exactly when `TP[i] = 1` and
`FP[i] = 0` for every digit `i`; and `fitness = 0.000001` exactly when `TP[i] = 0` for
every digit `i`. -/
theorem fitness_one_iff_all_trials_exact (C : Controller β) (maxNodes : Nat)
    (shuffle : List Nat → List Nat) (draws : List (ℚ × ℚ)) (eddAgent : tAgent β)
    (dataFile report : Bool) (gridSizeX gridSizeY : Nat)
    (zoomingCamera randomPlacement noise : Bool) (noiseAmount : ℚ)
    (hperm : (shuffle (List.range 10)).Perm (List.range 10)) :
    (randomPlacement = false →
        (executeGame C maxNodes shuffle draws eddAgent dataFile report gridSizeX gridSizeY
          zoomingCamera randomPlacement noise noiseAmount).isSome = true) ∧
      ∀ r, executeGame C maxNodes shuffle draws eddAgent dataFile report gridSizeX gridSizeY
          zoomingCamera randomPlacement noise noiseAmount = some r →
        ∃ g, placeDigits randomPlacement (List.range 10) (emptyGrid gridSizeX gridSizeY)
              draws = some g ∧
          (r.1.fitness = 1 ↔
            ∀ rec, rec ∈ trialClaims C maxNodes g zoomingCamera (shuffle (List.range 10))
                (resetAgent C eddAgent) →
              ∀ i, i < 10 → (i ∈ rec.2 ↔ i = rec.1)) ∧
          ((∀ rec, rec ∈ trialClaims C maxNodes g zoomingCamera (shuffle (List.range 10))
                (resetAgent C eddAgent) →
              ∀ i, i < 10 → (i ∈ rec.2 ↔ i = rec.1)) ↔
            ∀ i, i < 10 → r.1.truePositives i = 1 ∧ r.1.falsePositives i = 0) ∧
          (r.1.fitness = 1 / 1000000 ↔ ∀ i, i < 10 → r.1.truePositives i = 0) := by
  constructor
  · intro hrp
    subst hrp
    exact executeGame_centered C maxNodes shuffle draws eddAgent dataFile report gridSizeX
      gridSizeY zoomingCamera noise noiseAmount
  · intro r hr
    obtain ⟨g, hp, hg⟩ := executeGame_some C maxNodes shuffle draws eddAgent dataFile report
      gridSizeX gridSizeY zoomingCamera randomPlacement noise noiseAmount r hr
    rw [hg]
    exact ⟨g, hp, playGame_extremes C maxNodes g zoomingCamera (shuffle (List.range 10))
      eddAgent hperm⟩

/-- C34 on the sample controller (which claims digit 3 in every trial), a 5x5 grid, trial
order `9, 8, .., 0` and centered placement. -/
theorem fitness_one_iff_all_trials_exact_witness :
    (List.reverse (List.range 10)).Perm (List.range 10) ∧
      ∃ r, executeGame sampleController 64 List.reverse [] sampleAgent false false 5 5
          false false false 0 = some r ∧
        ((r.1.fitness = 1 ↔ ∀ i, i < 10 → r.1.truePositives i = 1 ∧ r.1.falsePositives i = 0) ∧
          (r.1.fitness = 1 / 1000000 ↔ ∀ i, i < 10 → r.1.truePositives i = 0)) := by
  have h := fitness_one_iff_all_trials_exact sampleController 64 List.reverse [] sampleAgent
    false false 5 5 false false false 0 (List.reverse_perm _)
  obtain ⟨r, hr⟩ := Option.isSome_iff_exists.mp (h.1 rfl)
  obtain ⟨g, _, h1, h2, h3⟩ := h.2 r hr
  exact ⟨List.reverse_perm _, r, hr, h1.trans h2, h3⟩

end ExtremeFitness

/-! ## Claims about the order of the trials -/

section TrialOrder

variable {β : Type} {γ : Type} (C : Controller β) (maxNodes : Nat) (g : DigitGrid)
  (zoomingCamera : Bool) (prog : β → γ)

/-- The trial of a digit is the same from two agents whose brains have the same
unchanging part. -/
theorem det_runSteps
    (hreset : ∀ b st b' st', prog b = prog b' → C.resetBrain b st = C.resetBrain b' st')
    (a1 a2 : tAgent β) (h : prog a1.brain = prog a2.brain) (digit : Nat) :
    runSteps C maxNodes g zoomingCamera a1 digit =
      runSteps C maxNodes g zoomingCamera a2 digit := by
  unfold runSteps
  rw [hreset a1.brain a1.states a2.brain a2.states h]

/-- The unchanging part of the brain after any number of steps of a trial. -/
theorem prog_stateAfterSteps (hu : ∀ b st, prog (C.updateStates b st).1 = prog b)
    (hr : ∀ b st, prog (C.resetBrain b st).1 = prog b) (a : tAgent β) (digit n : Nat) :
    prog (stateAfterSteps C maxNodes g zoomingCamera a digit n).brain = prog a.brain := by
  induction n with
  | zero => exact hr a.brain a.states
  | succ n ih =>
    rw [stateAfterSteps_succ, simulationStep_eq]
    exact (hu _ _).trans ih

theorem prog_runTrial (hu : ∀ b st, prog (C.updateStates b st).1 = prog b)
    (hr : ∀ b st, prog (C.resetBrain b st).1 = prog b) (a : tAgent β) (digit : Nat) :
    prog (runTrial C maxNodes g zoomingCamera a digit).brain = prog a.brain := by
  rw [(runTrial_frame C maxNodes g zoomingCamera a digit).2.1]
  exact prog_stateAfterSteps C maxNodes g zoomingCamera prog hu hr a digit
    totalStepsInSimulation

/-- For such a controller the claims of a trial depend on its digit only. -/
theorem trialClaims_det (hu : ∀ b st, prog (C.updateStates b st).1 = prog b)
    (hr : ∀ b st, prog (C.resetBrain b st).1 = prog b)
    (hreset : ∀ b st b' st', prog b = prog b' → C.resetBrain b st = C.resetBrain b' st')
    (a0 : tAgent β) (digits : List Nat) (a : tAgent β) (h : prog a.brain = prog a0.brain) :
    trialClaims C maxNodes g zoomingCamera digits a =
      digits.map (fun d => (d, claimedDigits C maxNodes g zoomingCamera a0 d)) := by
  induction digits generalizing a with
  | nil => rfl
  | cons d ds ih =>
    have hc : claimedDigits C maxNodes g zoomingCamera a d =
        claimedDigits C maxNodes g zoomingCamera a0 d := by
      unfold claimedDigits trialClassify trialVeto
      rw [det_runSteps C maxNodes g zoomingCamera prog hreset a a0 h d]
    simp only [trialClaims, List.map_cons]
    rw [hc, ih _ ((prog_runTrial C maxNodes g zoomingCamera prog hu hr a d).trans h)]

/-- The counters and both fitness values after `playGame` are the same for two orders of
the same digits. -/
theorem playGame_order (hdet : C.TrialDeterministic) (digits1 digits2 : List Nat)
    (a : tAgent β) (hperm : digits1.Perm digits2) (hlt : ∀ d ∈ digits1, d < 10) :
    (∀ i, i < 10 →
        (playGame C maxNodes g zoomingCamera digits1 a).truePositives i =
          (playGame C maxNodes g zoomingCamera digits2 a).truePositives i ∧
        (playGame C maxNodes g zoomingCamera digits1 a).falsePositives i =
          (playGame C maxNodes g zoomingCamera digits2 a).falsePositives i ∧
        (playGame C maxNodes g zoomingCamera digits1 a).trueNegatives i =
          (playGame C maxNodes g zoomingCamera digits2 a).trueNegatives i ∧
        (playGame C maxNodes g zoomingCamera digits1 a).falseNegatives i =
          (playGame C maxNodes g zoomingCamera digits2 a).falseNegatives i) ∧
      (playGame C maxNodes g zoomingCamera digits1 a).classificationFitness =
        (playGame C maxNodes g zoomingCamera digits2 a).classificationFitness ∧
      (playGame C maxNodes g zoomingCamera digits1 a).fitness =
        (playGame C maxNodes g zoomingCamera digits2 a).fitness := by
  obtain ⟨γ', prog', hu, hr, hreset⟩ := hdet
  have hlt2 : ∀ d ∈ digits2, d < 10 := fun d hd => hlt d (hperm.symm.subset hd)
  have e1 := trialClaims_det C maxNodes g zoomingCamera prog' hu hr hreset (resetAgent C a)
    digits1 (resetAgent C a) rfl
  have e2 := trialClaims_det C maxNodes g zoomingCamera prog' hu hr hreset (resetAgent C a)
    digits2 (resetAgent C a) rfl
  have hp : (trialClaims C maxNodes g zoomingCamera digits1 (resetAgent C a)).Perm
      (trialClaims C maxNodes g zoomingCamera digits2 (resetAgent C a)) := by
    rw [e1, e2]
    exact hperm.map _
  obtain ⟨f1, g1⟩ := playGame_fitness C maxNodes g zoomingCamera digits1 a hlt
  obtain ⟨f2, g2⟩ := playGame_fitness C maxNodes g zoomingCamera digits2 a hlt2
  rw [trialScores_eq_claims C maxNodes g zoomingCamera digits1 _ hlt] at f1
  rw [trialScores_eq_claims C maxNodes g zoomingCamera digits2 _ hlt2] at f2
  have hcf : (playGame C maxNodes g zoomingCamera digits1 a).classificationFitness =
      (playGame C maxNodes g zoomingCamera digits2 a).classificationFitness := by
    rw [f1, f2, (hp.map claimScore).sum_eq]
  refine ⟨?_, hcf, ?_⟩
  · intro i hi
    obtain ⟨c1, c2, c3, c4⟩ := playGame_counters C maxNodes g zoomingCamera digits1 a i hi
    obtain ⟨d1, d2, d3, d4⟩ := playGame_counters C maxNodes g zoomingCamera digits2 a i hi
    rw [c1, c2, c3, c4, d1, d2, d3, d4]
    exact ⟨hp.countP_eq _, hp.countP_eq _, hp.countP_eq _, hp.countP_eq _⟩
  · rw [g1, g2, hcf]

end TrialOrder

section TrialOrderClaims

variable {β : Type}

/-- C35: for a controller whose outputs in a trial are a function of the sensor registers
presented since `resetBrain`, and for fixed glyph centers (the same draws of the
placement search), the confusion counters, `classificationFitness` and `fitness` left by
`executeGame` are the same for every permutation used as the trial order. -/
theorem trial_order_does_not_matter (C : Controller β) (maxNodes : Nat)
    (shuffle1 shuffle2 : List Nat → List Nat) (draws : List (ℚ × ℚ)) (eddAgent : tAgent β)
    (dataFile report : Bool) (gridSizeX gridSizeY : Nat)
    (zoomingCamera randomPlacement noise : Bool) (noiseAmount : ℚ)
    (hdet : C.TrialDeterministic)
    (hperm1 : (shuffle1 (List.range 10)).Perm (List.range 10))
    (hperm2 : (shuffle2 (List.range 10)).Perm (List.range 10)) :
    ((executeGame C maxNodes shuffle1 draws eddAgent dataFile report gridSizeX gridSizeY
          zoomingCamera randomPlacement noise noiseAmount).isSome =
        (executeGame C maxNodes shuffle2 draws eddAgent dataFile report gridSizeX gridSizeY
          zoomingCamera randomPlacement noise noiseAmount).isSome) ∧
      ∀ r1 r2,
        executeGame C maxNodes shuffle1 draws eddAgent dataFile report gridSizeX gridSizeY
          zoomingCamera randomPlacement noise noiseAmount = some r1 →
        executeGame C maxNodes shuffle2 draws eddAgent dataFile report gridSizeX gridSizeY
          zoomingCamera randomPlacement noise noiseAmount = some r2 →
        (∀ i, i < 10 →
          r1.1.truePositives i = r2.1.truePositives i ∧
          r1.1.falsePositives i = r2.1.falsePositives i ∧
          r1.1.trueNegatives i = r2.1.trueNegatives i ∧
          r1.1.falseNegatives i = r2.1.falseNegatives i) ∧
        r1.1.classificationFitness = r2.1.classificationFitness ∧
        r1.1.fitness = r2.1.fitness := by
  constructor
  · unfold executeGame
    cases placeDigits randomPlacement (List.range 10) (emptyGrid gridSizeX gridSizeY) draws
      <;> rfl
  · intro r1 r2 h1 h2
    obtain ⟨g1, hp1, hg1⟩ := executeGame_some C maxNodes shuffle1 draws eddAgent dataFile
      report gridSizeX gridSizeY zoomingCamera randomPlacement noise noiseAmount r1 h1
    obtain ⟨g2, hp2, hg2⟩ := executeGame_some C maxNodes shuffle2 draws eddAgent dataFile
      report gridSizeX gridSizeY zoomingCamera randomPlacement noise noiseAmount r2 h2
    rw [hp1] at hp2
    cases hp2
    rw [hg1, hg2]
    exact playGame_order C maxNodes g1 zoomingCamera hdet _ _ eddAgent
      (hperm1.trans hperm2.symm) (shuffled_digits _ hperm1).2

/-- C35 on the sample controller (its brain is trivial and `resetBrain` clears every
register), a 5x5 grid and centered placement: the trial orders `9, 8, .., 0` and
`0, 1, .., 9` leave the same counters and fitness values. -/
theorem trial_order_does_not_matter_witness :
    sampleController.TrialDeterministic ∧
      (List.reverse (List.range 10)).Perm (List.range 10) ∧
      (id (List.range 10)).Perm (List.range 10) ∧
      ∃ r1 r2,
        executeGame sampleController 64 List.reverse [] sampleAgent false false 5 5
          false false false 0 = some r1 ∧
        executeGame sampleController 64 id [] sampleAgent false false 5 5
          false false false 0 = some r2 ∧
        (∀ i, i < 10 →
          r1.1.truePositives i = r2.1.truePositives i ∧
          r1.1.falsePositives i = r2.1.falsePositives i ∧
          r1.1.trueNegatives i = r2.1.trueNegatives i ∧
          r1.1.falseNegatives i = r2.1.falseNegatives i) ∧
        r1.1.classificationFitness = r2.1.classificationFitness ∧
        r1.1.fitness = r2.1.fitness := by
  have hdet : sampleController.TrialDeterministic :=
    ⟨Unit, id, fun _ _ => rfl, fun _ _ => rfl, fun _ _ _ _ _ => rfl⟩
  obtain ⟨r1, h1⟩ := Option.isSome_iff_exists.mp
    (executeGame_centered sampleController 64 List.reverse [] sampleAgent false false 5 5
      false false 0)
  obtain ⟨r2, h2⟩ := Option.isSome_iff_exists.mp
    (executeGame_centered sampleController 64 id [] sampleAgent false false 5 5
      false false 0)
  exact ⟨hdet, List.reverse_perm _, List.Perm.refl _, r1, r2, h1, h2,
    (trial_order_does_not_matter sampleController 64 List.reverse id [] sampleAgent false
      false 5 5 false false false 0 hdet (List.reverse_perm _) (List.Perm.refl _)).2
      r1 r2 h1 h2⟩

end TrialOrderClaims

/-! ## The centered grids and the central window -/

section CenteredGrid

variable {β : Type}

theorem placeAll_sizes (cx cy : Int) (l : List Nat) (g0 : DigitGrid) :
    (l.foldl (fun g e => placeDigit g e cx cy) g0).sizeX = g0.sizeX ∧
      (l.foldl (fun g e => placeDigit g e cx cy) g0).sizeY = g0.sizeY := by
  induction l generalizing g0 with
  | nil => exact ⟨rfl, rfl⟩
  | cons e l ih =>
    rw [List.foldl_cons]
    obtain ⟨h1, h2⟩ := ih (placeDigit g0 e cx cy)
    obtain ⟨s1, s2⟩ := placeDigit_sizes g0 e cx cy
    exact ⟨h1.trans s1, h2.trans s2⟩

/-- After all the digits of a list have been placed at the same center, the grid of each
of them holds its pattern around the center and 0 elsewhere. -/
theorem placeAll_cell (cx cy : Int) (l : List Nat) (g0 : DigitGrid) (d : Nat) (hd : d ∈ l)
    (hd10 : d < 10) (x y : Int) (hx1 : 0 ≤ x) (hx2 : x < g0.sizeX) (hy1 : 0 ≤ y)
    (hy2 : y < g0.sizeY) :
    (l.foldl (fun g e => placeDigit g e cx cy) g0).cell d x y =
      if (-2 ≤ x - cx ∧ x - cx ≤ 2) ∧ (-2 ≤ y - cy ∧ y - cy ≤ 2) then
        glyphPattern d (x - cx) (y - cy)
      else 0 := by
  induction l using List.reverseRecOn with
  | nil => simp at hd
  | append_singleton l e ih =>
    rw [List.foldl_append, List.foldl_cons, List.foldl_nil]
    by_cases he : d = e
    · subst he
      obtain ⟨s1, s2⟩ := placeAll_sizes cx cy l g0
      exact placeDigit_cell _ d cx cy hd10 x y hx1 (by rw [s1]; exact hx2) hy1
        (by rw [s2]; exact hy2)
    · rw [placeDigit_other _ e cx cy d he]
      apply ih
      rcases List.mem_append.mp hd with h | h
      · exact h
      · exact absurd (List.mem_singleton.mp h) he

theorem zip_replicate_fold (c : Int × Int) (l : List Nat) (g0 : DigitGrid) :
    ((l.zip (List.replicate l.length c)).foldl
        (fun g dc => placeDigit g dc.1 dc.2.1 dc.2.2) g0) =
      l.foldl (fun g e => placeDigit g e c.1 c.2) g0 := by
  induction l generalizing g0 with
  | nil => rfl
  | cons e l ih =>
    simp only [List.length_cons, List.replicate_succ, List.zip_cons_cons, List.foldl_cons]
    exact ih _

/-- With centered placement, the grid of digit `d` holds the pattern of `d` in the 5x5
block around the grid center. -/
theorem centered_cell (gx gy : Nat) (hx : 5 ≤ gx) (hy : 5 ≤ gy) (draws : List (ℚ × ℚ))
    (g : DigitGrid)
    (hg : placeDigits false (List.range 10) (emptyGrid gx gy) draws = some g)
    (d : Nat) (hd : d < 10) (dx dy : Int) (hdx : -2 ≤ dx ∧ dx ≤ 2) (hdy : -2 ≤ dy ∧ dy ≤ 2) :
    g.cell d (((gx / 2 : Nat) : Int) + dx) (((gy / 2 : Nat) : Int) + dy) =
      glyphPattern d dx dy := by
  rw [placeDigits_eq] at hg
  have hc := digitCenters_centered gx gy (List.range 10) draws
  simp only [emptyGrid] at hg
  rw [hc] at hg
  simp only [Option.some.injEq] at hg
  rw [zip_replicate_fold] at hg
  rw [← hg]
  have h := placeAll_cell ((gx / 2 : Nat) : Int) ((gy / 2 : Nat) : Int) (List.range 10)
    { sizeX := gx, sizeY := gy, cell := fun _ _ _ => 0 } d (List.mem_range.mpr hd) hd
    (((gx / 2 : Nat) : Int) + dx) (((gy / 2 : Nat) : Int) + dy)
    (by omega) (by simp only; omega) (by omega) (by simp only; omega)
  rw [h]
  simp only [add_sub_cancel_left]
  rw [if_pos ⟨hdx, hdy⟩]

/-- The nine sensors of a camera of size 3 look at the offsets `-1..1`. -/
theorem central_offsets (n : Nat) (hn : n < 9) :
    ∃ dx dy, sensorOffsetMap n = some (dx, dy) ∧
      dx ∈ [(-1 : Int), 0, 1] ∧ dy ∈ [(-1 : Int), 0, 1] := by
  rcases Nat.eq_zero_or_pos n with h0 | h0
  · subst h0
    exact ⟨0, 0, sensorOffsetMap_zero, by decide, by decide⟩
  · have h := sensorOffsetMap_of_ring n 1 ⟨le_refl 1, by decide, by omega, by omega⟩
    refine ⟨_, _, h, ?_, ?_⟩ <;> interval_cases n <;> decide

/-- The patterns of 4 and 9 agree on the central 3x3 block. -/
theorem glyph_four_nine_center :
    ∀ dx, dx ∈ [(-1 : Int), 0, 1] → ∀ dy, dy ∈ [(-1 : Int), 0, 1] →
      glyphPattern 4 dx dy = glyphPattern 9 dx dy := by
  decide

/-- With centered placement the readings of the nine sensors of the centered size-3
camera are the same on the grids of 4 and 9. -/
theorem reading_four_nine (gx gy : Nat) (hx : 5 ≤ gx) (hy : 5 ≤ gy) (draws : List (ℚ × ℚ))
    (g : DigitGrid)
    (hg : placeDigits false (List.range 10) (emptyGrid gx gy) draws = some g)
    (n : Nat) (hn : n < 9) :
    sensorReading g 4 (initialCamera gx gy) n = sensorReading g 9 (initialCamera gx gy) n := by
  obtain ⟨dx, dy, hoff, hdx, hdy⟩ := central_offsets n hn
  have hdx2 : -2 ≤ dx ∧ dx ≤ 2 := by
    simp only [List.mem_cons, List.mem_singleton, List.not_mem_nil, or_false] at hdx
    omega
  have hdy2 : -2 ≤ dy ∧ dy ≤ 2 := by
    simp only [List.mem_cons, List.mem_singleton, List.not_mem_nil, or_false] at hdy
    omega
  have hcell : g.cell 4 (((gx / 2 : Nat) : Int) + dx) (((gy / 2 : Nat) : Int) + dy) =
      g.cell 9 (((gx / 2 : Nat) : Int) + dx) (((gy / 2 : Nat) : Int) + dy) := by
    rw [centered_cell gx gy hx hy draws g hg 4 (by decide) dx dy hdx2 hdy2,
      centered_cell gx gy hx hy draws g hg 9 (by decide) dx dy hdx2 hdy2,
      glyph_four_nine_center dx hdx dy hdy]
  simp only [sensorReading, hoff, initialCamera, hcell]

end CenteredGrid

/-! ## Claims about the digits 4 and 9 -/

section FourNineClaims

variable {β : Type}

/-- C36: with random placement and zooming disabled, on every grid of at least 5x5, the
sensor register that the environment presents at each step of the trial of digit 4 is
identical to the one it presents in the trial of digit 9 (for the same controller
started from the same agent, whose trials therefore run identically and end with the
same claims), while the glyphs of 4 and 9 differ as 5x5 patterns. -/
theorem four_and_nine_present_same_register (C : Controller β) (maxNodes gx gy : Nat)
    (draws : List (ℚ × ℚ)) (agent : tAgent β) (hx : 5 ≤ gx) (hy : 5 ≤ gy) :
    ∃ g, placeDigits false (List.range 10) (emptyGrid gx gy) draws = some g ∧
      (∀ s : TrialState β, s.camera = initialCamera g.sizeX g.sizeY →
        sensedStates g 4 s = sensedStates g 9 s) ∧
      (∀ n,
        stateAfterSteps C maxNodes g false agent 4 n =
          stateAfterSteps C maxNodes g false agent 9 n ∧
        sensedStates g 4 (stateAfterSteps C maxNodes g false agent 4 n) =
          sensedStates g 9 (stateAfterSteps C maxNodes g false agent 9 n)) ∧
      claimedDigits C maxNodes g false agent 4 = claimedDigits C maxNodes g false agent 9 ∧
      g.cell 4 (((gx / 2 : Nat) : Int) + 0) (((gy / 2 : Nat) : Int) + 2) = 0 ∧
      g.cell 9 (((gx / 2 : Nat) : Int) + 0) (((gy / 2 : Nat) : Int) + 2) = 1 ∧
      glyphPattern 4 0 2 ≠ glyphPattern 9 0 2 ∧ glyphWrites 4 ≠ glyphWrites 9 := by
  obtain ⟨g, hg⟩ := Option.isSome_iff_exists.mp
    (placeDigits_centered (List.range 10) (emptyGrid gx gy) draws)
  obtain ⟨hsx, hsy⟩ := placeDigits_sizes false _ _ g draws hg
  have hgx : g.sizeX = gx := hsx
  have hgy : g.sizeY = gy := hsy
  have hsense : ∀ s : TrialState β, s.camera = initialCamera g.sizeX g.sizeY →
      sensedStates g 4 s = sensedStates g 9 s := by
    intro s hs
    funext n
    rw [sensedStates_apply, sensedStates_apply, hs, hgx, hgy]
    by_cases hn : n < 9
    · rw [reading_four_nine gx gy hx hy draws g hg n hn]
    · have hn2 : ¬ n < (initialCamera gx gy).cameraSize * (initialCamera gx gy).cameraSize := hn
      simp only [hn2, false_and, if_false]
  have hsteps : ∀ n, stateAfterSteps C maxNodes g false agent 4 n =
      stateAfterSteps C maxNodes g false agent 9 n := by
    intro n
    induction n with
    | zero => rfl
    | succ n ih =>
      rw [stateAfterSteps_succ, stateAfterSteps_succ, simulationStep_eq, simulationStep_eq,
        hsense _ (stateAfterSteps_fixed C maxNodes g agent 4 n), ih]
  refine ⟨g, hg, hsense, ?_, ?_, ?_, ?_, by decide, by decide⟩
  · intro n
    refine ⟨hsteps n, ?_⟩
    rw [hsense _ (stateAfterSteps_fixed C maxNodes g agent 4 n), hsteps n]
  · have hrun : runSteps C maxNodes g false agent 4 = runSteps C maxNodes g false agent 9 :=
      hsteps totalStepsInSimulation
    unfold claimedDigits trialClassify trialVeto
    rw [hrun]
  · rw [centered_cell gx gy hx hy draws g hg 4 (by decide) 0 2 (by decide) (by decide)]
    decide
  · rw [centered_cell gx gy hx hy draws g hg 9 (by decide) 0 2 (by decide) (by decide)]
    decide

/-- C36 on a 5x5 grid with the sample controller and agent. -/
theorem four_and_nine_present_same_register_witness :
    5 ≤ 5 ∧
      ∃ g, placeDigits false (List.range 10) (emptyGrid 5 5) [] = some g ∧
        (∀ n,
          sensedStates g 4 (stateAfterSteps sampleController 64 g false sampleAgent 4 n) =
            sensedStates g 9 (stateAfterSteps sampleController 64 g false sampleAgent 9 n)) ∧
        g.cell 4 2 4 = 0 ∧ g.cell 9 2 4 = 1 := by
  obtain ⟨g, h1, _, h3, _, h5, h6, _⟩ :=
    four_and_nine_present_same_register sampleController 64 5 5 [] sampleAgent
      (le_refl 5) (le_refl 5)
  exact ⟨le_refl 5, g, h1, fun n => (h3 n).2, h5, h6⟩

end FourNineClaims

/-! ## The sensor offset table as a bijection -/

section SensorBijection

theorem offsetIndex_ringOffset (k m : Nat) (hk : 1 ≤ k) (hm : m < 8 * k) :
    offsetIndex (ringOffset k m).1 (ringOffset k m).2 = (2 * k - 1) * (2 * k - 1) + m := by
  obtain ⟨e1, e2, e3, e4⟩ := ringOffset_edges k m
  rcases Nat.lt_or_ge (2 * k) m with h1 | h1
  · rcases Nat.lt_or_ge (4 * k) m with h2 | h2
    · rcases Nat.lt_or_ge (6 * k) m with h3 | h3
      · rw [e4 (by omega)]
        have hr : offsetRing (-(k : Int)) (7 * (k : Int) - (m : Int)) = k := by
          unfold offsetRing
          omega
        unfold offsetIndex
        rw [hr]
        rw [if_neg (by omega), if_neg (by omega), if_neg (by omega), if_neg (by omega)]
        omega
      · rw [e3 (by omega) h3]
        have hr : offsetRing (5 * (k : Int) - (m : Int)) (k : Int) = k := by
          unfold offsetRing
          omega
        unfold offsetIndex
        rw [hr]
        rw [if_neg (by omega), if_neg (by omega), if_neg (by omega), if_pos rfl]
        omega
    · rw [e2 (by omega) h2]
      have hr : offsetRing (k : Int) ((m : Int) - 3 * (k : Int)) = k := by
        unfold offsetRing
        omega
      unfold offsetIndex
      rw [hr]
      rw [if_neg (by omega), if_neg (by omega), if_pos rfl]
      omega
  · rw [e1 h1]
    have hr : offsetRing (-(k : Int) + (m : Int)) (-(k : Int)) = k := by
      unfold offsetRing
      omega
    unfold offsetIndex
    rw [hr]
    rw [if_neg (by omega), if_pos rfl]
    omega

theorem ringOffset_offsetIndex (dx dy : Int) (k : Nat) (hr : offsetRing dx dy = k)
    (hk : 1 ≤ k) :
    ∃ m, m < 8 * k ∧ offsetIndex dx dy = (2 * k - 1) * (2 * k - 1) + m ∧
      ringOffset k m = (dx, dy) := by
  have hmax : max dx.natAbs dy.natAbs = k := hr
  unfold offsetIndex
  rw [hr, if_neg (by omega)]
  by_cases c1 : dy = -(k : Int)
  · rw [if_pos c1]
    refine ⟨(dx + (k : Int)).toNat, by omega, rfl, ?_⟩
    rw [(ringOffset_edges k _).1 (by omega), Prod.mk.injEq]
    constructor <;> omega
  · rw [if_neg c1]
    by_cases c2 : dx = (k : Int)
    · rw [if_pos c2]
      refine ⟨2 * k + (dy + (k : Int)).toNat, by omega, by omega, ?_⟩
      rw [(ringOffset_edges k _).2.1 (by omega) (by omega), Prod.mk.injEq]
      constructor <;> omega
    · rw [if_neg c2]
      by_cases c3 : dy = (k : Int)
      · rw [if_pos c3]
        refine ⟨4 * k + ((k : Int) - dx).toNat, by omega, by omega, ?_⟩
        rw [(ringOffset_edges k _).2.2.1 (by omega) (by omega), Prod.mk.injEq]
        constructor <;> omega
      · rw [if_neg c3]
        refine ⟨6 * k + ((k : Int) - dy).toNat, by omega, by omega, ?_⟩
        rw [(ringOffset_edges k _).2.2.2 (by omega), Prod.mk.injEq]
        constructor <;> omega

/-- Every index from 1 below `111 * 111` lies on one ring. -/
theorem ring_of_index (n : Nat) (h1 : 1 ≤ n) (h2 : n < 111 * 111) :
    ∃ k, 1 ≤ k ∧ k ≤ 55 ∧ (2 * k - 1) * (2 * k - 1) ≤ n ∧ n < (2 * k + 1) * (2 * k + 1) := by
  have hlo : Nat.sqrt n * Nat.sqrt n ≤ n := Nat.sqrt_le n
  have hhi : n < (Nat.sqrt n + 1) * (Nat.sqrt n + 1) := Nat.lt_succ_sqrt n
  generalize Nat.sqrt n = r at hlo hhi
  have hr1 : 1 ≤ r := by
    rcases Nat.eq_zero_or_pos r with h | h
    · subst h
      omega
    · exact h
  have hr2 : r ≤ 110 := by
    by_contra hc
    have : 111 * 111 ≤ r * r := Nat.mul_le_mul (by omega) (by omega)
    omega
  rcases Nat.even_or_odd' r with ⟨j, hj | hj⟩
  · subst hj
    refine ⟨j, by omega, by omega, ?_, hhi⟩
    have : (2 * j - 1) * (2 * j - 1) ≤ 2 * j * (2 * j) := Nat.mul_le_mul (by omega) (by omega)
    omega
  · subst hj
    refine ⟨j + 1, by omega, by omega, ?_, ?_⟩
    · have e : 2 * (j + 1) - 1 = 2 * j + 1 := by omega
      rw [e]
      exact hlo
    · have : (2 * j + 1 + 1) * (2 * j + 1 + 1) ≤ (2 * (j + 1) + 1) * (2 * (j + 1) + 1) :=
        Nat.mul_le_mul (by omega) (by omega)
      omega

/-- The index of a table entry is the position of its offset in the spiral. -/
theorem offsetIndex_of_table (n : Nat) (p : Int × Int) (h : sensorOffsetMap n = some p) :
    offsetIndex p.1 p.2 = n := by
  have hn : n < 111 * 111 := by
    by_contra hc
    have : sensorOffsetMap n = none := by
      unfold sensorOffsetMap sensorOffsetMapSize
      rw [if_neg hc]
    rw [this] at h
    cases h
  rcases Nat.eq_zero_or_pos n with h0 | h0
  · subst h0
    rw [sensorOffsetMap_zero] at h
    cases h
    rfl
  · obtain ⟨k, hk1, hk2, hlo, hhi⟩ := ring_of_index n h0 hn
    have hsq : (2 * k + 1) * (2 * k + 1) = (2 * k - 1) * (2 * k - 1) + 8 * k := by
      obtain ⟨j, rfl⟩ : ∃ j, k = j + 1 := ⟨k - 1, by omega⟩
      have hbase : 2 * (j + 1) - 1 = 2 * j + 1 := by omega
      rw [hbase]
      ring
    rw [sensorOffsetMap_of_ring n k ⟨hk1, hk2, hlo, hhi⟩] at h
    cases h
    rw [offsetIndex_ringOffset k _ hk1 (by omega)]
    omega

/-- The table is injective on its `111 * 111` indices. -/
theorem sensorOffsetMap_injective (n m : Nat) (hn : n < sensorOffsetMapSize)
    (h : sensorOffsetMap n = sensorOffsetMap m) : n = m := by
  have hs : ∃ p, sensorOffsetMap n = some p := by
    unfold sensorOffsetMap
    rw [if_pos hn]
    exact ⟨_, rfl⟩
  obtain ⟨p, hp⟩ := hs
  rw [← offsetIndex_of_table n p hp, ← offsetIndex_of_table m p (h ▸ hp)]

/-- The entry at the position of an offset with both coordinates within `-55..55` is that
offset, and the position is below `(2k+1)^2` for the ring `k` of the offset. -/
theorem sensorOffsetMap_offsetIndex (dx dy : Int) (h : offsetRing dx dy ≤ 55) :
    sensorOffsetMap (offsetIndex dx dy) = some (dx, dy) ∧
      offsetIndex dx dy <
        (2 * offsetRing dx dy + 1) * (2 * offsetRing dx dy + 1) := by
  rcases Nat.eq_zero_or_pos (offsetRing dx dy) with h0 | h0
  · have hmax : max dx.natAbs dy.natAbs = 0 := h0
    have hx : dx = 0 := by omega
    have hy : dy = 0 := by omega
    subst hx
    subst hy
    exact ⟨sensorOffsetMap_zero, by decide⟩
  · obtain ⟨m, hm, hidx, hoff⟩ := ringOffset_offsetIndex dx dy _ rfl h0
    generalize offsetRing dx dy = k at h h0 hm hidx hoff ⊢
    have hsq : (2 * k + 1) * (2 * k + 1) = (2 * k - 1) * (2 * k - 1) + 8 * k := by
      obtain ⟨j, rfl⟩ : ∃ j, k = j + 1 := ⟨k - 1, by omega⟩
      have hbase : 2 * (j + 1) - 1 = 2 * j + 1 := by omega
      rw [hbase]
      ring
    rw [hidx, sensorOffsetMap_ring k m h0 h hm, hoff]
    exact ⟨rfl, by omega⟩

/-- The ring of a table entry below `(2h+1)^2` is at most `h`. -/
theorem table_window (h n : Nat) (hh : h ≤ 55) (hn : n < (2 * h + 1) * (2 * h + 1)) :
    ∃ dx dy, sensorOffsetMap n = some (dx, dy) ∧ offsetRing dx dy ≤ h := by
  rcases Nat.eq_zero_or_pos n with h0 | h0
  · subst h0
    exact ⟨0, 0, sensorOffsetMap_zero, by simp [offsetRing]⟩
  · have hn2 : n < 111 * 111 := by
      have : (2 * h + 1) * (2 * h + 1) ≤ 111 * 111 := Nat.mul_le_mul (by omega) (by omega)
      omega
    obtain ⟨k, hk1, hk2, hlo, hhi⟩ := ring_of_index n h0 hn2
    have hkh : k ≤ h := by
      by_contra hc
      have : (2 * h + 1) * (2 * h + 1) ≤ (2 * k - 1) * (2 * k - 1) :=
        Nat.mul_le_mul (by omega) (by omega)
      omega
    have hsq : (2 * k + 1) * (2 * k + 1) = (2 * k - 1) * (2 * k - 1) + 8 * k := by
      obtain ⟨j, rfl⟩ : ∃ j, k = j + 1 := ⟨k - 1, by omega⟩
      have hbase : 2 * (j + 1) - 1 = 2 * j + 1 := by omega
      rw [hbase]
      ring
    have hm : n - (2 * k - 1) * (2 * k - 1) < 8 * k := by omega
    refine ⟨(ringOffset k (n - (2 * k - 1) * (2 * k - 1))).1,
      (ringOffset k (n - (2 * k - 1) * (2 * k - 1))).2,
      sensorOffsetMap_of_ring n k ⟨hk1, hk2, hlo, hhi⟩, ?_⟩
    have hrad := ringOffset_radius k _ hm
    generalize ringOffset k (n - (2 * k - 1) * (2 * k - 1)) = p at hrad ⊢
    rw [Int.abs_eq_natAbs, Int.abs_eq_natAbs] at hrad
    unfold offsetRing
    omega

theorem length_filterMap_of_isSome {α γ : Type} (f : α → Option γ) (l : List α)
    (h : ∀ a, a ∈ l → ∃ b, f a = some b) : (l.filterMap f).length = l.length := by
  induction l with
  | nil => rfl
  | cons a l ih =>
    obtain ⟨b, hb⟩ := h a (List.mem_cons_self _ _)
    rw [List.filterMap_cons_some hb, List.length_cons, List.length_cons,
      ih (fun x hx => h x (List.mem_cons_of_mem _ hx))]

end SensorBijection

/-! ## Claims about the window of the camera -/

section WindowClaims

/-- C32: for every odd `s` with `1 ≤ s ≤ 111`, the sensor offset table restricted to the
indices `0 .. s^2 - 1` is a bijection onto the offsets `(dx, dy)` with
`|dx| ≤ (s-1)/2` and `|dy| ≤ (s-1)/2`; all `111^2` offsets of the table are pairwise
distinct; a camera of size `s` therefore looks at exactly the `s x s` square of cells
centered on the camera, at each cell once. -/
theorem sensor_table_window_bijection (s : Nat) (hodd : s % 2 = 1) (hs : s ≤ 111) :
    (∀ n, n < s * s →
        ∃ dx dy : Int, sensorOffsetMap n = some (dx, dy) ∧
          |dx| ≤ (((s - 1) / 2 : Nat) : Int) ∧ |dy| ≤ (((s - 1) / 2 : Nat) : Int)) ∧
      (∀ dx dy : Int, |dx| ≤ (((s - 1) / 2 : Nat) : Int) →
        |dy| ≤ (((s - 1) / 2 : Nat) : Int) →
        ∃ n, n < s * s ∧ sensorOffsetMap n = some (dx, dy) ∧
          ∀ m, sensorOffsetMap m = some (dx, dy) → m = n) ∧
      (∀ n m, n < sensorOffsetMapSize → m < sensorOffsetMapSize →
        sensorOffsetMap n = sensorOffsetMap m → n = m) ∧
      ∀ cam : Camera, cam.cameraSize = s →
        (cameraWindow cam).Nodup ∧ (cameraWindow cam).length = s * s ∧
        ∀ x y : Int, (x, y) ∈ cameraWindow cam ↔
          (|x - cam.cameraX| ≤ (((s - 1) / 2 : Nat) : Int) ∧
            |y - cam.cameraY| ≤ (((s - 1) / 2 : Nat) : Int)) := by
  obtain ⟨h, rfl⟩ : ∃ h, s = 2 * h + 1 := ⟨s / 2, by omega⟩
  have hh : h ≤ 55 := by omega
  have hhalf : (2 * h + 1 - 1) / 2 = h := by omega
  rw [hhalf]
  have part1 : ∀ n, n < (2 * h + 1) * (2 * h + 1) →
      ∃ dx dy : Int, sensorOffsetMap n = some (dx, dy) ∧ |dx| ≤ (h : Int) ∧
        |dy| ≤ (h : Int) := by
    intro n hn
    obtain ⟨dx, dy, hoff, hring⟩ := table_window h n hh hn
    refine ⟨dx, dy, hoff, ?_, ?_⟩
    · rw [Int.abs_eq_natAbs]
      unfold offsetRing at hring
      omega
    · rw [Int.abs_eq_natAbs]
      unfold offsetRing at hring
      omega
  have part2 : ∀ dx dy : Int, |dx| ≤ (h : Int) → |dy| ≤ (h : Int) →
      ∃ n, n < (2 * h + 1) * (2 * h + 1) ∧ sensorOffsetMap n = some (dx, dy) ∧
        ∀ m, sensorOffsetMap m = some (dx, dy) → m = n := by
    intro dx dy hdx hdy
    rw [Int.abs_eq_natAbs] at hdx hdy
    have hring : offsetRing dx dy ≤ h := by
      unfold offsetRing
      omega
    obtain ⟨hoff, hlt⟩ := sensorOffsetMap_offsetIndex dx dy (by omega)
    refine ⟨offsetIndex dx dy, ?_, hoff, ?_⟩
    · have : (2 * offsetRing dx dy + 1) * (2 * offsetRing dx dy + 1) ≤
          (2 * h + 1) * (2 * h + 1) := Nat.mul_le_mul (by omega) (by omega)
      omega
    · intro m hm
      exact (offsetIndex_of_table m (dx, dy) hm).symm
  refine ⟨part1, part2, fun n m hn _ hnm => sensorOffsetMap_injective n m hn hnm, ?_⟩
  intro cam hcam
  unfold cameraWindow
  rw [hcam]
  refine ⟨?_, ?_, ?_⟩
  · apply List.Nodup.filterMap _ (List.nodup_range _)
    intro a a' b hb hb'
    rw [Option.mem_def, Option.map_eq_some'] at hb hb'
    obtain ⟨p, hp, hpb⟩ := hb
    obtain ⟨p', hp', hpb'⟩ := hb'
    have hpp : p = p' := by
      rw [← hpb'] at hpb
      simp only [Prod.mk.injEq, add_right_inj] at hpb
      exact Prod.ext hpb.1 hpb.2
    rw [← offsetIndex_of_table a p hp, ← offsetIndex_of_table a' p' hp', hpp]
  · rw [length_filterMap_of_isSome, List.length_range]
    intro a ha
    obtain ⟨dx, dy, hoff, _⟩ := part1 a (List.mem_range.mp ha)
    exact ⟨_, by rw [hoff]; rfl⟩
  · intro x y
    rw [List.mem_filterMap]
    constructor
    · rintro ⟨n, hn, hmap⟩
      obtain ⟨dx, dy, hoff, hdx, hdy⟩ := part1 n (List.mem_range.mp hn)
      rw [hoff] at hmap
      simp only [Option.map_some', Option.some.injEq, Prod.mk.injEq] at hmap
      obtain ⟨hx, hy⟩ := hmap
      rw [← hx, ← hy, add_sub_cancel_left, add_sub_cancel_left]
      exact ⟨hdx, hdy⟩
    · rintro ⟨hx, hy⟩
      obtain ⟨n, hn, hoff, _⟩ := part2 (x - cam.cameraX) (y - cam.cameraY) hx hy
      refine ⟨n, List.mem_range.mpr hn, ?_⟩
      rw [hoff]
      simp only [Option.map_some', Option.some.injEq, Prod.mk.injEq]
      constructor <;> ring

/-- C32 for the size 3 with which every trial starts, on the camera centered at
`(2, 2)`: the nine sensors look at nine distinct cells, the square `1..3 x 1..3`. -/
theorem sensor_table_window_bijection_witness :
    3 % 2 = 1 ∧ 3 ≤ 111 ∧
      (cameraWindow { cameraX := 2, cameraY := 2, cameraSize := 3 }).Nodup ∧
      (cameraWindow { cameraX := 2, cameraY := 2, cameraSize := 3 }).length = 3 * 3 ∧
      ∀ x y : Int, (x, y) ∈ cameraWindow { cameraX := 2, cameraY := 2, cameraSize := 3 } ↔
        (|x - 2| ≤ (((3 - 1) / 2 : Nat) : Int) ∧ |y - 2| ≤ (((3 - 1) / 2 : Nat) : Int)) :=
  ⟨by decide, by decide,
    (sensor_table_window_bijection 3 (by decide) (by decide)).2.2.2
      { cameraX := 2, cameraY := 2, cameraSize := 3 } rfl⟩

end WindowClaims

/-! ## Rounding to `float` and `double` -/

section Rounding

theorem roundHalfEven_of_near (x : ℚ) (n : Int) (h1 : (n : ℚ) - 1 / 2 < x)
    (h2 : x < (n : ℚ) + 1 / 2) : roundHalfEven x = n := by
  unfold roundHalfEven
  rcases le_or_lt (n : ℚ) x with h | h
  · have hf : ⌊x⌋ = n := Int.floor_eq_iff.mpr ⟨h, by linarith⟩
    rw [hf, if_pos (by linarith)]
  · have hf : ⌊x⌋ = n - 1 := Int.floor_eq_iff.mpr ⟨by push_cast; linarith, by push_cast; linarith⟩
    rw [hf]
    push_cast
    rw [if_neg (by linarith), if_pos (by linarith)]
    ring

theorem roundHalfEven_intCast (n : Int) : roundHalfEven (n : ℚ) = n :=
  roundHalfEven_of_near _ n (by linarith) (by linarith)

/-- The rounded value is within one half of the value. -/
theorem roundHalfEven_near (x : ℚ) :
    x - 1 / 2 ≤ (roundHalfEven x : ℚ) ∧ (roundHalfEven x : ℚ) ≤ x + 1 / 2 := by
  have h1 : ((⌊x⌋ : Int) : ℚ) ≤ x := Int.floor_le x
  have h2 : x < ((⌊x⌋ : Int) : ℚ) + 1 := Int.lt_floor_add_one x
  unfold roundHalfEven
  by_cases c1 : x - (⌊x⌋ : ℚ) < 1 / 2
  · rw [if_pos c1]
    constructor <;> linarith
  · rw [if_neg c1]
    by_cases c2 : 1 / 2 < x - (⌊x⌋ : ℚ)
    · rw [if_pos c2]
      push_cast
      constructor <;> linarith
    · rw [if_neg c2]
      have he : x - (⌊x⌋ : ℚ) = 1 / 2 := le_antisymm (not_lt.mp c2) (not_lt.mp c1)
      by_cases c3 : ⌊x⌋ % 2 = 0
      · rw [if_pos c3]
        constructor <;> linarith
      · rw [if_neg c3]
        push_cast
        constructor <;> linarith

theorem roundHalfEven_ge_int (a : Int) (x : ℚ) (h : (a : ℚ) ≤ x) : a ≤ roundHalfEven x := by
  have h1 := (roundHalfEven_near x).1
  have h2 : ((a - 1 : Int) : ℚ) < (roundHalfEven x : ℚ) := by
    push_cast
    linarith
  have h3 : a - 1 < roundHalfEven x := by exact_mod_cast h2
  omega

theorem roundHalfEven_le_int (b : Int) (x : ℚ) (h : x ≤ (b : ℚ)) : roundHalfEven x ≤ b := by
  have h1 := (roundHalfEven_near x).2
  have h2 : (roundHalfEven x : ℚ) < ((b + 1 : Int) : ℚ) := by
    push_cast
    linarith
  have h3 : roundHalfEven x < b + 1 := by exact_mod_cast h2
  omega

theorem log_two_eq (x : ℚ) (e : Int) (h1 : (2 : ℚ) ^ e ≤ x) (h2 : x < (2 : ℚ) ^ (e + 1)) :
    Int.log 2 x = e := by
  have hx : 0 < x := lt_of_lt_of_le (by positivity) h1
  have a : e ≤ Int.log 2 x :=
    (@Int.zpow_le_iff_le_log ℚ _ _ 2 (by norm_num) e x hx).mp (by exact_mod_cast h1)
  have b : Int.log 2 x < e + 1 :=
    (@Int.lt_zpow_iff_log_lt ℚ _ _ 2 (by norm_num) (e + 1) x hx).mp (by exact_mod_cast h2)
  omega

/-- The binade of a positive value. -/
theorem log_two_bounds (x : ℚ) (hx : 0 < x) :
    (2 : ℚ) ^ Int.log 2 x ≤ x ∧ x < (2 : ℚ) ^ (Int.log 2 x + 1) := by
  have h1 := @Int.zpow_log_le_self ℚ _ _ 2 x (by norm_num) hx
  have h2 := @Int.lt_zpow_succ_log_self ℚ _ _ 2 (by norm_num) x
  exact ⟨by exact_mod_cast h1, by exact_mod_cast h2⟩

/-- The rounding of a positive value from its binade and the rounding of the scaled
value. -/
theorem roundToPrecision_eval (p : Nat) (x : ℚ) (e n : Int) (h1 : (2 : ℚ) ^ e ≤ x)
    (h2 : x < (2 : ℚ) ^ (e + 1))
    (hn : roundHalfEven (x * (2 : ℚ) ^ ((p : Int) - 1 - e)) = n) :
    roundToPrecision p x = (n : ℚ) / (2 : ℚ) ^ ((p : Int) - 1 - e) := by
  have hx : 0 < x := lt_of_lt_of_le (by positivity) h1
  unfold roundToPrecision
  rw [if_neg (ne_of_gt hx), abs_of_pos hx, log_two_eq x e h1 h2, hn]

theorem roundToPrecision_zero (p : Nat) : roundToPrecision p 0 = 0 := by
  unfold roundToPrecision
  rw [if_pos rfl]

theorem roundToPrecision_nonneg (p : Nat) (x : ℚ) (hx : 0 ≤ x) : 0 ≤ roundToPrecision p x := by
  rcases eq_or_lt_of_le hx with h | h
  · rw [← h, roundToPrecision_zero]
  · unfold roundToPrecision
    rw [if_neg (ne_of_gt h)]
    apply div_nonneg
    · have : (0 : Int) ≤ roundHalfEven (x * (2 : ℚ) ^ ((p : Int) - 1 - Int.log 2 |x|)) :=
        roundHalfEven_ge_int 0 _ (by push_cast; positivity)
      exact_mod_cast this
    · positivity

/-- The rounding error is at most the value times `2^-p`: upper side. -/
theorem roundToPrecision_le (p : Nat) (x : ℚ) (hx : 0 < x) :
    roundToPrecision p x ≤ x + x / (2 : ℚ) ^ p := by
  obtain ⟨hl1, _⟩ := log_two_bounds x hx
  unfold roundToPrecision
  rw [if_neg (ne_of_gt hx), abs_of_pos hx]
  generalize Int.log 2 x = e at hl1 ⊢
  have hpos : (0 : ℚ) < (2 : ℚ) ^ ((p : Int) - 1 - e) := by positivity
  rw [div_le_iff₀ hpos]
  have hr := (roundHalfEven_near (x * (2 : ℚ) ^ ((p : Int) - 1 - e))).2
  have hkey : (1 : ℚ) / 2 ≤ x / (2 : ℚ) ^ p * (2 : ℚ) ^ ((p : Int) - 1 - e) := by
    have e1 : (2 : ℚ) ^ ((p : Int) - 1 - e) = (2 : ℚ) ^ (p : Int) / 2 / (2 : ℚ) ^ e := by
      rw [zpow_sub₀ (by norm_num), zpow_sub₀ (by norm_num), zpow_one]
    rw [e1, zpow_natCast]
    have h2p : (0 : ℚ) < (2 : ℚ) ^ p := by positivity
    have h2e : (0 : ℚ) < (2 : ℚ) ^ e := by positivity
    have : x / (2 : ℚ) ^ p * ((2 : ℚ) ^ p / 2 / (2 : ℚ) ^ e) = x / (2 : ℚ) ^ e / 2 := by
      have a1 : (2 : ℚ) ^ p ≠ 0 := ne_of_gt h2p
      have a2 : (2 : ℚ) ^ e ≠ 0 := ne_of_gt h2e
      field_simp
      exact Or.inl (mul_comm _ _)
    rw [this]
    have : 1 ≤ x / (2 : ℚ) ^ e := by
      rw [le_div_iff₀ h2e]
      linarith
    linarith
  calc (roundHalfEven (x * (2 : ℚ) ^ ((p : Int) - 1 - e)) : ℚ)
      ≤ x * (2 : ℚ) ^ ((p : Int) - 1 - e) + 1 / 2 := hr
    _ ≤ x * (2 : ℚ) ^ ((p : Int) - 1 - e) + x / (2 : ℚ) ^ p * (2 : ℚ) ^ ((p : Int) - 1 - e) := by
        linarith
    _ = (x + x / (2 : ℚ) ^ p) * (2 : ℚ) ^ ((p : Int) - 1 - e) := by ring

/-- A nonnegative integer multiple of `2^-k` with fewer than `p` bits is not changed by
the rounding. -/
theorem roundToPrecision_dyadic (p : Nat) (M k : Nat) (h : M < 2 ^ p) :
    roundToPrecision p ((M : ℚ) / (2 : ℚ) ^ k) = (M : ℚ) / (2 : ℚ) ^ k := by
  rcases Nat.eq_zero_or_pos M with h0 | h0
  · subst h0
    simp [roundToPrecision_zero]
  · have hk : (0 : ℚ) < (2 : ℚ) ^ k := by positivity
    have hx : (0 : ℚ) < (M : ℚ) / (2 : ℚ) ^ k := div_pos (by exact_mod_cast h0) hk
    obtain ⟨hl1, hl2⟩ := log_two_bounds _ hx
    unfold roundToPrecision
    rw [if_neg (ne_of_gt hx), abs_of_pos hx]
    generalize Int.log 2 ((M : ℚ) / (2 : ℚ) ^ k) = e at hl1 hl2 ⊢
    have hMq : (M : ℚ) < (2 : ℚ) ^ p := by exact_mod_cast h
    have he : e + (k : Int) < (p : Int) := by
      have h1 : (2 : ℚ) ^ e * (2 : ℚ) ^ k ≤ (M : ℚ) := by
        rw [le_div_iff₀ hk] at hl1
        exact hl1
      have h2 : (2 : ℚ) ^ (e + (k : Int)) < (2 : ℚ) ^ (p : Int) := by
        rw [zpow_add₀ (by norm_num), zpow_natCast, zpow_natCast]
        linarith
      exact (zpow_lt_zpow_iff_right₀ (by norm_num : (1 : ℚ) < 2)).mp h2
    obtain ⟨t, ht⟩ : ∃ t : Nat, (p : Int) - 1 - e = (k : Int) + (t : Int) :=
      ⟨((p : Int) - 1 - e - k).toNat, by omega⟩
    rw [ht]
    have hz : (M : ℚ) / (2 : ℚ) ^ k * (2 : ℚ) ^ ((k : Int) + (t : Int)) =
        (((M * 2 ^ t : Nat) : Int) : ℚ) := by
      rw [zpow_add₀ (by norm_num), zpow_natCast, zpow_natCast]
      push_cast
      field_simp
      ring
    rw [hz, roundHalfEven_intCast, zpow_add₀ (by norm_num), zpow_natCast, zpow_natCast]
    push_cast
    field_simp
    ring

theorem toFloat_third : toFloat (1 / 3) = 11184811 / 33554432 := by
  unfold toFloat
  rw [roundToPrecision_eval 24 (1 / 3) (-2) 11184811 (by norm_num) (by norm_num)
    (roundHalfEven_of_near _ _ (by norm_num) (by norm_num))]
  norm_num

end Rounding

/-! ## The evaluation with the roundings of the source -/

section FloatGame

variable {β : Type} (C : Controller β) (maxNodes : Nat) (g : DigitGrid) (zoomingCamera : Bool)

/-- The `float` quotient `1/k` for `k = 1 .. 10` is a multiple of `2^-27` not above 1. -/
theorem toFloat_inv (k : Nat) (h1 : 1 ≤ k) (h2 : k ≤ 10) :
    ∃ m : Nat, m ≤ 2 ^ 27 ∧ toFloat (1 / (k : ℚ)) = (m : ℚ) / (2 : ℚ) ^ 27 := by
  unfold toFloat
  interval_cases k
  · exact ⟨2 ^ 27, le_refl _, by
      rw [roundToPrecision_eval 24 _ 0 8388608 (by norm_num) (by norm_num)
        (roundHalfEven_of_near _ _ (by norm_num) (by norm_num))]
      norm_num⟩
  · exact ⟨2 ^ 26, by norm_num, by
      rw [roundToPrecision_eval 24 _ (-1) 8388608 (by norm_num) (by norm_num)
        (roundHalfEven_of_near _ _ (by norm_num) (by norm_num))]
      norm_num⟩
  · exact ⟨11184811 * 4, by norm_num, by
      rw [roundToPrecision_eval 24 _ (-2) 11184811 (by norm_num) (by norm_num)
        (roundHalfEven_of_near _ _ (by norm_num) (by norm_num))]
      norm_num⟩
  · exact ⟨2 ^ 25, by norm_num, by
      rw [roundToPrecision_eval 24 _ (-2) 8388608 (by norm_num) (by norm_num)
        (roundHalfEven_of_near _ _ (by norm_num) (by norm_num))]
      norm_num⟩
  · exact ⟨13421773 * 2, by norm_num, by
      rw [roundToPrecision_eval 24 _ (-3) 13421773 (by norm_num) (by norm_num)
        (roundHalfEven_of_near _ _ (by norm_num) (by norm_num))]
      norm_num⟩
  · exact ⟨11184811 * 2, by norm_num, by
      rw [roundToPrecision_eval 24 _ (-3) 11184811 (by norm_num) (by norm_num)
        (roundHalfEven_of_near _ _ (by norm_num) (by norm_num))]
      norm_num⟩
  · exact ⟨9586981 * 2, by norm_num, by
      rw [roundToPrecision_eval 24 _ (-3) 9586981 (by norm_num) (by norm_num)
        (roundHalfEven_of_near _ _ (by norm_num) (by norm_num))]
      norm_num⟩
  · exact ⟨2 ^ 24, by norm_num, by
      rw [roundToPrecision_eval 24 _ (-3) 8388608 (by norm_num) (by norm_num)
        (roundHalfEven_of_near _ _ (by norm_num) (by norm_num))]
      norm_num⟩
  · exact ⟨14913081, by norm_num, by
      rw [roundToPrecision_eval 24 _ (-4) 14913081 (by norm_num) (by norm_num)
        (roundHalfEven_of_near _ _ (by norm_num) (by norm_num))]
      norm_num⟩
  · exact ⟨13421773, by norm_num, by
      rw [roundToPrecision_eval 24 _ (-4) 13421773 (by norm_num) (by norm_num)
        (roundHalfEven_of_near _ _ (by norm_num) (by norm_num))]
      norm_num⟩

/-- A trial score of the specification, rounded to `float`, is a multiple of `2^-27`
not above 1. -/
theorem toFloat_specTrialScore (digit : Nat) (classify veto : Nat → Nat) :
    ∃ m : Nat, m ≤ 2 ^ 27 ∧
      toFloat (specTrialScore digit classify veto) = (m : ℚ) / (2 : ℚ) ^ 27 := by
  unfold specTrialScore
  by_cases h : claimed classify veto digit ∧ 0 < numClaimed classify veto
  · rw [if_pos h]
    exact toFloat_inv _ h.2 (numClaimed_le classify veto)
  · rw [if_neg h]
    exact ⟨0, by norm_num, by simp [toFloat, roundToPrecision_zero]⟩

/-- The scoring of a trial with the roundings: the `float` score is added in `double`
when some digit is claimed. -/
theorem scoreTrialFloat_fitness (digit : Nat) (classify veto : Nat → Nat) (agent : tAgent β)
    (hd : digit < 10) :
    (scoreTrialFloat digit classify veto agent).classificationFitness =
        (if 0 < numClaimed classify veto then
          toDouble (agent.classificationFitness +
            toFloat (specTrialScore digit classify veto))
        else agent.classificationFitness) ∧
      (scoreTrialFloat digit classify veto agent).fitness = agent.fitness := by
  have hn := scoreOver_num digit classify veto (List.range 10)
    { agent := agent, score := 0, numDigitsGuessed := 0 }
  have hs := scoreOver_score digit classify veto (List.range 10)
    { agent := agent, score := 0, numDigitsGuessed := 0 }
  have hf := scoreOver_fitness digit classify veto (List.range 10)
    { agent := agent, score := 0, numDigitsGuessed := 0 }
  simp only [zero_add, List.mem_range] at hn hs hf
  unfold scoreTrialFloat
  simp only [scoreLoop_eq]
  by_cases hk : 0 < numClaimed classify veto
  · have hk2 : (scoreOver digit classify veto (List.range 10)
        { agent := agent, score := 0, numDigitsGuessed := 0 }).numDigitsGuessed > 0 := by
      rw [hn]
      exact_mod_cast hk
    rw [if_pos hk2, if_pos hk]
    simp only [hf.1, hf.2, hn, hs]
    refine ⟨?_, trivial⟩
    congr 2
    unfold specTrialScore
    by_cases hc : claimed classify veto digit
    · rw [if_pos ⟨hc, hd⟩, if_pos ⟨hc, hk⟩]
      rfl
    · rw [if_neg (fun h => hc h.1), if_neg (fun h => hc h.1)]
      simp
  · have hk0 : numClaimed classify veto = 0 := by omega
    have hk2 : ¬ (scoreOver digit classify veto (List.range 10)
        { agent := agent, score := 0, numDigitsGuessed := 0 }).numDigitsGuessed > 0 := by
      rw [hn]
      unfold numClaimed at hk0
      simp [hk0]
    rw [if_neg hk2, if_neg hk]
    exact ⟨hf.1, hf.2⟩

theorem runTrialFloat_fitness (agent : tAgent β) (digit : Nat) (hd : digit < 10) :
    (runTrialFloat C maxNodes g zoomingCamera agent digit).classificationFitness =
        (if 0 < numClaimed (trialClassify C maxNodes g zoomingCamera agent digit)
            (trialVeto C maxNodes g zoomingCamera agent digit) then
          toDouble (agent.classificationFitness +
            toFloat (specTrialScore digit
              (trialClassify C maxNodes g zoomingCamera agent digit)
              (trialVeto C maxNodes g zoomingCamera agent digit)))
        else agent.classificationFitness) ∧
      (runTrialFloat C maxNodes g zoomingCamera agent digit).fitness = agent.fitness := by
  unfold runTrialFloat
  simp only []
  rw [(scoreTrialFloat_fitness digit _ _ _ hd).1, (scoreTrialFloat_fitness digit _ _ _ hd).2]
  exact ⟨rfl, rfl⟩

/-- One trial adds its `float` score exactly: the sums that occur have fewer than 53
bits. -/
theorem runTrialFloat_exact (agent : tAgent β) (digit : Nat) (hd : digit < 10) (M : Nat)
    (hM : agent.classificationFitness = (M : ℚ) / (2 : ℚ) ^ 27) (hb : M + 2 ^ 27 < 2 ^ 53) :
    ∃ m : Nat, m ≤ 2 ^ 27 ∧
      toFloat (specTrialScore digit (trialClassify C maxNodes g zoomingCamera agent digit)
        (trialVeto C maxNodes g zoomingCamera agent digit)) = (m : ℚ) / (2 : ℚ) ^ 27 ∧
      (runTrialFloat C maxNodes g zoomingCamera agent digit).classificationFitness =
        ((M + m : Nat) : ℚ) / (2 : ℚ) ^ 27 := by
  obtain ⟨m, hm1, hm2⟩ := toFloat_specTrialScore digit
    (trialClassify C maxNodes g zoomingCamera agent digit)
    (trialVeto C maxNodes g zoomingCamera agent digit)
  rw [(runTrialFloat_fitness C maxNodes g zoomingCamera agent digit hd).1]
  by_cases hk : 0 < numClaimed (trialClassify C maxNodes g zoomingCamera agent digit)
      (trialVeto C maxNodes g zoomingCamera agent digit)
  · refine ⟨m, hm1, hm2, ?_⟩
    rw [if_pos hk, hm2, hM]
    have hsum : (M : ℚ) / (2 : ℚ) ^ 27 + (m : ℚ) / (2 : ℚ) ^ 27 =
        ((M + m : Nat) : ℚ) / (2 : ℚ) ^ 27 := by
      push_cast
      ring
    rw [hsum]
    exact roundToPrecision_dyadic 53 (M + m) 27 (by omega)
  · have hs0 : specTrialScore digit (trialClassify C maxNodes g zoomingCamera agent digit)
        (trialVeto C maxNodes g zoomingCamera agent digit) = 0 := by
      unfold specTrialScore
      rw [if_neg (fun h => hk h.2)]
    refine ⟨0, by norm_num, by rw [hs0]; simp [toFloat, roundToPrecision_zero], ?_⟩
    rw [if_neg hk, hM]
    simp

/-- The trials add their `float` scores exactly. -/
theorem trialsFloat_fitness (digits : List Nat) (agent : tAgent β)
    (hd : ∀ d ∈ digits, d < 10) (M : Nat)
    (hM : agent.classificationFitness = (M : ℚ) / (2 : ℚ) ^ 27)
    (hb : M + digits.length * 2 ^ 27 < 2 ^ 53) :
    (digits.foldl (runTrialFloat C maxNodes g zoomingCamera) agent).classificationFitness =
        agent.classificationFitness +
          (trialScoresFloat C maxNodes g zoomingCamera digits agent).sum := by
  induction digits generalizing agent M with
  | nil => simp [trialScoresFloat]
  | cons d ds ih =>
    have hd0 : d < 10 := hd d (List.mem_cons_self d ds)
    have hds : ∀ x ∈ ds, x < 10 := fun x hx => hd x (List.mem_cons_of_mem d hx)
    rw [List.length_cons] at hb
    obtain ⟨m, hm1, hm2, hm3⟩ := runTrialFloat_exact C maxNodes g zoomingCamera agent d hd0 M
      hM (by omega)
    rw [List.foldl_cons, ih _ hds (M + m) hm3 (by omega), hm3]
    simp only [trialScoresFloat, List.sum_cons]
    rw [hm2, hM]
    push_cast
    ring

theorem trialScoresFloat_length (digits : List Nat) (agent : tAgent β) :
    (trialScoresFloat C maxNodes g zoomingCamera digits agent).length = digits.length := by
  induction digits generalizing agent with
  | nil => simp [trialScoresFloat]
  | cons d ds ih => simp [trialScoresFloat, ih]

/-- The two fitness values after `playGameFloat` over ten trials. -/
theorem playGameFloat_fitness (digits : List Nat) (a : tAgent β)
    (hd : ∀ d ∈ digits, d < 10) (hl : digits.length = 10) :
    (playGameFloat C maxNodes g zoomingCamera digits a).classificationFitness =
        toDouble ((trialScoresFloat C maxNodes g zoomingCamera digits
          (resetAgent C a)).sum / 10) ∧
      (playGameFloat C maxNodes g zoomingCamera digits a).fitness =
        (if (playGameFloat C maxNodes g zoomingCamera digits a).classificationFitness ≤ 0
          then toDouble (1 / 1000000)
          else (playGameFloat C maxNodes g zoomingCamera digits a).classificationFitness) := by
  have h0 : (resetAgent C a).classificationFitness = ((0 : Nat) : ℚ) / (2 : ℚ) ^ 27 := by
    simp [resetAgent]
  have h := trialsFloat_fitness C maxNodes g zoomingCamera digits (resetAgent C a) hd 0 h0
    (by rw [hl]; norm_num)
  have h1 : (resetAgent C a).classificationFitness = 0 := rfl
  rw [h1, zero_add] at h
  unfold playGameFloat finishGameFloat
  simp only [h]
  exact ⟨trivial, trivial⟩

end FloatGame

/-! ## Claims about the fitness with the roundings of the source -/

section FloatGameClaims

variable {β : Type}

theorem executeGameFloat_some (C : Controller β) (maxNodes : Nat)
    (shuffle : List Nat → List Nat) (draws : List (ℚ × ℚ)) (eddAgent : tAgent β)
    (dataFile report : Bool) (gridSizeX gridSizeY : Nat)
    (zoomingCamera randomPlacement noise : Bool) (noiseAmount : ℚ)
    (r : tAgent β × Option (Nat × ℚ))
    (h : executeGameFloat C maxNodes shuffle draws eddAgent dataFile report gridSizeX
      gridSizeY zoomingCamera randomPlacement noise noiseAmount = some r) :
    ∃ g, placeDigits randomPlacement (List.range 10) (emptyGrid gridSizeX gridSizeY) draws =
        some g ∧
      r.1 = playGameFloat C maxNodes g zoomingCamera (shuffle (List.range 10)) eddAgent := by
  unfold executeGameFloat at h
  cases hp : placeDigits randomPlacement (List.range 10) (emptyGrid gridSizeX gridSizeY)
      draws with
  | none => rw [hp] at h; simp at h
  | some g =>
    rw [hp] at h
    simp only [Option.some.injEq] at h
    exact ⟨g, rfl, by rw [← h]⟩

theorem executeGameFloat_centered (C : Controller β) (maxNodes : Nat)
    (shuffle : List Nat → List Nat) (draws : List (ℚ × ℚ)) (eddAgent : tAgent β)
    (dataFile report : Bool) (gridSizeX gridSizeY : Nat)
    (zoomingCamera noise : Bool) (noiseAmount : ℚ) :
    (executeGameFloat C maxNodes shuffle draws eddAgent dataFile report gridSizeX gridSizeY
      zoomingCamera false noise noiseAmount).isSome = true := by
  unfold executeGameFloat
  have h := placeDigits_centered (List.range 10) (emptyGrid gridSizeX gridSizeY) draws
  cases hp : placeDigits false (List.range 10) (emptyGrid gridSizeX gridSizeY) draws with
  | none => rw [hp] at h; simp at h
  | some g => simp

/-- The controller with three claims leaves the same register contents at the end of
every trial. -/
theorem triple_states (g : DigitGrid) (zoomingCamera : Bool) (agent : tAgent Unit)
    (digit : Nat) :
    (runSteps tripleController 64 g zoomingCamera agent digit).states =
      fun n => if n = 54 ∨ n = 53 ∨ n = 52 then 1 else 0 := by
  unfold runSteps totalStepsInSimulation
  rw [List.range_succ, List.foldl_append]
  rfl

/-- With that controller the digits 3, 4 and 5 are claimed in every trial: the trials of
3, 4 and 5 have the score `1/3`, the others 0. -/
theorem triple_specTrialScore (g : DigitGrid) (zoomingCamera : Bool) (agent : tAgent Unit)
    (d : Nat) :
    specTrialScore d (trialClassify tripleController 64 g zoomingCamera agent d)
        (trialVeto tripleController 64 g zoomingCamera agent d) =
      if d = 3 ∨ d = 4 ∨ d = 5 then 1 / 3 else 0 := by
  have hc : ∀ i, claimed (trialClassify tripleController 64 g zoomingCamera agent d)
      (trialVeto tripleController 64 g zoomingCamera agent d) i ↔ (i = 3 ∨ i = 4 ∨ i = 5) := by
    intro i
    unfold claimed trialClassify trialVeto classifyDigit vetoBits
    rw [triple_states]
    have h1 : ¬ (64 - 17 - i = 54 ∨ 64 - 17 - i = 53 ∨ 64 - 17 - i = 52) := by omega
    by_cases h3 : i = 3 ∨ i = 4 ∨ i = 5
    · have h2 : 64 - 7 - i = 54 ∨ 64 - 7 - i = 53 ∨ 64 - 7 - i = 52 := by omega
      simp [h1, h2, h3]
    · have h2 : ¬ (64 - 7 - i = 54 ∨ 64 - 7 - i = 53 ∨ 64 - 7 - i = 52) := by omega
      simp [h1, h2, h3]
  have hk : numClaimed (trialClassify tripleController 64 g zoomingCamera agent d)
      (trialVeto tripleController 64 g zoomingCamera agent d) = 3 := by
    unfold numClaimed
    simp only [hc]
    decide
  simp only [specTrialScore, hc, hk]
  by_cases h3 : d = 3 ∨ d = 4 ∨ d = 5
  · simp [h3]
  · simp [h3]

theorem triple_trialScores (g : DigitGrid) (zoomingCamera : Bool) (digits : List Nat)
    (agent : tAgent Unit) :
    trialScores tripleController 64 g zoomingCamera digits agent =
      digits.map (fun d => if d = 3 ∨ d = 4 ∨ d = 5 then 1 / 3 else 0) := by
  induction digits generalizing agent with
  | nil => rfl
  | cons d ds ih => simp only [trialScores, List.map_cons, ih, triple_specTrialScore]

theorem triple_trialScoresFloat (g : DigitGrid) (zoomingCamera : Bool) (digits : List Nat)
    (agent : tAgent Unit) :
    trialScoresFloat tripleController 64 g zoomingCamera digits agent =
      digits.map (fun d => if d = 3 ∨ d = 4 ∨ d = 5 then 11184811 / 33554432 else 0) := by
  induction digits generalizing agent with
  | nil => rfl
  | cons d ds ih =>
    simp only [trialScoresFloat, List.map_cons, ih, triple_specTrialScore]
    by_cases h3 : d = 3 ∨ d = 4 ∨ d = 5
    · rw [if_pos h3, if_pos h3, toFloat_third]
    · rw [if_neg h3, if_neg h3]
      simp [toFloat, roundToPrecision_zero]

/-- C4 (amended): after `executeGame`, `classificationFitness` is the `double` nearest to
(sum of the 10 trial scores)/10, where each trial score is the value `1/k` or `0` of the
specification rounded to `float`; `fitness` equals `classificationFitness` when that
value is `> 0` and the `double` nearest to `0.000001` when it is `<= 0`; the values of
`fitness` and `classificationFitness` held by the agent before the call have no
influence on the result. -/
theorem fitness_is_rounded_mean_trial_score (C : Controller β) (maxNodes : Nat)
    (shuffle : List Nat → List Nat) (draws : List (ℚ × ℚ)) (eddAgent : tAgent β)
    (dataFile report : Bool) (gridSizeX gridSizeY : Nat)
    (zoomingCamera randomPlacement noise : Bool) (noiseAmount : ℚ)
    (hperm : (shuffle (List.range 10)).Perm (List.range 10)) :
    (randomPlacement = false →
        (executeGameFloat C maxNodes shuffle draws eddAgent dataFile report gridSizeX
          gridSizeY zoomingCamera randomPlacement noise noiseAmount).isSome = true) ∧
      (∀ r, executeGameFloat C maxNodes shuffle draws eddAgent dataFile report gridSizeX
          gridSizeY zoomingCamera randomPlacement noise noiseAmount = some r →
        ∃ g, placeDigits randomPlacement (List.range 10) (emptyGrid gridSizeX gridSizeY)
              draws = some g ∧
          (trialScoresFloat C maxNodes g zoomingCamera (shuffle (List.range 10))
              (resetAgent C eddAgent)).length = 10 ∧
          r.1.classificationFitness =
            toDouble ((trialScoresFloat C maxNodes g zoomingCamera (shuffle (List.range 10))
              (resetAgent C eddAgent)).sum / 10) ∧
          (0 < r.1.classificationFitness → r.1.fitness = r.1.classificationFitness) ∧
          (r.1.classificationFitness ≤ 0 → r.1.fitness = toDouble (1 / 1000000))) ∧
      (∀ f cf : ℚ,
        executeGameFloat C maxNodes shuffle draws
            { eddAgent with fitness := f, classificationFitness := cf }
            dataFile report gridSizeX gridSizeY zoomingCamera randomPlacement noise
            noiseAmount =
          executeGameFloat C maxNodes shuffle draws eddAgent dataFile report gridSizeX
            gridSizeY zoomingCamera randomPlacement noise noiseAmount) := by
  refine ⟨?_, ?_, ?_⟩
  · intro hrp
    subst hrp
    exact executeGameFloat_centered C maxNodes shuffle draws eddAgent dataFile report
      gridSizeX gridSizeY zoomingCamera noise noiseAmount
  · intro r hr
    obtain ⟨g, hp, hg⟩ := executeGameFloat_some C maxNodes shuffle draws eddAgent dataFile
      report gridSizeX gridSizeY zoomingCamera randomPlacement noise noiseAmount r hr
    obtain ⟨hlen, hlt⟩ := shuffled_digits _ hperm
    obtain ⟨h1, h2⟩ := playGameFloat_fitness C maxNodes g zoomingCamera
      (shuffle (List.range 10)) eddAgent hlt hlen
    refine ⟨g, hp, ?_, ?_, ?_, ?_⟩
    · rw [trialScoresFloat_length, hlen]
    · rw [hg]
      exact h1
    · intro hpos
      rw [hg] at hpos ⊢
      rw [h2, if_neg (not_le.mpr hpos)]
    · intro hle
      rw [hg] at hle ⊢
      rw [h2, if_pos hle]
  · intro f cf
    rfl

/-- The `double` nearest to `(3 * float(1/3)) / 10`. -/
theorem toDouble_triple_mean :
    toDouble (33554433 / 33554432 / 10) = 3602879809270579 / 36028797018963968 := by
  unfold toDouble
  rw [roundToPrecision_eval 53 _ (-4) 7205759618541158 (by norm_num) (by norm_num)
    (roundHalfEven_of_near _ _ (by norm_num) (by norm_num))]
  norm_num

/-- Witness of C4 (amended): the controller with three claims, trial order `0, .., 9`,
centered placement on a 5x5 grid: three trials have the `float` score
`11184811/33554432` (`0.3333333432674408`), and both fitness fields end at the `double`
`0.10000000298023223`. -/
theorem fitness_is_rounded_mean_trial_score_witness :
    (id (List.range 10)).Perm (List.range 10) ∧
      ∃ r, executeGameFloat tripleController 64 id [] sampleAgent false false 5 5
          false false false 0 = some r ∧
        r.1.classificationFitness = 3602879809270579 / 36028797018963968 ∧
        r.1.fitness = 3602879809270579 / 36028797018963968 := by
  have h := fitness_is_rounded_mean_trial_score tripleController 64 id [] sampleAgent
    false false 5 5 false false false 0 (List.Perm.refl _)
  obtain ⟨r, hr⟩ := Option.isSome_iff_exists.mp (h.1 rfl)
  obtain ⟨g, _, _, hcf, hfit, _⟩ := h.2.1 r hr
  rw [triple_trialScoresFloat] at hcf
  have hsum : ((id (List.range 10)).map
      (fun d => if d = 3 ∨ d = 4 ∨ d = 5 then (11184811 / 33554432 : ℚ) else 0)).sum =
      33554433 / 33554432 := by
    norm_num [List.range_succ]
  rw [hsum, toDouble_triple_mean] at hcf
  refine ⟨List.Perm.refl _, r, hr, hcf, ?_⟩
  rw [hfit (by rw [hcf]; norm_num), hcf]

/-- Counterexample to C4 as stated: the controller with three claims, trial order
`0, .., 9`, centered placement on a 5x5 grid.  The ten trial scores are three times `1/3`
and seven times `0`, so (sum of the 10 trial scores)/10 is `1/10`; the program leaves
`classificationFitness = 0.10000000298023223` (the `float` quotient `1/3` is
`0.3333333432674408`), which is neither `1/10` nor the `double` nearest to `1/10`. -/
theorem mean_trial_score_rounding_counterexample :
    ∃ r g, executeGameFloat tripleController 64 id [] sampleAgent false false 5 5
          false false false 0 = some r ∧
      placeDigits false (List.range 10) (emptyGrid 5 5) [] = some g ∧
      trialScores tripleController 64 g false (id (List.range 10))
          (resetAgent tripleController sampleAgent) =
        [0, 0, 0, 1 / 3, 1 / 3, 1 / 3, 0, 0, 0, 0] ∧
      (trialScores tripleController 64 g false (id (List.range 10))
          (resetAgent tripleController sampleAgent)).sum / 10 = 1 / 10 ∧
      toFloat (1 / 3) = 11184811 / 33554432 ∧
      r.1.classificationFitness = 3602879809270579 / 36028797018963968 ∧
      r.1.classificationFitness ≠ 1 / 10 ∧
      toDouble (1 / 10) = 3602879701896397 / 36028797018963968 ∧
      r.1.classificationFitness ≠ toDouble (1 / 10) := by
  obtain ⟨r, hr⟩ := Option.isSome_iff_exists.mp
    (executeGameFloat_centered tripleController 64 id [] sampleAgent false false 5 5
      false false 0)
  obtain ⟨g, hp, hg⟩ := executeGameFloat_some tripleController 64 id [] sampleAgent false
    false 5 5 false false false 0 r hr
  have hcf := (playGameFloat_fitness tripleController 64 g false (id (List.range 10))
    sampleAgent (fun d hd => List.mem_range.mp hd) (List.length_range 10)).1
  rw [triple_trialScoresFloat] at hcf
  have hsum : ((id (List.range 10)).map
      (fun d => if d = 3 ∨ d = 4 ∨ d = 5 then (11184811 / 33554432 : ℚ) else 0)).sum =
      33554433 / 33554432 := by
    norm_num [List.range_succ]
  rw [hsum, toDouble_triple_mean, ← hg] at hcf
  have hten : toDouble (1 / 10) = 3602879701896397 / 36028797018963968 := by
    unfold toDouble
    rw [roundToPrecision_eval 53 _ (-4) 7205759403792794 (by norm_num) (by norm_num)
      (roundHalfEven_of_near _ _ (by norm_num) (by norm_num))]
    norm_num
  refine ⟨r, g, hr, hp, ?_, ?_, toFloat_third, hcf, ?_, hten, ?_⟩
  · rw [triple_trialScores]
    norm_num [List.range_succ]
  · rw [triple_trialScores]
    norm_num [List.range_succ]
  · rw [hcf]
    norm_num
  · rw [hcf, hten]
    norm_num

end FloatGameClaims

/-! ## The roulette with the roundings of the source -/

section RouletteFloatLemmas

theorem totalFitFloat_succ (f : Nat → ℚ) (i n : Nat) :
    totalFitFloat f i (n + 1) = toFloat (toDouble (totalFitFloat f i n + f (i + n))) := by
  unfold totalFitFloat
  rw [List.range_succ, List.foldl_append]
  rfl

/-- The winner scan over the members `0..n-1` of a group: either `fit_count` has not
exceeded the cut-off and nothing is assigned, or the group is assigned to the first
member at which `fit_count` exceeds it. -/
theorem rouletteScanFloat_spec (f : Nat → ℚ) (c : ℚ) (i size : Nat) (nx : NextGen) (n : Nat) :
    ((∀ j, j < n → totalFitFloat f i (j + 1) ≤ c) →
        (List.range n).foldl (rouletteScanStepFloat f c i size)
            { chosen := false, fit_count := 0, EANextGen := nx } =
          { chosen := false, fit_count := totalFitFloat f i n, EANextGen := nx }) ∧
      (∀ w, w < n → totalFitFloat f i (w + 1) > c →
        (∀ j, j < w → totalFitFloat f i (j + 1) ≤ c) →
        ((List.range n).foldl (rouletteScanStepFloat f c i size)
            { chosen := false, fit_count := 0, EANextGen := nx }).chosen = true ∧
          ((List.range n).foldl (rouletteScanStepFloat f c i size)
            { chosen := false, fit_count := 0, EANextGen := nx }).EANextGen =
            assignGroup nx i size (i + w)) := by
  induction n with
  | zero =>
    refine ⟨fun _ => by simp [totalFitFloat], ?_⟩
    intro w hw
    omega
  | succ n ih =>
    obtain ⟨iha, ihb⟩ := ih
    constructor
    · intro hall
      have hprev := iha (fun j hj => hall j (by omega))
      rw [List.range_succ, List.foldl_append, hprev]
      have hn := hall n (by omega)
      rw [totalFitFloat_succ] at hn ⊢
      simp only [List.foldl_cons, List.foldl_nil, rouletteScanStepFloat]
      simp [not_lt.mpr hn]
    · intro w hw hgt hfirst
      rw [List.range_succ, List.foldl_append]
      simp only [List.foldl_cons, List.foldl_nil]
      by_cases hwn : w < n
      · obtain ⟨h1, h2⟩ := ihb w hwn hgt hfirst
        generalize (List.range n).foldl (rouletteScanStepFloat f c i size)
          { chosen := false, fit_count := 0, EANextGen := nx } = S at h1 h2 ⊢
        have hS : rouletteScanStepFloat f c i size S n = S := by
          unfold rouletteScanStepFloat
          rw [if_pos h1]
        rw [hS]
        exact ⟨h1, h2⟩
      · have hwn2 : w = n := by omega
        subst hwn2
        rw [iha hfirst]
        rw [totalFitFloat_succ] at hgt
        simp only [rouletteScanStepFloat]
        simp [hgt]

/-- Either some member of the group is the first at which `fit_count` exceeds the
cut-off, or none is. -/
theorem first_exceeding_float_cases (f : Nat → ℚ) (c : ℚ) (i size : Nat) :
    (∃ w, w < size ∧ totalFitFloat f i (w + 1) > c ∧
        ∀ j, j < w → totalFitFloat f i (j + 1) ≤ c) ∨
      (∀ j, j < size → totalFitFloat f i (j + 1) ≤ c) := by
  by_cases h : ∃ w, w < size ∧ totalFitFloat f i (w + 1) > c
  · left
    classical
    refine ⟨Nat.find h, (Nat.find_spec h).1, (Nat.find_spec h).2, ?_⟩
    intro j hj
    have hmin := Nat.find_min h hj
    have hjs : j < size := lt_trans hj (Nat.find_spec h).1
    exact not_lt.mp (fun hgt => hmin ⟨hjs, hgt⟩)
  · right
    intro j hj
    exact not_lt.mp (fun hgt => h ⟨j, hj, hgt⟩)

/-- The wheel of one group: all slots of the group go to the first member at which
`fit_count` exceeds `random_cutoff`; when there is none, no slot is assigned. -/
theorem rouletteWheelFloat_spec (f : Nat → ℚ) (r : ℚ) (i size : Nat) (nx : NextGen) :
    (∀ w, w < size → totalFitFloat f i (w + 1) > randomCutoffFloat f r i size →
        (∀ j, j < w → totalFitFloat f i (j + 1) ≤ randomCutoffFloat f r i size) →
        rouletteWheelFloat f r i size nx = assignGroup nx i size (i + w)) ∧
      ((∀ j, j < size → totalFitFloat f i (j + 1) ≤ randomCutoffFloat f r i size) →
        rouletteWheelFloat f r i size nx = nx) := by
  obtain ⟨ha, hb⟩ := rouletteScanFloat_spec f (randomCutoffFloat f r i size) i size nx size
  unfold rouletteWheelFloat
  constructor
  · intro w hw hgt hfirst
    exact (hb w hw hgt hfirst).2
  · intro hall
    simp only []
    rw [ha hall]

theorem rouletteGroupFloat_eq (f : Nat → ℚ) (r : ℚ) (N g i : Nat) (nx : NextGen) :
    rouletteGroupFloat f r N g i nx = rouletteWheelFloat f r i (min g (N - i)) nx := by
  unfold rouletteGroupFloat
  by_cases h : N - i > g
  · rw [if_pos h, min_eq_left (le_of_lt h)]
  · rw [if_neg h, min_eq_right (not_lt.mp h)]

/-- The wheel changes the slots of its group only; when the slots from `i` on are not yet
assigned, the result on the group does not depend on the other slots. -/
theorem rouletteWheelFloat_local (f : Nat → ℚ) (r : ℚ) (i size : Nat) (nx : NextGen)
    (hnx : ∀ k, i ≤ k → nx k = none) (k : Nat) :
    rouletteWheelFloat f r i size nx k =
      if i ≤ k ∧ k < i + size then rouletteWheelFloat f r i size (fun _ => none) k
      else nx k := by
  rcases first_exceeding_float_cases f (randomCutoffFloat f r i size) i size with
    ⟨w, hw, hgt, hfirst⟩ | hall
  · rw [(rouletteWheelFloat_spec f r i size nx).1 w hw hgt hfirst,
      (rouletteWheelFloat_spec f r i size (fun _ => none)).1 w hw hgt hfirst,
      assignGroup_apply, assignGroup_apply]
    by_cases hk : i ≤ k ∧ k < i + size
    · simp [hk]
    · simp [hk]
  · rw [(rouletteWheelFloat_spec f r i size nx).2 hall,
      (rouletteWheelFloat_spec f r i size (fun _ => none)).2 hall]
    by_cases hk : i ≤ k ∧ k < i + size
    · rw [if_pos hk]
      exact hnx k hk.1
    · rw [if_neg hk]

/-- The slot-to-parent map that the roulette loop builds from an empty `EANextGen`. -/
theorem rouletteLoopFloat_spec (f : Nat → ℚ) (rnd : Nat → ℚ) (N g : Nat) (hg : 0 < g) :
    ∀ (fuel m : Nat) (nx : NextGen), N ≤ g * m + fuel → (∀ k, g * m ≤ k → nx k = none) →
      rouletteLoopFloat f rnd N g fuel (g * m) m nx =
        some (fun k =>
          if g * m ≤ k ∧ k < N then
            rouletteWheelFloat f (rnd (k / g)) (groupStart g k) (groupLength N g k)
              (fun _ => none) k
          else nx k) := by
  intro fuel
  induction fuel with
  | zero =>
    intro m nx h _
    have hlt : ¬ g * m < N := by omega
    simp only [rouletteLoopFloat, if_neg hlt, Option.some.injEq]
    funext k
    have hc : ¬ (g * m ≤ k ∧ k < N) := by omega
    rw [if_neg hc]
  | succ fuel ih =>
    intro m nx h hnx
    by_cases hlt : g * m < N
    · have hstep : g * m + g = g * (m + 1) := by ring
      have hsize : min g (N - g * m) ≤ g := min_le_left _ _
      have hsize2 : min g (N - g * m) ≤ N - g * m := min_le_right _ _
      have hnx2 : ∀ k, g * (m + 1) ≤ k →
          rouletteGroupFloat f (rnd m) N g (g * m) nx k = none := by
        intro k hk
        rw [rouletteGroupFloat_eq, rouletteWheelFloat_local f (rnd m) (g * m) _ nx hnx k]
        have hc : ¬ (g * m ≤ k ∧ k < g * m + min g (N - g * m)) := by omega
        rw [if_neg hc]
        exact hnx k (by omega)
      simp only [rouletteLoopFloat, if_pos hlt]
      rw [hstep, ih (m + 1) _ (by rw [← hstep]; omega) hnx2, rouletteGroupFloat_eq]
      simp only [Option.some.injEq]
      funext k
      rw [rouletteWheelFloat_local f (rnd m) (g * m) _ nx hnx k]
      by_cases h1 : g * (m + 1) ≤ k ∧ k < N
      · have h2 : g * m ≤ k ∧ k < N := by omega
        rw [if_pos h1, if_pos h2]
      · rw [if_neg h1]
        by_cases h2 : g * m ≤ k ∧ k < N
        · have hk : k < g * m + g := by omega
          have hs := groupStart_eq g m k h2.1 hk
          have hd := group_div g m k h2.1 hk
          have h3 : g * m ≤ k ∧ k < g * m + min g (N - g * m) := by
            refine ⟨h2.1, ?_⟩
            rcases Nat.le_total g (N - g * m) with hle | hle
            · rw [min_eq_left hle]
              exact hk
            · rw [min_eq_right hle]
              omega
          rw [if_pos h3, if_pos h2]
          unfold groupLength
          rw [hs, hd]
        · have h3 : ¬ (g * m ≤ k ∧ k < g * m + min g (N - g * m)) := by
            intro hh
            apply h2
            refine ⟨hh.1, ?_⟩
            omega
          rw [if_neg h3, if_neg h2]
    · simp only [rouletteLoopFloat, if_neg hlt, Option.some.injEq]
      funext k
      have hc : ¬ (g * m ≤ k ∧ k < N) := by omega
      rw [if_neg hc]

end RouletteFloatLemmas

/-! ## Claims about the roulette with the roundings of the source -/

section RouletteFloatClaims

variable {β : Type}

/-- The `double` nearest to `7/10`. -/
theorem toDouble_seven_tenths :
    toDouble (7 / 10) = 3152519739159347 / 4503599627370496 := by
  unfold toDouble
  rw [roundToPrecision_eval 53 _ (-1) 6305039478318694 (by norm_num) (by norm_num)
    (roundHalfEven_of_near _ _ (by norm_num) (by norm_num))]
  norm_num

end RouletteFloatClaims

/-! ## A roulette draw below 1 that selects no member -/

section RouletteUnassigned

theorem half_fitness (k : Nat) (hk : k < 2) : fitnessAt halfPopulation k = 1 / 2 := by
  interval_cases k <;> simp [fitnessAt, halfPopulation]

/-- The variable `fit_count` (and `total_fit`) while the two agents of fitness `0.5` are
added: `0.5`, then `1`. -/
theorem half_wheel :
    totalFitFloat (fitnessAt halfPopulation) 0 1 = 1 / 2 ∧
      totalFitFloat (fitnessAt halfPopulation) 0 2 = 1 := by
  have d1 : toDouble (1 / 2) = 1 / 2 := by
    unfold toDouble
    rw [roundToPrecision_eval 53 _ (-1) 4503599627370496 (by norm_num) (by norm_num)
      (roundHalfEven_of_near _ _ (by norm_num) (by norm_num))]
    norm_num
  have f1 : toFloat (1 / 2) = 1 / 2 := by
    unfold toFloat
    rw [roundToPrecision_eval 24 _ (-1) 8388608 (by norm_num) (by norm_num)
      (roundHalfEven_of_near _ _ (by norm_num) (by norm_num))]
    norm_num
  have d2 : toDouble 1 = 1 := by
    unfold toDouble
    rw [roundToPrecision_eval 53 _ 0 4503599627370496 (by norm_num) (by norm_num)
      (roundHalfEven_of_near _ _ (by norm_num) (by norm_num))]
    norm_num
  have f2 : toFloat 1 = 1 := by
    unfold toFloat
    rw [roundToPrecision_eval 24 _ 0 8388608 (by norm_num) (by norm_num)
      (roundHalfEven_of_near _ _ (by norm_num) (by norm_num))]
    norm_num
  have t0 : totalFitFloat (fitnessAt halfPopulation) 0 0 = 0 := rfl
  have t1 : totalFitFloat (fitnessAt halfPopulation) 0 1 = 1 / 2 := by
    rw [totalFitFloat_succ, t0, half_fitness _ (by decide), zero_add, d1, f1]
  refine ⟨t1, ?_⟩
  rw [totalFitFloat_succ, t1, half_fitness _ (by decide)]
  have e : (1 / 2 : ℚ) + 1 / 2 = 1 := by norm_num
  rw [e, d2, f2]

/-- The `double` quotient of `rand() = 2147483646` by `RAND_MAX = 2147483647`. -/
theorem toDouble_last_draw :
    toDouble (2147483646 / 2147483647) = 2147483647 / 2147483648 := by
  unfold toDouble
  rw [roundToPrecision_eval 53 _ (-1) 9007199250546688 (by norm_num) (by norm_num)
    (roundHalfEven_of_near _ _ (by norm_num) (by norm_num))]
  norm_num

/-- The cut-off `randDouble * total_fit` stored in the `float` `random_cutoff` for
`randDouble = 2147483647/2147483648` and `total_fit = 1` is `1`. -/
theorem half_cutoff :
    randomCutoffFloat (fitnessAt halfPopulation) (2147483647 / 2147483648) 0 2 = 1 := by
  unfold randomCutoffFloat
  rw [half_wheel.2, mul_one]
  have d : toDouble (2147483647 / 2147483648) = 2147483647 / 2147483648 := by
    unfold toDouble
    rw [roundToPrecision_eval 53 _ (-1) 9007199250546688 (by norm_num) (by norm_num)
      (roundHalfEven_of_near _ _ (by norm_num) (by norm_num))]
    norm_num
  have f : toFloat (2147483647 / 2147483648) = 1 := by
    unfold toFloat
    rw [roundToPrecision_eval 24 _ (-1) 16777216 (by norm_num) (by norm_num)
      (roundHalfEven_of_near _ _ (by norm_num) (by norm_num))]
    norm_num
  rw [d, f]

/-- C10 (failing input): roulette selection in generation 1 on a population of two agents
of fitness `0.5` each, one group of 2, with `rand() = 2147483646`, so that the draw
`randDouble = 2147483647/2147483648` is below 1.  The program holds `total_fit = 1`, the
product `randDouble * total_fit` rounds to `random_cutoff = 1` when it is stored in the
`float`, `fit_count` is `0.5` after the first member and `1` after the second, and
`fit_count > random_cutoff` holds at neither: no slot of `EANextGen` is assigned, and the
selection step does not produce a population of two new agents. -/
theorem roulette_draw_below_one_assigns_no_slot :
    halfPopulation.length = 2 ∧
      (∀ a, a ∈ halfPopulation → a.fitness = 1 / 2) ∧
      (drawOutcomes 2147483646).randDouble 0 = 2147483647 / 2147483648 ∧
      (drawOutcomes 2147483646).randDouble 0 < 1 ∧
      totalFitFloat (fitnessAt halfPopulation) 0 1 = 1 / 2 ∧
      totalFitFloat (fitnessAt halfPopulation) 0 2 = 1 ∧
      groupCutoffFloat (fitnessAt halfPopulation) (drawOutcomes 2147483646).randDouble
        2 2 0 = 1 ∧
      (rouletteLoopFloat (fitnessAt halfPopulation) (drawOutcomes 2147483646).randDouble
          2 2 2 0 0 (fun _ => none)).map (fun nx => (List.range 2).map nx) =
        some [none, none] ∧
      selectRouletteFloat (drawOutcomes 2147483646) sampleAgent (1 / 2000) 1 2 2 false
        halfPopulation = none ∧
      selectionStep (drawOutcomes 2147483646) sampleAgent
        { defaultSettings 2 with tournament := false, roulette := true } 1
        halfPopulation = none := by
  obtain ⟨t1, t2⟩ := half_wheel
  have hr : (drawOutcomes 2147483646).randDouble 0 = 2147483647 / 2147483648 := by
    simp only [drawOutcomes]
    rw [← toDouble_last_draw]
    norm_num
  have hgs : groupStart 2 0 = 0 := by decide
  have hgl : groupLength 2 2 0 = 2 := by decide
  have hg0 : groupStart 2 1 = 0 := by decide
  have hl1 : groupLength 2 2 1 = 2 := by decide
  have hcut : groupCutoffFloat (fitnessAt halfPopulation)
      (drawOutcomes 2147483646).randDouble 2 2 0 = 1 := by
    unfold groupCutoffFloat
    rw [hgs, hgl, show (0 : Nat) / 2 = 0 from rfl, hr, half_cutoff]
  have hwheel : ∀ r, r = (2147483647 / 2147483648 : ℚ) →
      rouletteWheelFloat (fitnessAt halfPopulation) r 0 2 (fun _ => none) =
        (fun _ => none) := by
    intro r hr2
    subst hr2
    apply (rouletteWheelFloat_spec _ _ 0 2 _).2
    intro j hj
    rw [half_cutoff]
    have hj2 : j = 0 ∨ j = 1 := by omega
    rcases hj2 with h | h <;> subst h
    · rw [t1]
      norm_num
    · rw [t2]
  have hloop := rouletteLoopFloat_spec (fitnessAt halfPopulation)
    (drawOutcomes 2147483646).randDouble 2 2 (by decide) 2 0 (fun _ => none) (by decide)
    (fun _ _ => rfl)
  rw [Nat.mul_zero] at hloop
  have hd : ∀ k : Nat, (drawOutcomes 2147483646).randDouble k = 2147483647 / 2147483648 :=
    fun _ => hr
  have hnx : (fun k => if 0 ≤ k ∧ k < 2 then
      rouletteWheelFloat (fitnessAt halfPopulation)
        ((drawOutcomes 2147483646).randDouble (k / 2)) (groupStart 2 k)
        (groupLength 2 2 k) (fun _ => none) k else (fun _ => none) k) =
      (fun _ => none) := by
    funext k
    by_cases hk : 0 ≤ k ∧ k < 2
    · rw [if_pos hk]
      have hk2 : k = 0 ∨ k = 1 := by omega
      rcases hk2 with h | h <;> subst h
      · rw [hgs, hgl, hwheel _ (hd _)]
      · rw [hg0, hl1, hwheel _ (hd _)]
    · rw [if_neg hk]
  rw [hnx] at hloop
  have hsel : selectRouletteFloat (drawOutcomes 2147483646) sampleAgent (1 / 2000) 1 2 2
      false halfPopulation = none := by
    have hsh : (drawOutcomes 2147483646).shufflePopulation halfPopulation =
        halfPopulation := rfl
    simp only [selectRouletteFloat, hsh, hloop]
    simp [offspringList, offspringAt, allWritten, List.range_succ]
  refine ⟨rfl, ?_, hr, ?_, t1, t2, hcut, ?_, hsel, ?_⟩
  · intro a ha
    simp only [halfPopulation, List.mem_cons, List.mem_singleton, List.not_mem_nil,
      or_false] at ha
    rcases ha with h | h <;> rw [h]
  · rw [hr]
    norm_num
  · rw [hloop]
    rfl
  · simp only [selectionStep, defaultSettings]
    exact hsel

end RouletteUnassigned

/-! ## The top-percent selection with the roundings of the source -/

section TopPercentFloatLemmas

variable {β : Type}

/-- An `int` below `2^24` is converted to `float` without rounding. -/
theorem toFloat_natCast (N : Nat) (h : N < 2 ^ 24) : toFloat (N : ℚ) = (N : ℚ) := by
  have := roundToPrecision_dyadic 24 N 0 h
  simpa [toFloat] using this

/-- An `int` below `2^53` is converted to `double` without rounding. -/
theorem toDouble_natCast (N : Nat) (h : N < 2 ^ 53) : toDouble (N : ℚ) = (N : ℚ) := by
  have := roundToPrecision_dyadic 53 N 0 h
  simpa [toDouble] using this

theorem topPercentSelectionFloat_nonneg (N : Nat) (f : ℚ) (hf : 0 ≤ f) :
    0 ≤ topPercentSelectionFloat N f := by
  unfold topPercentSelectionFloat
  apply Int.floor_nonneg.mpr
  apply roundToPrecision_nonneg
  exact mul_nonneg (roundToPrecision_nonneg _ _ (Nat.cast_nonneg N)) hf

theorem topPercentSelectionFloat_le (N : Nat) (f : ℚ) (hN : N < 2 ^ 24) (hf0 : 0 ≤ f)
    (hf1 : f ≤ 1) : topPercentSelectionFloat N f ≤ N := by
  unfold topPercentSelectionFloat
  rw [toFloat_natCast N hN]
  have hNq : (0 : ℚ) ≤ (N : ℚ) := Nat.cast_nonneg N
  have hNlt : (N : ℚ) < (2 : ℚ) ^ 24 := by exact_mod_cast hN
  have hx : 0 ≤ (N : ℚ) * f := mul_nonneg hNq hf0
  have hxN : (N : ℚ) * f ≤ (N : ℚ) := by nlinarith
  have hlt : toFloat ((N : ℚ) * f) < (N : ℚ) + 1 := by
    rcases eq_or_lt_of_le hx with h | h
    · rw [← h]
      unfold toFloat
      rw [roundToPrecision_zero]
      linarith
    · have hle := roundToPrecision_le 24 _ h
      unfold toFloat
      have h2 : (N : ℚ) * f / (2 : ℚ) ^ 24 < 1 := by
        rw [div_lt_one (by positivity)]
        linarith
      linarith
  have h3 : ⌊toFloat ((N : ℚ) * f)⌋ < (N : Int) + 1 := by
    rw [Int.floor_lt]
    push_cast
    exact hlt
  omega

/-- The rank `cutoff` of line 818 for a draw that is a `double` below 1. -/
theorem topPercentFloat_cutoff (N : Nat) (f r : ℚ) (hf : 0 ≤ f) (hr0 : 0 ≤ r)
    (hr1 : r ≤ 1 - 1 / (2 : ℚ) ^ 53) :
    ∃ c : Nat, (c : Int) = ⌊toDouble (r * (topPercentSelectionFloat N f : ℚ))⌋ ∧
      topPercentParentFloat N f r = (N : Int) - 1 - c ∧
      (1 ≤ topPercentSelectionFloat N f → (c : Int) < topPercentSelectionFloat N f) ∧
      (topPercentSelectionFloat N f = 0 → c = 0) := by
  have hn := topPercentSelectionFloat_nonneg N f hf
  have hnq : (0 : ℚ) ≤ (topPercentSelectionFloat N f : ℚ) := by exact_mod_cast hn
  have hq : 0 ≤ r * (topPercentSelectionFloat N f : ℚ) := mul_nonneg hr0 hnq
  have hd : 0 ≤ toDouble (r * (topPercentSelectionFloat N f : ℚ)) :=
    roundToPrecision_nonneg _ _ hq
  have hfl : 0 ≤ ⌊toDouble (r * (topPercentSelectionFloat N f : ℚ))⌋ :=
    Int.floor_nonneg.mpr hd
  refine ⟨⌊toDouble (r * (topPercentSelectionFloat N f : ℚ))⌋.toNat,
    Int.toNat_of_nonneg hfl, ?_, ?_, ?_⟩
  · unfold topPercentParentFloat
    simp only []
    rw [truncToInt_of_nonneg _ hd, Int.toNat_of_nonneg hfl]
  · intro h1
    rw [Int.toNat_of_nonneg hfl, Int.floor_lt]
    have hpos : (0 : ℚ) < (topPercentSelectionFloat N f : ℚ) := by exact_mod_cast h1
    generalize (topPercentSelectionFloat N f : ℚ) = n at hq hpos ⊢
    rcases eq_or_lt_of_le hq with h | h
    · rw [← h]
      unfold toDouble
      rw [roundToPrecision_zero]
      exact hpos
    · have hle := roundToPrecision_le 53 _ h
      unfold toDouble
      have he : (0 : ℚ) < 1 / (2 : ℚ) ^ 53 := by positivity
      have h2 : r * n / (2 : ℚ) ^ 53 = r * n * (1 / (2 : ℚ) ^ 53) := by ring
      rw [h2] at hle
      generalize (1 : ℚ) / (2 : ℚ) ^ 53 = ε at hr1 he hle
      have hx : r * n ≤ (1 - ε) * n := mul_le_mul_of_nonneg_right hr1 (le_of_lt hpos)
      have h3 : r * n * ε ≤ (1 - ε) * n * ε := mul_le_mul_of_nonneg_right hx (le_of_lt he)
      have h4 : (1 - ε) * n + (1 - ε) * n * ε = n - n * ε * ε := by ring
      have h5 : 0 < n * ε * ε := by positivity
      linarith
  · intro h0
    rw [h0]
    simp [toDouble, roundToPrecision_zero]

theorem topPercentSlotsFloat_eq (N : Nat) (f r : ℚ) (h : 0 ≤ topPercentParentFloat N f r) :
    topPercentSlotsFloat N f r =
      some (fun s => if s < N then some (topPercentParentFloat N f r).toNat else none) := by
  unfold topPercentSlotsFloat
  simp only []
  rw [if_pos h, slots_fold N (fun _ => (topPercentParentFloat N f r).toNat)]

end TopPercentFloatLemmas

/-! ## Evaluations of the top-percent selection -/

section TopPercentFloatEvaluations

/-- The default `percent_select = 0.10` as the `float` holds it. -/
theorem toFloat_tenth : toFloat (toDouble (1 / 10)) = 13421773 / 134217728 := by
  have d : toDouble (1 / 10) = 3602879701896397 / 36028797018963968 := by
    unfold toDouble
    rw [roundToPrecision_eval 53 _ (-4) 7205759403792794 (by norm_num) (by norm_num)
      (roundHalfEven_of_near _ _ (by norm_num) (by norm_num))]
    norm_num
  have f : toFloat (3602879701896397 / 36028797018963968) = 13421773 / 134217728 := by
    unfold toFloat
    rw [roundToPrecision_eval 24 _ (-4) 13421773 (by norm_num) (by norm_num)
      (roundHalfEven_of_near _ _ (by norm_num) (by norm_num))]
    norm_num
  rw [d, f]

/-- The fraction `0.7` as the `float` `percent_select` holds it. -/
theorem toFloat_seven_tenths : toFloat (toDouble (7 / 10)) = 11744051 / 16777216 := by
  have f : toFloat (3152519739159347 / 4503599627370496) = 11744051 / 16777216 := by
    unfold toFloat
    rw [roundToPrecision_eval 24 _ (-1) 11744051 (by norm_num) (by norm_num)
      (roundHalfEven_of_near _ _ (by norm_num) (by norm_num))]
    norm_num
  rw [toDouble_seven_tenths, f]

/-- Four agents with the default fraction `0.10`: `selection = 0` and the parent is at
index 3. -/
theorem topPercent_four_tenth :
    topPercentSelectionFloat 4 (13421773 / 134217728) = 0 ∧
      ∀ r : ℚ, topPercentParentFloat 4 (13421773 / 134217728) r = 3 := by
  have f : toFloat (13421773 / 33554432) = 13421773 / 33554432 := by
    unfold toFloat
    rw [roundToPrecision_eval 24 _ (-2) 13421773 (by norm_num) (by norm_num)
      (roundHalfEven_of_near _ _ (by norm_num) (by norm_num))]
    norm_num
  have hsel : topPercentSelectionFloat 4 (13421773 / 134217728) = 0 := by
    unfold topPercentSelectionFloat
    rw [toFloat_natCast 4 (by norm_num), Nat.cast_ofNat]
    have e : (4 : ℚ) * (13421773 / 134217728) = 13421773 / 33554432 := by norm_num
    rw [e, f, Int.floor_eq_iff]
    norm_num
  refine ⟨hsel, ?_⟩
  intro r
  unfold topPercentParentFloat
  simp only [hsel]
  norm_num [truncToInt, toDouble, roundToPrecision_zero]

/-- Ten agents with the fraction `0.7`: the `float` product is `7`, so `selection = 7`,
while the floor of the product of `10` and the fraction is `6`; for `rand() =
2000000000` the rank is `cutoff = 6` and the parent is at index 3. -/
theorem topPercent_ten_seven_tenths :
    ⌊(10 : ℚ) * (11744051 / 16777216)⌋ = 6 ∧
      topPercentSelectionFloat 10 (11744051 / 16777216) = 7 ∧
      (drawOutcomes 2000000000).randDouble 0 = 4194304001953125 / 4503599627370496 ∧
      topPercentParentFloat 10 (11744051 / 16777216)
        ((drawOutcomes 2000000000).randDouble 0) = 3 := by
  have f : toFloat (58720255 / 8388608) = 7 := by
    unfold toFloat
    rw [roundToPrecision_eval 24 _ 2 14680064 (by norm_num) (by norm_num)
      (roundHalfEven_of_near _ _ (by norm_num) (by norm_num))]
    norm_num
  have dr : toDouble (2000000000 / 2147483647) = 4194304001953125 / 4503599627370496 := by
    unfold toDouble
    rw [roundToPrecision_eval 53 _ (-1) 8388608003906250 (by norm_num) (by norm_num)
      (roundHalfEven_of_near _ _ (by norm_num) (by norm_num))]
    norm_num
  have d : toDouble (29360128013671875 / 4503599627370496) = 7340032003417969 / 1125899906842624 := by
    unfold toDouble
    rw [roundToPrecision_eval 53 _ 2 7340032003417969 (by norm_num) (by norm_num)
      (roundHalfEven_of_near _ _ (by norm_num) (by norm_num))]
    norm_num
  have hfl : ⌊(10 : ℚ) * (11744051 / 16777216)⌋ = 6 := by
    rw [Int.floor_eq_iff]
    norm_num
  have hsel : topPercentSelectionFloat 10 (11744051 / 16777216) = 7 := by
    unfold topPercentSelectionFloat
    rw [toFloat_natCast 10 (by norm_num), Nat.cast_ofNat]
    have e : (10 : ℚ) * (11744051 / 16777216) = 58720255 / 8388608 := by norm_num
    rw [e, f, Int.floor_eq_iff]
    norm_num
  have hr : (drawOutcomes 2000000000).randDouble 0 =
      4194304001953125 / 4503599627370496 := by
    simp only [drawOutcomes]
    rw [← dr]
    norm_num
  refine ⟨hfl, hsel, hr, ?_⟩
  unfold topPercentParentFloat
  simp only [hsel, hr]
  have e : (4194304001953125 / 4503599627370496 : ℚ) * ((7 : Int) : ℚ) =
      29360128013671875 / 4503599627370496 := by norm_num
  rw [e, d, truncToInt_of_nonneg _ (by norm_num)]
  have hc : ⌊(7340032003417969 / 1125899906842624 : ℚ)⌋ = 6 := by
    rw [Int.floor_eq_iff]
    norm_num
  rw [hc]
  norm_num

/-- Four agents with the fraction `1/2` and `rand() = RAND_MAX`: the draw is `1`, the
rank is `cutoff = selection = 2` and the parent is at index 1. -/
theorem topPercent_draw_one :
    (drawOutcomes 2147483647).randDouble 0 = 1 ∧
      topPercentSelectionFloat 4 (1 / 2) = 2 ∧
      topPercentParentFloat 4 (1 / 2) ((drawOutcomes 2147483647).randDouble 0) = 1 := by
  have h1 := toDouble_natCast 1 (by norm_num)
  rw [Nat.cast_one] at h1
  have hr : (drawOutcomes 2147483647).randDouble 0 = 1 := by
    simp only [drawOutcomes]
    rw [← h1]
    norm_num
  have hsel : topPercentSelectionFloat 4 (1 / 2) = 2 := by
    unfold topPercentSelectionFloat
    have h2 := toFloat_natCast 2 (by norm_num)
    rw [Nat.cast_ofNat] at h2
    rw [toFloat_natCast 4 (by norm_num), Nat.cast_ofNat]
    have e : (4 : ℚ) * (1 / 2) = 2 := by norm_num
    rw [e, h2]
    norm_num
  refine ⟨hr, hsel, ?_⟩
  unfold topPercentParentFloat
  simp only [hsel, hr]
  have h2 := toDouble_natCast 2 (by norm_num)
  rw [Nat.cast_ofNat] at h2
  have e : (1 : ℚ) * ((2 : Int) : ℚ) = 2 := by norm_num
  rw [e, h2]
  norm_num [truncToInt]

/-- Four agents with the fraction `2`: `selection = 8`, for the draw `1/2` the rank is
`cutoff = 4` and the parent index is `-1`: no slot receives an offspring. -/
theorem topPercent_fraction_two :
    topPercentSelectionFloat 4 2 = 8 ∧ topPercentParentFloat 4 2 (1 / 2) = -1 ∧
      (topPercentSlotsFloat 4 2 (1 / 2)).isSome = false := by
  have hsel : topPercentSelectionFloat 4 2 = 8 := by
    unfold topPercentSelectionFloat
    have h8 := toFloat_natCast 8 (by norm_num)
    rw [Nat.cast_ofNat] at h8
    rw [toFloat_natCast 4 (by norm_num), Nat.cast_ofNat]
    have e : (4 : ℚ) * 2 = 8 := by norm_num
    rw [e, h8]
    norm_num
  have hpar : topPercentParentFloat 4 2 (1 / 2) = -1 := by
    unfold topPercentParentFloat
    simp only [hsel]
    have h4 := toDouble_natCast 4 (by norm_num)
    rw [Nat.cast_ofNat] at h4
    have e : (1 / 2 : ℚ) * ((8 : Int) : ℚ) = 4 := by norm_num
    rw [e, h4]
    norm_num [truncToInt]
  refine ⟨hsel, hpar, ?_⟩
  unfold topPercentSlotsFloat
  simp only [hpar]
  rfl

/-- A population of `2^25 + 3` agents with the fraction `1`: the conversion of
`populationSize` to `float` rounds up to `2^25 + 4`, so `selection` exceeds the
population size; for `rand() = 2147483646` the rank is the population size and the
parent index is `-1`. -/
theorem topPercent_large_population :
    toFloat ((33554435 : Nat) : ℚ) = 33554436 ∧
      topPercentSelectionFloat 33554435 1 = 33554436 ∧
      topPercentParentFloat 33554435 1 ((drawOutcomes 2147483646).randDouble 0) = -1 := by
  have f1 : toFloat 33554435 = 33554436 := by
    unfold toFloat
    rw [roundToPrecision_eval 24 _ 25 8388609 (by norm_num) (by norm_num)
      (roundHalfEven_of_near _ _ (by norm_num) (by norm_num))]
    norm_num
  have f2 : toFloat 33554436 = 33554436 := by
    unfold toFloat
    rw [roundToPrecision_eval 24 _ 25 8388609 (by norm_num) (by norm_num)
      (roundHalfEven_of_near _ _ (by norm_num) (by norm_num))]
    norm_num
  have d : toDouble (18014400648577023 / 536870912) = 2147483903 / 64 := by
    unfold toDouble
    rw [roundToPrecision_eval 53 _ 25 4503600162144256 (by norm_num) (by norm_num)
      (roundHalfEven_of_near _ _ (by norm_num) (by norm_num))]
    norm_num
  have hsel : topPercentSelectionFloat 33554435 1 = 33554436 := by
    unfold topPercentSelectionFloat
    rw [Nat.cast_ofNat, f1, mul_one, f2]
    norm_num
  have hr : (drawOutcomes 2147483646).randDouble 0 = 2147483647 / 2147483648 := by
    simp only [drawOutcomes]
    rw [← toDouble_last_draw]
    norm_num
  refine ⟨by rw [Nat.cast_ofNat, f1], hsel, ?_⟩
  unfold topPercentParentFloat
  simp only [hsel, hr]
  have e : (2147483647 / 2147483648 : ℚ) * ((33554436 : Int) : ℚ) =
      18014400648577023 / 536870912 := by norm_num
  rw [e, d, truncToInt_of_nonneg _ (by norm_num)]
  have hc : ⌊(2147483903 / 64 : ℚ)⌋ = 33554435 := by
    rw [Int.floor_eq_iff]
    norm_num
  rw [hc]
  norm_num

end TopPercentFloatEvaluations

/-! ## Claims about the top-percent selection with the roundings of the source -/

section TopPercentFloatClaims

variable {β : Type}

/-- C8 (amended): top-percent selection on a population of `1 ≤ N < 2^24` agents with a
fraction `f` in `[0, 1]` and a draw `r` with `0 ≤ r ≤ 1 - 2^-53` (every `double` below 1
is in this range).  The population is sorted ascending by fitness; with `n` the floor of
the product `populationSize * percent_select` as the program forms it in `float`, and
`c` the integer part of the `double` product `r * n`, the single parent is at sorted
index `N - 1 - c`, where `c < n` when `n ≥ 1` (the parent is one of the `n` best) and
`c = 0` when `n = 0` (the parent is the best individual); every one of the `N` slots
receives an offspring of that parent. -/
theorem top_percent_parent_rank_rounded (o : Outcomes β) (self : tAgent β)
    (perSiteMutationRate : ℚ) (update : Nat) (eddAgents : List (tAgent β)) (N : Nat) (f : ℚ)
    (hv : o.Valid) (hN : eddAgents.length = N) (hN1 : 1 ≤ N) (hN2 : N < 2 ^ 24)
    (hf0 : 0 ≤ f) (hf1 : f ≤ 1)
    (hr0 : 0 ≤ o.randDouble 0) (hr1 : o.randDouble 0 ≤ 1 - 1 / (2 : ℚ) ^ 53) :
    (o.sort (o.shufflePopulation eddAgents)).Perm eddAgents ∧
      (o.sort (o.shufflePopulation eddAgents)).Pairwise (fun a b => a.fitness ≤ b.fitness) ∧
      topPercentSelectionFloat N f = ⌊toFloat (toFloat (N : ℚ) * f)⌋ ∧
      ∃ c : Nat,
        (c : Int) = ⌊toDouble (o.randDouble 0 * (topPercentSelectionFloat N f : ℚ))⌋ ∧
        (1 ≤ topPercentSelectionFloat N f → (c : Int) < topPercentSelectionFloat N f) ∧
        (topPercentSelectionFloat N f = 0 → c = 0) ∧ c < N ∧
        topPercentParentFloat N f (o.randDouble 0) = (N : Int) - 1 - c ∧
        ∃ nx parent, topPercentSlotsFloat N f (o.randDouble 0) = some nx ∧
          (o.sort (o.shufflePopulation eddAgents))[N - 1 - c]? = some parent ∧
          ∀ k, k < N → nx k = some (N - 1 - c) ∧
            offspringAt o self (o.sort (o.shufflePopulation eddAgents)) perSiteMutationRate
                update k (nx k) =
              some (inherit self (o.mutate k) parent perSiteMutationRate update) := by
  have hperm : (o.sort (o.shufflePopulation eddAgents)).Perm eddAgents :=
    (hv.sort_perm _).trans (hv.shufflePopulation_perm _)
  refine ⟨hperm, sort_ascending o hv _, rfl, ?_⟩
  obtain ⟨c, hc1, hc2, hc3, hc4⟩ := topPercentFloat_cutoff N f (o.randDouble 0) hf0 hr0 hr1
  have hle := topPercentSelectionFloat_le N f hN2 hf0 hf1
  have hcN : c < N := by
    by_cases h1 : 1 ≤ topPercentSelectionFloat N f
    · have := hc3 h1
      omega
    · have hn := topPercentSelectionFloat_nonneg N f hf0
      have := hc4 (by omega)
      omega
  have hpar0 : 0 ≤ topPercentParentFloat N f (o.randDouble 0) := by
    rw [hc2]
    omega
  have htoNat : (topPercentParentFloat N f (o.randDouble 0)).toNat = N - 1 - c := by
    rw [hc2]
    omega
  have hlen : N - 1 - c < (o.sort (o.shufflePopulation eddAgents)).length := by
    rw [hperm.length_eq, hN]
    omega
  obtain ⟨parent, hparent, _⟩ := fitnessAt_of_get _ _ hlen
  refine ⟨c, hc1, hc3, hc4, hcN, hc2, _, parent, topPercentSlotsFloat_eq N f _ hpar0,
    hparent, ?_⟩
  intro k hk
  simp only [if_pos hk, htoNat, offspringAt, hparent, and_self]

/-- Witness of C8 (amended): four agents, `f = 1/2`, `r = 1/2`. -/
theorem top_percent_parent_rank_rounded_witness :
    ∃ c : Nat,
      (c : Int) = ⌊toDouble (sampleOutcomes.randDouble 0 *
        (topPercentSelectionFloat 4 (1 / 2) : ℚ))⌋ ∧
      (1 ≤ topPercentSelectionFloat 4 (1 / 2) →
        (c : Int) < topPercentSelectionFloat 4 (1 / 2)) ∧
      (topPercentSelectionFloat 4 (1 / 2) = 0 → c = 0) ∧ c < 4 ∧
      topPercentParentFloat 4 (1 / 2) (sampleOutcomes.randDouble 0) =
        ((4 : Nat) : Int) - 1 - c ∧
      ∃ nx parent, topPercentSlotsFloat 4 (1 / 2) (sampleOutcomes.randDouble 0) = some nx ∧
        (sampleOutcomes.sort (sampleOutcomes.shufflePopulation samplePopulation))[4 - 1 - c]? =
          some parent ∧
        ∀ k, k < 4 → nx k = some (4 - 1 - c) ∧
          offspringAt sampleOutcomes sampleAgent
              (sampleOutcomes.sort (sampleOutcomes.shufflePopulation samplePopulation)) 0 1 k
              (nx k) =
            some (inherit sampleAgent (sampleOutcomes.mutate k) parent 0 1) :=
  (top_percent_parent_rank_rounded sampleOutcomes sampleAgent 0 1 samplePopulation 4 (1 / 2)
    sampleOutcomes_valid rfl (by decide) (by norm_num) (by norm_num) (by norm_num)
    (by norm_num [sampleOutcomes]) (by norm_num [sampleOutcomes])).2.2.2

/-- Counterexample to C8 as stated, on five inputs.  (1) Four agents and the default
fraction `0.10`: `n = 0`, so no rank `c` satisfies `0 ≤ c < n`; the program takes the
parent at sorted index 3 (the best individual) for every slot, whatever the draw.
(2) Ten agents and the fraction `0.7` as the `float` `percent_select` holds it: the floor
of the product of 10 and the fraction is 6, but the program rounds the product to the
`float` 7 and has `n = 7`; for `rand() = 2000000000` the parent is at sorted index
`3 = 10 - 1 - 6`, which is not `10 - 1 - c` for any `c < 6`.  (3) Four agents, fraction
`1/2` and `rand() = RAND_MAX`: the draw is 1, `n = 2` and the parent is at index
`1 = 4 - 1 - 2`, not one of the 2 best.  (4) Four agents and the fraction 2: `n = 8`, and
for the draw `1/2` the parent index is `-1`, so no slot receives an offspring.
(5) `2^25 + 3` agents and the fraction 1: `populationSize` rounds up when it is converted
to `float`, `n` is `2^25 + 4`, and for `rand() = 2147483646` the parent index is `-1`. -/
theorem top_percent_rank_counterexample :
    (toFloat (toDouble (1 / 10)) = 13421773 / 134217728 ∧
        topPercentSelectionFloat 4 (13421773 / 134217728) = 0 ∧
        (∀ r : ℚ, topPercentParentFloat 4 (13421773 / 134217728) r = 3) ∧
        (∀ r : ℚ, (topPercentSlotsFloat 4 (13421773 / 134217728) r).map
            (fun nx => (List.range 4).map nx) = some [some 3, some 3, some 3, some 3]) ∧
        ∀ r : ℚ, ¬ ∃ c : Int, 0 ≤ c ∧ c < topPercentSelectionFloat 4 (13421773 / 134217728) ∧
          topPercentParentFloat 4 (13421773 / 134217728) r = ((4 : Nat) : Int) - 1 - c) ∧
      (toFloat (toDouble (7 / 10)) = 11744051 / 16777216 ∧
        ⌊(10 : ℚ) * (11744051 / 16777216)⌋ = 6 ∧
        topPercentSelectionFloat 10 (11744051 / 16777216) = 7 ∧
        topPercentParentFloat 10 (11744051 / 16777216)
          ((drawOutcomes 2000000000).randDouble 0) = 3 ∧
        ¬ ∃ c : Int, 0 ≤ c ∧ c < ⌊(10 : ℚ) * (11744051 / 16777216)⌋ ∧
          topPercentParentFloat 10 (11744051 / 16777216)
            ((drawOutcomes 2000000000).randDouble 0) = ((10 : Nat) : Int) - 1 - c) ∧
      ((drawOutcomes 2147483647).randDouble 0 = 1 ∧
        topPercentSelectionFloat 4 (1 / 2) = 2 ∧
        topPercentParentFloat 4 (1 / 2) ((drawOutcomes 2147483647).randDouble 0) = 1 ∧
        ¬ ∃ c : Int, 0 ≤ c ∧ c < topPercentSelectionFloat 4 (1 / 2) ∧
          topPercentParentFloat 4 (1 / 2) ((drawOutcomes 2147483647).randDouble 0) =
            ((4 : Nat) : Int) - 1 - c) ∧
      (topPercentSelectionFloat 4 2 = 8 ∧ topPercentParentFloat 4 2 (1 / 2) = -1 ∧
        (topPercentSlotsFloat 4 2 (1 / 2)).isSome = false) ∧
      (toFloat ((33554435 : Nat) : ℚ) = 33554436 ∧
        topPercentSelectionFloat 33554435 1 = 33554436 ∧
        topPercentParentFloat 33554435 1 ((drawOutcomes 2147483646).randDouble 0) = -1) := by
  obtain ⟨a1, a2⟩ := topPercent_four_tenth
  obtain ⟨b1, b2, _, b4⟩ := topPercent_ten_seven_tenths
  obtain ⟨c1, c2, c3⟩ := topPercent_draw_one
  refine ⟨⟨toFloat_tenth, a1, a2, ?_, ?_⟩, ⟨toFloat_seven_tenths, b1, b2, b4, ?_⟩,
    ⟨c1, c2, c3, ?_⟩, topPercent_fraction_two, topPercent_large_population⟩
  · intro r
    rw [topPercentSlotsFloat_eq 4 _ _ (by rw [a2 r]; decide), a2 r]
    decide
  · rintro r ⟨c, _, hc1, _⟩
    rw [a1] at hc1
    omega
  · rintro ⟨c, hc0, hc1, hc2⟩
    rw [b1] at hc1
    rw [b4] at hc2
    push_cast at hc2
    omega
  · rintro ⟨c, hc0, hc1, hc2⟩
    rw [c2] at hc1
    rw [c3] at hc2
    push_cast at hc2
    omega

end TopPercentFloatClaims

/-! ## `placeDigit` with a digit outside `0..9` -/

section InvalidDigitClaims

end InvalidDigitClaims

end EDD
